import Mathlib

/-!
# ofxTrueTypeFontLowRAM: glyph atlas allocator and shared font cache

A shallow embedding of `src/src/ofxTrueTypeFontLowRAM.{h,cpp}`.

Conventions of the embedding.

* C++ `int` is `Int`, `size_t` and `uint32_t` are `Nat`.  The arithmetic of the
  allocator stays far below `2^31` as long as page sides do, so no wrap-around
  is modelled in the allocator itself.
* C++ `float` / `double` are the rationals `ℚ`: every conversion and division
  is exact.
* The font engine (FreeType), the texture size limit (OpenGL) and the font-path
  lookup are external; they enter as the oracle records `FT_Face` and
  `Platform`.
* `ofPixels` is the openFrameworks pixel buffer; only the gray+alpha format used
  by the atlas is modelled.
* `shared_ptr<FontAtlasManager>` is an object identity: an index into the list
  of the manager objects the cache has set up.
* Undefined behaviour is made explicit where the code can reach it: a write
  through an `AtlasState&` that a `push_back` on `atlasStates` has invalidated
  (lines 406, 422 and 442-443 of the source) sets the flag `danglingWrite` of
  the manager.  What the program does after such a write is not defined:
  invariants of the reachable states are claimed of the code only for states
  in which the flag is not set.
-/

/-! ## openFrameworks pixel buffers -/

/-- One pixel of an `OF_PIXELS_GRAY_ALPHA` buffer: channel 0 is the luminance,
channel 1 the alpha. -/
structure GrayAlpha where
  lum : Nat
  alpha : Nat
deriving DecidableEq, Repr, Inhabited

/-- The `ofPixels` buffer in gray+alpha format: `width`, `height` and the colour
read by `getColor(x, y)`.  A buffer with zero width or height is unallocated. -/
structure ofPixels where
  width : Nat
  height : Nat
  getColor : Nat → Nat → GrayAlpha

namespace ofPixels

/-- The state after `ofPixels::clear()` and of a freshly constructed buffer. -/
def clear : ofPixels := ⟨0, 0, fun _ _ => ⟨0, 0⟩⟩

instance : Inhabited ofPixels := ⟨clear⟩

/-- `isAllocated()`. -/
def isAllocated (p : ofPixels) : Bool := decide (0 < p.width) && decide (0 < p.height)

/-- The buffer after `allocate(w, h, OF_PIXELS_GRAY_ALPHA); set(0, 255); set(1, 0);`
(white, fully transparent).  `allocate` leaves the buffer unallocated when a
side is not positive. -/
def allocateBlank (w h : Int) : ofPixels :=
  if w ≤ 0 ∨ h ≤ 0 then clear else ⟨w.toNat, h.toNat, fun _ _ => ⟨255, 0⟩⟩

/-- `src.pasteInto(dst, xTo, yTo)` of openFrameworks, returning the new `dst`:
the call is refused (and `dst` left as it is) unless both buffers are allocated
and `src` lies inside `dst` at `(xTo, yTo)`; otherwise the rows of `src` are
copied unscaled. -/
def pasteInto (src dst : ofPixels) (xTo yTo : Int) : ofPixels :=
  if src.isAllocated = true ∧ dst.isAllocated = true ∧ 0 ≤ xTo ∧ 0 ≤ yTo ∧
      xTo + src.width ≤ dst.width ∧ yTo + src.height ≤ dst.height then
    { dst with
      getColor := fun x y =>
        if xTo.toNat ≤ x ∧ x < xTo.toNat + src.width ∧
            yTo.toNat ≤ y ∧ y < yTo.toNat + src.height then
          src.getColor (x - xTo.toNat) (y - yTo.toNat)
        else dst.getColor x y }
  else dst

end ofPixels

/-! ## The font engine, as seen by the atlas manager -/

/-- `FT_Bitmap`: `width`, `rows`, `pitch` and the byte read at an offset of
`buffer`. -/
structure FT_Bitmap where
  width : Nat
  rows : Nat
  pitch : Int
  buffer : Int → Nat

/-- `FT_Glyph_Metrics`, in 26.6 fixed point. -/
structure FT_Glyph_Metrics where
  width : Int
  height : Int
  horiBearingX : Int
  horiBearingY : Int
  horiAdvance : Int

/-- What `FT_Render_Glyph` leaves in the glyph slot. -/
structure FT_Rendered where
  bitmap : FT_Bitmap
  bitmap_left : Int
  bitmap_top : Int

/-- An opened face whose character size has been set (`FT_New_Face` followed by
`FT_Set_Char_Size`): the answers of the font engine.
`loadGlyph g` is `FT_Load_Glyph(face, g, FT_LOAD_NO_HINTING)` (`none` on error),
`renderGlyph g aa` is the slot after `FT_Render_Glyph` in normal (`aa = true`)
or mono mode. -/
structure FT_Face where
  units_per_EM : Int
  y_ppem : Int
  height : Int
  ascender : Int
  descender : Int
  getCharIndex : Nat → Nat
  loadGlyph : Nat → Option FT_Glyph_Metrics
  renderGlyph : Nat → Bool → FT_Rendered
  hasKerning : Bool
  getKerning : Nat → Nat → Int

/-- `int26p6_to_dbl`: 26.6 fixed point to floating point. -/
def int26p6_to_dbl (p : Int) : ℚ := (p : ℚ) / 64

/-! ## Data model of the header -/

/-- `FontCacheKey`; the derived equality is the `operator==` of the source:
component-wise on the three fields. -/
structure FontCacheKey where
  fontPath : String
  fontSize : Int
  antialiased : Bool
deriving DecidableEq, Repr

/-- `LazyGlyphProps`. -/
structure LazyGlyphProps where
  atlasIndex : Nat
  t1 : ℚ
  t2 : ℚ
  v1 : ℚ
  v2 : ℚ
  width : ℚ
  height : ℚ
  bearingX : ℚ
  bearingY : ℚ
  xmin : ℚ
  xmax : ℚ
  ymin : ℚ
  ymax : ℚ
  advance : ℚ
  tW : ℚ
  tH : ℚ
deriving DecidableEq

/-- `FontAtlasManager::AtlasState`. -/
structure AtlasState where
  currentX : Int := 0
  currentY : Int := 0
  currentRowHeight : Int := 0
  width : Int := 0
  height : Int := 0
deriving DecidableEq, Repr, Inhabited

/-- The members of `FontAtlasManager`.

`atlases` holds, for each GPU texture, the pixel data last uploaded to it.
`glyphs` is the `unordered_map` as an association list with distinct keys.
Three fields are not members of the class.  `rasterizeCalls` counts the
invocations of `rasterizeGlyph`.  `relocates n` tells whether `push_back` on a
vector of `n` elements moves its storage (the growth policy of the standard
library; the usual implementations give a vector filled by `push_back` alone
capacity 1 after the first element, so that it moves its storage at size 1),
which decides what a write through an `AtlasState&` taken before the
`push_back` does.  `danglingWrite` is set by a write through such a reference after the
storage has moved: the write goes to freed memory, and from there on the
behaviour of the program is undefined.  The other fields of a state with
`danglingWrite = true` are those of a run in which that write disturbs nothing
else; the program itself promises nothing about them. -/
structure FontAtlasManager where
  face : Option FT_Face := none
  atlases : List ofPixels := []
  atlasPixels : List ofPixels := []
  atlasStates : List AtlasState := []
  glyphs : List (Nat × LazyGlyphProps) := []
  fontSize : Int := 0
  antialiased : Bool := true
  dpi : Int := 96
  lineHeight : ℚ := 0
  ascenderHeight : ℚ := 0
  descenderHeight : ℚ := 0
  spaceAdvance : ℚ := 0
  fontUnitScale : ℚ := 1
  minAtlasSize : Int := 256
  maxAtlasSize : Int := 4096
  border : Int := 1
  rasterizeCalls : Nat := 0
  relocates : Nat → Bool := fun _ => true
  danglingWrite : Bool := false

/-- What `setup` asks of the platform: FreeType initialisation, font-path
resolution (`none` is the empty path), opening a face at a size and dpi,
`GL_MAX_TEXTURE_SIZE`, and the growth policy of `std::vector`. -/
structure Platform where
  initFreeType : Bool
  resolveFontPath : String → Option String
  newFace : String → Int → Int → Option FT_Face
  glMaxTextureSize : Int
  vectorRelocates : Nat → Bool

/-- `AtlasState` after the row wrap of lines 393-398 (and again 412-416): when
the glyph does not fit in the current row the cursor moves to the start of the
next row. -/
def AtlasState.wrapRow (s : AtlasState) (glyphW border : Int) : AtlasState :=
  if s.currentX + glyphW + border > s.width then
    { s with currentX := border,
             currentY := s.currentY + s.currentRowHeight + border,
             currentRowHeight := 0 }
  else s

namespace FontAtlasManager

/-- `getAtlasCount()`. -/
def getAtlasCount (m : FontAtlasManager) : Nat := m.atlases.length

/-- `getLoadedGlyphCount()`. -/
def getLoadedGlyphCount (m : FontAtlasManager) : Nat := m.glyphs.length

/-- `hasGlyph(codepoint)`. -/
def hasGlyph (m : FontAtlasManager) (codepoint : Nat) : Bool :=
  (m.glyphs.lookup codepoint).isSome

/-- `getMaxTextureSize()`, from the value `glGetIntegerv` reports. -/
def getMaxTextureSize (gl : Int) : Int := if gl ≤ 0 then 4096 else gl

/-- The loop `while (s < minAtlasSize) s *= 2;` of `setup`, run for at most
`fuel` rounds. -/
def doubleUntil : Nat → Int → Int → Int
  | 0, s, _ => s
  | fuel + 1, s, target => if s < target then doubleUntil fuel (s * 2) target else s

/-- `createNewAtlas()`: the manager afterwards and the index returned. -/
def createNewAtlas (m : FontAtlasManager) : FontAtlasManager × Nat :=
  let size : Int :=
    if m.atlases.isEmpty then m.minAtlasSize
    else (m.atlasStates.getLast?.getD default).width
  let state : AtlasState :=
    { width := size, height := size, currentX := m.border, currentY := m.border,
      currentRowHeight := 0 }
  let pixels := ofPixels.allocateBlank size size
  let m1 : FontAtlasManager :=
    { m with atlasStates := m.atlasStates ++ [state],
             atlasPixels := m.atlasPixels ++ [pixels],
             atlases := m.atlases ++ [pixels] }
  (m1, m1.atlases.length - 1)

/-- The rewrite of one glyph record in the loop at the end of `expandAtlas`;
`width` and `height` are the fields of the page state after the resize. -/
def rescaleGlyph (atlasIndex : Nat) (width height : Int) (props : LazyGlyphProps) :
    LazyGlyphProps :=
  if props.atlasIndex = atlasIndex then
    let oldW : ℚ := (width : ℚ) / 2
    let oldH : ℚ := (height : ℚ) / 2
    let newW : ℚ := (width : ℚ)
    let newH : ℚ := (height : ℚ)
    { props with t1 := (props.t1 * oldW) / newW,
                 t2 := (props.t2 * oldW) / newW,
                 v1 := (props.v1 * oldH) / newH,
                 v2 := (props.v2 * oldH) / newH }
  else props

/-- Lines 249-292 of `expandAtlas`: page `atlasIndex` doubled, its pixels copied
to the top-left corner of the new buffer, and the records on it rescaled. -/
def growPage (m : FontAtlasManager) (atlasIndex : Nat) : FontAtlasManager :=
  let state := m.atlasStates.getD atlasIndex default
  let newSize := state.width * 2
  let newPixels :=
    (m.atlasPixels.getD atlasIndex default).pasteInto
      (ofPixels.allocateBlank newSize newSize) 0 0
  let state1 : AtlasState := { state with width := newSize, height := newSize }
  { m with atlasStates := m.atlasStates.set atlasIndex state1,
           atlasPixels := m.atlasPixels.set atlasIndex newPixels,
           atlases := m.atlases.set atlasIndex newPixels,
           glyphs := m.glyphs.map
             (fun e => (e.1, rescaleGlyph atlasIndex state1.width state1.height e.2)) }

/-- `expandAtlas(atlasIndex)`: the returned flag and the manager afterwards. -/
def expandAtlas (m : FontAtlasManager) (atlasIndex : Nat) : Bool × FontAtlasManager :=
  if atlasIndex ≥ m.atlases.length then (false, m)
  else if (m.atlasStates.getD atlasIndex default).width * 2 > m.maxAtlasSize then (false, m)
  else (true, growPage m atlasIndex)

/-- The pixel buffer `rasterizeGlyph` fills from a rendered bitmap (lines
343-367): alpha is the coverage byte in antialiased mode and the unpacked bit,
most significant first, in mono mode. -/
def bitmapPixels (antialiased : Bool) (bitmap : FT_Bitmap) : ofPixels :=
  let width : Int := bitmap.width
  let height : Int := bitmap.rows
  if width = 0 ∨ height = 0 then ofPixels.clear
  else
    { width := bitmap.width, height := bitmap.rows,
      getColor := fun x y =>
        if x < bitmap.width ∧ y < bitmap.rows then
          if antialiased then
            ⟨255, bitmap.buffer ((y : Int) * bitmap.pitch + (x : Int)) % 256⟩
          else
            let byteIndex : Int := (x : Int) / 8
            let bitIndex : Nat := 7 - (x % 8)
            let byte := bitmap.buffer ((y : Int) * bitmap.pitch + byteIndex) % 256
            ⟨255, if byte &&& (1 <<< bitIndex) ≠ 0 then 255 else 0⟩
        else ⟨255, 0⟩ }

/-- `rasterizeGlyph(codepoint, outPixels, outProps)`: the manager afterwards
(only the call counter moves) and, when the call returns `true`, the pixel
buffer and the record.  The fields `atlasIndex`, `t1`, `t2`, `v1`, `v2` are not
written by the source; they are `0` here and set by every caller path that
returns the record. -/
def rasterizeGlyph (m : FontAtlasManager) (codepoint : Nat) :
    FontAtlasManager × Option (ofPixels × LazyGlyphProps) :=
  let m1 := { m with rasterizeCalls := m.rasterizeCalls + 1 }
  match m.face with
  | none => (m1, none)
  | some face =>
    let glyphIndex := face.getCharIndex codepoint
    if glyphIndex = 0 then (m1, none)
    else
      match face.loadGlyph glyphIndex with
      | none => (m1, none)
      | some metrics =>
        let slot := face.renderGlyph glyphIndex m.antialiased
        let xmin : ℚ := (slot.bitmap_left : ℚ)
        let ymin : ℚ := ((-slot.bitmap_top : Int) : ℚ)
        let props : LazyGlyphProps :=
          { atlasIndex := 0, t1 := 0, t2 := 0, v1 := 0, v2 := 0,
            width := int26p6_to_dbl metrics.width,
            height := int26p6_to_dbl metrics.height,
            bearingX := int26p6_to_dbl metrics.horiBearingX,
            bearingY := int26p6_to_dbl metrics.horiBearingY,
            advance := int26p6_to_dbl metrics.horiAdvance,
            xmin := xmin,
            xmax := xmin + int26p6_to_dbl metrics.width,
            ymin := ymin,
            ymax := ymin + int26p6_to_dbl metrics.height,
            tW := (slot.bitmap.width : ℚ),
            tH := (slot.bitmap.rows : ℚ) }
        (m1, some (bitmapPixels m.antialiased slot.bitmap, props))

/-- The element `atlasStates[i]`. -/
def stateAt (m : FontAtlasManager) (i : Nat) : AtlasState := m.atlasStates.getD i default

/-- A write of `a` through a reference bound to `atlasStates[i]`. -/
def setState (m : FontAtlasManager) (i : Nat) (a : AtlasState) : FontAtlasManager :=
  { m with atlasStates := m.atlasStates.set i a }

/-- A write of `a` through a reference that was bound to a slot of `atlasStates`
before a `push_back`.  When the vector kept its storage the reference is still
valid and the write reaches slot `i` (`some i`).  When the storage has moved
(`none`) the reference dangles and the write goes to freed memory: undefined
behaviour, recorded in `danglingWrite`. -/
def writeThrough (m : FontAtlasManager) (target : Option Nat) (a : AtlasState) :
    FontAtlasManager :=
  match target with
  | some i => m.setState i a
  | none => { m with danglingWrite := true }

/-- The row wrap of lines 393-398 and 412-416, applied to `atlasStates[i]`. -/
def wrapAt (m : FontAtlasManager) (i : Nat) (glyphW : Int) : FontAtlasManager :=
  m.setState i ((m.stateAt i).wrapRow glyphW m.border)

/-- Where a reference bound to slot `i` of `atlasStates` points after
`createNewAtlas` has been called on `m`: still at slot `i` when the `push_back`
kept the storage, and nowhere valid (`none`) when it moved it. -/
def refAfterPush (m : FontAtlasManager) (i : Nat) : Option Nat :=
  if m.relocates m.atlasStates.length then none else some i

/-- The placement of lines 426-446 of `addGlyphToAtlas`.  `atlasIndex` is the
page that receives the pixels, `currentState` the value read through the
reference `currentState`, and `target` the slot that reference writes to. -/
def placeGlyph (m : FontAtlasManager) (glyphPixels : ofPixels) (outProps : LazyGlyphProps)
    (atlasIndex : Nat) (currentState : AtlasState) (target : Option Nat) :
    FontAtlasManager × LazyGlyphProps :=
  let glyphW : Int := glyphPixels.width
  let glyphH : Int := glyphPixels.height
  let x := currentState.currentX
  let y := currentState.currentY
  let page := glyphPixels.pasteInto (m.atlasPixels.getD atlasIndex default) x y
  let atlasW : ℚ := (currentState.width : ℚ)
  let atlasH : ℚ := (currentState.height : ℚ)
  let props : LazyGlyphProps :=
    { outProps with atlasIndex := atlasIndex,
                    t1 := (x : ℚ) / atlasW,
                    v1 := (y : ℚ) / atlasH,
                    t2 := ((x + glyphW : Int) : ℚ) / atlasW,
                    v2 := ((y + glyphH : Int) : ℚ) / atlasH }
  let written : AtlasState :=
    { currentState with currentX := currentState.currentX + glyphW + m.border,
                        currentRowHeight := max currentState.currentRowHeight glyphH }
  (writeThrough
     { m with atlasPixels := m.atlasPixels.set atlasIndex page,
              atlases := m.atlases.set atlasIndex page }
     target written,
   props)

/-- Lines 389-408 of `addGlyphToAtlas`: the first row wrap and height check on
the last page, for a glyph of `glyphW` x `glyphH` pixels.  Returns the manager
and the value of the local `atlasIndex` afterwards.

The reference `state` is bound to the last slot of `atlasStates` (line 390)
before `createNewAtlas` does its `push_back` (line 405); the assignment
`state = atlasStates[atlasIndex]` of line 406 copies the new page's state
through it: into the old slot when the vector kept its storage, into freed
memory (a dangling write) when it moved. -/
def fitFirstPass (m : FontAtlasManager) (glyphW glyphH : Int) : FontAtlasManager × Nat :=
  let atlasIndex := m.atlases.length - 1
  let m1 := m.wrapAt atlasIndex glyphW
  if (m1.stateAt atlasIndex).currentY + glyphH + m1.border > (m1.stateAt atlasIndex).height then
    if (expandAtlas m1 atlasIndex).1 = true then ((expandAtlas m1 atlasIndex).2, atlasIndex)
    else
      let m2 := (expandAtlas m1 atlasIndex).2
      let r := createNewAtlas m2
      (writeThrough r.1 (refAfterPush m2 atlasIndex) (r.1.stateAt r.2), r.2)
  else (m1, atlasIndex)

/-- Lines 411-446 of `addGlyphToAtlas`: the second row wrap and height check on
page `atlasIndex`, then the placement.

The reference `currentState` is bound to slot `atlasIndex` (line 411) and is
not rebound when `createNewAtlas` is called (line 421):
`currentState = atlasStates[atlasIndex]` of line 422 copies the new page's state
through it, the reads of lines 427-434 see that copy, and the cursor update of
lines 442-443 goes through the same reference: to the old slot when the vector
kept its storage, to freed memory (a dangling write) when it moved. -/
def fitSecondPass (m : FontAtlasManager) (atlasIndex : Nat) (glyphPixels : ofPixels)
    (outProps : LazyGlyphProps) : FontAtlasManager × LazyGlyphProps :=
  let glyphW : Int := glyphPixels.width
  let glyphH : Int := glyphPixels.height
  let m1 := m.wrapAt atlasIndex glyphW
  if (m1.stateAt atlasIndex).currentY + glyphH + m1.border > (m1.stateAt atlasIndex).height then
    if (expandAtlas m1 atlasIndex).1 = true then
      let m2 := (expandAtlas m1 atlasIndex).2
      placeGlyph m2 glyphPixels outProps atlasIndex (m2.stateAt atlasIndex) (some atlasIndex)
    else
      let m2 := (expandAtlas m1 atlasIndex).2
      let r := createNewAtlas m2
      placeGlyph r.1 glyphPixels outProps r.2 (r.1.stateAt r.2) (refAfterPush m2 atlasIndex)
  else
    placeGlyph m1 glyphPixels outProps atlasIndex (m1.stateAt atlasIndex) (some atlasIndex)

/-- `addGlyphToAtlas(codepoint, outProps)`: the manager afterwards and the
record when the call returns `true`. -/
def addGlyphToAtlas (m0 : FontAtlasManager) (codepoint : Nat) :
    FontAtlasManager × Option LazyGlyphProps :=
  match rasterizeGlyph m0 codepoint with
  | (m, none) => (m, none)
  | (m, some (glyphPixels, outProps)) =>
    let glyphW : Int := glyphPixels.width
    let glyphH : Int := glyphPixels.height
    if glyphW = 0 ∨ glyphH = 0 then
      (m, some { outProps with atlasIndex := 0, t1 := 0, t2 := 0, v1 := 0, v2 := 0 })
    else
      let r := fitFirstPass m glyphW glyphH
      let q := fitSecondPass r.1 r.2 glyphPixels outProps
      (q.1, some q.2)

/-- `getOrLoadGlyph(codepoint)`: the manager afterwards and the record the
returned pointer refers to (`none` for `nullptr`). -/
def getOrLoadGlyph (m : FontAtlasManager) (codepoint : Nat) :
    FontAtlasManager × Option LazyGlyphProps :=
  match m.glyphs.lookup codepoint with
  | some props => (m, some props)
  | none =>
    match addGlyphToAtlas m codepoint with
    | (m1, none) => (m1, none)
    | (m1, some props) => ({ m1 with glyphs := (codepoint, props) :: m1.glyphs }, some props)

/-- Lines 135-148 of `setup`: the settings, the texture size limit and the
minimum page size.  The doubling loop gets 32 rounds, more than any run that
stays inside `int` takes. -/
def configure (env : Platform) (m : FontAtlasManager) (size : Int) (antialias : Bool)
    (dpiValue : Int) : FontAtlasManager :=
  { m with fontSize := size, antialiased := antialias,
           dpi := if dpiValue > 0 then dpiValue else 96,
           maxAtlasSize := getMaxTextureSize env.glMaxTextureSize,
           minAtlasSize := doubleUntil 32 64 (max 64 (size * 4)),
           relocates := env.vectorRelocates }

/-- Lines 169-193 of `setup`: the face is stored and the font metrics are read
from it. -/
def adoptFace (m : FontAtlasManager) (face : FT_Face) : FontAtlasManager :=
  { m with face := some face,
           fontUnitScale := (face.y_ppem : ℚ) / (face.units_per_EM : ℚ),
           lineHeight := int26p6_to_dbl face.height,
           ascenderHeight := int26p6_to_dbl face.ascender,
           descenderHeight := int26p6_to_dbl face.descender,
           spaceAdvance :=
             match face.loadGlyph (face.getCharIndex 32) with
             | some metrics => int26p6_to_dbl metrics.horiAdvance
             | none => (m.fontSize : ℚ) * (1 / 2) }

/-- `setup(fontPath, size, antialias, dpiValue)` on manager `m`: the returned
flag and the manager afterwards. -/
def setup (env : Platform) (m : FontAtlasManager) (fontPath : String) (size : Int)
    (antialias : Bool) (dpiValue : Int) : Bool × FontAtlasManager :=
  if env.initFreeType = false then (false, m)
  else
    let m1 := configure env m size antialias dpiValue
    match env.resolveFontPath fontPath with
    | none => (false, m1)
    | some resolvedPath =>
      match env.newFace resolvedPath m1.fontSize m1.dpi with
      | none => (false, m1)
      | some face => (true, (createNewAtlas (adoptFace m1 face)).1)

end FontAtlasManager

/-! ## The shared cache -/

/-- `unordered_map::erase(key)` on an association list. -/
def eraseKey {α β : Type} [DecidableEq α] (k : α) : List (α × β) → List (α × β)
  | [] => []
  | e :: l => if e.1 = k then eraseKey k l else e :: eraseKey k l

/-- `SharedFontCache`.  `cache` is the `unordered_map` from identity to
`shared_ptr<FontAtlasManager>`, as an association list with distinct keys whose
values are object identities; `managers` lists the manager objects the cache
has created, the identity of an object being its position. -/
structure SharedFontCache where
  cache : List (FontCacheKey × Nat) := []
  managers : List FontAtlasManager := []

namespace SharedFontCache

/-- The object a `shared_ptr` refers to. -/
def deref (s : SharedFontCache) (manager : Nat) : FontAtlasManager :=
  s.managers.getD manager {}

/-- `getOrCreate(key, dpi)`: the cache afterwards and the returned pointer
(`none` for `nullptr`).  `make_shared` yields an object distinct from all
earlier ones; an object whose setup fails is dropped on return. -/
def getOrCreate (env : Platform) (s : SharedFontCache) (key : FontCacheKey) (dpi : Int) :
    SharedFontCache × Option Nat :=
  match s.cache.lookup key with
  | some manager => (s, some manager)
  | none =>
    match FontAtlasManager.setup env {} key.fontPath key.fontSize key.antialiased dpi with
    | (false, _) => (s, none)
    | (true, manager) =>
      ({ cache := (key, s.managers.length) :: eraseKey key s.cache,
         managers := s.managers ++ [manager] },
       some s.managers.length)

/-- `release(key)`: `cache.erase(key)`. -/
def release (s : SharedFontCache) (key : FontCacheKey) : SharedFontCache :=
  { s with cache := eraseKey key s.cache }

/-- `clear()`: `cache.clear()`. -/
def clear (s : SharedFontCache) : SharedFontCache :=
  { s with cache := [] }

/-- A font handle that holds `manager` asks it for a glyph
(`atlasManager->getOrLoadGlyph(codepoint)`): the object is updated in place. -/
def loadGlyph (s : SharedFontCache) (manager codepoint : Nat) : SharedFontCache :=
  { s with managers :=
      s.managers.set manager (FontAtlasManager.getOrLoadGlyph (s.deref manager) codepoint).1 }

end SharedFontCache

/-- One call on the process-wide cache or through a handle's shared pointer. -/
inductive CacheOp where
  | getOrCreate (env : Platform) (key : FontCacheKey) (dpi : Int)
  | release (key : FontCacheKey)
  | clear
  | loadGlyph (manager codepoint : Nat)

namespace CacheOp

/-- The call leaves the entry of `key`, if there is one, in the registry. -/
def keeps (key : FontCacheKey) : CacheOp → Bool
  | .release k => decide (k ≠ key)
  | .clear => false
  | _ => true

/-- The cache after the call, and the pair (identity, manager) when the call is
a `getOrCreate` that returns a manager. -/
def apply (s : SharedFontCache) : CacheOp → SharedFontCache × Option (FontCacheKey × Nat)
  | .getOrCreate env key dpi =>
    let r := s.getOrCreate env key dpi
    (r.1, r.2.map (fun manager => (key, manager)))
  | .release key => (s.release key, none)
  | .clear => (s.clear, none)
  | .loadGlyph manager codepoint => (s.loadGlyph manager codepoint, none)

/-- Runs a sequence of calls; the second component lists, in order, every
(identity, manager) pair handed out by a successful `getOrCreate`. -/
def run (s : SharedFontCache) : List CacheOp → SharedFontCache × List (FontCacheKey × Nat)
  | [] => (s, [])
  | op :: ops =>
    let r := apply s op
    let rest := run r.1 ops
    (rest.1, r.2.toList ++ rest.2)

end CacheOp

/-! ## Memory accounting and font handles -/

/-- The value an `int` expression takes when its mathematical value is `x`:
32-bit two's complement wrap-around (what the usual targets compute when the
signed multiplication overflows). -/
def wrapInt32 (x : Int) : Int := (x + 2147483648) % 4294967296 - 2147483648

/-- The conversion of an `int` to the 64-bit `size_t`. -/
def toSizeT (x : Int) : Nat := (x % 18446744073709551616).toNat

/-- `sizeof(LazyGlyphProps)` on an LP64 target: one `size_t` and fifteen `float`
members, padded to a multiple of 8 bytes. -/
def sizeofLazyGlyphProps : Nat := 72

namespace FontAtlasManager

/-- The body of the loop of `getMemoryUsage()` for one page: `texSize` is
`width * height * 2`, evaluated in `int` and converted to `size_t`, and
`total += texSize * 2` is `size_t` arithmetic. -/
def addPageUsage (total : Nat) (st : AtlasState) : Nat :=
  let texSize := toSizeT (wrapInt32 (wrapInt32 (st.width * st.height) * 2))
  (total + (texSize * 2) % 18446744073709551616) % 18446744073709551616

/-- `getMemoryUsage()`. -/
def getMemoryUsage (m : FontAtlasManager) : Nat :=
  let total := m.atlasStates.foldl addPageUsage 0
  (total + (m.glyphs.length * sizeofLazyGlyphProps) % 18446744073709551616)
    % 18446744073709551616

/-- The right-hand side of the memory equation of the specification: per page
`width * height * 2 * 2`, plus `glyphCount * sizeof(LazyGlyphProps)`. -/
def specMemoryUsage (m : FontAtlasManager) : Int :=
  (m.atlasStates.map (fun st => st.width * st.height * 2 * 2)).sum
    + (m.getLoadedGlyphCount * sizeofLazyGlyphProps : Nat)

end FontAtlasManager

namespace SharedFontCache

/-- `getTotalMemoryUsage()`: the loop over the registry, in `size_t`
arithmetic. -/
def getTotalMemoryUsage (s : SharedFontCache) : Nat :=
  s.cache.foldl
    (fun total e => (total + (s.deref e.2).getMemoryUsage) % 18446744073709551616) 0

end SharedFontCache

/-- `ofTrueTypeFontDirection`, the type of `settings.direction`. -/
inductive ofTrueTypeFontDirection where
  | OF_TTF_LEFT_TO_RIGHT
  | OF_TTF_RIGHT_TO_LEFT
deriving DecidableEq

/-- The members of a font handle `ofxTrueTypeFontLowRAM` that `load` writes:
the shared pointer, the identity, and the members inherited from
`ofTrueTypeFont` that `load` sets.  The members of a default-constructed
`cacheKey` that the source leaves without a value are `0` and `false` here.
`direction` is `settings.direction`, which `load` leaves as it is. -/
structure ofxTrueTypeFontLowRAM where
  atlasManager : Option Nat := none
  cacheKey : FontCacheKey := ⟨"", 0, false⟩
  bLoadedOk : Bool := false
  lineHeight : ℚ := 0
  ascenderHeight : ℚ := 0
  descenderHeight : ℚ := 0
  letterSpacing : ℚ := 1
  spaceSize : ℚ := 1
  direction : ofTrueTypeFontDirection := .OF_TTF_LEFT_TO_RIGHT

namespace ofxTrueTypeFontLowRAM

/-- `load(filename, fontsize, _bAntiAliased, _, _, _, dpi)`: the returned flag,
the shared cache afterwards and the handle afterwards. -/
def load (env : Platform) (s : SharedFontCache) (h : ofxTrueTypeFontLowRAM)
    (filename : String) (fontsize : Int) (bAntiAliased : Bool) (dpi : Int) :
    Bool × SharedFontCache × ofxTrueTypeFontLowRAM :=
  let key : FontCacheKey := ⟨filename, fontsize, bAntiAliased⟩
  let r := s.getOrCreate env key dpi
  match r.2 with
  | none => (false, r.1, { h with cacheKey := key, atlasManager := none, bLoadedOk := false })
  | some manager =>
    (true, r.1,
      { h with cacheKey := key, atlasManager := some manager, bLoadedOk := true,
               lineHeight := (r.1.deref manager).lineHeight,
               ascenderHeight := (r.1.deref manager).ascenderHeight,
               descenderHeight := (r.1.deref manager).descenderHeight,
               letterSpacing := 1, spaceSize := 1 })

/-- `getMemoryUsage()` of a handle. -/
def getMemoryUsage (s : SharedFontCache) (h : ofxTrueTypeFontLowRAM) : Nat :=
  match h.atlasManager with
  | some manager => (s.deref manager).getMemoryUsage
  | none => 0

/-- `getLoadedGlyphCount()` of a handle. -/
def getLoadedGlyphCount (s : SharedFontCache) (h : ofxTrueTypeFontLowRAM) : Nat :=
  match h.atlasManager with
  | some manager => (s.deref manager).getLoadedGlyphCount
  | none => 0

/-- The static `getTotalCacheMemoryUsage()`. -/
def getTotalCacheMemoryUsage (s : SharedFontCache) : Nat := s.getTotalMemoryUsage

/-- A glyph request through the handle's shared pointer, as the string walk
and the drawing functions make it. -/
def requestGlyph (s : SharedFontCache) (h : ofxTrueTypeFontLowRAM) (codepoint : Nat) :
    SharedFontCache :=
  match h.atlasManager with
  | some manager => s.loadGlyph manager codepoint
  | none => s

end ofxTrueTypeFontLowRAM

/-! ## The string walk -/

namespace FontAtlasManager

/-- `getSpaceAdvance()`. -/
def getSpaceAdvance (m : FontAtlasManager) : ℚ := m.spaceAdvance

/-- `getKerning(leftC, rightC)`. -/
def getKerning (m : FontAtlasManager) (leftC rightC : Nat) : ℚ :=
  match m.face with
  | none => 0
  | some face =>
    if face.hasKerning then
      int26p6_to_dbl (face.getKerning (face.getCharIndex leftC) (face.getCharIndex rightC))
    else 0

end FontAtlasManager

/-- The locals `pos` and `prevC` of `iterateStringInternal` while the loop runs,
with the manager the handle points to, the calls `f(c, pos)` made so far and
the argument pairs of the `getKerning` calls made so far, oldest first. -/
structure StringWalk where
  manager : FontAtlasManager
  pos : ℚ × ℚ
  prevC : Nat
  calls : List (Nat × (ℚ × ℚ))
  kerned : List (Nat × Nat)

namespace ofxTrueTypeFontLowRAM

/-- One round of the loop of `iterateStringInternal` (lines 667-702) for the code
point `c`.  The callback `f` is given by what it does to the manager (the one
of `createStringMeshInternal` calls `getOrLoadGlyph`) and is taken to return
normally; `props->advance` is read through the pointer, in left-to-right mode
after the callback has run. -/
def walkStep (h : ofxTrueTypeFontLowRAM)
    (f : Nat → ℚ × ℚ → FontAtlasManager → FontAtlasManager)
    (x newLineDirection directionX : ℚ) (w : StringWalk) (c : Nat) : StringWalk :=
  if c = 10 then
    { w with pos := (x, w.pos.2 + h.lineHeight * newLineDirection), prevC := 0 }
  else if c = 9 then
    let m1 := f c w.pos w.manager
    { w with manager := m1, calls := w.calls ++ [(c, w.pos)],
             pos := (w.pos.1 + m1.getSpaceAdvance * h.spaceSize * 4 * directionX, w.pos.2),
             prevC := c }
  else if c = 32 then
    let pos := (w.pos.1 + w.manager.getSpaceAdvance * h.spaceSize * directionX, w.pos.2)
    { w with manager := f c pos w.manager, calls := w.calls ++ [(c, pos)], pos := pos,
             prevC := c }
  else
    let r := FontAtlasManager.getOrLoadGlyph w.manager c
    match r.2 with
    | none => { w with manager := r.1 }
    | some props =>
      let ltr : Bool := decide (h.direction = .OF_TTF_LEFT_TO_RIGHT)
      let pair : Nat × Nat := if ltr then (w.prevC, c) else (c, w.prevC)
      let pos0 : ℚ × ℚ :=
        if w.prevC > 0 then (w.pos.1 + r.1.getKerning pair.1 pair.2, w.pos.2) else w.pos
      let kerned := if w.prevC > 0 then w.kerned ++ [pair] else w.kerned
      if ltr then
        let m1 := f c pos0 r.1
        let advance := ((m1.glyphs.lookup c).getD props).advance
        { manager := m1,
          pos := (pos0.1 + advance * directionX
                    + m1.getSpaceAdvance * (h.letterSpacing - 1) * directionX, pos0.2),
          prevC := c, calls := w.calls ++ [(c, pos0)], kerned := kerned }
      else
        let pos1 : ℚ × ℚ :=
          (pos0.1 + props.advance * directionX
             + r.1.getSpaceAdvance * (h.letterSpacing - 1) * directionX, pos0.2)
        { manager := f c pos1 r.1, pos := pos1, prevC := c,
          calls := w.calls ++ [(c, pos1)], kerned := kerned }

/-- The loop of `iterateStringInternal` over the code points that
`ofUTF8Iterator` yields for the string, on the manager `m` the handle points
to. -/
def walkString (h : ofxTrueTypeFontLowRAM) (m : FontAtlasManager) (str : List Nat)
    (x y : ℚ) (vFlipped : Bool) (f : Nat → ℚ × ℚ → FontAtlasManager → FontAtlasManager) :
    StringWalk :=
  let newLineDirection : ℚ := if vFlipped then 1 else -1
  let directionX : ℚ := if h.direction = .OF_TTF_LEFT_TO_RIGHT then 1 else -1
  str.foldl (walkStep h f x newLineDirection directionX)
    { manager := m, pos := (x, y), prevC := 0, calls := [], kerned := [] }

/-- `iterateStringInternal(str, x, y, vFlipped, f)`: the shared cache afterwards
and the calls of `f`, none when the handle has no manager. -/
def iterateStringInternal (s : SharedFontCache) (h : ofxTrueTypeFontLowRAM) (str : List Nat)
    (x y : ℚ) (vFlipped : Bool) (f : Nat → ℚ × ℚ → FontAtlasManager → FontAtlasManager) :
    SharedFontCache × List (Nat × (ℚ × ℚ)) :=
  match h.atlasManager with
  | none => (s, [])
  | some manager =>
    let w := walkString h (s.deref manager) str x y vFlipped f
    ({ s with managers := s.managers.set manager w.manager }, w.calls)

end ofxTrueTypeFontLowRAM

/-! ## Reachable states and their invariants -/

namespace FontAtlasManager

/-- The manager states reachable from a successful `setup` of a newly
constructed manager by any sequence of `getOrLoadGlyph` calls.  The states of
the embedding past a write through an invalidated reference are among them;
they are told apart by `danglingWrite`. -/
inductive Reachable (env : Platform) : FontAtlasManager → Prop where
  | init (fontPath : String) (size : Int) (antialias : Bool) (dpiValue : Int) :
      (FontAtlasManager.setup env {} fontPath size antialias dpiValue).1 = true →
      Reachable env (FontAtlasManager.setup env {} fontPath size antialias dpiValue).2
  | step (m : FontAtlasManager) (codepoint : Nat) :
      Reachable env m → Reachable env (getOrLoadGlyph m codepoint).1

/-- The three page vectors have the same, non-zero, number of elements and every
glyph record names one of the pages. -/
structure PagesOk (m : FontAtlasManager) : Prop where
  states : m.atlasStates.length = m.atlases.length
  pixels : m.atlasPixels.length = m.atlases.length
  pos : 0 < m.atlases.length
  index : ∀ e ∈ m.glyphs, e.2.atlasIndex < m.atlases.length

/-- The fields that no operation after `setup` writes. -/
structure SameConfig (m m1 : FontAtlasManager) : Prop where
  face : m1.face = m.face
  fontSize : m1.fontSize = m.fontSize
  antialiased : m1.antialiased = m.antialiased
  dpi : m1.dpi = m.dpi
  minAtlasSize : m1.minAtlasSize = m.minAtlasSize
  maxAtlasSize : m1.maxAtlasSize = m.maxAtlasSize
  border : m1.border = m.border
  relocates : m1.relocates = m.relocates

end FontAtlasManager

/-! ## Glyphs that fit the minimum page -/

/-- The state `s` of a page is ready to take a glyph of `w` x `h` pixels at its
cursor: the glyph and its border lie inside the square page, whose side is at
least `minSize`. -/
structure AtlasState.Ready (s : AtlasState) (border minSize w h : Int) : Prop where
  x : border ≤ s.currentX
  y : border ≤ s.currentY
  row : 0 ≤ s.currentRowHeight
  fitsX : s.currentX + w + border ≤ s.width
  fitsY : s.currentY + h + border ≤ s.height
  fitsRow : s.currentY + s.currentRowHeight + border ≤ s.height
  square : s.width = s.height
  big : minSize ≤ s.width

namespace FontAtlasManager

/-- Every bitmap the font engine renders for the manager's face fits an empty
page of the minimum size, border included:
`w + 2 * border ≤ minAtlasSize` and `h + 2 * border ≤ minAtlasSize`. -/
def GlyphsFit (m : FontAtlasManager) : Prop :=
  ∀ face, m.face = some face → ∀ g : Nat,
    ((face.renderGlyph g m.antialiased).bitmap.width : Int) + 2 * m.border ≤ m.minAtlasSize ∧
    ((face.renderGlyph g m.antialiased).bitmap.rows : Int) + 2 * m.border ≤ m.minAtlasSize

/-- The pixel buffer that `rasterizeGlyph` produces for `codepoint`, when it
produces one, fits an empty page of the minimum size, border included:
`w + 2 * border ≤ minAtlasSize` and `h + 2 * border ≤ minAtlasSize`. -/
def BitmapFits (m : FontAtlasManager) (codepoint : Nat) : Prop :=
  ∀ px props, (rasterizeGlyph m codepoint).2 = some (px, props) →
    (px.width : Int) + 2 * m.border ≤ m.minAtlasSize ∧
    (px.height : Int) + 2 * m.border ≤ m.minAtlasSize

/-- The manager states reachable from a successful `setup` of a newly
constructed manager by `getOrLoadGlyph` calls in which every bitmap that was
rasterized fits an empty page of the minimum size.  A call for a code point
that is already in the glyph map rasterizes nothing. -/
inductive ReachableFit (env : Platform) : FontAtlasManager → Prop where
  | init (fontPath : String) (size : Int) (antialias : Bool) (dpiValue : Int) :
      (FontAtlasManager.setup env {} fontPath size antialias dpiValue).1 = true →
      ReachableFit env (FontAtlasManager.setup env {} fontPath size antialias dpiValue).2
  | step (m : FontAtlasManager) (codepoint : Nat) :
      ReachableFit env m →
      (m.glyphs.lookup codepoint = none → BitmapFits m codepoint) →
      ReachableFit env (getOrLoadGlyph m codepoint).1

/-- The write cursor of the last page lies inside the page: the invariant of
the packing when all glyphs fit the minimum page. -/
structure CursorOk (m : FontAtlasManager) : Prop where
  border : 0 ≤ m.border
  x : m.border ≤ (m.stateAt (m.atlases.length - 1)).currentX
  y : m.border ≤ (m.stateAt (m.atlases.length - 1)).currentY
  row : 0 ≤ (m.stateAt (m.atlases.length - 1)).currentRowHeight
  fitsRow : (m.stateAt (m.atlases.length - 1)).currentY
      + (m.stateAt (m.atlases.length - 1)).currentRowHeight + m.border
    ≤ (m.stateAt (m.atlases.length - 1)).height
  square : (m.stateAt (m.atlases.length - 1)).width = (m.stateAt (m.atlases.length - 1)).height
  big : m.minAtlasSize ≤ (m.stateAt (m.atlases.length - 1)).width

end FontAtlasManager

/-- The record `p` names a pixel rectangle that lies, with a gap of `border`
pixels on every side, inside a page whose state is `st`: its corner `(x, y)`
and sides `tW`, `tH` satisfy `border ≤ x`, `border ≤ y`,
`x + tW + border ≤ width`, `y + tH + border ≤ height`, and its texture
rectangle lies in the unit square. -/
def LazyGlyphProps.InsidePage (p : LazyGlyphProps) (st : AtlasState) (border : Int) : Prop :=
  ∃ x y : Int,
    p.t1 * (st.width : ℚ) = x ∧ p.v1 * (st.height : ℚ) = y ∧
    p.t2 * (st.width : ℚ) = x + p.tW ∧ p.v2 * (st.height : ℚ) = y + p.tH ∧
    border ≤ x ∧ border ≤ y ∧
    (x : ℚ) + p.tW + border ≤ st.width ∧ (y : ℚ) + p.tH + border ≤ st.height ∧
    0 ≤ p.t1 ∧ p.t1 ≤ p.t2 ∧ p.t2 ≤ 1 ∧ 0 ≤ p.v1 ∧ p.v1 ≤ p.v2 ∧ p.v2 ≤ 1

/-! ## Invariant of the shared cache -/

/-- What links a cache to the list `log` of (identity, manager) pairs handed out
so far: every registry entry is in the log, every logged manager object
exists, and no manager object is logged under two identities. -/
structure SharedFontCache.Logged (s : SharedFontCache) (log : List (FontCacheKey × Nat)) :
    Prop where
  registered : ∀ k p, s.cache.lookup k = some p → (k, p) ∈ log
  exist : ∀ k p, (k, p) ∈ log → p < s.managers.length
  single : ∀ k1 k2 p, (k1, p) ∈ log → (k2, p) ∈ log → k1 = k2

/-! ## Pixel rectangles of glyph records -/

/-- A rectangle in pixel space: `left ≤ x ≤ right`, `top ≤ y ≤ bottom`. -/
structure PixelRect where
  left : ℚ
  top : ℚ
  right : ℚ
  bottom : ℚ
deriving DecidableEq

/-- The two rectangles share interior points. -/
def PixelRect.overlaps (a b : PixelRect) : Prop :=
  a.left < b.right ∧ b.left < a.right ∧ a.top < b.bottom ∧ b.top < a.bottom

instance (a b : PixelRect) : Decidable (a.overlaps b) := by
  unfold PixelRect.overlaps; infer_instance

namespace FontAtlasManager

/-- The pixel rectangle of a record: its texture rectangle multiplied by the
current width and height of the page it names. -/
def pixelRect (m : FontAtlasManager) (p : LazyGlyphProps) : PixelRect :=
  { left := p.t1 * ((m.stateAt p.atlasIndex).width : ℚ),
    top := p.v1 * ((m.stateAt p.atlasIndex).height : ℚ),
    right := p.t2 * ((m.stateAt p.atlasIndex).width : ℚ),
    bottom := p.v2 * ((m.stateAt p.atlasIndex).height : ℚ) }

/-- The colour of the CPU-side pixel mirror of page `i` at `(x, y)`. -/
def mirrorColor (m : FontAtlasManager) (i x y : Nat) : GrayAlpha :=
  (m.atlasPixels.getD i default).getColor x y

end FontAtlasManager

/-! ## Layout of the glyphs on their pages -/

/-- The pixel rectangle at `(X, Y)` with sides `w`, `h` lies behind the write
cursor of the page state `s`: in a completed row above the cursor, or in the
current row to the left of the cursor. -/
def AtlasState.Behind (s : AtlasState) (border X Y w h : Int) : Prop :=
  Y + h + border ≤ s.currentY ∨
  (Y = s.currentY ∧ X + w + border ≤ s.currentX ∧ h ≤ s.currentRowHeight)

namespace FontAtlasManager

/-- The pixel buffer `rasterizeGlyph` produces for a code point. -/
def glyphPixels (m : FontAtlasManager) (codepoint : Nat) : ofPixels :=
  match m.face with
  | some face =>
    bitmapPixels m.antialiased
      (face.renderGlyph (face.getCharIndex codepoint) m.antialiased).bitmap
  | none => ofPixels.clear

/-- The record `p` is stored at pixel `(X, Y)` of the page it names: its
texture rectangle times the page size is the rectangle of the buffer `px` at
`(X, Y)`, the rectangle lies inside the page, the pixel mirror of the page
shows `px` there, and on the last page the rectangle lies behind the cursor. -/
structure Stored (m : FontAtlasManager) (p : LazyGlyphProps) (px : ofPixels) (X Y : Nat) :
    Prop where
  index : p.atlasIndex < m.atlases.length
  t1 : p.t1 * ((m.stateAt p.atlasIndex).width : ℚ) = X
  v1 : p.v1 * ((m.stateAt p.atlasIndex).height : ℚ) = Y
  t2 : p.t2 * ((m.stateAt p.atlasIndex).width : ℚ) = X + px.width
  v2 : p.v2 * ((m.stateAt p.atlasIndex).height : ℚ) = Y + px.height
  insideX : (X : Int) + px.width ≤ (m.stateAt p.atlasIndex).width
  insideY : (Y : Int) + px.height ≤ (m.stateAt p.atlasIndex).height
  pixels : ∀ x y, x < px.width → y < px.height →
    m.mirrorColor p.atlasIndex (X + x) (Y + y) = px.getColor x y
  behind : p.atlasIndex = m.atlases.length - 1 →
    (m.stateAt p.atlasIndex).Behind m.border X Y px.width px.height

/-- Every page is square with a positive side, and its pixel mirror has the
size the page state records. -/
def PageDims (m : FontAtlasManager) : Prop :=
  ∀ i, i < m.atlases.length →
    0 < (m.stateAt i).width ∧ (m.stateAt i).width = (m.stateAt i).height ∧
    ((m.atlasPixels.getD i default).width : Int) = (m.stateAt i).width ∧
    ((m.atlasPixels.getD i default).height : Int) = (m.stateAt i).height

/-- Every record of the glyph map either has no ink or is stored on its page. -/
def Layout (m : FontAtlasManager) : Prop :=
  ∀ e ∈ m.glyphs, (e.2.tW = 0 ∨ e.2.tH = 0) ∨
    ∃ X Y, Stored m e.2 (m.glyphPixels e.1) X Y

end FontAtlasManager

/-! ## How a call changes pages and records -/

/-- The records `p` and `q` agree on the page index and on every metric field;
they may differ in the texture rectangle `t1`, `t2`, `v1`, `v2`. -/
def LazyGlyphProps.SameMetrics (p q : LazyGlyphProps) : Prop :=
  q.atlasIndex = p.atlasIndex ∧ q.width = p.width ∧ q.height = p.height ∧
  q.bearingX = p.bearingX ∧ q.bearingY = p.bearingY ∧ q.xmin = p.xmin ∧ q.xmax = p.xmax ∧
  q.ymin = p.ymin ∧ q.ymax = p.ymax ∧ q.advance = p.advance ∧ q.tW = p.tW ∧ q.tH = p.tH

namespace FontAtlasManager

/-- Every page is square with a positive side. -/
def SquarePages (m : FontAtlasManager) : Prop :=
  ∀ i, i < m.atlases.length →
    0 < (m.stateAt i).width ∧ (m.stateAt i).width = (m.stateAt i).height

/-- What relates a manager `m` to a later state `m1` when only pages from index
`n` on have been written and no page has been doubled more than `e` times: no
page is removed, the pages below `n` are as they were, every page of `m` has
its width and height multiplied by the same `2 ^ k` with `k ≤ e`, every page
added is square with a positive side, and every record of `m` is still in the
glyph map, with the same page index and metrics, and unchanged unless its page
has been doubled. -/
structure Grown (e n : Nat) (m m1 : FontAtlasManager) : Prop where
  count : m.atlases.length ≤ m1.atlases.length
  frozen : ∀ i, i < n →
    m1.stateAt i = m.stateAt i ∧
    m1.atlasPixels.getD i default = m.atlasPixels.getD i default ∧
    m1.atlases.getD i default = m.atlases.getD i default
  dims : ∀ i, i < m.atlases.length → ∃ k, k ≤ e ∧
    (m1.stateAt i).width = (m.stateAt i).width * 2 ^ k ∧
    (m1.stateAt i).height = (m.stateAt i).height * 2 ^ k
  fresh : ∀ i, m.atlases.length ≤ i → i < m1.atlases.length →
    0 < (m1.stateAt i).width ∧ (m1.stateAt i).width = (m1.stateAt i).height
  records : ∀ c p, m.glyphs.lookup c = some p → p.atlasIndex < m.atlases.length →
    ∃ q k, m1.glyphs.lookup c = some q ∧ p.SameMetrics q ∧
      (m1.stateAt p.atlasIndex).width = (m.stateAt p.atlasIndex).width * 2 ^ k ∧
      (k = 0 → q = p)

end FontAtlasManager

/-! ## Sizes of the pages -/

/-- The page state `st` is a square whose side is `minSize * 2 ^ k` for some
`k`, and the side does not exceed `maxSize` when `minSize` does not. -/
def AtlasState.Sized (st : AtlasState) (minSize maxSize : Int) : Prop :=
  (∃ k : Nat, st.width = minSize * 2 ^ k) ∧ st.height = st.width ∧
  (minSize ≤ maxSize → st.width ≤ maxSize)

namespace FontAtlasManager

/-- Every page of `m` is sized for the bounds `minSize` and `maxSize`. -/
def SizedWith (minSize maxSize : Int) (m : FontAtlasManager) : Prop :=
  ∀ i, i < m.atlases.length → (m.stateAt i).Sized minSize maxSize

/-- Every page of `m` is sized for the manager's own `minAtlasSize` and
`maxAtlasSize`. -/
def PageSizes (m : FontAtlasManager) : Prop := SizedWith m.minAtlasSize m.maxAtlasSize m

end FontAtlasManager

/-! ## Separation of the glyphs on a page -/

/-- The pixel rectangles at `(X1, Y1)` with sides `w1`, `h1` and at `(X2, Y2)`
with sides `w2`, `h2` are at least `border` pixels apart, horizontally or
vertically. -/
def RectsApart (border X1 Y1 w1 h1 X2 Y2 w2 h2 : Int) : Prop :=
  X1 + w1 + border ≤ X2 ∨ X2 + w2 + border ≤ X1 ∨
  Y1 + h1 + border ≤ Y2 ∨ Y2 + h2 + border ≤ Y1

namespace FontAtlasManager

/-- Two entries of the glyph map with ink that name the same page are stored at
least `border` pixels apart. -/
def EntriesApart (m : FontAtlasManager) (e1 e2 : Nat × LazyGlyphProps) : Prop :=
  e1.2.tW ≠ 0 → e1.2.tH ≠ 0 → e2.2.tW ≠ 0 → e2.2.tH ≠ 0 →
  e1.2.atlasIndex = e2.2.atlasIndex →
  ∀ X1 Y1 X2 Y2 : Nat,
    Stored m e1.2 (m.glyphPixels e1.1) X1 Y1 → Stored m e2.2 (m.glyphPixels e2.1) X2 Y2 →
    RectsApart m.border X1 Y1 (m.glyphPixels e1.1).width (m.glyphPixels e1.1).height
      X2 Y2 (m.glyphPixels e2.1).width (m.glyphPixels e2.1).height

/-- Any two entries of the glyph map are apart. -/
def Apart (m : FontAtlasManager) : Prop := m.glyphs.Pairwise (EntriesApart m)

end FontAtlasManager

/-! ## Writes through an invalidated reference -/

namespace FontAtlasManager

/-- What relates a manager `m` to a later state `r` as far as writes through
an invalidated reference go: the growth policy of the vector is the same,
`danglingWrite` is never cleared, it is set only by a step that appends a page,
and a step that appends a page while `push_back` moves the storage sets it. -/
def FlagStep (m r : FontAtlasManager) : Prop :=
  r.relocates = m.relocates ∧
  (m.danglingWrite = true → r.danglingWrite = true) ∧
  (r.danglingWrite = true → m.danglingWrite = true ∨ m.atlases.length < r.atlases.length) ∧
  ((r.atlases.length = m.atlases.length ∧ r.atlasStates.length = m.atlasStates.length) ∨
    (m.atlases.length < r.atlases.length ∧
      (m.relocates m.atlasStates.length = true → r.danglingWrite = true)))

end FontAtlasManager

/-! ## Concrete fonts and platforms used to evaluate the code -/

namespace Example

/-- A bitmap of `w` x `h` pixels with coverage `a` everywhere. -/
def solid (w h a : Nat) : FT_Bitmap := ⟨w, h, w, fun _ => a⟩

/-- A face with five glyphs: `A` (65) is 10 x 50 pixels, `B` (66) is 60 x 80,
`C` (67) is 5 x 5, `W` (87) is 300 x 300 and the space (32) has no ink; every
other code point, such as the private-use U+E000, maps to glyph index 0. -/
def face : FT_Face :=
  { units_per_EM := 1000, y_ppem := 16, height := 1280, ascender := 1024, descender := -256,
    getCharIndex := fun c =>
      if c = 65 then 1 else if c = 66 then 2 else if c = 67 then 3
      else if c = 32 then 4 else if c = 87 then 5 else 0,
    loadGlyph := fun g => if g = 0 then none else some ⟨640, 640, 0, 640, 704⟩,
    renderGlyph := fun g _ =>
      if g = 1 then ⟨solid 10 50 200, 0, 50⟩
      else if g = 2 then ⟨solid 60 80 150, 0, 80⟩
      else if g = 3 then ⟨solid 5 5 100, 0, 5⟩
      else if g = 5 then ⟨solid 300 300 90, 0, 300⟩
      else ⟨solid 0 0 0, 0, 0⟩,
    hasKerning := false, getKerning := fun _ _ => 0 }

/-- A platform on which every font path resolves to `face`, with the given
`GL_MAX_TEXTURE_SIZE` and a vector that either always or never moves its
storage on `push_back`. -/
def platform (glMax : Int) (moved : Bool) : Platform :=
  { initFreeType := true, resolveFontPath := fun p => some p,
    newFace := fun _ _ _ => some face,
    glMaxTextureSize := glMax, vectorRelocates := fun _ => moved }

/-- The record of `A` on a fresh page of side 64. -/
def recordA : LazyGlyphProps :=
  { atlasIndex := 0, t1 := 1 / 64, t2 := 11 / 64, v1 := 1 / 64, v2 := 51 / 64,
    width := 10, height := 10, bearingX := 0, bearingY := 10,
    xmin := 0, xmax := 10, ymin := -50, ymax := -40, advance := 11, tW := 10, tH := 50 }

/-- The record of `W` when it is the first glyph loaded with a texture limit of
4096: the page has grown twice, to side 256. -/
def recordW : LazyGlyphProps :=
  { atlasIndex := 0, t1 := 1 / 256, t2 := 301 / 256, v1 := 3 / 256, v2 := 303 / 256,
    width := 10, height := 10, bearingX := 0, bearingY := 10,
    xmin := 0, xmax := 10, ymin := -300, ymax := -290, advance := 11, tW := 300, tH := 300 }

/-- A platform on which no font path resolves. -/
def noFonts : Platform :=
  { initFreeType := true, resolveFontPath := fun _ => none,
    newFace := fun _ _ _ => none,
    glMaxTextureSize := 4096, vectorRelocates := fun _ => true }

/-- The manager after `setup("font.ttf", 16, true, 0)` on `platform glMax moved`:
one empty page of side 64. -/
def fresh (glMax : Int) (moved : Bool) : FontAtlasManager :=
  (FontAtlasManager.setup (platform glMax moved) {} "font.ttf" 16 true 0).2

/-- The manager after `setup("font.ttf", 8192, true, 0)` with a texture limit of
32768: one empty page of side 32768. -/
def hugeFresh : FontAtlasManager :=
  (FontAtlasManager.setup (platform 32768 true) {} "font.ttf" 8192 true 0).2

/-- The manager after `setup("font.ttf", 64, true, 0)` on `platform 4096 true`:
one empty page of side 256. -/
def fresh256 : FontAtlasManager :=
  (FontAtlasManager.setup (platform 4096 true) {} "font.ttf" 64 true 0).2

/-- The record of `A` on a fresh page of side 256. -/
def recordA256 : LazyGlyphProps :=
  { atlasIndex := 0, t1 := 1 / 256, t2 := 11 / 256, v1 := 1 / 256, v2 := 51 / 256,
    width := 10, height := 10, bearingX := 0, bearingY := 10,
    xmin := 0, xmax := 10, ymin := -50, ymax := -40, advance := 11, tW := 10, tH := 50 }

/-- The record of the space, whose bitmap is empty. -/
def recordSpace : LazyGlyphProps :=
  { atlasIndex := 0, t1 := 0, t2 := 0, v1 := 0, v2 := 0,
    width := 10, height := 10, bearingX := 0, bearingY := 10,
    xmin := 0, xmax := 10, ymin := 0, ymax := 10, advance := 11, tW := 0, tH := 0 }

/-- A face with the glyph `A` (65) of 10 x 50 pixels, a rule `D` (68) of 55 x 5
pixels and a dash (U+2014) of 70 x 5 pixels, wider than a page of side 64. -/
def wideFace : FT_Face :=
  { face with
    getCharIndex := fun c =>
      if c = 65 then 1 else if c = 68 then 2 else if c = 8212 then 3 else 0,
    renderGlyph := fun g _ =>
      if g = 1 then ⟨solid 10 50 200, 0, 50⟩
      else if g = 2 then ⟨solid 55 5 100, 0, 5⟩
      else if g = 3 then ⟨solid 70 5 100, 0, 5⟩
      else ⟨solid 0 0 0, 0, 0⟩ }

/-- A platform on which every font path resolves to `wideFace`. -/
def widePlatform : Platform :=
  { initFreeType := true, resolveFontPath := fun p => some p,
    newFace := fun _ _ _ => some wideFace,
    glMaxTextureSize := 4096, vectorRelocates := fun _ => true }

/-- The manager after `setup("font.ttf", 16, true, 0)` on `widePlatform`: one
empty page of side 64. -/
def wideFresh : FontAtlasManager :=
  (FontAtlasManager.setup widePlatform {} "font.ttf" 16 true 0).2

/-- The record of the rule `D` when it is loaded after `A` on a page of side
64: it starts the second row. -/
def recordD : LazyGlyphProps :=
  { atlasIndex := 0, t1 := 1 / 64, t2 := 56 / 64, v1 := 52 / 64, v2 := 57 / 64,
    width := 10, height := 10, bearingX := 0, bearingY := 10,
    xmin := 0, xmax := 10, ymin := -5, ymax := 5, advance := 11, tW := 55, tH := 5 }

/-- The face `face` with a kerning table that moves `A` one pixel to the left
after a space (26.6 value -64 for the glyph pair 4, 1) and after another `A`. -/
def kernFace : FT_Face :=
  { face with
    hasKerning := true,
    getKerning := fun l r => if (l = 4 ∨ l = 1) ∧ r = 1 then -64 else 0 }

/-- A platform on which every font path resolves to `kernFace`. -/
def kernPlatform : Platform :=
  { initFreeType := true, resolveFontPath := fun p => some p,
    newFace := fun _ _ _ => some kernFace,
    glMaxTextureSize := 4096, vectorRelocates := fun _ => true }

/-- The shared cache after a handle has loaded `("font.ttf", 16, true)` on
`kernPlatform`. -/
def kernCache : SharedFontCache :=
  (ofxTrueTypeFontLowRAM.load kernPlatform {} {} "font.ttf" 16 true 0).2.1

/-- The handle that has loaded `("font.ttf", 16, true)` on `kernPlatform`. -/
def kernHandle : ofxTrueTypeFontLowRAM :=
  (ofxTrueTypeFontLowRAM.load kernPlatform {} {} "font.ttf" 16 true 0).2.2

/-- A callback that leaves the manager alone. -/
def observe : Nat → ℚ × ℚ → FontAtlasManager → FontAtlasManager := fun _ _ m => m

/-- The record of `C` when it is loaded after `A` on a page of side 64. -/
def recordC : LazyGlyphProps :=
  { atlasIndex := 0, t1 := 12 / 64, t2 := 17 / 64, v1 := 1 / 64, v2 := 6 / 64,
    width := 10, height := 10, bearingX := 0, bearingY := 10,
    xmin := 0, xmax := 10, ymin := -5, ymax := 5, advance := 11, tW := 5, tH := 5 }

/-- A face with five glyphs of 30 x 30 pixels, `A` to `E` (65 to 69): every
bitmap fits an empty page of side 64, and four of them fill it. -/
def squareFace : FT_Face :=
  { face with
    getCharIndex := fun c => if 65 ≤ c ∧ c ≤ 69 then c - 64 else 0,
    renderGlyph := fun g _ =>
      if 1 ≤ g ∧ g ≤ 5 then ⟨solid 30 30 200, 0, 30⟩ else ⟨solid 0 0 0, 0, 0⟩ }

/-- A platform on which every font path resolves to `squareFace`, with
`GL_MAX_TEXTURE_SIZE = 64`, so that a page of side 64 cannot grow, and a vector
that either always or never moves its storage on `push_back`. -/
def squarePlatform (moved : Bool) : Platform :=
  { initFreeType := true, resolveFontPath := fun p => some p,
    newFace := fun _ _ _ => some squareFace,
    glMaxTextureSize := 64, vectorRelocates := fun _ => moved }

/-- The manager after `setup("font.ttf", 16, true, 0)` on `squarePlatform moved`:
one empty page of side 64. -/
def squareFresh (moved : Bool) : FontAtlasManager :=
  (FontAtlasManager.setup (squarePlatform moved) {} "font.ttf" 16 true 0).2

/-- The record of `E` when it is loaded after `A`, `B`, `C` and `D` have filled
page 0: it is the first glyph of page 1. -/
def recordE : LazyGlyphProps :=
  { atlasIndex := 1, t1 := 1 / 64, t2 := 31 / 64, v1 := 1 / 64, v2 := 31 / 64,
    width := 10, height := 10, bearingX := 0, bearingY := 10,
    xmin := 0, xmax := 10, ymin := -30, ymax := -20, advance := 11, tW := 30, tH := 30 }

/-- `getOrLoadGlyph` for each code point of the list in turn. -/
def loadAll (m : FontAtlasManager) : List Nat → FontAtlasManager
  | [] => m
  | c :: cs => loadAll (FontAtlasManager.getOrLoadGlyph m c).1 cs

/-- The manager `squareFresh moved` after `A`, `B`, `C` and `D` have been
loaded: the four glyphs sit at (1, 1), (32, 1), (1, 32) and (32, 32) of page 0,
and no further glyph of 30 x 30 pixels fits on it. -/
def squareFull (moved : Bool) : FontAtlasManager :=
  loadAll (squareFresh moved) [65, 66, 67, 68]

end Example

/-! ## Lookup in association lists -/

theorem lookup_map_snd {β γ : Type} (f : β → γ) (c : Nat) (l : List (Nat × β)) :
    (l.map (fun e => (e.1, f e.2))).lookup c = (l.lookup c).map f := by
  induction l with
  | nil => rfl
  | cons e l ih =>
    obtain ⟨k, v⟩ := e
    simp only [List.map_cons, List.lookup_cons]
    cases h : (c == k) <;> simp [ih]

theorem lookup_eraseKey_ne {α β : Type} [DecidableEq α] (k k2 : α) (l : List (α × β))
    (h : k2 ≠ k) : (eraseKey k l).lookup k2 = l.lookup k2 := by
  induction l with
  | nil => rfl
  | cons e l ih =>
    obtain ⟨a, v⟩ := e
    by_cases ha : a = k
    · subst ha
      have hb : (k2 == a) = false := by simpa using h
      simp only [eraseKey, if_true, List.lookup_cons, hb, ih]
    · simp only [eraseKey, ha, if_false, List.lookup_cons, ih]

theorem lookup_eraseKey_self {α β : Type} [DecidableEq α] (k : α) (l : List (α × β)) :
    (eraseKey k l).lookup k = none := by
  induction l with
  | nil => rfl
  | cons e l ih =>
    obtain ⟨a, v⟩ := e
    by_cases ha : a = k
    · simp only [eraseKey, ha, if_true, ih]
    · have hb : (k == a) = false := by simpa using (Ne.symm ha)
      simp only [eraseKey, ha, if_false, List.lookup_cons, hb, ih]

theorem eraseKey_of_lookup_none {α β : Type} [DecidableEq α] (k : α) (l : List (α × β))
    (h : l.lookup k = none) : eraseKey k l = l := by
  induction l with
  | nil => rfl
  | cons e l ih =>
    obtain ⟨a, v⟩ := e
    by_cases ha : k = a
    · subst ha
      simp [List.lookup_cons] at h
    · have hb : (k == a) = false := by simpa using ha
      simp only [List.lookup_cons, hb] at h
      have ha2 : ¬ a = k := Ne.symm ha
      simp only [eraseKey, ha2, if_false, ih h]

theorem mem_of_mem_eraseKey {α β : Type} [DecidableEq α] (k : α) (e : α × β)
    (l : List (α × β)) (h : e ∈ eraseKey k l) : e ∈ l := by
  induction l with
  | nil => simp [eraseKey] at h
  | cons d l ih =>
    by_cases hd : d.1 = k
    · simp only [eraseKey, hd, if_true] at h
      exact List.mem_cons_of_mem _ (ih h)
    · simp only [eraseKey, hd, if_false, List.mem_cons] at h
      rcases h with h | h
      · simp [h]
      · exact List.mem_cons_of_mem _ (ih h)

theorem mem_of_lookup_eq_some {α β : Type} [DecidableEq α] (k : α) (v : β)
    (l : List (α × β)) (h : l.lookup k = some v) : (k, v) ∈ l := by
  induction l with
  | nil => simp at h
  | cons e l ih =>
    obtain ⟨a, w⟩ := e
    by_cases ha : k = a
    · subst ha
      simp [List.lookup_cons] at h
      simp [h]
    · have hb : (k == a) = false := by simpa using ha
      simp only [List.lookup_cons, hb] at h
      exact List.mem_cons_of_mem _ (ih h)

/-! ## Idempotent lookup -/

namespace FontAtlasManager

/-- C1 (as amended): when `getOrLoadGlyph(c)` returns a record, calling it again
returns a record with the same fields, leaves the manager as it is and does
not invoke `rasterizeGlyph`. -/
theorem getOrLoadGlyph_twice (m : FontAtlasManager) (c : Nat) (p : LazyGlyphProps)
    (h : (getOrLoadGlyph m c).2 = some p) :
    (getOrLoadGlyph (getOrLoadGlyph m c).1 c).2 = some p ∧
    (getOrLoadGlyph (getOrLoadGlyph m c).1 c).1.rasterizeCalls
      = (getOrLoadGlyph m c).1.rasterizeCalls ∧
    (getOrLoadGlyph (getOrLoadGlyph m c).1 c).1 = (getOrLoadGlyph m c).1 := by
  unfold getOrLoadGlyph at h ⊢
  cases hl : m.glyphs.lookup c with
  | some q =>
    simp only [hl] at h ⊢
    simpa using h
  | none =>
    simp only [hl] at h ⊢
    cases ha : addGlyphToAtlas m c with
    | mk m1 r =>
      cases r with
      | none => simp [ha] at h
      | some q =>
        simp only [ha] at h ⊢
        simp only [List.lookup_cons, beq_self_eq_true]
        simpa using h

/-- Witness of `getOrLoadGlyph_twice`: the letter `A` on a freshly set-up manager. -/
theorem getOrLoadGlyph_twice_witness :
    (getOrLoadGlyph (Example.fresh 4096 true) 65).2.isSome = true ∧
    (getOrLoadGlyph (getOrLoadGlyph (Example.fresh 4096 true) 65).1 65).2
      = (getOrLoadGlyph (Example.fresh 4096 true) 65).2 := by
  have h : (getOrLoadGlyph (Example.fresh 4096 true) 65).2.isSome = true := by
    with_unfolding_all decide
  refine ⟨h, ?_⟩
  obtain ⟨p, hp⟩ := Option.isSome_iff_exists.mp h
  rw [(getOrLoadGlyph_twice (Example.fresh 4096 true) 65 p hp).1, hp]

/-- C1 (as stated) fails: U+E000 has no glyph in the example font, the first
call returns null, and the second call invokes `rasterizeGlyph` once more. -/
theorem getOrLoadGlyph_twice_rasterizes_again :
    (getOrLoadGlyph (Example.fresh 4096 true) 57344).2 = none ∧
    (getOrLoadGlyph (Example.fresh 4096 true) 57344).1.rasterizeCalls = 1 ∧
    (getOrLoadGlyph (getOrLoadGlyph (Example.fresh 4096 true) 57344).1 57344).1.rasterizeCalls
      = 2 := by
  with_unfolding_all decide

end FontAtlasManager

/-! ## Growth keeps pixel rectangles -/

namespace FontAtlasManager

theorem rescale_coord (t : ℚ) (S : Int) :
    (t * (((2 * S : Int) : ℚ) / 2)) / ((2 * S : Int) : ℚ) * ((2 * S : Int) : ℚ) = t * (S : ℚ) := by
  by_cases hS : (S : ℚ) = 0
  · simp [hS]
  · push_cast
    field_simp

theorem expandAtlas_cases (m : FontAtlasManager) (i : Nat) :
    expandAtlas m i = (false, m) ∨
    (i < m.atlases.length ∧ (m.atlasStates.getD i default).width * 2 ≤ m.maxAtlasSize ∧
      expandAtlas m i = (true, growPage m i)) := by
  unfold expandAtlas
  by_cases h1 : i ≥ m.atlases.length
  · left; rw [if_pos h1]
  · by_cases h2 : (m.atlasStates.getD i default).width * 2 > m.maxAtlasSize
    · left; rw [if_neg h1, if_pos h2]
    · right; rw [if_neg h1, if_neg h2]
      exact ⟨by omega, by omega, rfl⟩

theorem getD_set_self {α : Type} (l : List α) (i : Nat) (a d : α) (hi : i < l.length) :
    (l.set i a).getD i d = a := by
  simp [List.getD_eq_getElem?_getD, List.getElem?_set, hi]

theorem getD_set_ne {α : Type} (l : List α) (i j : Nat) (a d : α) (hij : i ≠ j) :
    (l.set i a).getD j d = l.getD j d := by
  simp [List.getD_eq_getElem?_getD, List.getElem?_set, hij]

/-- C3: when `expandAtlas` grows the square page `i` from side `S` to `2S`, the
page state gets width and height `2S`, and every glyph record on that page is
rewritten so that `t1`, `t2` times the new width `2S` equal the old `t1`, `t2`
times the old width `S`, and `v1`, `v2` times the new height `2S` equal the old
`v1`, `v2` times the old height `S`: the pixel rectangle is the same before and
after the growth. -/
theorem expandAtlas_keeps_pixel_rect (m : FontAtlasManager) (i : Nat) (S : Int)
    (hi : i < m.atlasStates.length)
    (hw : (m.atlasStates.getD i default).width = S)
    (hh : (m.atlasStates.getD i default).height = S)
    (hok : (expandAtlas m i).1 = true) :
    ((expandAtlas m i).2.atlasStates.getD i default).width = 2 * S ∧
    ((expandAtlas m i).2.atlasStates.getD i default).height = 2 * S ∧
    ∀ c p, m.glyphs.lookup c = some p → p.atlasIndex = i →
      ∃ q, (expandAtlas m i).2.glyphs.lookup c = some q ∧
        q.t1 * ((2 * S : Int) : ℚ) = p.t1 * ((m.atlasStates.getD i default).width : ℚ) ∧
        q.t2 * ((2 * S : Int) : ℚ) = p.t2 * ((m.atlasStates.getD i default).width : ℚ) ∧
        q.v1 * ((2 * S : Int) : ℚ) = p.v1 * ((m.atlasStates.getD i default).height : ℚ) ∧
        q.v2 * ((2 * S : Int) : ℚ) = p.v2 * ((m.atlasStates.getD i default).height : ℚ) := by
  rcases expandAtlas_cases m i with hc | ⟨_, _, hc⟩
  · rw [hc] at hok; cases hok
  · rw [hc]
    have e : (m.atlasStates.getD i default).width * 2 = 2 * S := by rw [hw]; ring
    refine ⟨?_, ?_, ?_⟩
    · simp only [growPage]; rw [getD_set_self _ _ _ _ hi]; exact e
    · simp only [growPage]; rw [getD_set_self _ _ _ _ hi]; exact e
    · intro c p hp hpi
      refine ⟨rescaleGlyph i (2 * S) (2 * S) p, ?_, ?_⟩
      · simp only [growPage]
        rw [lookup_map_snd, hp, e]; rfl
      · rw [hh, hw]
        simp only [rescaleGlyph, hpi, if_true]
        exact ⟨rescale_coord _ _, rescale_coord _ _, rescale_coord _ _, rescale_coord _ _⟩

/-- Witness of `expandAtlas_keeps_pixel_rect`: the page of side 64 that holds
the letter `A` grows to 128. -/
theorem expandAtlas_keeps_pixel_rect_witness :
    (expandAtlas (Example.loadAll (Example.fresh 4096 true) [65]) 0).1 = true ∧
    ((expandAtlas (Example.loadAll (Example.fresh 4096 true) [65]) 0).2.atlasStates.getD 0
      default).width = 2 * 64 :=
  ⟨by with_unfolding_all decide,
   (expandAtlas_keeps_pixel_rect (Example.loadAll (Example.fresh 4096 true) [65]) 0 64
      (by with_unfolding_all decide) (by with_unfolding_all decide)
      (by with_unfolding_all decide) (by with_unfolding_all decide)).1⟩

end FontAtlasManager

/-! ## The shared cache: lookup and creation -/

namespace SharedFontCache

theorem getOrCreate_hit (env : Platform) (s : SharedFontCache) (key : FontCacheKey)
    (dpi : Int) (manager : Nat) (h : s.cache.lookup key = some manager) :
    getOrCreate env s key dpi = (s, some manager) := by
  simp only [getOrCreate, h]

theorem getOrCreate_miss_fail (env : Platform) (s : SharedFontCache) (key : FontCacheKey)
    (dpi : Int) (h : s.cache.lookup key = none)
    (hs : (FontAtlasManager.setup env {} key.fontPath key.fontSize key.antialiased dpi).1
      = false) :
    getOrCreate env s key dpi = (s, none) := by
  cases hc : FontAtlasManager.setup env {} key.fontPath key.fontSize key.antialiased dpi with
  | mk ok manager =>
    rw [hc] at hs
    simp only [] at hs
    subst hs
    simp [getOrCreate, h, hc]

theorem getOrCreate_miss_ok (env : Platform) (s : SharedFontCache) (key : FontCacheKey)
    (dpi : Int) (h : s.cache.lookup key = none)
    (hs : (FontAtlasManager.setup env {} key.fontPath key.fontSize key.antialiased dpi).1
      = true) :
    getOrCreate env s key dpi
      = ({ cache := (key, s.managers.length) :: s.cache,
           managers := s.managers ++
             [(FontAtlasManager.setup env {} key.fontPath key.fontSize key.antialiased dpi).2] },
         some s.managers.length) := by
  cases hc : FontAtlasManager.setup env {} key.fontPath key.fontSize key.antialiased dpi with
  | mk ok manager =>
    rw [hc] at hs
    simp only [] at hs
    subst hs
    simp [getOrCreate, h, hc, eraseKey_of_lookup_none key s.cache h]

/-- C8: when the registry holds an entry for `key`, `getOrCreate(key, dpi)`
returns that entry's manager whatever `dpi` and the platform are, and the
registry and every manager object (its stored dpi included) stay as they are. -/
theorem getOrCreate_existing (env : Platform) (s : SharedFontCache) (key : FontCacheKey)
    (dpi : Int) (manager : Nat) (h : s.cache.lookup key = some manager) :
    getOrCreate env s key dpi = (s, some manager) :=
  getOrCreate_hit env s key dpi manager h

/-- Witness of `getOrCreate_existing`: an identity registered at the default
dpi is asked for again at 300 dpi, on a platform without fonts. -/
theorem getOrCreate_existing_witness :
    getOrCreate Example.noFonts
        (getOrCreate (Example.platform 4096 true) {} ⟨"font.ttf", 16, true⟩ 0).1
        ⟨"font.ttf", 16, true⟩ 300
      = ((getOrCreate (Example.platform 4096 true) {} ⟨"font.ttf", 16, true⟩ 0).1, some 0) :=
  getOrCreate_existing Example.noFonts
    (getOrCreate (Example.platform 4096 true) {} ⟨"font.ttf", 16, true⟩ 0).1
    ⟨"font.ttf", 16, true⟩ 300 0 (by with_unfolding_all decide)

/-- C9: for an identity absent from the registry, a failed setup makes
`getOrCreate` return null with the cache exactly as before, and a successful
setup makes it return a new manager object, the one `setup` produced, with the
registry being the old one plus the single entry for `key`. -/
theorem getOrCreate_absent (env : Platform) (s : SharedFontCache) (key : FontCacheKey)
    (dpi : Int) (h : s.cache.lookup key = none) :
    ((FontAtlasManager.setup env {} key.fontPath key.fontSize key.antialiased dpi).1 = false →
      getOrCreate env s key dpi = (s, none)) ∧
    ((FontAtlasManager.setup env {} key.fontPath key.fontSize key.antialiased dpi).1 = true →
      (getOrCreate env s key dpi).2 = some s.managers.length ∧
      (getOrCreate env s key dpi).1.cache = (key, s.managers.length) :: s.cache ∧
      (getOrCreate env s key dpi).1.managers = s.managers ++
        [(FontAtlasManager.setup env {} key.fontPath key.fontSize key.antialiased dpi).2]) := by
  refine ⟨getOrCreate_miss_fail env s key dpi h, fun hs => ?_⟩
  rw [getOrCreate_miss_ok env s key dpi h hs]
  exact ⟨rfl, rfl, rfl⟩

/-- Witness of `getOrCreate_absent`: on a platform without fonts the empty
registry stays empty. -/
theorem getOrCreate_absent_witness :
    getOrCreate Example.noFonts {} ⟨"font.ttf", 16, true⟩ 0 = ({}, none) :=
  (getOrCreate_absent Example.noFonts {} ⟨"font.ttf", 16, true⟩ 0 rfl).1
    (by with_unfolding_all decide)

end SharedFontCache

/-! ## Every glyph record names an existing page -/

namespace FontAtlasManager

theorem SameConfig.refl (m : FontAtlasManager) : SameConfig m m :=
  ⟨rfl, rfl, rfl, rfl, rfl, rfl, rfl, rfl⟩

theorem SameConfig.trans {a b c : FontAtlasManager} (h1 : SameConfig a b)
    (h2 : SameConfig b c) : SameConfig a c :=
  ⟨h2.face.trans h1.face, h2.fontSize.trans h1.fontSize, h2.antialiased.trans h1.antialiased,
   h2.dpi.trans h1.dpi, h2.minAtlasSize.trans h1.minAtlasSize,
   h2.maxAtlasSize.trans h1.maxAtlasSize, h2.border.trans h1.border,
   h2.relocates.trans h1.relocates⟩

theorem rescaleGlyph_atlasIndex (i : Nat) (w h : Int) (p : LazyGlyphProps) :
    (rescaleGlyph i w h p).atlasIndex = p.atlasIndex := by
  unfold rescaleGlyph
  split <;> rfl

theorem setState_config (m : FontAtlasManager) (i : Nat) (a : AtlasState) :
    SameConfig m (m.setState i a) :=
  ⟨rfl, rfl, rfl, rfl, rfl, rfl, rfl, rfl⟩

theorem writeThrough_config (m : FontAtlasManager) (t : Option Nat) (a : AtlasState) :
    SameConfig m (m.writeThrough t a) := by
  cases t
  · exact ⟨rfl, rfl, rfl, rfl, rfl, rfl, rfl, rfl⟩
  · exact setState_config m _ a

theorem wrapAt_config (m : FontAtlasManager) (i : Nat) (w : Int) :
    SameConfig m (m.wrapAt i w) :=
  setState_config m i _

theorem createNewAtlas_config (m : FontAtlasManager) : SameConfig m (createNewAtlas m).1 :=
  ⟨rfl, rfl, rfl, rfl, rfl, rfl, rfl, rfl⟩

theorem growPage_config (m : FontAtlasManager) (i : Nat) : SameConfig m (growPage m i) :=
  ⟨rfl, rfl, rfl, rfl, rfl, rfl, rfl, rfl⟩

theorem expandAtlas_config (m : FontAtlasManager) (i : Nat) :
    SameConfig m (expandAtlas m i).2 := by
  rcases expandAtlas_cases m i with hc | ⟨_, _, hc⟩
  · rw [hc]; exact SameConfig.refl m
  · rw [hc]; exact growPage_config m i

theorem placeGlyph_config (m : FontAtlasManager) (px : ofPixels) (props : LazyGlyphProps)
    (i : Nat) (st : AtlasState) (t : Option Nat) :
    SameConfig m (placeGlyph m px props i st t).1 := by
  cases t <;> exact ⟨rfl, rfl, rfl, rfl, rfl, rfl, rfl, rfl⟩

theorem createNewAtlas_index (m : FontAtlasManager) :
    (createNewAtlas m).2 = m.atlases.length := by
  simp [createNewAtlas]

theorem createNewAtlas_atlases_length (m : FontAtlasManager) :
    (createNewAtlas m).1.atlases.length = m.atlases.length + 1 := by
  simp [createNewAtlas]

theorem placeGlyph_atlasIndex (m : FontAtlasManager) (px : ofPixels) (props : LazyGlyphProps)
    (i : Nat) (st : AtlasState) (t : Option Nat) :
    (placeGlyph m px props i st t).2.atlasIndex = i := rfl

theorem PagesOk.setState {m : FontAtlasManager} (h : PagesOk m) (i : Nat) (a : AtlasState) :
    PagesOk (m.setState i a) :=
  ⟨by simpa [FontAtlasManager.setState] using h.states, h.pixels, h.pos, h.index⟩

theorem PagesOk.writeThrough {m : FontAtlasManager} (h : PagesOk m) (t : Option Nat)
    (a : AtlasState) : PagesOk (m.writeThrough t a) := by
  cases t
  · exact ⟨h.states, h.pixels, h.pos, h.index⟩
  · exact h.setState _ a

theorem PagesOk.wrapAt {m : FontAtlasManager} (h : PagesOk m) (i : Nat) (w : Int) :
    PagesOk (m.wrapAt i w) :=
  h.setState i _

theorem PagesOk.growPage {m : FontAtlasManager} (h : PagesOk m) (i : Nat) :
    PagesOk (growPage m i) := by
  refine ⟨?_, ?_, ?_, ?_⟩
  · simpa [FontAtlasManager.growPage] using h.states
  · simpa [FontAtlasManager.growPage] using h.pixels
  · simpa [FontAtlasManager.growPage] using h.pos
  · intro e he
    simp only [FontAtlasManager.growPage, List.mem_map] at he
    obtain ⟨e0, he0, rfl⟩ := he
    simpa [FontAtlasManager.growPage, rescaleGlyph_atlasIndex] using h.index e0 he0

theorem PagesOk.createNewAtlas {m : FontAtlasManager} (h : PagesOk m) :
    PagesOk (createNewAtlas m).1 := by
  refine ⟨?_, ?_, ?_, ?_⟩
  · simpa [FontAtlasManager.createNewAtlas] using h.states
  · simpa [FontAtlasManager.createNewAtlas] using h.pixels
  · simp [FontAtlasManager.createNewAtlas]
  · intro e he
    rw [createNewAtlas_atlases_length]
    have := h.index e he
    omega

theorem PagesOk.expandAtlas {m : FontAtlasManager} (h : PagesOk m) (i : Nat) :
    PagesOk (expandAtlas m i).2 := by
  rcases expandAtlas_cases m i with hc | ⟨_, _, hc⟩
  · rw [hc]; exact h
  · rw [hc]; exact h.growPage i

theorem expandAtlas_atlases_length (m : FontAtlasManager) (i : Nat) :
    (expandAtlas m i).2.atlases.length = m.atlases.length := by
  rcases expandAtlas_cases m i with hc | ⟨_, _, hc⟩
  · rw [hc]
  · rw [hc]; simp [growPage]

theorem writeThrough_atlases (m : FontAtlasManager) (t : Option Nat) (a : AtlasState) :
    (m.writeThrough t a).atlases = m.atlases := by
  cases t <;> rfl

theorem wrapAt_atlases (m : FontAtlasManager) (i : Nat) (w : Int) :
    (m.wrapAt i w).atlases = m.atlases := rfl

theorem PagesOk.placeGlyph {m : FontAtlasManager} (h : PagesOk m) (px : ofPixels)
    (props : LazyGlyphProps) (i : Nat) (st : AtlasState) (t : Option Nat) :
    PagesOk (placeGlyph m px props i st t).1 := by
  cases t <;> refine ⟨?_, ?_, ?_, ?_⟩
  all_goals
    first
    | simpa [FontAtlasManager.placeGlyph, FontAtlasManager.writeThrough,
        FontAtlasManager.setState] using h.states
    | simpa [FontAtlasManager.placeGlyph, FontAtlasManager.writeThrough,
        FontAtlasManager.setState] using h.pixels
    | simpa [FontAtlasManager.placeGlyph, FontAtlasManager.writeThrough,
        FontAtlasManager.setState] using h.pos
    | exact fun e he => by
        simpa [FontAtlasManager.placeGlyph, FontAtlasManager.writeThrough,
          FontAtlasManager.setState] using h.index e he

theorem placeGlyph_atlases_length (m : FontAtlasManager) (px : ofPixels)
    (props : LazyGlyphProps) (i : Nat) (st : AtlasState) (t : Option Nat) :
    (placeGlyph m px props i st t).1.atlases.length = m.atlases.length := by
  cases t <;> simp [placeGlyph, writeThrough, setState]

/-- The first pass keeps the page vectors aligned and leaves `atlasIndex` at the
last page. -/
theorem fitFirstPass_pages (m : FontAtlasManager) (w h : Int) (hm : PagesOk m) :
    PagesOk (fitFirstPass m w h).1 ∧
    (fitFirstPass m w h).2 = (fitFirstPass m w h).1.atlases.length - 1 := by
  unfold fitFirstPass
  simp only []
  split
  · split
    · exact ⟨(hm.wrapAt _ _).expandAtlas _, by rw [expandAtlas_atlases_length, wrapAt_atlases]⟩
    · refine ⟨(((hm.wrapAt _ _).expandAtlas _).createNewAtlas).writeThrough _ _, ?_⟩
      rw [writeThrough_atlases, createNewAtlas_index, createNewAtlas_atlases_length]
      rfl
  · exact ⟨hm.wrapAt _ _, by rw [wrapAt_atlases]⟩

/-- The second pass keeps the page vectors aligned and returns a record that
names an existing page. -/
theorem fitSecondPass_pages (m : FontAtlasManager) (i : Nat) (px : ofPixels)
    (props : LazyGlyphProps) (hm : PagesOk m) (hi : i < m.atlases.length) :
    PagesOk (fitSecondPass m i px props).1 ∧
    (fitSecondPass m i px props).2.atlasIndex < (fitSecondPass m i px props).1.atlases.length := by
  unfold fitSecondPass
  simp only []
  split
  · split
    · refine ⟨((hm.wrapAt _ _).expandAtlas _).placeGlyph _ _ _ _ _, ?_⟩
      rw [placeGlyph_atlasIndex, placeGlyph_atlases_length, expandAtlas_atlases_length,
        wrapAt_atlases]
      exact hi
    · refine ⟨(((hm.wrapAt _ _).expandAtlas _).createNewAtlas).placeGlyph _ _ _ _ _, ?_⟩
      rw [placeGlyph_atlasIndex, placeGlyph_atlases_length, createNewAtlas_index,
        createNewAtlas_atlases_length]
      omega
  · refine ⟨(hm.wrapAt _ _).placeGlyph _ _ _ _ _, ?_⟩
    rw [placeGlyph_atlasIndex, placeGlyph_atlases_length, wrapAt_atlases]
    exact hi

theorem rasterizeGlyph_fst (m : FontAtlasManager) (c : Nat) :
    (rasterizeGlyph m c).1 = { m with rasterizeCalls := m.rasterizeCalls + 1 } := by
  unfold rasterizeGlyph
  simp only []
  split
  · rfl
  · split
    · rfl
    · split <;> rfl

theorem pagesOk_counted {m : FontAtlasManager} (h : PagesOk m) (n : Nat) :
    PagesOk { m with rasterizeCalls := n } :=
  ⟨h.states, h.pixels, h.pos, h.index⟩

theorem PagesOk.rasterizeGlyph {m : FontAtlasManager} (h : PagesOk m) (c : Nat) :
    PagesOk (rasterizeGlyph m c).1 := by
  rw [rasterizeGlyph_fst]; exact pagesOk_counted h _

theorem rasterizeGlyph_config (m : FontAtlasManager) (c : Nat) :
    SameConfig m (rasterizeGlyph m c).1 := by
  rw [rasterizeGlyph_fst]; exact ⟨rfl, rfl, rfl, rfl, rfl, rfl, rfl, rfl⟩

/-- `addGlyphToAtlas` keeps the page vectors aligned and returns a record that
names an existing page. -/
theorem addGlyphToAtlas_pages (m : FontAtlasManager) (c : Nat) (hm : PagesOk m) :
    PagesOk (addGlyphToAtlas m c).1 ∧
    ∀ p, (addGlyphToAtlas m c).2 = some p →
      p.atlasIndex < (addGlyphToAtlas m c).1.atlases.length := by
  have hr := hm.rasterizeGlyph c
  unfold addGlyphToAtlas
  split
  · rename_i m1 heq
    rw [heq] at hr
    exact ⟨hr, fun p hp => by cases hp⟩
  · rename_i m1 px props heq
    rw [heq] at hr
    simp only []
    split
    · refine ⟨hr, fun p hp => ?_⟩
      simp only [Option.some.injEq] at hp
      subst hp
      exact hr.pos
    · have h1 := fitFirstPass_pages m1 px.width px.height hr
      have h2 := fitSecondPass_pages (fitFirstPass m1 px.width px.height).1
        (fitFirstPass m1 px.width px.height).2 px props h1.1 (by
          rw [h1.2]; have := h1.1.pos; omega)
      refine ⟨h2.1, fun p hp => ?_⟩
      simp only [Option.some.injEq] at hp
      subst hp
      exact h2.2

/-- `getOrLoadGlyph` keeps the page vectors aligned and every record, old or
new, on an existing page. -/
theorem getOrLoadGlyph_pages (m : FontAtlasManager) (c : Nat) (hm : PagesOk m) :
    PagesOk (getOrLoadGlyph m c).1 := by
  unfold getOrLoadGlyph
  split
  · exact hm
  · have h := addGlyphToAtlas_pages m c hm
    split
    · rename_i m1 heq
      rw [heq] at h
      exact h.1
    · rename_i m1 props heq
      rw [heq] at h
      refine ⟨h.1.states, h.1.pixels, h.1.pos, ?_⟩
      intro e he
      simp only [List.mem_cons] at he
      rcases he with rfl | he
      · exact h.2 props rfl
      · exact h.1.index e he

/-- A successful `setup` ends with `createNewAtlas` on the configured manager
that holds the opened face. -/
theorem setup_true (env : Platform) (m : FontAtlasManager) (fontPath : String) (size : Int)
    (antialias : Bool) (dpiValue : Int)
    (h : (setup env m fontPath size antialias dpiValue).1 = true) :
    ∃ face, (setup env m fontPath size antialias dpiValue).2
      = (createNewAtlas (adoptFace (configure env m size antialias dpiValue) face)).1 := by
  unfold setup at h ⊢
  cases hi : env.initFreeType with
  | false => simp [hi] at h
  | true =>
    cases hr : env.resolveFontPath fontPath with
    | none => simp [hi, hr] at h
    | some rp =>
      cases hf : env.newFace rp (configure env m size antialias dpiValue).fontSize
          (configure env m size antialias dpiValue).dpi with
      | none => simp [hi, hr, hf] at h
      | some face => exact ⟨face, by simp [hr, hf]⟩

/-- A successful `setup` of a new manager leaves one page and no glyph. -/
theorem setup_pages (env : Platform) (fontPath : String) (size : Int) (antialias : Bool)
    (dpiValue : Int)
    (h : (setup env {} fontPath size antialias dpiValue).1 = true) :
    PagesOk (setup env {} fontPath size antialias dpiValue).2 := by
  obtain ⟨face, hf⟩ := setup_true env {} fontPath size antialias dpiValue h
  rw [hf]
  refine ⟨?_, ?_, ?_, ?_⟩ <;> simp [createNewAtlas, adoptFace, configure]

theorem Reachable.pagesOk {env : Platform} {m : FontAtlasManager} (h : Reachable env m) :
    PagesOk m := by
  induction h with
  | init fontPath size antialias dpiValue hs => exact setup_pages env _ _ _ _ hs
  | step m c _ ih => exact getOrLoadGlyph_pages m c ih

/-- Every record of a reachable state of the embedding names one of its pages,
and there is at least one page. -/
theorem reachable_atlasIndex_lt (env : Platform) (m : FontAtlasManager)
    (h : Reachable env m) :
    0 < m.getAtlasCount ∧
    ∀ c p, m.glyphs.lookup c = some p → p.atlasIndex < m.getAtlasCount := by
  refine ⟨h.pagesOk.pos, fun c p hp => ?_⟩
  exact h.pagesOk.index (c, p) (mem_of_lookup_eq_some c p m.glyphs hp)

end FontAtlasManager

/-! ## The page-creation fallback of the second height check -/

namespace FontAtlasManager

/-- C2 at a failing input (texture limit 128, font size 16, glyphs `A` 10 x 50,
`B` 60 x 80, `C` 5 x 5 loaded in this order, whether or not the vector moves
its storage): the state is reachable, `B` is put at pixel (1, 1) of the new
page 1 by the fallback of the second height check, the cursor of page 1 is not
advanced, and `C` is put at (1, 1) of page 1 as well: the rectangles of the two
records overlap. -/
theorem overlap_after_second_fallback :
    ∀ moved : Bool,
      Reachable (Example.platform 128 moved)
        (Example.loadAll (Example.fresh 128 moved) [65, 66, 67]) ∧
      ((Example.loadAll (Example.fresh 128 moved) [65, 66, 67]).glyphs.lookup 66).map
          (fun p => (p.atlasIndex, p.tW, p.tH,
            pixelRect (Example.loadAll (Example.fresh 128 moved) [65, 66, 67]) p))
        = some (1, 60, 80, ⟨1, 1, 61, 81⟩) ∧
      ((Example.loadAll (Example.fresh 128 moved) [65, 66, 67]).glyphs.lookup 67).map
          (fun p => (p.atlasIndex, p.tW, p.tH,
            pixelRect (Example.loadAll (Example.fresh 128 moved) [65, 66, 67]) p))
        = some (1, 5, 5, ⟨1, 1, 6, 6⟩) ∧
      PixelRect.overlaps ⟨1, 1, 61, 81⟩ ⟨1, 1, 6, 6⟩ ∧
      (Example.loadAll (Example.fresh 128 moved) [65, 66]).stateAt 1
        = { currentX := 1, currentY := 1, currentRowHeight := 0, width := 128, height := 128 } := by
  intro moved
  refine ⟨Reachable.step _ 67 (Reachable.step _ 66 (Reachable.step _ 65
    (Reachable.init "font.ttf" 16 true 0 ?_))), ?_⟩
  · cases moved <;> with_unfolding_all decide
  · cases moved <;> with_unfolding_all decide

end FontAtlasManager

/-! ## Placement inside the page -/

namespace FontAtlasManager

theorem stateAt_setState_self (m : FontAtlasManager) (i : Nat) (a : AtlasState)
    (hi : i < m.atlasStates.length) : (m.setState i a).stateAt i = a :=
  getD_set_self _ _ _ _ hi

theorem stateAt_setState_ne (m : FontAtlasManager) (i j : Nat) (a : AtlasState)
    (hij : i ≠ j) : (m.setState i a).stateAt j = m.stateAt j :=
  getD_set_ne _ _ _ _ _ hij

theorem stateAt_writeThrough_ne (m : FontAtlasManager) (t : Option Nat) (j : Nat)
    (a : AtlasState) (hij : ∀ i, t = some i → i ≠ j) :
    (m.writeThrough t a).stateAt j = m.stateAt j := by
  cases t with
  | none => rfl
  | some i => exact stateAt_setState_ne m i j a (hij i rfl)

theorem stateAt_growPage_self (m : FontAtlasManager) (i : Nat)
    (hi : i < m.atlasStates.length) :
    (growPage m i).stateAt i
      = { m.stateAt i with width := (m.stateAt i).width * 2,
                           height := (m.stateAt i).width * 2 } :=
  getD_set_self _ _ _ _ hi

theorem stateAt_createNewAtlas (m : FontAtlasManager) (hm : PagesOk m) :
    (createNewAtlas m).1.stateAt m.atlases.length
      = { currentX := m.border, currentY := m.border, currentRowHeight := 0,
          width := (m.stateAt (m.atlases.length - 1)).width,
          height := (m.stateAt (m.atlases.length - 1)).width } := by
  have hne : m.atlases.isEmpty = false := by
    cases h : m.atlases with
    | nil => have := hm.pos; rw [h] at this; simp at this
    | cons a l => rfl
  have hlast : m.atlasStates.getLast?.getD default = m.stateAt (m.atlases.length - 1) := by
    rw [List.getLast?_eq_getElem?, hm.states]
    simp [stateAt]
  simp only [createNewAtlas, hne, stateAt, hlast, Bool.false_eq_true, if_false]
  rw [← hm.states]
  simp [stateAt]

theorem refAfterPush_lt (m : FontAtlasManager) (i k : Nat) (h : refAfterPush m i = some k) :
    k = i := by
  unfold refAfterPush at h
  split at h
  · cases h
  · cases h; rfl

theorem wrapRow_of_fits (s : AtlasState) (w b : Int) (h : s.currentX + w + b ≤ s.width) :
    s.wrapRow w b = s := by
  unfold AtlasState.wrapRow
  rw [if_neg (by omega)]

/-- When the glyph fits at the cursor of page `i`, the second pass places it
there. -/
theorem fitSecondPass_of_fits (m : FontAtlasManager) (i : Nat) (px : ofPixels)
    (props : LazyGlyphProps) (hi : i < m.atlasStates.length)
    (hx : (m.stateAt i).currentX + px.width + m.border ≤ (m.stateAt i).width)
    (hy : (m.stateAt i).currentY + px.height + m.border ≤ (m.stateAt i).height) :
    fitSecondPass m i px props
      = placeGlyph (m.wrapAt i px.width) px props i (m.stateAt i) (some i) := by
  have hs : (m.wrapAt i px.width).stateAt i = m.stateAt i := by
    unfold wrapAt
    rw [stateAt_setState_self m i _ hi, wrapRow_of_fits _ _ _ hx]
  have hb : (m.wrapAt i px.width).border = m.border := rfl
  unfold fitSecondPass
  simp only []
  rw [hs, hb, if_neg (by omega)]

theorem stateAt_placeGlyph_self (m : FontAtlasManager) (px : ofPixels)
    (props : LazyGlyphProps) (i : Nat) (st : AtlasState) (hi : i < m.atlasStates.length) :
    (placeGlyph m px props i st (some i)).1.stateAt i
      = { st with currentX := st.currentX + px.width + m.border,
                  currentRowHeight := max st.currentRowHeight px.height } :=
  getD_set_self _ _ _ _ hi

theorem wrapRow_facts (s : AtlasState) (w b : Int) :
    (s.wrapRow w b).width = s.width ∧ (s.wrapRow w b).height = s.height ∧
    ((s.wrapRow w b = s ∧ s.currentX + w + b ≤ s.width) ∨
     ((s.wrapRow w b).currentX = b ∧
      (s.wrapRow w b).currentY = s.currentY + s.currentRowHeight + b ∧
      (s.wrapRow w b).currentRowHeight = 0)) := by
  unfold AtlasState.wrapRow
  by_cases h : s.currentX + w + b > s.width
  · rw [if_pos h]
    exact ⟨rfl, rfl, Or.inr ⟨rfl, rfl, rfl⟩⟩
  · rw [if_neg h]
    exact ⟨rfl, rfl, Or.inl ⟨rfl, by omega⟩⟩

theorem expandAtlas_snd_of_false (m : FontAtlasManager) (i : Nat)
    (h : ¬ (expandAtlas m i).1 = true) : (expandAtlas m i).2 = m := by
  rcases expandAtlas_cases m i with hc | ⟨_, _, hc⟩
  · rw [hc]
  · rw [hc] at h; exact absurd rfl h

theorem expandAtlas_snd_of_true (m : FontAtlasManager) (i : Nat)
    (h : (expandAtlas m i).1 = true) : (expandAtlas m i).2 = growPage m i := by
  rcases expandAtlas_cases m i with hc | ⟨_, _, hc⟩
  · rw [hc] at h; cases h
  · rw [hc]

/-- When the cursor of the last page is in order and the glyph fits an empty
page of the minimum size, the first pass leaves `atlasIndex` at a page that is
ready to take the glyph at its cursor. -/
theorem fitFirstPass_ready (m : FontAtlasManager) (w h : Int) (hm : PagesOk m)
    (hc : CursorOk m) (hw : 0 ≤ w) (hh : 0 ≤ h)
    (fw : w + 2 * m.border ≤ m.minAtlasSize) (fh : h + 2 * m.border ≤ m.minAtlasSize) :
    ((fitFirstPass m w h).1.stateAt (fitFirstPass m w h).2).Ready
      m.border m.minAtlasSize w h := by
  have hL : m.atlases.length - 1 < m.atlasStates.length := by
    have := hm.pos; have := hm.states; omega
  have hs1 : (m.wrapAt (m.atlases.length - 1) w).stateAt (m.atlases.length - 1)
      = (m.stateAt (m.atlases.length - 1)).wrapRow w m.border :=
    stateAt_setState_self m _ _ hL
  have hb1 : (m.wrapAt (m.atlases.length - 1) w).border = m.border := rfl
  have hm1 : PagesOk (m.wrapAt (m.atlases.length - 1) w) := hm.wrapAt _ _
  have hL1 : m.atlases.length - 1 < (m.wrapAt (m.atlases.length - 1) w).atlasStates.length := by
    rw [hm1.states, wrapAt_atlases]; have := hm.pos; omega
  obtain ⟨fW, fH, fcase⟩ := wrapRow_facts (m.stateAt (m.atlases.length - 1)) w m.border
  have hcb := hc.border
  have hcx := hc.x
  have hcy := hc.y
  have hcr := hc.row
  have hcf := hc.fitsRow
  have hcs := hc.square
  have hcg := hc.big
  unfold fitFirstPass
  simp only []
  rw [hs1, hb1]
  generalize hst : (m.stateAt (m.atlases.length - 1)).wrapRow w m.border = s1 at *
  split
  · rename_i hov
    split
    · rename_i hex
      rw [expandAtlas_snd_of_true _ _ hex]
      simp only []
      rw [stateAt_growPage_self _ _ hL1, hs1]
      rcases fcase with ⟨e, hfx⟩ | ⟨e1, e2, e3⟩
      · subst e
        constructor <;> simp only [] <;> omega
      · constructor <;> simp only [] <;> omega
    · rename_i hex
      rw [expandAtlas_snd_of_false _ _ hex]
      simp only []
      rw [createNewAtlas_index, stateAt_writeThrough_ne, wrapAt_atlases]
      · have hnew := stateAt_createNewAtlas _ hm1
        rw [wrapAt_atlases] at hnew
        rw [hnew]; simp only [hs1, hb1]
        rcases fcase with ⟨e, hfx⟩ | ⟨e1, e2, e3⟩
        · subst e
          constructor <;> simp only [] <;> omega
        · constructor <;> simp only [] <;> omega
      · intro k hk
        have := refAfterPush_lt _ _ _ hk
        rw [wrapAt_atlases]
        have := hm.pos
        omega
  · rename_i hov
    simp only []
    rw [hs1]
    rcases fcase with ⟨e, hfx⟩ | ⟨e1, e2, e3⟩
    · subst e
      constructor <;> omega
    · constructor <;> omega

theorem fitFirstPass_config (m : FontAtlasManager) (w h : Int) :
    SameConfig m (fitFirstPass m w h).1 := by
  unfold fitFirstPass
  simp only []
  split
  · split
    · exact (wrapAt_config m _ _).trans (expandAtlas_config _ _)
    · exact (((wrapAt_config m _ _).trans (expandAtlas_config _ _)).trans
        (createNewAtlas_config _)).trans (writeThrough_config _ _ _)
  · exact wrapAt_config m _ _

theorem fitSecondPass_config (m : FontAtlasManager) (i : Nat) (px : ofPixels)
    (props : LazyGlyphProps) : SameConfig m (fitSecondPass m i px props).1 := by
  unfold fitSecondPass
  simp only []
  split
  · split
    · exact ((wrapAt_config m _ _).trans (expandAtlas_config _ _)).trans
        (placeGlyph_config _ _ _ _ _ _)
    · exact (((wrapAt_config m _ _).trans (expandAtlas_config _ _)).trans
        (createNewAtlas_config _)).trans (placeGlyph_config _ _ _ _ _ _)
  · exact (wrapAt_config m _ _).trans (placeGlyph_config _ _ _ _ _ _)

/-- The three outcomes of `addGlyphToAtlas`: rasterization fails; the glyph has
no ink and is not packed; the glyph is packed by the two passes. -/
theorem addGlyphToAtlas_cases (m : FontAtlasManager) (c : Nat) :
    ((rasterizeGlyph m c).2 = none ∧
      addGlyphToAtlas m c = ((rasterizeGlyph m c).1, none)) ∨
    (∃ px props, (rasterizeGlyph m c).2 = some (px, props) ∧
      (px.width = 0 ∨ px.height = 0) ∧
      addGlyphToAtlas m c = ((rasterizeGlyph m c).1,
        some { props with atlasIndex := 0, t1 := 0, t2 := 0, v1 := 0, v2 := 0 })) ∨
    (∃ px props, (rasterizeGlyph m c).2 = some (px, props) ∧
      px.width ≠ 0 ∧ px.height ≠ 0 ∧
      addGlyphToAtlas m c =
        ((fitSecondPass (fitFirstPass (rasterizeGlyph m c).1 px.width px.height).1
            (fitFirstPass (rasterizeGlyph m c).1 px.width px.height).2 px props).1,
         some (fitSecondPass (fitFirstPass (rasterizeGlyph m c).1 px.width px.height).1
            (fitFirstPass (rasterizeGlyph m c).1 px.width px.height).2 px props).2)) := by
  unfold addGlyphToAtlas
  cases hr : rasterizeGlyph m c with
  | mk m1 res =>
    cases res with
    | none => left; exact ⟨rfl, rfl⟩
    | some pr =>
      obtain ⟨px, props⟩ := pr
      simp only []
      by_cases hz : ((px.width : Int) = 0 ∨ (px.height : Int) = 0)
      · right; left
        refine ⟨px, props, rfl, ?_, ?_⟩
        · rcases hz with hz | hz
          · left; exact_mod_cast hz
          · right; exact_mod_cast hz
        · rw [if_pos hz]
      · right; right
        refine ⟨px, props, rfl, ?_, ?_, ?_⟩
        · intro h0; exact hz (Or.inl (by exact_mod_cast h0))
        · intro h0; exact hz (Or.inr (by exact_mod_cast h0))
        · rw [if_neg hz]

theorem addGlyphToAtlas_config (m : FontAtlasManager) (c : Nat) :
    SameConfig m (addGlyphToAtlas m c).1 := by
  rcases addGlyphToAtlas_cases m c with ⟨_, h⟩ | ⟨px, props, _, _, h⟩ | ⟨px, props, _, _, _, h⟩
  · rw [h]; exact rasterizeGlyph_config m c
  · rw [h]; exact rasterizeGlyph_config m c
  · rw [h]
    exact ((rasterizeGlyph_config m c).trans (fitFirstPass_config _ _ _)).trans
      (fitSecondPass_config _ _ _ _)

theorem getOrLoadGlyph_config (m : FontAtlasManager) (c : Nat) :
    SameConfig m (getOrLoadGlyph m c).1 := by
  unfold getOrLoadGlyph
  split
  · exact SameConfig.refl m
  · have h := addGlyphToAtlas_config m c
    split
    · rename_i m1 heq; rw [heq] at h; exact h
    · rename_i m1 props heq; rw [heq] at h
      exact ⟨h.face, h.fontSize, h.antialiased, h.dpi, h.minAtlasSize, h.maxAtlasSize,
        h.border, h.relocates⟩

/-- What a successful `rasterizeGlyph` returns: the pixels of the bitmap the
face renders for some glyph index, and a record whose `tW`, `tH` are the sides
of that bitmap. -/
theorem rasterizeGlyph_some (m : FontAtlasManager) (c : Nat) (px : ofPixels)
    (props : LazyGlyphProps) (h : (rasterizeGlyph m c).2 = some (px, props)) :
    ∃ face g, m.face = some face ∧
      px = bitmapPixels m.antialiased (face.renderGlyph g m.antialiased).bitmap ∧
      props.tW = ((face.renderGlyph g m.antialiased).bitmap.width : ℚ) ∧
      props.tH = ((face.renderGlyph g m.antialiased).bitmap.rows : ℚ) := by
  unfold rasterizeGlyph at h
  simp only [] at h
  cases hf : m.face with
  | none => rw [hf] at h; simp at h
  | some face =>
    rw [hf] at h
    simp only [] at h
    by_cases hg : face.getCharIndex c = 0
    · rw [if_pos hg] at h; simp at h
    · rw [if_neg hg] at h
      cases hl : face.loadGlyph (face.getCharIndex c) with
      | none => rw [hl] at h; simp at h
      | some metrics =>
        rw [hl] at h
        simp only [Option.some.injEq, Prod.mk.injEq] at h
        obtain ⟨h1, h2⟩ := h
        exact ⟨face, face.getCharIndex c, rfl, h1.symm, by rw [← h2], by rw [← h2]⟩

theorem bitmapPixels_size (aa : Bool) (b : FT_Bitmap) :
    ((bitmapPixels aa b).width = 0 ∧ (bitmapPixels aa b).height = 0 ∧
      (b.width = 0 ∨ b.rows = 0)) ∨
    ((bitmapPixels aa b).width = b.width ∧ (bitmapPixels aa b).height = b.rows ∧
      b.width ≠ 0 ∧ b.rows ≠ 0) := by
  unfold bitmapPixels
  simp only []
  by_cases hz : ((b.width : Int) = 0 ∨ (b.rows : Int) = 0)
  · left
    rw [if_pos hz]
    refine ⟨rfl, rfl, ?_⟩
    rcases hz with hz | hz
    · left; exact_mod_cast hz
    · right; exact_mod_cast hz
  · right
    rw [if_neg hz]
    refine ⟨rfl, rfl, ?_, ?_⟩
    · intro h0; exact hz (Or.inl (by exact_mod_cast h0))
    · intro h0; exact hz (Or.inr (by exact_mod_cast h0))

/-- The two passes on a manager whose last cursor is in order, for a glyph that
fits an empty page of the minimum size: the glyph goes to the cursor `s` of the
last page, which was ready for it, and that page's cursor is advanced. -/
theorem pack_of_fits (m : FontAtlasManager) (px : ofPixels) (props : LazyGlyphProps)
    (hm : PagesOk m) (hc : CursorOk m)
    (fw : (px.width : Int) + 2 * m.border ≤ m.minAtlasSize)
    (fh : (px.height : Int) + 2 * m.border ≤ m.minAtlasSize) :
    ∃ s : AtlasState, s.Ready m.border m.minAtlasSize px.width px.height ∧
      (fitSecondPass (fitFirstPass m px.width px.height).1
          (fitFirstPass m px.width px.height).2 px props)
        = placeGlyph ((fitFirstPass m px.width px.height).1.wrapAt
            (fitFirstPass m px.width px.height).2 px.width) px props
            (fitFirstPass m px.width px.height).2 s
            (some (fitFirstPass m px.width px.height).2) ∧
      (fitFirstPass m px.width px.height).2
        = (fitSecondPass (fitFirstPass m px.width px.height).1
            (fitFirstPass m px.width px.height).2 px props).1.atlases.length - 1 ∧
      (fitSecondPass (fitFirstPass m px.width px.height).1
          (fitFirstPass m px.width px.height).2 px props).1.stateAt
          (fitFirstPass m px.width px.height).2
        = { s with currentX := s.currentX + px.width + m.border,
                   currentRowHeight := max s.currentRowHeight px.height } ∧
      s = (fitFirstPass m px.width px.height).1.stateAt (fitFirstPass m px.width px.height).2 := by
  have hready := fitFirstPass_ready m px.width px.height hm hc (by omega) (by omega) fw fh
  obtain ⟨hp1, hidx⟩ := fitFirstPass_pages m px.width px.height hm
  have hcfg := fitFirstPass_config m px.width px.height
  generalize fitFirstPass m px.width px.height = r at *
  have hi : r.2 < r.1.atlasStates.length := by
    rw [hp1.states, hidx]; have := hp1.pos; omega
  have hq := fitSecondPass_of_fits r.1 r.2 px props hi
    (by rw [hcfg.border]; exact hready.fitsX) (by rw [hcfg.border]; exact hready.fitsY)
  refine ⟨r.1.stateAt r.2, hready, hq, ?_, ?_, rfl⟩
  · rw [hq, placeGlyph_atlases_length, wrapAt_atlases]; exact hidx
  · rw [hq]
    have hi2 : r.2 < (r.1.wrapAt r.2 px.width).atlasStates.length := by
      rw [(hp1.wrapAt _ _).states, wrapAt_atlases, ← hp1.states]; exact hi
    rw [stateAt_placeGlyph_self _ _ _ _ _ hi2]
    have : (r.1.wrapAt r.2 px.width).border = m.border := hcfg.border
    rw [this]

/-- A bitmap with ink that fits as a rasterized buffer fits as a bitmap of the
font engine: the buffer has the sides of the bitmap. -/
theorem bitmap_of_bitmapFits {m : FontAtlasManager} {c : Nat} (hfit : BitmapFits m c)
    {px : ofPixels} {props : LazyGlyphProps} (hr : (rasterizeGlyph m c).2 = some (px, props))
    (face : FT_Face) (g : Nat)
    (hpx : px = bitmapPixels m.antialiased (face.renderGlyph g m.antialiased).bitmap)
    (hw : px.width ≠ 0) :
    ((face.renderGlyph g m.antialiased).bitmap.width : Int) + 2 * m.border ≤ m.minAtlasSize ∧
    ((face.renderGlyph g m.antialiased).bitmap.rows : Int) + 2 * m.border ≤ m.minAtlasSize := by
  obtain ⟨fw, fh⟩ := hfit px props hr
  have hsz := bitmapPixels_size m.antialiased (face.renderGlyph g m.antialiased).bitmap
  rw [← hpx] at hsz
  rcases hsz with ⟨h0, _, _⟩ | ⟨h1, h2, _, _⟩
  · exact absurd h0 hw
  · rw [← h1, ← h2]; exact ⟨fw, fh⟩

/-- When every bitmap of the font fits the minimum page, so does the one
rasterized for any code point. -/
theorem bitmapFits_of_glyphsFit {m : FontAtlasManager} (hfit : GlyphsFit m) (c : Nat) :
    BitmapFits m c := by
  intro px props hr
  obtain ⟨face, g, hface, hpx, _, _⟩ := rasterizeGlyph_some m c px props hr
  obtain ⟨fitW, fitH⟩ := hfit face hface g
  have hsz := bitmapPixels_size m.antialiased (face.renderGlyph g m.antialiased).bitmap
  rw [← hpx] at hsz
  rcases hsz with ⟨h0, h1, _⟩ | ⟨h1, h2, _, _⟩
  · rw [h0, h1]
    constructor <;> omega
  · rw [h1, h2]; exact ⟨fitW, fitH⟩

theorem cursorOk_counted {m : FontAtlasManager} (h : CursorOk m) (n : Nat) :
    CursorOk { m with rasterizeCalls := n } :=
  ⟨h.border, h.x, h.y, h.row, h.fitsRow, h.square, h.big⟩

/-- `addGlyphToAtlas` keeps the cursor of the last page in order when all
glyphs fit the minimum page. -/
theorem addGlyphToAtlas_cursor (m : FontAtlasManager) (c : Nat) (hm : PagesOk m)
    (hc : CursorOk m) (hfit : BitmapFits m c) : CursorOk (addGlyphToAtlas m c).1 := by
  have hc1 : CursorOk (rasterizeGlyph m c).1 := by
    rw [rasterizeGlyph_fst]; exact cursorOk_counted hc _
  have hm1 : PagesOk (rasterizeGlyph m c).1 := hm.rasterizeGlyph c
  rcases addGlyphToAtlas_cases m c with ⟨_, h⟩ | ⟨px, props, _, _, h⟩ | ⟨px, props, hr, hw, hh, h⟩
  · rw [h]; exact hc1
  · rw [h]; exact hc1
  · rw [h]
    obtain ⟨face, g, hface, hpx, _, _⟩ := rasterizeGlyph_some m c px props hr
    have hcfg := rasterizeGlyph_config m c
    obtain ⟨fitW, fitH⟩ := bitmap_of_bitmapFits hfit hr face g hpx hw
    have hsz := bitmapPixels_size m.antialiased (face.renderGlyph g m.antialiased).bitmap
    rw [← hpx] at hsz
    have fw : (px.width : Int) + 2 * (rasterizeGlyph m c).1.border
        ≤ (rasterizeGlyph m c).1.minAtlasSize := by
      rw [hcfg.border, hcfg.minAtlasSize]
      rcases hsz with ⟨h0, _, _⟩ | ⟨h1, _, _, _⟩
      · exact absurd h0 hw
      · rw [h1]; exact fitW
    have fh : (px.height : Int) + 2 * (rasterizeGlyph m c).1.border
        ≤ (rasterizeGlyph m c).1.minAtlasSize := by
      rw [hcfg.border, hcfg.minAtlasSize]
      rcases hsz with ⟨h0, _, _⟩ | ⟨_, h1, _, _⟩
      · exact absurd h0 hw
      · rw [h1]; exact fitH
    obtain ⟨s, hs, hq, hidx, hst, _⟩ := pack_of_fits (rasterizeGlyph m c).1 px props hm1 hc1 fw fh
    have hcfg2 := (fitFirstPass_config (rasterizeGlyph m c).1 px.width px.height).trans
      (fitSecondPass_config (fitFirstPass (rasterizeGlyph m c).1 px.width px.height).1
        (fitFirstPass (rasterizeGlyph m c).1 px.width px.height).2 px props)
    have hb := hc1.border
    have hx := hs.x
    have hy := hs.y
    have hrow := hs.row
    have hfx := hs.fitsX
    have hfy := hs.fitsY
    have hfr := hs.fitsRow
    have hsq := hs.square
    have hbig := hs.big
    have hpw : (0 : Int) ≤ px.width := by omega
    have hph : (0 : Int) ≤ px.height := by omega
    constructor
    all_goals simp only [← hidx, hst, hcfg2.border, hcfg2.minAtlasSize]
    all_goals omega

theorem GlyphsFit.of_config {m m1 : FontAtlasManager} (h : SameConfig m m1) :
    GlyphsFit m1 ↔ GlyphsFit m := by
  unfold GlyphsFit
  rw [h.face, h.antialiased, h.border, h.minAtlasSize]

theorem getOrLoadGlyph_cursor (m : FontAtlasManager) (c : Nat) (hm : PagesOk m)
    (hc : CursorOk m) (hfit : BitmapFits m c) : CursorOk (getOrLoadGlyph m c).1 := by
  unfold getOrLoadGlyph
  split
  · exact hc
  · have h := addGlyphToAtlas_cursor m c hm hc hfit
    split
    · rename_i m1 heq; rw [heq] at h; exact h
    · rename_i m1 props heq; rw [heq] at h
      exact ⟨h.border, h.x, h.y, h.row, h.fitsRow, h.square, h.big⟩

theorem doubleUntil_ge (fuel : Nat) (s t : Int) (hs : 0 ≤ s) : s ≤ doubleUntil fuel s t := by
  induction fuel generalizing s with
  | zero => exact le_refl s
  | succ n ih =>
    unfold doubleUntil
    split
    · have := ih (s * 2) (by omega)
      omega
    · exact le_refl s

/-- After a successful `setup` of a new manager the cursor of the only page is
at `(border, border)` of a square page of the minimum size. -/
theorem setup_cursor (env : Platform) (fontPath : String) (size : Int) (antialias : Bool)
    (dpiValue : Int)
    (h : (setup env {} fontPath size antialias dpiValue).1 = true) :
    CursorOk (setup env {} fontPath size antialias dpiValue).2 := by
  obtain ⟨face, hf⟩ := setup_true env {} fontPath size antialias dpiValue h
  rw [hf]
  have hge := doubleUntil_ge 32 64 (max 64 (size * 4)) (by omega)
  constructor
  all_goals simp [createNewAtlas, adoptFace, configure, stateAt]
  all_goals omega

theorem Reachable.config {env : Platform} {m : FontAtlasManager} (h : Reachable env m) :
    m.border = 1 ∧ 64 ≤ m.minAtlasSize := by
  induction h with
  | init fontPath size antialias dpiValue hs =>
    obtain ⟨face, hf⟩ := setup_true env {} fontPath size antialias dpiValue hs
    rw [hf]
    have hge := doubleUntil_ge 32 64 (max 64 (size * 4)) (by omega)
    exact ⟨rfl, hge⟩
  | step m c _ ih =>
    have hcfg := getOrLoadGlyph_config m c
    rw [hcfg.border, hcfg.minAtlasSize]
    exact ih

theorem Reachable.cursorOk {env : Platform} {m : FontAtlasManager} (h : Reachable env m)
    (hfit : GlyphsFit m) : CursorOk m := by
  induction h with
  | init fontPath size antialias dpiValue hs => exact setup_cursor env _ _ _ _ hs
  | step m c hr ih =>
    have hfit0 : GlyphsFit m := (GlyphsFit.of_config (getOrLoadGlyph_config m c)).mp hfit
    exact getOrLoadGlyph_cursor m c hr.pagesOk (ih hfit0) (bitmapFits_of_glyphsFit hfit0 c)

theorem insidePage_of_ready (s st : AtlasState) (b minSize w h : Int) (p : LazyGlyphProps)
    (hs : s.Ready b minSize w h) (hb : 0 ≤ b) (hw : 0 < w) (hh : 0 < h)
    (hmin : w + 2 * b ≤ minSize)
    (hW : st.width = s.width) (hH : st.height = s.height)
    (e1 : p.t1 = (s.currentX : ℚ) / (s.width : ℚ))
    (e2 : p.v1 = (s.currentY : ℚ) / (s.height : ℚ))
    (e3 : p.t2 = ((s.currentX + w : Int) : ℚ) / (s.width : ℚ))
    (e4 : p.v2 = ((s.currentY + h : Int) : ℚ) / (s.height : ℚ))
    (e5 : p.tW = (w : ℚ)) (e6 : p.tH = (h : ℚ)) :
    p.InsidePage st b := by
  have hx := hs.x
  have hy := hs.y
  have hfx := hs.fitsX
  have hfy := hs.fitsY
  have hsq := hs.square
  have hbig := hs.big
  have hWpos : (0 : ℚ) < (s.width : ℚ) := by
    have : (0 : Int) < s.width := by omega
    exact_mod_cast this
  have hHpos : (0 : ℚ) < (s.height : ℚ) := by
    have : (0 : Int) < s.height := by omega
    exact_mod_cast this
  refine ⟨s.currentX, s.currentY, ?_, ?_, ?_, ?_, hx, hy, ?_, ?_, ?_, ?_, ?_, ?_, ?_, ?_⟩
  · rw [e1, hW]; field_simp
  · rw [e2, hH]; field_simp
  · rw [e3, e5, hW]; push_cast; field_simp
  · rw [e4, e6, hH]; push_cast; field_simp
  · rw [e5, hW]; exact_mod_cast hfx
  · rw [e6, hH]; exact_mod_cast hfy
  · rw [e1]; apply div_nonneg
    · have : (0 : Int) ≤ s.currentX := by omega
      exact_mod_cast this
    · exact le_of_lt hWpos
  · rw [e1, e3]
    apply div_le_div_of_nonneg_right _ (le_of_lt hWpos)
    have : s.currentX ≤ s.currentX + w := by omega
    exact_mod_cast this
  · rw [e3, div_le_one hWpos]
    have : s.currentX + w ≤ s.width := by omega
    exact_mod_cast this
  · rw [e2]; apply div_nonneg
    · have : (0 : Int) ≤ s.currentY := by omega
      exact_mod_cast this
    · exact le_of_lt hHpos
  · rw [e2, e4]
    apply div_le_div_of_nonneg_right _ (le_of_lt hHpos)
    have : s.currentY ≤ s.currentY + h := by omega
    exact_mod_cast this
  · rw [e4, div_le_one hHpos]
    have : s.currentY + h ≤ s.height := by omega
    exact_mod_cast this

/-- A glyph with ink that `addGlyphToAtlas` packs lies inside the page it is
put on, when the cursor is in order and all glyphs fit the minimum page. -/
theorem addGlyphToAtlas_inside (m : FontAtlasManager) (c : Nat) (p : LazyGlyphProps)
    (hm : PagesOk m) (hc : CursorOk m) (hfit : BitmapFits m c)
    (hp : (addGlyphToAtlas m c).2 = some p) (hw : p.tW ≠ 0) (hh : p.tH ≠ 0) :
    p.InsidePage ((addGlyphToAtlas m c).1.stateAt p.atlasIndex) m.border ∧
    p.atlasIndex = (addGlyphToAtlas m c).1.atlases.length - 1 := by
  have hc1 : CursorOk (rasterizeGlyph m c).1 := by
    rw [rasterizeGlyph_fst]; exact cursorOk_counted hc _
  have hm1 : PagesOk (rasterizeGlyph m c).1 := hm.rasterizeGlyph c
  have hcfg := rasterizeGlyph_config m c
  rcases addGlyphToAtlas_cases m c with ⟨_, h⟩ | ⟨px, props, hr, hz, h⟩ |
    ⟨px, props, hr, hpw, hph, h⟩
  · rw [h] at hp; cases hp
  · exfalso
    rw [h] at hp
    simp only [Option.some.injEq] at hp
    obtain ⟨face, g, hface, hpx, htW, htH⟩ := rasterizeGlyph_some m c px props hr
    have hsz := bitmapPixels_size m.antialiased (face.renderGlyph g m.antialiased).bitmap
    rw [← hpx] at hsz
    have e5 : p.tW = props.tW := by rw [← hp]
    have e6 : p.tH = props.tH := by rw [← hp]
    rcases hsz with ⟨_, _, h0 | h0⟩ | ⟨h1, h2, _, _⟩
    · apply hw; rw [e5, htW, h0]; rfl
    · apply hh; rw [e6, htH, h0]; rfl
    · rcases hz with hz | hz
      · apply hw; rw [e5, htW, ← h1, hz]; rfl
      · apply hh; rw [e6, htH, ← h2, hz]; rfl
  · rw [h] at hp ⊢
    simp only [Option.some.injEq] at hp
    obtain ⟨face, g, hface, hpx, htW, htH⟩ := rasterizeGlyph_some m c px props hr
    obtain ⟨fitW, fitH⟩ := bitmap_of_bitmapFits hfit hr face g hpx hpw
    have hsz := bitmapPixels_size m.antialiased (face.renderGlyph g m.antialiased).bitmap
    rw [← hpx] at hsz
    obtain ⟨h1, h2⟩ : px.width = (face.renderGlyph g m.antialiased).bitmap.width ∧
        px.height = (face.renderGlyph g m.antialiased).bitmap.rows := by
      rcases hsz with ⟨h0, _, _⟩ | ⟨h1, h2, _, _⟩
      · exact absurd h0 hpw
      · exact ⟨h1, h2⟩
    have fw : (px.width : Int) + 2 * (rasterizeGlyph m c).1.border
        ≤ (rasterizeGlyph m c).1.minAtlasSize := by
      rw [hcfg.border, hcfg.minAtlasSize, h1]; exact fitW
    have fh : (px.height : Int) + 2 * (rasterizeGlyph m c).1.border
        ≤ (rasterizeGlyph m c).1.minAtlasSize := by
      rw [hcfg.border, hcfg.minAtlasSize, h2]; exact fitH
    obtain ⟨s, hs, hq, hidx, hst, _⟩ := pack_of_fits (rasterizeGlyph m c).1 px props hm1 hc1 fw fh
    have hpi : p.atlasIndex = (fitFirstPass (rasterizeGlyph m c).1 px.width px.height).2 := by
      rw [← hp, hq]; rfl
    refine ⟨?_, by rw [hpi]; exact hidx⟩
    simp only []
    rw [hpi, hst]
    rw [hcfg.border, hcfg.minAtlasSize] at hs
    rw [hcfg.border, hcfg.minAtlasSize] at fw
    have hb : 0 ≤ m.border := hc.border
    refine insidePage_of_ready s _ m.border m.minAtlasSize px.width px.height p hs hb
      (by omega) (by omega) fw rfl rfl ?_ ?_ ?_ ?_ ?_ ?_
    · rw [← hp, hq]; rfl
    · rw [← hp, hq]; rfl
    · rw [← hp, hq]; rfl
    · rw [← hp, hq]; rfl
    · rw [← hp, hq]
      show props.tW = _
      rw [htW, h1]; rfl
    · rw [← hp, hq]
      show props.tH = _
      rw [htH, h2]; rfl

/-- A glyph with ink that `getOrLoadGlyph` packs lies on the last page, inside
its bounds, when the cursor is in order and the bitmap fits the minimum
page. -/
theorem packed_inside_of_cursor (m : FontAtlasManager) (c : Nat)
    (p : LazyGlyphProps) (hm : PagesOk m) (hc : CursorOk m) (hfit : BitmapFits m c)
    (hnew : m.glyphs.lookup c = none)
    (hp : (getOrLoadGlyph m c).2 = some p) (hw : p.tW ≠ 0) (hh : p.tH ≠ 0) :
    p.InsidePage ((getOrLoadGlyph m c).1.stateAt p.atlasIndex) m.border ∧
    p.atlasIndex = (getOrLoadGlyph m c).1.getAtlasCount - 1 := by
  have hadd : ∀ q, (addGlyphToAtlas m c).2 = some q →
      getOrLoadGlyph m c
        = ({ (addGlyphToAtlas m c).1 with glyphs := (c, q) :: (addGlyphToAtlas m c).1.glyphs },
           some q) := by
    intro q hq
    unfold getOrLoadGlyph
    rw [hnew]
    simp only []
    cases ha : addGlyphToAtlas m c with
    | mk m1 res =>
      rw [ha] at hq
      simp only [] at hq
      subst hq
      rfl
  have hsome : (addGlyphToAtlas m c).2 = some p := by
    unfold getOrLoadGlyph at hp
    rw [hnew] at hp
    simp only [] at hp
    cases ha : addGlyphToAtlas m c with
    | mk m1 res =>
      rw [ha] at hp
      cases res with
      | none => simp at hp
      | some q => simpa using hp
  have h := addGlyphToAtlas_inside m c p hm hc hfit hsome hw hh
  rw [hadd p hsome]
  exact h

/-- C5 (as stated) fails: with a texture limit of 4096 and a minimum page of 64
the 300 x 300 glyph `W`, loaded first, is put at pixel (1, 3) of page 0 after
the page has grown twice, to side 256: `x + w + border = 302 > 256` and
`t2 = 301/256 > 1`. -/
theorem oversized_glyph_outside_page :
    Reachable (Example.platform 4096 true) (Example.fresh 4096 true) ∧
    (Example.fresh 4096 true).glyphs.lookup 87 = none ∧
    (getOrLoadGlyph (Example.fresh 4096 true) 87).2 = some Example.recordW ∧
    (getOrLoadGlyph (Example.fresh 4096 true) 87).1.stateAt 0
      = { currentX := 302, currentY := 3, currentRowHeight := 300, width := 256, height := 256 } ∧
    pixelRect (getOrLoadGlyph (Example.fresh 4096 true) 87).1 Example.recordW
      = ⟨1, 3, 301, 303⟩ ∧
    ¬ Example.recordW.InsidePage
        ((getOrLoadGlyph (Example.fresh 4096 true) 87).1.stateAt Example.recordW.atlasIndex) 1 := by
  refine ⟨Reachable.init "font.ttf" 16 true 0 (by with_unfolding_all decide),
    by with_unfolding_all decide, by with_unfolding_all decide, by with_unfolding_all decide,
    by with_unfolding_all decide, ?_⟩
  rintro ⟨x, y, _, _, _, _, _, _, _, _, _, _, h, _⟩
  have e : Example.recordW.t2 = 301 / 256 := rfl
  rw [e] at h
  norm_num at h

end FontAtlasManager

/-! ## Sharing and independence of managers -/

namespace FontAtlasManager

theorem lookup_after_getOrLoadGlyph (m : FontAtlasManager) (c : Nat) (p : LazyGlyphProps)
    (h : (getOrLoadGlyph m c).2 = some p) :
    (getOrLoadGlyph m c).1.glyphs.lookup c = some p := by
  unfold getOrLoadGlyph at h ⊢
  cases hl : m.glyphs.lookup c with
  | some q =>
    simp only [hl] at h ⊢
    exact h
  | none =>
    simp only [hl] at h ⊢
    cases ha : addGlyphToAtlas m c with
    | mk m1 r =>
      cases r with
      | none => simp [ha] at h
      | some q =>
        simp only [ha] at h ⊢
        simp only [List.lookup_cons, beq_self_eq_true]
        exact h

end FontAtlasManager

namespace SharedFontCache

theorem lookup_after_getOrCreate (env : Platform) (s : SharedFontCache) (key : FontCacheKey)
    (dpi : Int) (p : Nat) (h : (getOrCreate env s key dpi).2 = some p) :
    (getOrCreate env s key dpi).1.cache.lookup key = some p := by
  unfold getOrCreate at h ⊢
  cases hl : s.cache.lookup key with
  | some q =>
    simp only [hl] at h ⊢
    exact h
  | none =>
    simp only [hl] at h ⊢
    cases hs : FontAtlasManager.setup env {} key.fontPath key.fontSize key.antialiased dpi with
    | mk ok manager =>
      cases ok with
      | false => simp [hs] at h
      | true =>
        simp only [hs] at h ⊢
        simp only [List.lookup_cons, beq_self_eq_true]
        exact h

theorem lookup_getOrCreate_other (env : Platform) (s : SharedFontCache)
    (key k : FontCacheKey) (dpi : Int) (hne : k ≠ key) :
    (getOrCreate env s key dpi).1.cache.lookup k = s.cache.lookup k := by
  unfold getOrCreate
  cases hl : s.cache.lookup key with
  | some q => rfl
  | none =>
    simp only []
    cases hs : FontAtlasManager.setup env {} key.fontPath key.fontSize key.antialiased dpi with
    | mk ok manager =>
      cases ok with
      | false => rfl
      | true =>
        have hb : (k == key) = false := by simpa using hne
        simp only [List.lookup_cons, hb]
        exact lookup_eraseKey_ne key k s.cache hne

end SharedFontCache

namespace CacheOp

/-- A call that keeps the entry of `key` leaves the registry's answer for `key`
as it is, once there is one. -/
theorem lookup_apply_of_keeps (s : SharedFontCache) (op : CacheOp) (key : FontCacheKey)
    (p : Nat) (hk : op.keeps key = true) (h : s.cache.lookup key = some p) :
    (apply s op).1.cache.lookup key = some p := by
  cases op with
  | getOrCreate env k dpi =>
    by_cases e : key = k
    · subst e
      simp only [apply]
      rw [SharedFontCache.getOrCreate_hit env s key dpi p h]
      exact h
    · simp only [apply]
      rw [SharedFontCache.lookup_getOrCreate_other env s k key dpi e]
      exact h
  | release k =>
    have hne : key ≠ k := by
      intro e
      simp [keeps, e] at hk
    simp only [apply, SharedFontCache.release]
    rw [lookup_eraseKey_ne k key s.cache hne]
    exact h
  | clear => simp [keeps] at hk
  | loadGlyph manager codepoint => exact h

theorem lookup_run_of_keeps (ops : List CacheOp) (s : SharedFontCache) (key : FontCacheKey)
    (p : Nat) (hk : ∀ op ∈ ops, op.keeps key = true) (h : s.cache.lookup key = some p) :
    (run s ops).1.cache.lookup key = some p := by
  induction ops generalizing s with
  | nil => exact h
  | cons op ops ih =>
    simp only [run]
    exact ih (apply s op).1 (fun o ho => hk o (List.mem_cons_of_mem _ ho))
      (lookup_apply_of_keeps s op key p (hk op (List.mem_cons_self _ _)) h)

end CacheOp

namespace SharedFontCache

/-- C7 (as amended): when `getOrCreate` has returned manager `p` for an
identity and no `release` of that identity and no `clear` is run afterwards,
every later `getOrCreate` with an equal identity returns the same manager
`p`, whatever other calls lie in between; and since both handles hold the same
object, a glyph loaded through one of them is seen by `hasGlyph` and counted
by `getLoadedGlyphCount` through the other. -/
theorem getOrCreate_shares (env1 env2 : Platform) (s : SharedFontCache) (key : FontCacheKey)
    (dpi1 dpi2 : Int) (ops : List CacheOp) (p : Nat)
    (h1 : (getOrCreate env1 s key dpi1).2 = some p)
    (hk : ∀ op ∈ ops, op.keeps key = true) :
    (getOrCreate env2 (CacheOp.run (getOrCreate env1 s key dpi1).1 ops).1 key dpi2).2 = some p ∧
    ∀ (t : SharedFontCache) (c : Nat), p < t.managers.length →
      (FontAtlasManager.getOrLoadGlyph (t.deref p) c).2.isSome = true →
      ((t.loadGlyph p c).deref p).hasGlyph c = true ∧
      ((t.loadGlyph p c).deref p).getLoadedGlyphCount
        = (FontAtlasManager.getOrLoadGlyph (t.deref p) c).1.getLoadedGlyphCount := by
  refine ⟨?_, ?_⟩
  · have h2 := CacheOp.lookup_run_of_keeps ops _ key p hk
      (lookup_after_getOrCreate env1 s key dpi1 p h1)
    rw [getOrCreate_hit env2 _ key dpi2 p h2]
  · intro t c hp hsome
    have hd : (t.loadGlyph p c).deref p = (FontAtlasManager.getOrLoadGlyph (t.deref p) c).1 :=
      FontAtlasManager.getD_set_self _ _ _ _ hp
    rw [hd]
    obtain ⟨q, hq⟩ := Option.isSome_iff_exists.mp hsome
    refine ⟨?_, rfl⟩
    unfold FontAtlasManager.hasGlyph
    rw [FontAtlasManager.lookup_after_getOrLoadGlyph _ c q hq]
    rfl

/-- Witness of `getOrCreate_shares`: two loads of ("font.ttf", 32, antialiased)
with a load of size 16, a glyph request and a release of size 16 in between. -/
theorem getOrCreate_shares_witness :
    (getOrCreate (Example.platform 4096 true)
      (CacheOp.run (getOrCreate (Example.platform 4096 true) {} ⟨"font.ttf", 32, true⟩ 0).1
        [CacheOp.getOrCreate (Example.platform 4096 true) ⟨"font.ttf", 16, true⟩ 0,
         CacheOp.loadGlyph 0 65,
         CacheOp.release ⟨"font.ttf", 16, true⟩]).1
      ⟨"font.ttf", 32, true⟩ 96).2 = some 0 :=
  (getOrCreate_shares (Example.platform 4096 true) (Example.platform 4096 true) {}
    ⟨"font.ttf", 32, true⟩ 0 96
    [CacheOp.getOrCreate (Example.platform 4096 true) ⟨"font.ttf", 16, true⟩ 0,
     CacheOp.loadGlyph 0 65,
     CacheOp.release ⟨"font.ttf", 16, true⟩] 0
    (by with_unfolding_all decide)
    (by
      intro op hop
      simp only [List.mem_cons, List.mem_singleton, List.not_mem_nil, or_false] at hop
      rcases hop with rfl | rfl | rfl
      · rfl
      · rfl
      · with_unfolding_all decide)).1

/-- C7 (as stated) fails: the same identity is loaded, released and loaded
again; the two successful `getOrCreate` calls return the managers 0 and 1, and
the glyph `A` loaded through the first is not seen through the second. -/
theorem getOrCreate_after_release_differs :
    (CacheOp.run {}
      [CacheOp.getOrCreate (Example.platform 4096 true) ⟨"font.ttf", 32, true⟩ 0,
       CacheOp.loadGlyph 0 65,
       CacheOp.release ⟨"font.ttf", 32, true⟩,
       CacheOp.getOrCreate (Example.platform 4096 true) ⟨"font.ttf", 32, true⟩ 0]).2
      = [(⟨"font.ttf", 32, true⟩, 0), (⟨"font.ttf", 32, true⟩, 1)] ∧
    ((CacheOp.run {}
      [CacheOp.getOrCreate (Example.platform 4096 true) ⟨"font.ttf", 32, true⟩ 0,
       CacheOp.loadGlyph 0 65,
       CacheOp.release ⟨"font.ttf", 32, true⟩,
       CacheOp.getOrCreate (Example.platform 4096 true) ⟨"font.ttf", 32, true⟩ 0]).1.deref 0).hasGlyph 65
      = true ∧
    ((CacheOp.run {}
      [CacheOp.getOrCreate (Example.platform 4096 true) ⟨"font.ttf", 32, true⟩ 0,
       CacheOp.loadGlyph 0 65,
       CacheOp.release ⟨"font.ttf", 32, true⟩,
       CacheOp.getOrCreate (Example.platform 4096 true) ⟨"font.ttf", 32, true⟩ 0]).1.deref 1).hasGlyph 65
      = false := by
  with_unfolding_all decide

end SharedFontCache

namespace CacheOp

theorem logged_apply (s : SharedFontCache) (log : List (FontCacheKey × Nat)) (op : CacheOp)
    (h : s.Logged log) : (apply s op).1.Logged (log ++ (apply s op).2.toList) := by
  cases op with
  | getOrCreate env key dpi =>
    simp only [apply]
    cases hl : s.cache.lookup key with
    | some q =>
      rw [SharedFontCache.getOrCreate_hit env s key dpi q hl]
      have hq := h.registered key q hl
      simp only [Option.map_some', Option.toList_some]
      refine ⟨?_, ?_, ?_⟩
      · intro k p hp
        exact List.mem_append_left _ (h.registered k p hp)
      · intro k p hp
        rcases List.mem_append.mp hp with hp | hp
        · exact h.exist k p hp
        · have e := List.mem_singleton.mp hp
          simp only [Prod.mk.injEq] at e
          rw [e.2]; exact h.exist key q hq
      · intro k1 k2 p hk1 hk2
        have m1 : (k1, p) ∈ log := by
          rcases List.mem_append.mp hk1 with hp | hp
          · exact hp
          · rw [List.mem_singleton.mp hp]; exact hq
        have m2 : (k2, p) ∈ log := by
          rcases List.mem_append.mp hk2 with hp | hp
          · exact hp
          · rw [List.mem_singleton.mp hp]; exact hq
        exact h.single k1 k2 p m1 m2
    | none =>
      cases hs : (FontAtlasManager.setup env {} key.fontPath key.fontSize key.antialiased dpi).1 with
      | false =>
        rw [SharedFontCache.getOrCreate_miss_fail env s key dpi hl hs]
        simpa using h
      | true =>
        rw [SharedFontCache.getOrCreate_miss_ok env s key dpi hl hs]
        simp only [Option.map_some', Option.toList_some]
        refine ⟨?_, ?_, ?_⟩
        · intro k p hp
          simp only [] at hp
          by_cases ek : k = key
          · subst ek
            simp only [List.lookup_cons, beq_self_eq_true, Option.some.injEq] at hp
            subst hp
            exact List.mem_append_right _ (List.mem_singleton.mpr rfl)
          · have hb : (k == key) = false := by simpa using ek
            simp only [List.lookup_cons, hb] at hp
            exact List.mem_append_left _ (h.registered k p hp)
        · intro k p hp
          simp only [List.length_append, List.length_singleton]
          rcases List.mem_append.mp hp with hp | hp
          · have := h.exist k p hp; omega
          · have e := List.mem_singleton.mp hp
            simp only [Prod.mk.injEq] at e
            omega
        · intro k1 k2 p hk1 hk2
          rcases List.mem_append.mp hk1 with hp1 | hp1 <;>
            rcases List.mem_append.mp hk2 with hp2 | hp2
          · exact h.single k1 k2 p hp1 hp2
          · have e := List.mem_singleton.mp hp2
            simp only [Prod.mk.injEq] at e
            have := h.exist k1 p hp1
            omega
          · have e := List.mem_singleton.mp hp1
            simp only [Prod.mk.injEq] at e
            have := h.exist k2 p hp2
            omega
          · have a1 := List.mem_singleton.mp hp1
            have a2 := List.mem_singleton.mp hp2
            simp only [Prod.mk.injEq] at a1 a2
            rw [a1.1, a2.1]
  | release key =>
    simp only [apply, Option.toList_none, List.append_nil]
    refine ⟨?_, h.exist, h.single⟩
    intro k p hp
    simp only [SharedFontCache.release] at hp
    by_cases ek : k = key
    · subst ek
      rw [lookup_eraseKey_self] at hp
      cases hp
    · rw [lookup_eraseKey_ne key k s.cache ek] at hp
      exact h.registered k p hp
  | clear =>
    simp only [apply, Option.toList_none, List.append_nil]
    refine ⟨?_, h.exist, h.single⟩
    intro k p hp
    simp [SharedFontCache.clear] at hp
  | loadGlyph manager codepoint =>
    simp only [apply, Option.toList_none, List.append_nil]
    refine ⟨h.registered, ?_, h.single⟩
    intro k p hp
    simpa [SharedFontCache.loadGlyph] using h.exist k p hp

theorem logged_run (ops : List CacheOp) (s : SharedFontCache)
    (log : List (FontCacheKey × Nat)) (h : s.Logged log) :
    (run s ops).1.Logged (log ++ (run s ops).2) := by
  induction ops generalizing s log with
  | nil => simpa [run] using h
  | cons op ops ih =>
    simp only [run]
    rw [← List.append_assoc]
    exact ih _ _ (logged_apply s log op h)

/-- C10: in every sequence of calls on the cache, started with the empty
registry, two managers handed out by successful `getOrCreate` calls for
identities that differ in a component (the path, the font size or the
antialiasing flag; `FontCacheKey` equality is component-wise) are distinct
objects. -/
theorem distinct_identities_distinct_managers (ops : List CacheOp) (k1 k2 : FontCacheKey)
    (p1 p2 : Nat)
    (h1 : (k1, p1) ∈ (run {} ops).2) (h2 : (k2, p2) ∈ (run {} ops).2)
    (hne : k1.fontPath ≠ k2.fontPath ∨ k1.fontSize ≠ k2.fontSize ∨
      k1.antialiased ≠ k2.antialiased) :
    p1 ≠ p2 ∧ k1 ≠ k2 := by
  have hk : k1 ≠ k2 := by
    intro e
    subst e
    rcases hne with h | h | h <;> exact h rfl
  refine ⟨?_, hk⟩
  have hinit : SharedFontCache.Logged {} [] :=
    ⟨fun k p hp => (by cases hp), fun k p hp => (by cases hp),
     fun k1 k2 p hp => (by cases hp)⟩
  have hl := logged_run ops {} [] hinit
  rw [List.nil_append] at hl
  intro e
  subst e
  exact hk (hl.single k1 k2 p1 h1 h2)

/-- Witness of `distinct_identities_distinct_managers`: the same font loaded at
sizes 16 and 32. -/
theorem distinct_identities_distinct_managers_witness :
    (0 : Nat) ≠ 1 ∧ (⟨"font.ttf", 16, true⟩ : FontCacheKey) ≠ ⟨"font.ttf", 32, true⟩ :=
  distinct_identities_distinct_managers
    [CacheOp.getOrCreate (Example.platform 4096 true) ⟨"font.ttf", 16, true⟩ 0,
     CacheOp.getOrCreate (Example.platform 4096 true) ⟨"font.ttf", 32, true⟩ 0]
    ⟨"font.ttf", 16, true⟩ ⟨"font.ttf", 32, true⟩ 0 1
    (by with_unfolding_all decide) (by with_unfolding_all decide)
    (Or.inr (Or.inl (by decide)))

end CacheOp

/-! ## The pixel mirror keeps every glyph -/

namespace ofPixels

theorem pasteInto_width (src dst : ofPixels) (x0 y0 : Int) :
    (src.pasteInto dst x0 y0).width = dst.width := by
  unfold pasteInto
  split <;> rfl

theorem pasteInto_height (src dst : ofPixels) (x0 y0 : Int) :
    (src.pasteInto dst x0 y0).height = dst.height := by
  unfold pasteInto
  split <;> rfl

theorem pasteInto_outside (src dst : ofPixels) (x0 y0 : Int) (x y : Nat)
    (h : ¬ (x0.toNat ≤ x ∧ x < x0.toNat + src.width ∧ y0.toNat ≤ y ∧ y < y0.toNat + src.height)) :
    (src.pasteInto dst x0 y0).getColor x y = dst.getColor x y := by
  unfold pasteInto
  split
  · simp only []
    rw [if_neg h]
  · rfl

theorem pasteInto_inside (src dst : ofPixels) (x0 y0 : Int) (x y : Nat)
    (hs : 0 < src.width ∧ 0 < src.height) (hd : 0 < dst.width ∧ 0 < dst.height)
    (hx0 : 0 ≤ x0) (hy0 : 0 ≤ y0)
    (hfx : x0 + src.width ≤ dst.width) (hfy : y0 + src.height ≤ dst.height)
    (hx : x < src.width) (hy : y < src.height) :
    (src.pasteInto dst x0 y0).getColor (x0.toNat + x) (y0.toNat + y) = src.getColor x y := by
  have hguard : src.isAllocated = true ∧ dst.isAllocated = true ∧ 0 ≤ x0 ∧ 0 ≤ y0 ∧
      x0 + src.width ≤ dst.width ∧ y0 + src.height ≤ dst.height := by
    refine ⟨?_, ?_, hx0, hy0, hfx, hfy⟩
    · simp [isAllocated, hs.1, hs.2]
    · simp [isAllocated, hd.1, hd.2]
  unfold pasteInto
  rw [if_pos hguard]
  simp only []
  rw [if_pos ⟨by omega, by omega, by omega, by omega⟩]
  congr 1 <;> omega

theorem allocateBlank_size (w h : Int) (hw : 0 < w) (hh : 0 < h) :
    ((allocateBlank w h).width : Int) = w ∧ ((allocateBlank w h).height : Int) = h := by
  unfold allocateBlank
  rw [if_neg (by omega)]
  simp only []
  constructor <;> omega

end ofPixels

namespace FontAtlasManager

theorem mirrorColor_setState (m : FontAtlasManager) (i : Nat) (a : AtlasState) (j x y : Nat) :
    (m.setState i a).mirrorColor j x y = m.mirrorColor j x y := rfl

theorem pageDims_setState {m : FontAtlasManager} (h : PageDims m) (i : Nat) (a : AtlasState)
    (hw : a.width = (m.stateAt i).width) (hh : a.height = (m.stateAt i).height) :
    PageDims (m.setState i a) := by
  intro j hj
  have hj0 : j < m.atlases.length := hj
  by_cases e : i = j
  · subst e
    by_cases hi : i < m.atlasStates.length
    · have hst : (m.setState i a).stateAt i = a := stateAt_setState_self m i a hi
      rw [hst, hw, hh]
      exact h i hj0
    · have hst : (m.setState i a).stateAt i = m.stateAt i := by
        simp only [stateAt, FontAtlasManager.setState]
        rw [List.set_eq_of_length_le (by omega)]
      rw [hst]
      exact h i hj0
  · rw [stateAt_setState_ne m i j a e]
    exact h j hj0

theorem wrapRow_width (s : AtlasState) (w b : Int) : (s.wrapRow w b).width = s.width :=
  (wrapRow_facts s w b).1

theorem wrapRow_height (s : AtlasState) (w b : Int) : (s.wrapRow w b).height = s.height :=
  (wrapRow_facts s w b).2.1

theorem pageDims_wrapAt {m : FontAtlasManager} (h : PageDims m) (i : Nat) (w : Int) :
    PageDims (m.wrapAt i w) :=
  pageDims_setState h i _ (wrapRow_width _ _ _) (wrapRow_height _ _ _)

/-- A record stays stored when the cursor of the last page wraps to the next
row. -/
theorem stored_wrapAt {m : FontAtlasManager} {p : LazyGlyphProps} {px : ofPixels} {X Y : Nat}
    (h : Stored m p px X Y) (hm : PagesOk m) (hbd : 0 ≤ m.border)
    (hrow : 0 ≤ (m.stateAt (m.atlases.length - 1)).currentRowHeight) (w : Int) :
    Stored (m.wrapAt (m.atlases.length - 1) w) p px X Y := by
  have hL : m.atlases.length - 1 < m.atlasStates.length := by
    have := hm.pos; have := hm.states; omega
  have hlast : (m.wrapAt (m.atlases.length - 1) w).stateAt (m.atlases.length - 1)
      = (m.stateAt (m.atlases.length - 1)).wrapRow w m.border :=
    stateAt_setState_self m _ _ hL
  by_cases e : p.atlasIndex = m.atlases.length - 1
  · have hb := h.behind e
    rw [e] at hb
    have h1 := h.t1; have h2 := h.v1; have h3 := h.t2; have h4 := h.v2
    have h5 := h.insideX; have h6 := h.insideY
    rw [e] at h1 h2 h3 h4 h5 h6
    refine ⟨h.index, ?_, ?_, ?_, ?_, ?_, ?_, h.pixels, ?_⟩
    · rw [e, hlast, wrapRow_width]; exact h1
    · rw [e, hlast, wrapRow_height]; exact h2
    · rw [e, hlast, wrapRow_width]; exact h3
    · rw [e, hlast, wrapRow_height]; exact h4
    · rw [e, hlast, wrapRow_width]; exact h5
    · rw [e, hlast, wrapRow_height]; exact h6
    · intro _
      rw [e, hlast]
      obtain ⟨_, _, hcase⟩ := wrapRow_facts (m.stateAt (m.atlases.length - 1)) w m.border
      show AtlasState.Behind _ m.border _ _ _ _
      unfold AtlasState.Behind at hb ⊢
      rcases hcase with ⟨e1, _⟩ | ⟨e1, e2, e3⟩
      · rw [e1]; exact hb
      · left
        rw [e2]
        rcases hb with hb | ⟨hb1, hb2, hb3⟩ <;> omega
  · have hne : m.atlases.length - 1 ≠ p.atlasIndex := fun x => e x.symm
    have hst : (m.wrapAt (m.atlases.length - 1) w).stateAt p.atlasIndex = m.stateAt p.atlasIndex :=
      stateAt_setState_ne m _ _ _ hne
    refine ⟨h.index, ?_, ?_, ?_, ?_, ?_, ?_, h.pixels, ?_⟩
    · rw [hst]; exact h.t1
    · rw [hst]; exact h.v1
    · rw [hst]; exact h.t2
    · rw [hst]; exact h.v2
    · rw [hst]; exact h.insideX
    · rw [hst]; exact h.insideY
    · intro e2
      exact absurd e2 e

theorem stateAt_setState_dims (m : FontAtlasManager) (i j : Nat) (a : AtlasState)
    (hw : a.width = (m.stateAt i).width) (hh : a.height = (m.stateAt i).height) :
    ((m.setState i a).stateAt j).width = (m.stateAt j).width ∧
    ((m.setState i a).stateAt j).height = (m.stateAt j).height := by
  by_cases e : i = j
  · subst e
    by_cases hi : i < m.atlasStates.length
    · rw [stateAt_setState_self m i a hi]; exact ⟨hw, hh⟩
    · have hst : (m.setState i a).stateAt i = m.stateAt i := by
        simp only [stateAt, FontAtlasManager.setState]
        rw [List.set_eq_of_length_le (by omega)]
      rw [hst]; exact ⟨rfl, rfl⟩
  · rw [stateAt_setState_ne m i j a e]; exact ⟨rfl, rfl⟩

/-- A record stays stored when the state of a page other than the last one is
overwritten by a state of the same size. -/
theorem stored_setState_old {m : FontAtlasManager} {p : LazyGlyphProps} {px : ofPixels}
    {X Y : Nat} (h : Stored m p px X Y) (i : Nat) (a : AtlasState)
    (hi : i ≠ m.atlases.length - 1)
    (hw : a.width = (m.stateAt i).width) (hh : a.height = (m.stateAt i).height) :
    Stored (m.setState i a) p px X Y := by
  obtain ⟨dw, dh⟩ := stateAt_setState_dims m i p.atlasIndex a hw hh
  refine ⟨h.index, ?_, ?_, ?_, ?_, ?_, ?_, h.pixels, ?_⟩
  · rw [dw]; exact h.t1
  · rw [dh]; exact h.v1
  · rw [dw]; exact h.t2
  · rw [dh]; exact h.v2
  · rw [dw]; exact h.insideX
  · rw [dh]; exact h.insideY
  · intro e
    have e0 : p.atlasIndex = m.atlases.length - 1 := e
    have hne : i ≠ p.atlasIndex := by rw [e0]; exact hi
    rw [stateAt_setState_ne m i _ a hne]
    exact h.behind e0

theorem stateAt_createNewAtlas_old (m : FontAtlasManager) (j : Nat)
    (hj : j < m.atlasStates.length) : (createNewAtlas m).1.stateAt j = m.stateAt j := by
  simp only [stateAt, createNewAtlas, List.getD_eq_getElem?_getD]
  rw [List.getElem?_append_left hj]

theorem mirrorColor_createNewAtlas_old (m : FontAtlasManager) (j x y : Nat)
    (hj : j < m.atlasPixels.length) :
    (createNewAtlas m).1.mirrorColor j x y = m.mirrorColor j x y := by
  simp only [mirrorColor, createNewAtlas, List.getD_eq_getElem?_getD]
  rw [List.getElem?_append_left hj]

/-- A record stays stored when a page is appended. -/
theorem stored_createNewAtlas {m : FontAtlasManager} {p : LazyGlyphProps} {px : ofPixels}
    {X Y : Nat} (h : Stored m p px X Y) (hm : PagesOk m) :
    Stored (createNewAtlas m).1 p px X Y := by
  have hidx := h.index
  have hst := stateAt_createNewAtlas_old m p.atlasIndex (by rw [hm.states]; exact hidx)
  refine ⟨?_, ?_, ?_, ?_, ?_, ?_, ?_, ?_, ?_⟩
  · rw [createNewAtlas_atlases_length]; omega
  · rw [hst]; exact h.t1
  · rw [hst]; exact h.v1
  · rw [hst]; exact h.t2
  · rw [hst]; exact h.v2
  · rw [hst]; exact h.insideX
  · rw [hst]; exact h.insideY
  · intro x y hx hy
    rw [mirrorColor_createNewAtlas_old m _ _ _ (by rw [hm.pixels]; exact hidx)]
    exact h.pixels x y hx hy
  · intro e
    rw [createNewAtlas_atlases_length] at e
    omega

theorem pageDims_createNewAtlas {m : FontAtlasManager} (h : PageDims m) (hm : PagesOk m) :
    PageDims (createNewAtlas m).1 := by
  intro j hj
  rw [createNewAtlas_atlases_length] at hj
  by_cases e : j < m.atlases.length
  · rw [stateAt_createNewAtlas_old m j (by rw [hm.states]; exact e)]
    have hp : (createNewAtlas m).1.atlasPixels.getD j default = m.atlasPixels.getD j default := by
      simp only [FontAtlasManager.createNewAtlas, List.getD_eq_getElem?_getD]
      rw [List.getElem?_append_left (by rw [hm.pixels]; exact e)]
    rw [hp]
    exact h j e
  · have ej : j = m.atlases.length := by omega
    subst ej
    have hlast := h (m.atlases.length - 1) (by have := hm.pos; omega)
    rw [stateAt_createNewAtlas m hm]
    have hne : m.atlases.isEmpty = false := by
      cases hq : m.atlases with
      | nil => have := hm.pos; rw [hq] at this; simp at this
      | cons a l => rfl
    have hsz : m.atlasStates.getLast?.getD default = m.stateAt (m.atlases.length - 1) := by
      rw [List.getLast?_eq_getElem?, hm.states]
      simp [stateAt]
    have hp : (createNewAtlas m).1.atlasPixels.getD m.atlases.length default
        = ofPixels.allocateBlank (m.stateAt (m.atlases.length - 1)).width
            (m.stateAt (m.atlases.length - 1)).width := by
      simp only [FontAtlasManager.createNewAtlas, hne, hsz, Bool.false_eq_true, if_false,
        List.getD_eq_getElem?_getD]
      rw [← hm.pixels, List.getElem?_concat_length]
      rfl
    rw [hp]
    obtain ⟨bw, bh⟩ := ofPixels.allocateBlank_size _ _ hlast.1 hlast.1
    exact ⟨hlast.1, rfl, bw, bh⟩

theorem rescale_mul (t : ℚ) (S : Int) :
    (t * (((S * 2 : Int) : ℚ) / 2)) / ((S * 2 : Int) : ℚ) * ((S * 2 : Int) : ℚ) = t * (S : ℚ) := by
  by_cases hS : (S : ℚ) = 0
  · simp [hS]
  · push_cast
    field_simp

theorem pageDims_growPage {m : FontAtlasManager} (h : PageDims m) (hm : PagesOk m) (i : Nat)
    (hi : i < m.atlases.length) : PageDims (growPage m i) := by
  intro j hj
  have hj0 : j < m.atlases.length := by simpa [FontAtlasManager.growPage] using hj
  obtain ⟨hpos, hsq, hpw, hph⟩ := h i hi
  by_cases e : i = j
  · subst e
    rw [stateAt_growPage_self m i (by rw [hm.states]; exact hi)]
    have hp : (growPage m i).atlasPixels.getD i default
        = (m.atlasPixels.getD i default).pasteInto
            (ofPixels.allocateBlank ((m.stateAt i).width * 2) ((m.stateAt i).width * 2)) 0 0 :=
      getD_set_self _ _ _ _ (by rw [hm.pixels]; exact hi)
    rw [hp, ofPixels.pasteInto_width, ofPixels.pasteInto_height]
    obtain ⟨bw, bh⟩ := ofPixels.allocateBlank_size ((m.stateAt i).width * 2)
      ((m.stateAt i).width * 2) (by omega) (by omega)
    exact ⟨by simp only []; omega, rfl, bw, bh⟩
  · have hs : (growPage m i).stateAt j = m.stateAt j := getD_set_ne _ _ _ _ _ e
    have hp : (growPage m i).atlasPixels.getD j default = m.atlasPixels.getD j default :=
      getD_set_ne _ _ _ _ _ e
    rw [hs, hp]
    exact h j hj0

/-- A record stays stored, with its texture rectangle rescaled, when a page
grows. -/
theorem stored_growPage {m : FontAtlasManager} {p : LazyGlyphProps} {px : ofPixels}
    {X Y : Nat} (h : Stored m p px X Y) (hm : PagesOk m) (hd : PageDims m) (i : Nat)
    (hi : i < m.atlases.length) :
    Stored (growPage m i)
      (rescaleGlyph i ((m.stateAt i).width * 2) ((m.stateAt i).width * 2) p) px X Y := by
  obtain ⟨hpos, hsq, hpw, hph⟩ := hd i hi
  have hlen : (growPage m i).atlases.length = m.atlases.length := by
    simp [FontAtlasManager.growPage]
  have hbord : (growPage m i).border = m.border := rfl
  by_cases e : p.atlasIndex = i
  · have hst := stateAt_growPage_self m i (by rw [hm.states]; exact hi)
    have h1 := h.t1; have h2 := h.v1; have h3 := h.t2; have h4 := h.v2
    have h5 := h.insideX; have h6 := h.insideY
    rw [e] at h1 h2 h3 h4 h5 h6
    have hri : (rescaleGlyph i ((m.stateAt i).width * 2) ((m.stateAt i).width * 2) p).atlasIndex
        = i := by rw [rescaleGlyph_atlasIndex]; exact e
    refine ⟨by rw [hri, hlen]; exact hi, ?_, ?_, ?_, ?_, ?_, ?_, ?_, ?_⟩
    · rw [hri, hst]
      simp only [rescaleGlyph, e, if_true]
      rw [rescale_mul]; exact h1
    · rw [hri, hst]
      simp only [rescaleGlyph, e, if_true]
      rw [rescale_mul, hsq]; exact h2
    · rw [hri, hst]
      simp only [rescaleGlyph, e, if_true]
      rw [rescale_mul]; exact h3
    · rw [hri, hst]
      simp only [rescaleGlyph, e, if_true]
      rw [rescale_mul, hsq]; exact h4
    · rw [hri, hst]; simp only []; omega
    · rw [hri, hst]; simp only []; omega
    · intro x y hx hy
      rw [hri]
      have hp : (growPage m i).atlasPixels.getD i default
          = (m.atlasPixels.getD i default).pasteInto
              (ofPixels.allocateBlank ((m.stateAt i).width * 2) ((m.stateAt i).width * 2)) 0 0 :=
        getD_set_self _ _ _ _ (by rw [hm.pixels]; exact hi)
      obtain ⟨bw, bh⟩ := ofPixels.allocateBlank_size ((m.stateAt i).width * 2)
        ((m.stateAt i).width * 2) (by omega) (by omega)
      have hin := ofPixels.pasteInto_inside (m.atlasPixels.getD i default)
        (ofPixels.allocateBlank ((m.stateAt i).width * 2) ((m.stateAt i).width * 2)) 0 0
        (X + x) (Y + y) ⟨by omega, by omega⟩ ⟨by omega, by omega⟩ (le_refl 0) (le_refl 0)
        (by omega) (by omega) (by omega) (by omega)
      simp only [Int.toNat_zero, Nat.zero_add] at hin
      show ((growPage m i).atlasPixels.getD i default).getColor (X + x) (Y + y) = _
      rw [hp, hin]
      have := h.pixels x y hx hy
      rw [e] at this
      exact this
    · intro elast
      rw [hri, hst, hbord]
      rw [hri, hlen] at elast
      have hb := h.behind (by rw [e]; exact elast)
      rw [e] at hb
      exact hb
  · have hr : rescaleGlyph i ((m.stateAt i).width * 2) ((m.stateAt i).width * 2) p = p := by
      unfold rescaleGlyph
      rw [if_neg e]
    have hne : i ≠ p.atlasIndex := fun x => e x.symm
    have hs : (growPage m i).stateAt p.atlasIndex = m.stateAt p.atlasIndex :=
      getD_set_ne _ _ _ _ _ hne
    rw [hr]
    refine ⟨by rw [hlen]; exact h.index, ?_, ?_, ?_, ?_, ?_, ?_, ?_, ?_⟩
    · rw [hs]; exact h.t1
    · rw [hs]; exact h.v1
    · rw [hs]; exact h.t2
    · rw [hs]; exact h.v2
    · rw [hs]; exact h.insideX
    · rw [hs]; exact h.insideY
    · intro x y hx hy
      have hp : (growPage m i).atlasPixels.getD p.atlasIndex default
          = m.atlasPixels.getD p.atlasIndex default := getD_set_ne _ _ _ _ _ hne
      show ((growPage m i).atlasPixels.getD p.atlasIndex default).getColor (X + x) (Y + y) = _
      rw [hp]
      exact h.pixels x y hx hy
    · intro elast
      rw [hs, hbord]
      rw [hlen] at elast
      exact h.behind elast

theorem stateAt_placeGlyph_ne (m : FontAtlasManager) (px : ofPixels) (props : LazyGlyphProps)
    (i j : Nat) (st : AtlasState) (hij : i ≠ j) :
    (placeGlyph m px props i st (some i)).1.stateAt j = m.stateAt j :=
  getD_set_ne _ _ _ _ _ hij

theorem pixels_placeGlyph_self (m : FontAtlasManager) (px : ofPixels) (props : LazyGlyphProps)
    (i : Nat) (st : AtlasState) (t : Option Nat) (hi : i < m.atlasPixels.length) :
    (placeGlyph m px props i st t).1.atlasPixels.getD i default
      = px.pasteInto (m.atlasPixels.getD i default) st.currentX st.currentY := by
  cases t <;> exact getD_set_self _ _ _ _ hi

theorem pixels_placeGlyph_ne (m : FontAtlasManager) (px : ofPixels) (props : LazyGlyphProps)
    (i j : Nat) (st : AtlasState) (t : Option Nat) (hij : i ≠ j) :
    (placeGlyph m px props i st t).1.atlasPixels.getD j default
      = m.atlasPixels.getD j default := by
  cases t <;> exact getD_set_ne _ _ _ _ _ hij

theorem pageDims_placeGlyph {m : FontAtlasManager} (h : PageDims m) (hm : PagesOk m)
    (px : ofPixels) (props : LazyGlyphProps) (i : Nat) (hi : i < m.atlases.length) :
    PageDims (placeGlyph m px props i (m.stateAt i) (some i)).1 := by
  intro j hj
  rw [placeGlyph_atlases_length] at hj
  by_cases e : i = j
  · subst e
    rw [stateAt_placeGlyph_self m px props i _ (by rw [hm.states]; exact hi),
      pixels_placeGlyph_self m px props i _ _ (by rw [hm.pixels]; exact hi),
      ofPixels.pasteInto_width, ofPixels.pasteInto_height]
    exact h i hi
  · rw [stateAt_placeGlyph_ne m px props i j _ e, pixels_placeGlyph_ne m px props i j _ _ e]
    exact h j hj

/-- A record stored before a placement on the last page is still stored after
it: the pasted rectangle starts at the cursor, and the record lies behind the
cursor. -/
theorem stored_placeGlyph_old {m : FontAtlasManager} {q : LazyGlyphProps} {qx : ofPixels}
    {X Y : Nat} (h : Stored m q qx X Y) (hm : PagesOk m) (hbd : 0 ≤ m.border)
    (px : ofPixels) (props : LazyGlyphProps) :
    Stored (placeGlyph m px props (m.atlases.length - 1)
      (m.stateAt (m.atlases.length - 1)) (some (m.atlases.length - 1))).1 q qx X Y := by
  have hL : m.atlases.length - 1 < m.atlases.length := by have := hm.pos; omega
  have hlen := placeGlyph_atlases_length m px props (m.atlases.length - 1)
    (m.stateAt (m.atlases.length - 1)) (some (m.atlases.length - 1))
  by_cases e : q.atlasIndex = m.atlases.length - 1
  · have hst := stateAt_placeGlyph_self m px props (m.atlases.length - 1)
      (m.stateAt (m.atlases.length - 1)) (by rw [hm.states]; exact hL)
    have hb := h.behind e
    have h1 := h.t1; have h2 := h.v1; have h3 := h.t2; have h4 := h.v2
    have h5 := h.insideX; have h6 := h.insideY
    rw [e] at hb h1 h2 h3 h4 h5 h6
    unfold AtlasState.Behind at hb
    refine ⟨by rw [hlen]; exact h.index, ?_, ?_, ?_, ?_, ?_, ?_, ?_, ?_⟩
    · rw [e, hst]; exact h1
    · rw [e, hst]; exact h2
    · rw [e, hst]; exact h3
    · rw [e, hst]; exact h4
    · rw [e, hst]; exact h5
    · rw [e, hst]; exact h6
    · intro x y hx hy
      rw [e]
      show ((placeGlyph m px props (m.atlases.length - 1) (m.stateAt (m.atlases.length - 1))
        (some (m.atlases.length - 1))).1.atlasPixels.getD (m.atlases.length - 1) default).getColor
          (X + x) (Y + y) = _
      rw [pixels_placeGlyph_self m px props _ _ _ (by rw [hm.pixels]; exact hL),
        ofPixels.pasteInto_outside]
      · have := h.pixels x y hx hy
        rw [e] at this
        exact this
      · rcases hb with hb | ⟨hb1, hb2, hb3⟩
        · intro hc; omega
        · intro hc; omega
    · intro _
      rw [e, hst]
      show AtlasState.Behind _ m.border _ _ _ _
      unfold AtlasState.Behind
      simp only []
      rcases hb with hb | ⟨hb1, hb2, hb3⟩
      · left; exact hb
      · right
        refine ⟨hb1, by omega, by omega⟩
  · have hne : m.atlases.length - 1 ≠ q.atlasIndex := fun x => e x.symm
    have hs := stateAt_placeGlyph_ne m px props (m.atlases.length - 1) q.atlasIndex
      (m.stateAt (m.atlases.length - 1)) hne
    refine ⟨by rw [hlen]; exact h.index, ?_, ?_, ?_, ?_, ?_, ?_, ?_, ?_⟩
    · rw [hs]; exact h.t1
    · rw [hs]; exact h.v1
    · rw [hs]; exact h.t2
    · rw [hs]; exact h.v2
    · rw [hs]; exact h.insideX
    · rw [hs]; exact h.insideY
    · intro x y hx hy
      show ((placeGlyph m px props (m.atlases.length - 1) (m.stateAt (m.atlases.length - 1))
        (some (m.atlases.length - 1))).1.atlasPixels.getD q.atlasIndex default).getColor
          (X + x) (Y + y) = _
      rw [pixels_placeGlyph_ne m px props _ _ _ _ hne]
      exact h.pixels x y hx hy
    · intro elast
      rw [hlen] at elast
      exact absurd elast e

/-- The record a placement returns is stored at the cursor of the last page,
when that page was ready for the glyph. -/
theorem stored_placeGlyph_new (m : FontAtlasManager) (hm : PagesOk m) (hd : PageDims m)
    (px : ofPixels) (props : LazyGlyphProps) (minSize : Int) (hbd : 0 ≤ m.border)
    (hw : 0 < px.width) (hh : 0 < px.height)
    (hr : (m.stateAt (m.atlases.length - 1)).Ready m.border minSize px.width px.height) :
    Stored (placeGlyph m px props (m.atlases.length - 1)
        (m.stateAt (m.atlases.length - 1)) (some (m.atlases.length - 1))).1
      (placeGlyph m px props (m.atlases.length - 1)
        (m.stateAt (m.atlases.length - 1)) (some (m.atlases.length - 1))).2 px
      (m.stateAt (m.atlases.length - 1)).currentX.toNat
      (m.stateAt (m.atlases.length - 1)).currentY.toNat := by
  have hL : m.atlases.length - 1 < m.atlases.length := by have := hm.pos; omega
  have hlen := placeGlyph_atlases_length m px props (m.atlases.length - 1)
    (m.stateAt (m.atlases.length - 1)) (some (m.atlases.length - 1))
  have hst := stateAt_placeGlyph_self m px props (m.atlases.length - 1)
    (m.stateAt (m.atlases.length - 1)) (by rw [hm.states]; exact hL)
  obtain ⟨hpos, hsq, hpw, hph⟩ := hd _ hL
  generalize hs : m.stateAt (m.atlases.length - 1) = s at *
  have hx := hr.x
  have hy := hr.y
  have hfx := hr.fitsX
  have hfy := hr.fitsY
  have hX : ((s.currentX.toNat : Nat) : Int) = s.currentX := by omega
  have hY : ((s.currentY.toNat : Nat) : Int) = s.currentY := by omega
  have hXq : ((s.currentX.toNat : Nat) : ℚ) = (s.currentX : ℚ) := by exact_mod_cast hX
  have hYq : ((s.currentY.toNat : Nat) : ℚ) = (s.currentY : ℚ) := by exact_mod_cast hY
  have hWq : (s.width : ℚ) ≠ 0 := by
    have : s.width ≠ 0 := by omega
    exact_mod_cast this
  have hHq : (s.height : ℚ) ≠ 0 := by
    have : s.height ≠ 0 := by omega
    exact_mod_cast this
  have hidx : (placeGlyph m px props (m.atlases.length - 1) s
      (some (m.atlases.length - 1))).2.atlasIndex = m.atlases.length - 1 := rfl
  refine ⟨by rw [hidx, hlen]; exact hL, ?_, ?_, ?_, ?_, ?_, ?_, ?_, ?_⟩
  · rw [hidx, hst, hXq]
    show (s.currentX : ℚ) / (s.width : ℚ) * (s.width : ℚ) = _
    field_simp
  · rw [hidx, hst, hYq]
    show (s.currentY : ℚ) / (s.height : ℚ) * (s.height : ℚ) = _
    field_simp
  · rw [hidx, hst, hXq]
    show ((s.currentX + (px.width : Int) : Int) : ℚ) / (s.width : ℚ) * (s.width : ℚ) = _
    push_cast
    field_simp
  · rw [hidx, hst, hYq]
    show ((s.currentY + (px.height : Int) : Int) : ℚ) / (s.height : ℚ) * (s.height : ℚ) = _
    push_cast
    field_simp
  · rw [hidx, hst]; simp only []; omega
  · rw [hidx, hst]; simp only []; omega
  · intro x y hx1 hy1
    rw [hidx]
    show ((placeGlyph m px props (m.atlases.length - 1) s
      (some (m.atlases.length - 1))).1.atlasPixels.getD (m.atlases.length - 1) default).getColor
        (s.currentX.toNat + x) (s.currentY.toNat + y) = _
    rw [pixels_placeGlyph_self m px props _ _ _ (by rw [hm.pixels]; exact hL)]
    exact ofPixels.pasteInto_inside px _ s.currentX s.currentY x y ⟨hw, hh⟩
      ⟨by omega, by omega⟩ (by omega) (by omega) (by omega) (by omega) hx1 hy1
  · intro _
    rw [hidx, hst]
    show AtlasState.Behind _ m.border _ _ _ _
    unfold AtlasState.Behind
    simp only []
    right
    refine ⟨hY, by omega, by omega⟩

theorem glyphPixels_config {m m1 : FontAtlasManager} (h : SameConfig m m1) (c : Nat) :
    m1.glyphPixels c = m.glyphPixels c := by
  unfold glyphPixels
  rw [h.face, h.antialiased]

theorem rasterizeGlyph_glyphPixels (m : FontAtlasManager) (c : Nat) (px : ofPixels)
    (props : LazyGlyphProps) (h : (rasterizeGlyph m c).2 = some (px, props)) :
    px = m.glyphPixels c ∧
    (props.tW = 0 ∨ props.tH = 0 ↔ px.width = 0 ∨ px.height = 0) := by
  unfold rasterizeGlyph at h
  simp only [] at h
  cases hf : m.face with
  | none => rw [hf] at h; simp at h
  | some face =>
    rw [hf] at h
    simp only [] at h
    by_cases hg : face.getCharIndex c = 0
    · rw [if_pos hg] at h; simp at h
    · rw [if_neg hg] at h
      cases hl : face.loadGlyph (face.getCharIndex c) with
      | none => rw [hl] at h; simp at h
      | some metrics =>
        rw [hl] at h
        simp only [Option.some.injEq, Prod.mk.injEq] at h
        obtain ⟨h1, h2⟩ := h
        have hpx : px = m.glyphPixels c := by
          unfold glyphPixels
          rw [hf]
          exact h1.symm
        refine ⟨hpx, ?_⟩
        have htW : props.tW
            = ((face.renderGlyph (face.getCharIndex c) m.antialiased).bitmap.width : ℚ) := by
          rw [← h2]
        have htH : props.tH
            = ((face.renderGlyph (face.getCharIndex c) m.antialiased).bitmap.rows : ℚ) := by
          rw [← h2]
        rw [htW, htH, ← h1]
        rcases bitmapPixels_size m.antialiased
          (face.renderGlyph (face.getCharIndex c) m.antialiased).bitmap with
          ⟨a1, a2, a3⟩ | ⟨a1, a2, a3, a4⟩
        · constructor
          · intro _; exact Or.inl a1
          · intro _
            rcases a3 with a3 | a3
            · left; rw [a3]; rfl
            · right; rw [a3]; rfl
        · constructor
          · intro hz
            rcases hz with hz | hz
            · exact absurd (by exact_mod_cast hz) a3
            · exact absurd (by exact_mod_cast hz) a4
          · intro hz
            rw [a1, a2] at hz
            rcases hz with hz | hz
            · exact absurd hz a3
            · exact absurd hz a4

/-- The layout passes from `m` to `m1` when the records of `m1` are those of
`m` rewritten by `f`, and `f` keeps every stored record stored. -/
theorem layout_transfer (m m1 : FontAtlasManager) (f : LazyGlyphProps → LazyGlyphProps)
    (hg : m1.glyphs = m.glyphs.map (fun e => (e.1, f e.2)))
    (hcfg : SameConfig m m1)
    (hf : ∀ p, (f p).tW = p.tW ∧ (f p).tH = p.tH)
    (hs : ∀ p px X Y, Stored m p px X Y → Stored m1 (f p) px X Y)
    (h : Layout m) : Layout m1 := by
  intro e he
  rw [hg, List.mem_map] at he
  obtain ⟨e0, he0, rfl⟩ := he
  simp only []
  rw [(hf e0.2).1, (hf e0.2).2, glyphPixels_config hcfg]
  rcases h e0 he0 with hz | ⟨X, Y, hst⟩
  · exact Or.inl hz
  · exact Or.inr ⟨X, Y, hs _ _ _ _ hst⟩

theorem map_pair_id (l : List (Nat × LazyGlyphProps)) :
    l = l.map (fun e => (e.1, id e.2)) := by
  simp

theorem rescaleGlyph_size (i : Nat) (w h : Int) (p : LazyGlyphProps) :
    (rescaleGlyph i w h p).tW = p.tW ∧ (rescaleGlyph i w h p).tH = p.tH := by
  unfold rescaleGlyph
  split <;> exact ⟨rfl, rfl⟩

theorem layout_counted {m : FontAtlasManager} (h : Layout m) (n : Nat) :
    Layout { m with rasterizeCalls := n } :=
  layout_transfer m _ id (map_pair_id m.glyphs) ⟨rfl, rfl, rfl, rfl, rfl, rfl, rfl, rfl⟩
    (fun _ => ⟨rfl, rfl⟩)
    (fun _ _ _ _ hst => ⟨hst.index, hst.t1, hst.v1, hst.t2, hst.v2, hst.insideX, hst.insideY,
      hst.pixels, hst.behind⟩) h

theorem pageDims_counted {m : FontAtlasManager} (h : PageDims m) (n : Nat) :
    PageDims { m with rasterizeCalls := n } := h

theorem layout_dangling {m : FontAtlasManager} (h : Layout m) (a : AtlasState) :
    Layout (m.writeThrough none a) :=
  layout_transfer m _ id (map_pair_id m.glyphs) ⟨rfl, rfl, rfl, rfl, rfl, rfl, rfl, rfl⟩
    (fun _ => ⟨rfl, rfl⟩)
    (fun _ _ _ _ hst => ⟨hst.index, hst.t1, hst.v1, hst.t2, hst.v2, hst.insideX, hst.insideY,
      hst.pixels, hst.behind⟩) h

theorem pageDims_dangling {m : FontAtlasManager} (h : PageDims m) (a : AtlasState) :
    PageDims (m.writeThrough none a) := h

theorem layout_wrapAt {m : FontAtlasManager} (h : Layout m) (hm : PagesOk m)
    (hbd : 0 ≤ m.border)
    (hrow : 0 ≤ (m.stateAt (m.atlases.length - 1)).currentRowHeight) (w : Int) :
    Layout (m.wrapAt (m.atlases.length - 1) w) :=
  layout_transfer m _ id (map_pair_id m.glyphs) (wrapAt_config m _ w) (fun _ => ⟨rfl, rfl⟩)
    (fun _ _ _ _ hst => stored_wrapAt hst hm hbd hrow w) h

/-- The first pass keeps the layout and the page sizes in order. -/
theorem fitFirstPass_layout (m : FontAtlasManager) (w h : Int) (hm : PagesOk m)
    (hc : CursorOk m) (hd : PageDims m) (hl : Layout m) :
    Layout (fitFirstPass m w h).1 ∧ PageDims (fitFirstPass m w h).1 := by
  have hL : m.atlases.length - 1 < m.atlases.length := by have := hm.pos; omega
  have hm1 : PagesOk (m.wrapAt (m.atlases.length - 1) w) := hm.wrapAt _ _
  have hd1 : PageDims (m.wrapAt (m.atlases.length - 1) w) := pageDims_wrapAt hd _ _
  have hl1 : Layout (m.wrapAt (m.atlases.length - 1) w) :=
    layout_wrapAt hl hm hc.border hc.row w
  have hlen1 : (m.wrapAt (m.atlases.length - 1) w).atlases.length = m.atlases.length := rfl
  unfold fitFirstPass
  simp only []
  generalize m.wrapAt (m.atlases.length - 1) w = m1 at *
  split
  · split
    · rename_i hex
      rw [expandAtlas_snd_of_true _ _ hex]
      simp only []
      refine ⟨?_, pageDims_growPage hd1 hm1 _ (by rw [hlen1]; exact hL)⟩
      exact layout_transfer m1 _
        (rescaleGlyph (m.atlases.length - 1) ((m1.stateAt (m.atlases.length - 1)).width * 2)
          ((m1.stateAt (m.atlases.length - 1)).width * 2))
        rfl (growPage_config m1 _) (fun p => rescaleGlyph_size _ _ _ p)
        (fun _ _ _ _ hst => stored_growPage hst hm1 hd1 _ (by rw [hlen1]; exact hL)) hl1
    · rename_i hex
      rw [expandAtlas_snd_of_false _ _ hex]
      simp only []
      have hm2 : PagesOk (createNewAtlas m1).1 := hm1.createNewAtlas
      have hd2 : PageDims (createNewAtlas m1).1 := pageDims_createNewAtlas hd1 hm1
      have hl2 : Layout (createNewAtlas m1).1 :=
        layout_transfer m1 _ id (map_pair_id m1.glyphs) (createNewAtlas_config m1)
          (fun _ => ⟨rfl, rfl⟩)
          (fun _ _ _ _ hst => stored_createNewAtlas hst hm1) hl1
      cases href : refAfterPush m1 (m.atlases.length - 1) with
      | none => exact ⟨layout_dangling hl2 _, pageDims_dangling hd2 _⟩
      | some k =>
        have hk := refAfterPush_lt _ _ _ href
        subst hk
        have hnew := stateAt_createNewAtlas m1 hm1
        rw [hlen1] at hnew
        have hold := stateAt_createNewAtlas_old m1 (m.atlases.length - 1)
          (by rw [hm1.states, hlen1]; exact hL)
        obtain ⟨_, hsq, _, _⟩ := hd1 (m.atlases.length - 1) (by rw [hlen1]; exact hL)
        have hidx : (createNewAtlas m1).2 = m.atlases.length := by
          rw [createNewAtlas_index, hlen1]
        have hw : ((createNewAtlas m1).1.stateAt (createNewAtlas m1).2).width
            = ((createNewAtlas m1).1.stateAt (m.atlases.length - 1)).width := by
          rw [hidx, hnew, hold]
        have hh : ((createNewAtlas m1).1.stateAt (createNewAtlas m1).2).height
            = ((createNewAtlas m1).1.stateAt (m.atlases.length - 1)).height := by
          rw [hidx, hnew, hold]; exact hsq
        have hne : m.atlases.length - 1 ≠ (createNewAtlas m1).1.atlases.length - 1 := by
          rw [createNewAtlas_atlases_length, hlen1]; omega
        refine ⟨?_, pageDims_setState hd2 _ _ hw hh⟩
        exact layout_transfer (createNewAtlas m1).1 _ id (map_pair_id _)
          (setState_config _ _ _) (fun _ => ⟨rfl, rfl⟩)
          (fun _ _ _ _ hst => stored_setState_old hst _ _ hne hw hh) hl2
  · exact ⟨hl1, hd1⟩

theorem stateAt_wrapAt_of_fits (m : FontAtlasManager) (i : Nat) (w : Int)
    (hi : i < m.atlasStates.length)
    (hx : (m.stateAt i).currentX + w + m.border ≤ (m.stateAt i).width) :
    (m.wrapAt i w).stateAt i = m.stateAt i := by
  unfold wrapAt
  rw [stateAt_setState_self m i _ hi, wrapRow_of_fits _ _ _ hx]

/-- `addGlyphToAtlas` keeps the layout and the page sizes in order, and the
record it returns has no ink or is stored on its page, when the cursor is in
order and all glyphs fit the minimum page. -/
theorem addGlyphToAtlas_layout (m : FontAtlasManager) (c : Nat) (hm : PagesOk m)
    (hc : CursorOk m) (hd : PageDims m) (hl : Layout m) (hfit : BitmapFits m c) :
    PageDims (addGlyphToAtlas m c).1 ∧ Layout (addGlyphToAtlas m c).1 ∧
    ∀ p, (addGlyphToAtlas m c).2 = some p →
      (p.tW = 0 ∨ p.tH = 0) ∨ ∃ X Y, Stored (addGlyphToAtlas m c).1 p (m.glyphPixels c) X Y := by
  have hc0 : CursorOk (rasterizeGlyph m c).1 := by
    rw [rasterizeGlyph_fst]; exact cursorOk_counted hc _
  have hm0 : PagesOk (rasterizeGlyph m c).1 := hm.rasterizeGlyph c
  have hd0 : PageDims (rasterizeGlyph m c).1 := by
    rw [rasterizeGlyph_fst]; exact pageDims_counted hd _
  have hl0 : Layout (rasterizeGlyph m c).1 := by
    rw [rasterizeGlyph_fst]; exact layout_counted hl _
  have hcfg := rasterizeGlyph_config m c
  rcases addGlyphToAtlas_cases m c with ⟨_, h⟩ | ⟨px, props, hr, hz, h⟩ |
    ⟨px, props, hr, hpw, hph, h⟩
  · rw [h]
    exact ⟨hd0, hl0, fun p hp => by cases hp⟩
  · rw [h]
    refine ⟨hd0, hl0, fun p hp => ?_⟩
    simp only [Option.some.injEq] at hp
    left
    have hiff := (rasterizeGlyph_glyphPixels m c px props hr).2
    have e5 : p.tW = props.tW := by rw [← hp]
    have e6 : p.tH = props.tH := by rw [← hp]
    rw [e5, e6]
    exact hiff.mpr hz
  · rw [h]
    obtain ⟨face, g, hface, hpx, htW, htH⟩ := rasterizeGlyph_some m c px props hr
    obtain ⟨fitW, fitH⟩ := bitmap_of_bitmapFits hfit hr face g hpx hpw
    have hsz := bitmapPixels_size m.antialiased (face.renderGlyph g m.antialiased).bitmap
    rw [← hpx] at hsz
    obtain ⟨h1, h2⟩ : px.width = (face.renderGlyph g m.antialiased).bitmap.width ∧
        px.height = (face.renderGlyph g m.antialiased).bitmap.rows := by
      rcases hsz with ⟨h0, _, _⟩ | ⟨h1, h2, _, _⟩
      · exact absurd h0 hpw
      · exact ⟨h1, h2⟩
    have fw : (px.width : Int) + 2 * (rasterizeGlyph m c).1.border
        ≤ (rasterizeGlyph m c).1.minAtlasSize := by
      rw [hcfg.border, hcfg.minAtlasSize, h1]; exact fitW
    have fh : (px.height : Int) + 2 * (rasterizeGlyph m c).1.border
        ≤ (rasterizeGlyph m c).1.minAtlasSize := by
      rw [hcfg.border, hcfg.minAtlasSize, h2]; exact fitH
    obtain ⟨s, hs, hq, hidx, hst, hsdef⟩ :=
      pack_of_fits (rasterizeGlyph m c).1 px props hm0 hc0 fw fh
    obtain ⟨hl1, hd1⟩ := fitFirstPass_layout (rasterizeGlyph m c).1 px.width px.height
      hm0 hc0 hd0 hl0
    obtain ⟨hm1, hidx1⟩ := fitFirstPass_pages (rasterizeGlyph m c).1 px.width px.height hm0
    have hcfg1 := fitFirstPass_config (rasterizeGlyph m c).1 px.width px.height
    have hpxc := (rasterizeGlyph_glyphPixels m c px props hr).1
    have hbd0 := hc0.border
    generalize (rasterizeGlyph m c).1 = M0 at *
    generalize fitFirstPass M0 px.width px.height = r at *
    have hi : r.2 < r.1.atlasStates.length := by
      rw [hm1.states, hidx1]; have := hm1.pos; omega
    have hbd1 : 0 ≤ r.1.border := by rw [hcfg1.border]; exact hbd0
    subst hsdef
    have hrow1 : 0 ≤ (r.1.stateAt (r.1.atlases.length - 1)).currentRowHeight := by
      rw [← hidx1]; exact hs.row
    have hwrap : (r.1.wrapAt r.2 px.width).stateAt r.2 = r.1.stateAt r.2 :=
      stateAt_wrapAt_of_fits r.1 r.2 px.width hi (by rw [hcfg1.border]; exact hs.fitsX)
    have hl2 : Layout (r.1.wrapAt r.2 px.width) := by
      rw [hidx1]; exact layout_wrapAt hl1 hm1 hbd1 hrow1 _
    have hd2 : PageDims (r.1.wrapAt r.2 px.width) := pageDims_wrapAt hd1 _ _
    have hm2 : PagesOk (r.1.wrapAt r.2 px.width) := hm1.wrapAt _ _
    have hlast : r.2 = (r.1.wrapAt r.2 px.width).atlases.length - 1 := by
      rw [wrapAt_atlases]; exact hidx1
    have hready : ((r.1.wrapAt r.2 px.width).stateAt r.2).Ready
        (r.1.wrapAt r.2 px.width).border M0.minAtlasSize px.width px.height := by
      rw [hwrap]
      have : (r.1.wrapAt r.2 px.width).border = M0.border := hcfg1.border
      rw [this]; exact hs
    have hbM : 0 ≤ (r.1.wrapAt r.2 px.width).border := hbd1
    rw [hq, ← hwrap]
    generalize r.1.wrapAt r.2 px.width = M at *
    rw [hlast] at hready ⊢
    simp only []
    refine ⟨pageDims_placeGlyph hd2 hm2 px props _ (by have := hm2.pos; omega), ?_, ?_⟩
    · exact layout_transfer M _ id (map_pair_id M.glyphs) (placeGlyph_config _ _ _ _ _ _)
        (fun _ => ⟨rfl, rfl⟩)
        (fun _ _ _ _ hsto => stored_placeGlyph_old hsto hm2 hbM px props) hl2
    · intro p hp
      simp only [Option.some.injEq] at hp
      right
      rw [← hp, ← hpxc]
      exact ⟨_, _, stored_placeGlyph_new M hm2 hd2 px props M0.minAtlasSize hbM
        (by omega) (by omega) hready⟩

theorem getOrLoadGlyph_layout (m : FontAtlasManager) (c : Nat) (hm : PagesOk m)
    (hc : CursorOk m) (hd : PageDims m) (hl : Layout m) (hfit : BitmapFits m c) :
    PageDims (getOrLoadGlyph m c).1 ∧ Layout (getOrLoadGlyph m c).1 := by
  have h := addGlyphToAtlas_layout m c hm hc hd hl hfit
  have hcfg := addGlyphToAtlas_config m c
  unfold getOrLoadGlyph
  split
  · exact ⟨hd, hl⟩
  · split
    · rename_i m1 heq
      rw [heq] at h
      exact ⟨h.1, h.2.1⟩
    · rename_i m1 props heq
      rw [heq] at h hcfg
      obtain ⟨h1, h2, h3⟩ := h
      refine ⟨h1, ?_⟩
      intro e he
      simp only [List.mem_cons] at he
      rcases he with rfl | he
      · rcases h3 props rfl with hz | ⟨X, Y, hst⟩
        · exact Or.inl hz
        · right
          refine ⟨X, Y, ?_⟩
          have hg : FontAtlasManager.glyphPixels
              { m1 with glyphs := (c, props) :: m1.glyphs } c = m.glyphPixels c :=
            glyphPixels_config hcfg c
          simp only []
          rw [hg]
          exact ⟨hst.index, hst.t1, hst.v1, hst.t2, hst.v2, hst.insideX, hst.insideY,
            hst.pixels, hst.behind⟩
      · rcases h2 e he with hz | ⟨X, Y, hst⟩
        · exact Or.inl hz
        · exact Or.inr ⟨X, Y, ⟨hst.index, hst.t1, hst.v1, hst.t2, hst.v2, hst.insideX,
            hst.insideY, hst.pixels, hst.behind⟩⟩

/-- After a successful `setup` of a new manager there is no glyph, and the one
page has the minimum size. -/
theorem setup_layout (env : Platform) (fontPath : String) (size : Int) (antialias : Bool)
    (dpiValue : Int)
    (h : (setup env {} fontPath size antialias dpiValue).1 = true) :
    PageDims (setup env {} fontPath size antialias dpiValue).2 ∧
    Layout (setup env {} fontPath size antialias dpiValue).2 := by
  obtain ⟨face, hf⟩ := setup_true env {} fontPath size antialias dpiValue h
  rw [hf]
  have hge := doubleUntil_ge 32 64 (max 64 (size * 4)) (by omega)
  refine ⟨?_, ?_⟩
  · intro j hj
    have hj0 : j = 0 := by
      simp [createNewAtlas, adoptFace, configure] at hj
      exact hj
    subst hj0
    have hb := ofPixels.allocateBlank_size (doubleUntil 32 64 (max 64 (size * 4)))
      (doubleUntil 32 64 (max 64 (size * 4))) (by omega) (by omega)
    refine ⟨?_, rfl, ?_, ?_⟩
    · show 0 < doubleUntil 32 64 (max 64 (size * 4))
      omega
    · exact hb.1
    · exact hb.2
  · intro e he
    cases he

/-- A record with ink of a glyph map that satisfies `Layout` names a pixel
rectangle of its page with the sides of the rasterized buffer, and the pixel
mirror of the page shows the buffer there. -/
theorem mirror_of_layout (m : FontAtlasManager) (c : Nat)
    (p : LazyGlyphProps) (hl : Layout m)
    (hp : m.glyphs.lookup c = some p) (hw : p.tW ≠ 0) (hh : p.tH ≠ 0) :
    ∃ X Y : Nat,
      (pixelRect m p).left = X ∧ (pixelRect m p).top = Y ∧
      (pixelRect m p).right = X + (m.glyphPixels c).width ∧
      (pixelRect m p).bottom = Y + (m.glyphPixels c).height ∧
      ∀ x y, x < (m.glyphPixels c).width → y < (m.glyphPixels c).height →
        m.mirrorColor p.atlasIndex (X + x) (Y + y) = (m.glyphPixels c).getColor x y := by
  have hmem := mem_of_lookup_eq_some c p m.glyphs hp
  rcases hl (c, p) hmem with hz | ⟨X, Y, hst⟩
  · rcases hz with hz | hz
    · exact absurd hz hw
    · exact absurd hz hh
  · exact ⟨X, Y, hst.t1, hst.v1, hst.t2, hst.v2, hst.pixels⟩

/-- C4 (as stated) fails: with a texture limit of 4096 and a minimum page of 64
the 300 x 300 glyph `W`, loaded first, gets the pixel rectangle (1, 3) to
(301, 303) on page 0, whose side is 256; the paste into the mirror is refused,
and the mirror shows the blank background at (1, 3), not the first pixel of
the rasterized buffer. -/
theorem oversized_glyph_not_in_mirror :
    Reachable (Example.platform 4096 true) (Example.loadAll (Example.fresh 4096 true) [87]) ∧
    (Example.loadAll (Example.fresh 4096 true) [87]).glyphs.lookup 87 = some Example.recordW ∧
    pixelRect (Example.loadAll (Example.fresh 4096 true) [87]) Example.recordW
      = ⟨1, 3, 301, 303⟩ ∧
    (Example.loadAll (Example.fresh 4096 true) [87]).mirrorColor 0 1 3 = ⟨255, 0⟩ ∧
    ((Example.loadAll (Example.fresh 4096 true) [87]).glyphPixels 87).getColor 0 0
      = ⟨255, 90⟩ := by
  refine ⟨Reachable.step _ 87 (Reachable.init "font.ttf" 16 true 0 ?_), ?_⟩
  · with_unfolding_all decide
  · with_unfolding_all decide

end FontAtlasManager

/-! ## Missing glyphs, glyphs without ink, and refused growth -/

namespace FontAtlasManager

theorem getOrLoadGlyph_hit (m : FontAtlasManager) (c : Nat) (p : LazyGlyphProps)
    (h : m.glyphs.lookup c = some p) : getOrLoadGlyph m c = (m, some p) := by
  unfold getOrLoadGlyph
  rw [h]

theorem getOrLoadGlyph_miss_none (m : FontAtlasManager) (c : Nat)
    (h : m.glyphs.lookup c = none) (ha : (addGlyphToAtlas m c).2 = none) :
    getOrLoadGlyph m c = ((addGlyphToAtlas m c).1, none) := by
  unfold getOrLoadGlyph
  rw [h]
  simp only []
  cases hc : addGlyphToAtlas m c with
  | mk m1 res =>
    rw [hc] at ha
    simp only [] at ha
    subst ha
    rfl

theorem getOrLoadGlyph_miss_some (m : FontAtlasManager) (c : Nat) (q : LazyGlyphProps)
    (h : m.glyphs.lookup c = none) (ha : (addGlyphToAtlas m c).2 = some q) :
    getOrLoadGlyph m c
      = ({ (addGlyphToAtlas m c).1 with glyphs := (c, q) :: (addGlyphToAtlas m c).1.glyphs },
         some q) := by
  unfold getOrLoadGlyph
  rw [h]
  simp only []
  cases hc : addGlyphToAtlas m c with
  | mk m1 res =>
    rw [hc] at ha
    simp only [] at ha
    subst ha
    rfl

theorem rasterizeGlyph_no_index (m : FontAtlasManager) (c : Nat) (face : FT_Face)
    (hface : m.face = some face) (h0 : face.getCharIndex c = 0) :
    (rasterizeGlyph m c).2 = none := by
  unfold rasterizeGlyph
  simp only [hface, h0, if_true]

theorem addGlyphToAtlas_of_failure (m : FontAtlasManager) (c : Nat)
    (h : (rasterizeGlyph m c).2 = none) :
    addGlyphToAtlas m c = ({ m with rasterizeCalls := m.rasterizeCalls + 1 }, none) := by
  rcases addGlyphToAtlas_cases m c with ⟨_, e⟩ | ⟨px, props, hr, _, _⟩ | ⟨px, props, hr, _, _, _⟩
  · rw [e, rasterizeGlyph_fst]
  · rw [h] at hr; cases hr
  · rw [h] at hr; cases hr

/-- C11: when the font engine maps the code point `c` to glyph index 0 and `c`
is not cached, `getOrLoadGlyph(c)` returns null and leaves the manager as it
was (only the count of `rasterizeGlyph` calls moves): `hasGlyph(c)` is still
false, and the glyph count, the page count, the page states (sizes and
cursors) and the pixel mirrors are those of before the call. -/
theorem getOrLoadGlyph_no_glyph (m : FontAtlasManager) (c : Nat) (face : FT_Face)
    (hface : m.face = some face) (h0 : face.getCharIndex c = 0)
    (hnew : m.glyphs.lookup c = none) :
    (getOrLoadGlyph m c).2 = none ∧
    (getOrLoadGlyph m c).1 = { m with rasterizeCalls := m.rasterizeCalls + 1 } ∧
    (getOrLoadGlyph m c).1.hasGlyph c = false ∧
    (getOrLoadGlyph m c).1.getLoadedGlyphCount = m.getLoadedGlyphCount ∧
    (getOrLoadGlyph m c).1.getAtlasCount = m.getAtlasCount ∧
    (getOrLoadGlyph m c).1.atlasStates = m.atlasStates ∧
    (getOrLoadGlyph m c).1.atlasPixels = m.atlasPixels ∧
    (getOrLoadGlyph m c).1.glyphs = m.glyphs := by
  have ha := addGlyphToAtlas_of_failure m c (rasterizeGlyph_no_index m c face hface h0)
  have hg := getOrLoadGlyph_miss_none m c hnew (by rw [ha])
  rw [hg, ha]
  refine ⟨rfl, rfl, ?_, rfl, rfl, rfl, rfl, rfl⟩
  simp only [hasGlyph, hnew]
  rfl

/-- Witness of `getOrLoadGlyph_no_glyph`: the private-use code point U+E000 on
a freshly set-up manager. -/
theorem getOrLoadGlyph_no_glyph_witness :
    (getOrLoadGlyph (Example.fresh 4096 true) 57344).2 = none ∧
    (getOrLoadGlyph (Example.fresh 4096 true) 57344).1.hasGlyph 57344 = false :=
  ⟨(getOrLoadGlyph_no_glyph (Example.fresh 4096 true) 57344 Example.face rfl rfl rfl).1,
   (getOrLoadGlyph_no_glyph (Example.fresh 4096 true) 57344 Example.face rfl rfl rfl).2.2.1⟩

theorem rasterizeGlyph_no_ink (m : FontAtlasManager) (c : Nat) (face : FT_Face)
    (metrics : FT_Glyph_Metrics) (hface : m.face = some face)
    (hg : face.getCharIndex c ≠ 0)
    (hload : face.loadGlyph (face.getCharIndex c) = some metrics)
    (hz : (face.renderGlyph (face.getCharIndex c) m.antialiased).bitmap.width = 0 ∨
      (face.renderGlyph (face.getCharIndex c) m.antialiased).bitmap.rows = 0) :
    ∃ props : LazyGlyphProps,
      (rasterizeGlyph m c).2 = some (ofPixels.clear, props) ∧
      props.width = int26p6_to_dbl metrics.width ∧
      props.height = int26p6_to_dbl metrics.height ∧
      props.bearingX = int26p6_to_dbl metrics.horiBearingX ∧
      props.bearingY = int26p6_to_dbl metrics.horiBearingY ∧
      props.advance = int26p6_to_dbl metrics.horiAdvance ∧
      (props.tW = 0 ∨ props.tH = 0) := by
  have hpx : bitmapPixels m.antialiased
      (face.renderGlyph (face.getCharIndex c) m.antialiased).bitmap = ofPixels.clear := by
    unfold bitmapPixels
    simp only []
    rw [if_pos]
    rcases hz with hz | hz
    · left; exact_mod_cast hz
    · right; exact_mod_cast hz
  unfold rasterizeGlyph
  simp only [hface, hg, if_false, hload, hpx]
  refine ⟨_, rfl, rfl, rfl, rfl, rfl, rfl, ?_⟩
  simp only []
  rcases hz with hz | hz
  · left; rw [hz]; rfl
  · right; rw [hz]; rfl

/-- C12: for a code point that is not cached and whose rendered bitmap has zero
width or zero height, `getOrLoadGlyph` returns a record with `atlasIndex` 0,
`t1 = t2 = v1 = v2 = 0` and the metrics of the font engine, stores it in the
glyph map, and consumes no placement: the page count, the page states (sizes,
cursor X and Y, row height) and the pixel mirrors are unchanged. -/
theorem getOrLoadGlyph_no_ink (m : FontAtlasManager) (c : Nat) (face : FT_Face)
    (metrics : FT_Glyph_Metrics) (hface : m.face = some face)
    (hg : face.getCharIndex c ≠ 0)
    (hload : face.loadGlyph (face.getCharIndex c) = some metrics)
    (hz : (face.renderGlyph (face.getCharIndex c) m.antialiased).bitmap.width = 0 ∨
      (face.renderGlyph (face.getCharIndex c) m.antialiased).bitmap.rows = 0)
    (hnew : m.glyphs.lookup c = none) :
    ∃ p : LazyGlyphProps,
      (getOrLoadGlyph m c).2 = some p ∧
      p.atlasIndex = 0 ∧ p.t1 = 0 ∧ p.t2 = 0 ∧ p.v1 = 0 ∧ p.v2 = 0 ∧
      p.width = int26p6_to_dbl metrics.width ∧
      p.height = int26p6_to_dbl metrics.height ∧
      p.bearingX = int26p6_to_dbl metrics.horiBearingX ∧
      p.bearingY = int26p6_to_dbl metrics.horiBearingY ∧
      p.advance = int26p6_to_dbl metrics.horiAdvance ∧
      (getOrLoadGlyph m c).1.glyphs = (c, p) :: m.glyphs ∧
      (getOrLoadGlyph m c).1.getAtlasCount = m.getAtlasCount ∧
      (getOrLoadGlyph m c).1.atlasStates = m.atlasStates ∧
      (getOrLoadGlyph m c).1.atlasPixels = m.atlasPixels := by
  obtain ⟨props, hr, e1, e2, e3, e4, e5, _⟩ :=
    rasterizeGlyph_no_ink m c face metrics hface hg hload hz
  have ha : addGlyphToAtlas m c
      = ({ m with rasterizeCalls := m.rasterizeCalls + 1 },
         some { props with atlasIndex := 0, t1 := 0, t2 := 0, v1 := 0, v2 := 0 }) := by
    rcases addGlyphToAtlas_cases m c with ⟨hn, _⟩ | ⟨px, q, hq, _, e⟩ | ⟨px, q, hq, hw, _, _⟩
    · rw [hr] at hn; cases hn
    · rw [hr] at hq
      simp only [Option.some.injEq, Prod.mk.injEq] at hq
      rw [e, rasterizeGlyph_fst, ← hq.2]
    · rw [hr] at hq
      simp only [Option.some.injEq, Prod.mk.injEq] at hq
      rw [← hq.1] at hw
      exact absurd rfl hw
  have hgl := getOrLoadGlyph_miss_some m c _ hnew (by rw [ha])
  rw [hgl, ha]
  exact ⟨_, rfl, rfl, rfl, rfl, rfl, rfl, e1, e2, e3, e4, e5, rfl, rfl, rfl, rfl⟩

/-- Witness of `getOrLoadGlyph_no_ink`: the space U+0020 on a freshly set-up
manager. -/
theorem getOrLoadGlyph_no_ink_witness :
    ∃ p : LazyGlyphProps,
      (getOrLoadGlyph (Example.fresh 4096 true) 32).2 = some p ∧
      p.atlasIndex = 0 ∧ p.t1 = 0 ∧ p.t2 = 0 ∧ p.v1 = 0 ∧ p.v2 = 0 ∧
      p.width = int26p6_to_dbl 640 ∧
      p.height = int26p6_to_dbl 640 ∧
      p.bearingX = int26p6_to_dbl 0 ∧
      p.bearingY = int26p6_to_dbl 640 ∧
      p.advance = int26p6_to_dbl 704 ∧
      (getOrLoadGlyph (Example.fresh 4096 true) 32).1.glyphs
        = (32, p) :: (Example.fresh 4096 true).glyphs ∧
      (getOrLoadGlyph (Example.fresh 4096 true) 32).1.getAtlasCount
        = (Example.fresh 4096 true).getAtlasCount ∧
      (getOrLoadGlyph (Example.fresh 4096 true) 32).1.atlasStates
        = (Example.fresh 4096 true).atlasStates ∧
      (getOrLoadGlyph (Example.fresh 4096 true) 32).1.atlasPixels
        = (Example.fresh 4096 true).atlasPixels :=
  getOrLoadGlyph_no_ink (Example.fresh 4096 true) 32 Example.face ⟨640, 640, 0, 640, 704⟩
    rfl (by decide) rfl (Or.inl rfl) rfl

/-- In the embedding `getOrLoadGlyph` returns no record exactly when the code
point is not cached and `rasterizeGlyph` reports failure, and a record it
returns is the one the glyph map then holds. -/
theorem getOrLoadGlyph_result (m : FontAtlasManager) (c : Nat) :
    ((getOrLoadGlyph m c).2 = none ↔
      (m.glyphs.lookup c = none ∧ (rasterizeGlyph m c).2 = none)) ∧
    (∀ p, (getOrLoadGlyph m c).2 = some p →
      (getOrLoadGlyph m c).1.glyphs.lookup c = some p) ∧
    ((rasterizeGlyph m c).2.isSome = true → (getOrLoadGlyph m c).2.isSome = true) := by
  have hiff : (getOrLoadGlyph m c).2 = none ↔
      (m.glyphs.lookup c = none ∧ (rasterizeGlyph m c).2 = none) := by
    cases hl : m.glyphs.lookup c with
    | some p =>
      rw [getOrLoadGlyph_hit m c p hl]
      simp
    | none =>
      rcases addGlyphToAtlas_cases m c with ⟨hn, e⟩ | ⟨px, q, hq, _, e⟩ | ⟨px, q, hq, _, _, e⟩
      · rw [getOrLoadGlyph_miss_none m c hl (by rw [e])]
        simp [hn]
      · rw [getOrLoadGlyph_miss_some m c _ hl (by rw [e])]
        simp [hq]
      · rw [getOrLoadGlyph_miss_some m c _ hl (by rw [e])]
        simp [hq]
  refine ⟨hiff, fun p hp => lookup_after_getOrLoadGlyph m c p hp, ?_⟩
  intro hs
  cases hr : (getOrLoadGlyph m c).2 with
  | some p => rfl
  | none =>
    have := (hiff.mp hr).2
    rw [this] at hs
    cases hs

end FontAtlasManager

/-! ## Release, clear and the memory totals -/

theorem foldl_add_mod {α : Type} (f : α → Nat) (l : List α) (acc : Nat)
    (hacc : acc < 18446744073709551616) :
    l.foldl (fun total e => (total + f e) % 18446744073709551616) acc
      = (acc + (l.map f).sum) % 18446744073709551616 := by
  induction l generalizing acc with
  | nil => simp only [List.foldl_nil, List.map_nil, List.sum_nil]; omega
  | cons e l ih =>
    simp only [List.foldl_cons, List.map_cons, List.sum_cons]
    rw [ih _ (Nat.mod_lt _ (by decide))]
    omega

theorem nodup_keys_eraseKey {α β : Type} [DecidableEq α] (k : α) (l : List (α × β))
    (h : (l.map Prod.fst).Nodup) : ((eraseKey k l).map Prod.fst).Nodup := by
  induction l with
  | nil => simp [eraseKey]
  | cons e l ih =>
    rw [List.map_cons, List.nodup_cons] at h
    by_cases he : e.1 = k
    · simp only [eraseKey, he, if_true]
      exact ih h.2
    · simp only [eraseKey, he, if_false, List.map_cons, List.nodup_cons]
      refine ⟨fun hm => h.1 ?_, ih h.2⟩
      obtain ⟨x, hx, hxe⟩ := List.mem_map.1 hm
      exact List.mem_map.2 ⟨x, mem_of_mem_eraseKey k x l hx, hxe⟩

theorem key_not_mem_eraseKey {α β : Type} [DecidableEq α] (k : α) (l : List (α × β)) :
    k ∉ (eraseKey k l).map Prod.fst := by
  induction l with
  | nil => simp [eraseKey]
  | cons e l ih =>
    by_cases he : e.1 = k
    · simp only [eraseKey, he, if_true]
      exact ih
    · simp only [eraseKey, he, if_false, List.map_cons, List.mem_cons, not_or]
      exact ⟨fun h => he h.symm, ih⟩

namespace SharedFontCache

theorem getTotalMemoryUsage_eq (s : SharedFontCache) :
    s.getTotalMemoryUsage
      = (s.cache.map (fun e => (s.deref e.2).getMemoryUsage)).sum % 18446744073709551616 := by
  unfold getTotalMemoryUsage
  rw [foldl_add_mod (fun e : FontCacheKey × Nat => (s.deref e.2).getMemoryUsage) s.cache 0
    (by decide)]
  simp

theorem getOrCreate_nodup (env : Platform) (s : SharedFontCache) (key : FontCacheKey)
    (dpi : Int) (h : (s.cache.map Prod.fst).Nodup) :
    ((getOrCreate env s key dpi).1.cache.map Prod.fst).Nodup := by
  cases hl : s.cache.lookup key with
  | some p => rw [getOrCreate_hit env s key dpi p hl]; exact h
  | none =>
    cases hs : (FontAtlasManager.setup env {} key.fontPath key.fontSize key.antialiased dpi).1
    · rw [getOrCreate_miss_fail env s key dpi hl hs]; exact h
    · rw [getOrCreate_miss_ok env s key dpi hl hs]
      simp only [List.map_cons, List.nodup_cons]
      refine ⟨?_, h⟩
      have := key_not_mem_eraseKey key s.cache
      rwa [eraseKey_of_lookup_none key s.cache hl] at this

theorem apply_nodup (s : SharedFontCache) (op : CacheOp) (h : (s.cache.map Prod.fst).Nodup) :
    (((CacheOp.apply s op).1).cache.map Prod.fst).Nodup := by
  cases op with
  | getOrCreate env key dpi => exact getOrCreate_nodup env s key dpi h
  | release key => exact nodup_keys_eraseKey key s.cache h
  | clear => simp [CacheOp.apply, clear]
  | loadGlyph p c => exact h

theorem run_nodup (ops : List CacheOp) (s : SharedFontCache)
    (h : (s.cache.map Prod.fst).Nodup) :
    (((CacheOp.run s ops).1).cache.map Prod.fst).Nodup := by
  induction ops generalizing s with
  | nil => exact h
  | cons op ops ih => exact ih _ (apply_nodup s op h)

/-- C18: `release(k)` leaves no entry for `k`, keeps the entry of every other
identity and every manager object (so a handle that still holds the pointer
sees the same manager), and returns the cache as it was when `k` had no entry;
after `clear()` the registry is empty and `getTotalMemoryUsage()` is 0, the
manager objects being untouched as well. -/
theorem release_and_clear (s : SharedFontCache) (k : FontCacheKey) :
    (s.release k).cache.lookup k = none
    ∧ (∀ k2, k2 ≠ k → (s.release k).cache.lookup k2 = s.cache.lookup k2)
    ∧ (s.release k).managers = s.managers
    ∧ (∀ manager, (s.release k).deref manager = s.deref manager)
    ∧ (s.cache.lookup k = none → s.release k = s)
    ∧ s.clear.cache = []
    ∧ s.clear.getTotalMemoryUsage = 0
    ∧ s.clear.managers = s.managers := by
  refine ⟨lookup_eraseKey_self k s.cache, fun k2 h => lookup_eraseKey_ne k k2 s.cache h,
    rfl, fun _ => rfl, fun h => ?_, rfl, rfl, rfl⟩
  simp only [release, eraseKey_of_lookup_none k s.cache h]

end SharedFontCache

namespace FontAtlasManager

theorem getMemoryUsage_lt (m : FontAtlasManager) :
    m.getMemoryUsage < 18446744073709551616 :=
  Nat.mod_lt _ (by decide)

theorem addPageUsage_exact (total : Nat) (st : AtlasState)
    (h0 : 0 ≤ st.width * st.height) (h1 : st.width * st.height * 2 < 2147483648)
    (ht : (total : Int) + st.width * st.height * 2 * 2 < 18446744073709551616) :
    ((addPageUsage total st : Nat) : Int) = total + st.width * st.height * 2 * 2 := by
  unfold addPageUsage wrapInt32 toSizeT
  generalize st.width * st.height = x at *
  simp only []
  omega

theorem pageSum_nonneg (l : List AtlasState)
    (hl : ∀ st ∈ l, 0 ≤ st.width * st.height ∧ st.width * st.height * 2 < 2147483648) :
    0 ≤ (l.map (fun st => st.width * st.height * 2 * 2)).sum := by
  induction l with
  | nil => simp
  | cons st l ih =>
    have h1 := hl st (List.mem_cons_self _ _)
    have h2 := ih (fun x hx => hl x (List.mem_cons_of_mem _ hx))
    simp only [List.map_cons, List.sum_cons]
    omega

theorem foldl_addPageUsage (l : List AtlasState) (acc : Nat)
    (hl : ∀ st ∈ l, 0 ≤ st.width * st.height ∧ st.width * st.height * 2 < 2147483648)
    (hb : (acc : Int) + (l.map (fun st => st.width * st.height * 2 * 2)).sum
      < 18446744073709551616) :
    ((l.foldl addPageUsage acc : Nat) : Int)
      = acc + (l.map (fun st => st.width * st.height * 2 * 2)).sum := by
  induction l generalizing acc with
  | nil => simp
  | cons st l ih =>
    have h1 := hl st (List.mem_cons_self _ _)
    have h2 := pageSum_nonneg l (fun x hx => hl x (List.mem_cons_of_mem _ hx))
    simp only [List.map_cons, List.sum_cons] at hb
    have h3 := addPageUsage_exact acc st h1.1 h1.2 (by omega)
    simp only [List.foldl_cons, List.map_cons, List.sum_cons]
    rw [ih _ (fun x hx => hl x (List.mem_cons_of_mem _ hx)) (by rw [h3]; omega), h3]
    omega

theorem getMemoryUsage_exact (m : FontAtlasManager)
    (hl : ∀ st ∈ m.atlasStates,
      0 ≤ st.width * st.height ∧ st.width * st.height * 2 < 2147483648)
    (hb : m.specMemoryUsage < 18446744073709551616) :
    (m.getMemoryUsage : Int) = m.specMemoryUsage := by
  unfold specMemoryUsage getLoadedGlyphCount at *
  have h2 := pageSum_nonneg m.atlasStates hl
  have h3 := foldl_addPageUsage m.atlasStates 0 hl (by omega)
  unfold getMemoryUsage
  simp only []
  generalize m.atlasStates.foldl addPageUsage 0 = t at *
  generalize (m.atlasStates.map (fun st => st.width * st.height * 2 * 2)).sum = u at *
  generalize m.glyphs.length * sizeofLazyGlyphProps = g at *
  omega

/-- C20: on the manager that `setup("font.ttf", 8192, true, 0)` returns under a
texture limit of 32768 (one empty page of side 32768, no glyph)
`getMemoryUsage()` is 18446744069414584320 where the memory equation gives
4294967296: `width * height * 2` wraps in `int`.  As long as every page has
`0 <= width * height` and `width * height * 2 < 2^31` and the sum is below
`2^64`, `getMemoryUsage()` is the sum of the equation. -/
theorem getMemoryUsage_wraps_at_32768 :
    (setup (Example.platform 32768 true) {} "font.ttf" 8192 true 0).1 = true
    ∧ Example.hugeFresh.atlasStates.map (fun st => (st.width, st.height)) = [(32768, 32768)]
    ∧ Example.hugeFresh.getLoadedGlyphCount = 0
    ∧ Example.hugeFresh.maxAtlasSize = 32768
    ∧ Example.hugeFresh.getMemoryUsage = 18446744069414584320
    ∧ Example.hugeFresh.specMemoryUsage = 4294967296
    ∧ (Example.hugeFresh.getMemoryUsage : Int) ≠ Example.hugeFresh.specMemoryUsage
    ∧ ∀ m : FontAtlasManager,
        (∀ st ∈ m.atlasStates,
          0 ≤ st.width * st.height ∧ st.width * st.height * 2 < 2147483648) →
        m.specMemoryUsage < 18446744073709551616 →
        (m.getMemoryUsage : Int) = m.specMemoryUsage := by
  refine ⟨by with_unfolding_all decide, by with_unfolding_all decide,
    by with_unfolding_all decide, by with_unfolding_all decide,
    by with_unfolding_all decide, by with_unfolding_all decide,
    by with_unfolding_all decide, getMemoryUsage_exact⟩

end FontAtlasManager

namespace ofxTrueTypeFontLowRAM

theorem load_fresh_ok (env : Platform) (a : ofxTrueTypeFontLowRAM) (filename : String)
    (fontsize : Int) (aa : Bool) (dpi : Int)
    (hok : (load env {} a filename fontsize aa dpi).1 = true) :
    (load env {} a filename fontsize aa dpi).2.1.cache = [(⟨filename, fontsize, aa⟩, 0)]
    ∧ (load env {} a filename fontsize aa dpi).2.1.managers.length = 1
    ∧ (load env {} a filename fontsize aa dpi).2.2.atlasManager = some 0 := by
  cases hs : (FontAtlasManager.setup env {} filename fontsize aa dpi).1
  · have h := SharedFontCache.getOrCreate_miss_fail env {} ⟨filename, fontsize, aa⟩ dpi rfl hs
    simp [load, h] at hok
  · have h := SharedFontCache.getOrCreate_miss_ok env {} ⟨filename, fontsize, aa⟩ dpi rfl hs
    simp [load, h]

theorem load_again (env : Platform) (s : SharedFontCache) (b : ofxTrueTypeFontLowRAM)
    (filename : String) (fontsize : Int) (aa : Bool) (dpi : Int) (manager : Nat)
    (h : s.cache.lookup ⟨filename, fontsize, aa⟩ = some manager) :
    (load env s b filename fontsize aa dpi).1 = true
    ∧ (load env s b filename fontsize aa dpi).2.1 = s
    ∧ (load env s b filename fontsize aa dpi).2.2.atlasManager = some manager := by
  have h2 := SharedFontCache.getOrCreate_hit env s ⟨filename, fontsize, aa⟩ dpi manager h
  simp [load, h2]

theorem requests_keep_registry (key : FontCacheKey) (a b : ofxTrueTypeFontLowRAM)
    (ha : a.atlasManager = some 0) (hb : b.atlasManager = some 0)
    (requests : List (Bool × Nat)) (s : SharedFontCache)
    (hc : s.cache = [(key, 0)]) (hm : s.managers.length = 1) :
    (requests.foldl (fun s r => requestGlyph s (if r.1 then a else b) r.2) s).cache
        = [(key, 0)]
    ∧ (requests.foldl (fun s r => requestGlyph s (if r.1 then a else b) r.2) s).managers.length
        = 1 := by
  induction requests generalizing s with
  | nil => exact ⟨hc, hm⟩
  | cons r rs ih =>
    simp only [List.foldl_cons]
    apply ih
    · cases r.1 <;> simp [requestGlyph, ha, hb, SharedFontCache.loadGlyph, hc]
    · cases r.1 <;> simp [requestGlyph, ha, hb, SharedFontCache.loadGlyph, hm]

theorem total_of_single (key : FontCacheKey) (s : SharedFontCache)
    (hc : s.cache = [(key, 0)]) :
    s.getTotalMemoryUsage = (s.deref 0).getMemoryUsage := by
  rw [SharedFontCache.getTotalMemoryUsage_eq, hc]
  simp only [List.map_cons, List.map_nil, List.sum_cons, List.sum_nil, Nat.add_zero]
  exact Nat.mod_eq_of_lt (FontAtlasManager.getMemoryUsage_lt _)

/-- C19: `getTotalMemoryUsage()` is the sum, in `size_t` arithmetic, of
`getMemoryUsage()` over the registry entries (the sum itself when that is below
`2^64`), and a registry built by cache calls from the empty one has one entry
per identity.  When a first handle loads an identity into the empty cache and
a second handle loads the same identity, the second load succeeds with the
same manager, and after any glyph requests through the two handles
`getTotalCacheMemoryUsage()` is the `getMemoryUsage()` of either handle. -/
theorem total_counts_shared_atlas_once (s : SharedFontCache) (env1 env2 : Platform)
    (a b : ofxTrueTypeFontLowRAM) (filename : String) (fontsize : Int) (aa : Bool)
    (dpi1 dpi2 : Int) (requests : List (Bool × Nat))
    (hok : (load env1 {} a filename fontsize aa dpi1).1 = true) :
    s.getTotalMemoryUsage
      = (s.cache.map (fun e => (s.deref e.2).getMemoryUsage)).sum % 18446744073709551616
    ∧ ((s.cache.map (fun e => (s.deref e.2).getMemoryUsage)).sum < 18446744073709551616 →
        s.getTotalMemoryUsage = (s.cache.map (fun e => (s.deref e.2).getMemoryUsage)).sum)
    ∧ (∀ ops, (((CacheOp.run {} ops).1).cache.map Prod.fst).Nodup)
    ∧ (load env2 (load env1 {} a filename fontsize aa dpi1).2.1 b filename fontsize aa dpi2).1
        = true
    ∧ (load env2 (load env1 {} a filename fontsize aa dpi1).2.1 b filename fontsize aa
          dpi2).2.2.atlasManager
        = (load env1 {} a filename fontsize aa dpi1).2.2.atlasManager
    ∧ getTotalCacheMemoryUsage
          (requests.foldl
            (fun s r => requestGlyph s
              (if r.1 then (load env1 {} a filename fontsize aa dpi1).2.2
               else (load env2 (load env1 {} a filename fontsize aa dpi1).2.1 b filename
                      fontsize aa dpi2).2.2) r.2)
            (load env2 (load env1 {} a filename fontsize aa dpi1).2.1 b filename fontsize aa
              dpi2).2.1)
        = getMemoryUsage
            (requests.foldl
              (fun s r => requestGlyph s
                (if r.1 then (load env1 {} a filename fontsize aa dpi1).2.2
                 else (load env2 (load env1 {} a filename fontsize aa dpi1).2.1 b filename
                        fontsize aa dpi2).2.2) r.2)
              (load env2 (load env1 {} a filename fontsize aa dpi1).2.1 b filename fontsize aa
                dpi2).2.1)
            (load env1 {} a filename fontsize aa dpi1).2.2 := by
  obtain ⟨h1, h2, h3⟩ := load_fresh_ok env1 a filename fontsize aa dpi1 hok
  obtain ⟨h4, h5, h6⟩ := load_again env2 (load env1 {} a filename fontsize aa dpi1).2.1 b
    filename fontsize aa dpi2 0 (by rw [h1]; simp)
  refine ⟨SharedFontCache.getTotalMemoryUsage_eq s, fun hlt => ?_,
    fun ops => SharedFontCache.run_nodup ops {} (by simp), h4, by rw [h6, h3], ?_⟩
  · rw [SharedFontCache.getTotalMemoryUsage_eq s, Nat.mod_eq_of_lt hlt]
  · obtain ⟨h7, _⟩ := requests_keep_registry ⟨filename, fontsize, aa⟩
      (load env1 {} a filename fontsize aa dpi1).2.2
      (load env2 (load env1 {} a filename fontsize aa dpi1).2.1 b filename fontsize aa dpi2).2.2
      h3 h6 requests
      (load env2 (load env1 {} a filename fontsize aa dpi1).2.1 b filename fontsize aa dpi2).2.1
      (by rw [h5]; exact h1) (by rw [h5]; exact h2)
    unfold getTotalCacheMemoryUsage
    rw [total_of_single _ _ h7]
    simp only [getMemoryUsage, h3]

/-- Witness of `total_counts_shared_atlas_once`: two handles load
`("font.ttf", 16, true)`, the first requests `A` and the second `B`. -/
theorem total_counts_shared_atlas_once_witness :
    (load (Example.platform 4096 true) {} {} "font.ttf" 16 true 0).1 = true
    ∧ getTotalCacheMemoryUsage
          ([(true, 65), (false, 66)].foldl
            (fun s r => requestGlyph s
              (if r.1 then (load (Example.platform 4096 true) {} {} "font.ttf" 16 true 0).2.2
               else (load Example.noFonts
                      (load (Example.platform 4096 true) {} {} "font.ttf" 16 true 0).2.1 {}
                      "font.ttf" 16 true 300).2.2) r.2)
            (load Example.noFonts
              (load (Example.platform 4096 true) {} {} "font.ttf" 16 true 0).2.1 {}
              "font.ttf" 16 true 300).2.1)
        = getMemoryUsage
            ([(true, 65), (false, 66)].foldl
              (fun s r => requestGlyph s
                (if r.1 then (load (Example.platform 4096 true) {} {} "font.ttf" 16 true 0).2.2
                 else (load Example.noFonts
                        (load (Example.platform 4096 true) {} {} "font.ttf" 16 true 0).2.1 {}
                        "font.ttf" 16 true 300).2.2) r.2)
              (load Example.noFonts
                (load (Example.platform 4096 true) {} {} "font.ttf" 16 true 0).2.1 {}
                "font.ttf" 16 true 300).2.1)
            (load (Example.platform 4096 true) {} {} "font.ttf" 16 true 0).2.2 :=
  ⟨by with_unfolding_all decide,
    (total_counts_shared_atlas_once {} (Example.platform 4096 true) Example.noFonts {} {}
      "font.ttf" 16 true 0 300 [(true, 65), (false, 66)]
      (by with_unfolding_all decide)).2.2.2.2.2⟩

end ofxTrueTypeFontLowRAM

/-! ## The first glyph on a fresh page -/

namespace FontAtlasManager

theorem setup_fresh (env : Platform) (fontPath : String) (size : Int) (antialias : Bool)
    (dpiValue : Int)
    (h : (setup env {} fontPath size antialias dpiValue).1 = true) :
    (setup env {} fontPath size antialias dpiValue).2.atlasStates
        = [{ currentX := 1, currentY := 1, currentRowHeight := 0,
             width := (setup env {} fontPath size antialias dpiValue).2.minAtlasSize,
             height := (setup env {} fontPath size antialias dpiValue).2.minAtlasSize }]
    ∧ (setup env {} fontPath size antialias dpiValue).2.atlases.length = 1
    ∧ (setup env {} fontPath size antialias dpiValue).2.glyphs = []
    ∧ (setup env {} fontPath size antialias dpiValue).2.border = 1
    ∧ 64 ≤ (setup env {} fontPath size antialias dpiValue).2.minAtlasSize := by
  have hcfg := (Reachable.init fontPath size antialias dpiValue h : Reachable env _).config
  obtain ⟨face, hf⟩ := setup_true env {} fontPath size antialias dpiValue h
  refine ⟨?_, ?_, ?_, hcfg.1, hcfg.2⟩
  · rw [hf]; simp [createNewAtlas, adoptFace, configure]
  · rw [hf]; simp [createNewAtlas, adoptFace, configure]
  · rw [hf]; simp [createNewAtlas, adoptFace, configure]

theorem fitFirstPass_of_fits (m : FontAtlasManager) (w h : Int) (hm : PagesOk m)
    (hx : (m.stateAt (m.atlases.length - 1)).currentX + w + m.border
      ≤ (m.stateAt (m.atlases.length - 1)).width)
    (hy : (m.stateAt (m.atlases.length - 1)).currentY + h + m.border
      ≤ (m.stateAt (m.atlases.length - 1)).height) :
    fitFirstPass m w h = (m.wrapAt (m.atlases.length - 1) w, m.atlases.length - 1) := by
  have hi : m.atlases.length - 1 < m.atlasStates.length := by
    have := hm.states; have := hm.pos; omega
  have e := stateAt_wrapAt_of_fits m _ w hi hx
  have eb : (m.wrapAt (m.atlases.length - 1) w).border = m.border := rfl
  unfold fitFirstPass
  simp only []
  rw [e, eb, if_neg (by omega)]

end FontAtlasManager

namespace FontAtlasManager

theorem placeGlyph_glyphs (m : FontAtlasManager) (px : ofPixels) (props : LazyGlyphProps)
    (i : Nat) (st : AtlasState) (t : Option Nat) :
    (placeGlyph m px props i st t).1.glyphs = m.glyphs := by
  cases t <;> rfl

theorem fitSecondPass_tW (m : FontAtlasManager) (i : Nat) (px : ofPixels)
    (props : LazyGlyphProps) : (fitSecondPass m i px props).2.tW = props.tW := by
  unfold fitSecondPass
  simp only []
  split_ifs <;> rfl

theorem fitSecondPass_tH (m : FontAtlasManager) (i : Nat) (px : ofPixels)
    (props : LazyGlyphProps) : (fitSecondPass m i px props).2.tH = props.tH := by
  unfold fitSecondPass
  simp only []
  split_ifs <;> rfl

theorem getOrLoadGlyph_miss_cases (m : FontAtlasManager) (c : Nat) (p : LazyGlyphProps)
    (hnew : m.glyphs.lookup c = none) (hp : (getOrLoadGlyph m c).2 = some p) :
    (addGlyphToAtlas m c).2 = some p ∧
    getOrLoadGlyph m c
      = ({ (addGlyphToAtlas m c).1 with glyphs := (c, p) :: (addGlyphToAtlas m c).1.glyphs },
         some p) := by
  cases ha : (addGlyphToAtlas m c).2 with
  | none =>
    rw [getOrLoadGlyph_miss_none m c hnew ha] at hp
    cases hp
  | some q =>
    have e := getOrLoadGlyph_miss_some m c q hnew ha
    rw [e] at hp
    simp only [Option.some.injEq] at hp
    subst hp
    exact ⟨rfl, e⟩

/-- C14 (as amended): on the manager a successful `setup` returns (one empty
page of side `S = minAtlasSize`, no glyph, border 1), the first code point
loaded, when its bitmap of `w` x `h` pixels has `0 < w`, `0 < h`, `w + 2 ≤ S`
and `h + 2 ≤ S`, gets a record with `atlasIndex = 0`, texture rectangle
`t1 = 1/S`, `t2 = (1 + w)/S`, `v1 = 1/S`, `v2 = (1 + h)/S` inside the unit
square and pixel rectangle `[1, 1 + w] x [1, 1 + h]` inside
`[1, S - 1] x [1, S - 1]`; afterwards `getLoadedGlyphCount()` is 1,
`getAtlasCount()` is 1 and the page still has side `S`. -/
theorem first_glyph_on_fresh_page (env : Platform) (fontPath : String) (size : Int)
    (antialias : Bool) (dpiValue : Int) (c : Nat) (p : LazyGlyphProps)
    (hs : (setup env {} fontPath size antialias dpiValue).1 = true)
    (hp : (getOrLoadGlyph (setup env {} fontPath size antialias dpiValue).2 c).2 = some p)
    (hw : 0 < p.tW) (hh : 0 < p.tH)
    (fw : p.tW + 2 ≤ ((setup env {} fontPath size antialias dpiValue).2.minAtlasSize : ℚ))
    (fh : p.tH + 2 ≤ ((setup env {} fontPath size antialias dpiValue).2.minAtlasSize : ℚ)) :
    (setup env {} fontPath size antialias dpiValue).2.getAtlasCount = 1
    ∧ (setup env {} fontPath size antialias dpiValue).2.getLoadedGlyphCount = 0
    ∧ (setup env {} fontPath size antialias dpiValue).2.border = 1
    ∧ (setup env {} fontPath size antialias dpiValue).2.stateAt 0
        = { currentX := 1, currentY := 1, currentRowHeight := 0,
            width := (setup env {} fontPath size antialias dpiValue).2.minAtlasSize,
            height := (setup env {} fontPath size antialias dpiValue).2.minAtlasSize }
    ∧ p.atlasIndex = 0
    ∧ p.t1 = 1 / ((setup env {} fontPath size antialias dpiValue).2.minAtlasSize : ℚ)
    ∧ p.t2 = (1 + p.tW) / ((setup env {} fontPath size antialias dpiValue).2.minAtlasSize : ℚ)
    ∧ p.v1 = 1 / ((setup env {} fontPath size antialias dpiValue).2.minAtlasSize : ℚ)
    ∧ p.v2 = (1 + p.tH) / ((setup env {} fontPath size antialias dpiValue).2.minAtlasSize : ℚ)
    ∧ (0 ≤ p.t1 ∧ p.t1 ≤ p.t2 ∧ p.t2 ≤ 1 ∧ 0 ≤ p.v1 ∧ p.v1 ≤ p.v2 ∧ p.v2 ≤ 1)
    ∧ pixelRect (getOrLoadGlyph (setup env {} fontPath size antialias dpiValue).2 c).1 p
        = ⟨1, 1, 1 + p.tW, 1 + p.tH⟩
    ∧ 1 + p.tW ≤ ((setup env {} fontPath size antialias dpiValue).2.minAtlasSize : ℚ) - 1
    ∧ 1 + p.tH ≤ ((setup env {} fontPath size antialias dpiValue).2.minAtlasSize : ℚ) - 1
    ∧ (getOrLoadGlyph (setup env {} fontPath size antialias dpiValue).2 c).1.getLoadedGlyphCount
        = 1
    ∧ (getOrLoadGlyph (setup env {} fontPath size antialias dpiValue).2 c).1.getAtlasCount = 1
    ∧ ((getOrLoadGlyph (setup env {} fontPath size antialias dpiValue).2 c).1.stateAt 0).width
        = (setup env {} fontPath size antialias dpiValue).2.minAtlasSize
    ∧ ((getOrLoadGlyph (setup env {} fontPath size antialias dpiValue).2 c).1.stateAt 0).height
        = (setup env {} fontPath size antialias dpiValue).2.minAtlasSize := by
  obtain ⟨hst, hlen, hgl, hb, hmin⟩ := setup_fresh env fontPath size antialias dpiValue hs
  have hpages := setup_pages env fontPath size antialias dpiValue hs
  generalize (setup env {} fontPath size antialias dpiValue).2 = m at *
  have hs0 : m.stateAt 0 =
      { currentX := 1, currentY := 1, currentRowHeight := 0,
        width := m.minAtlasSize, height := m.minAtlasSize } := by
    unfold stateAt; rw [hst]; rfl
  have hnew : m.glyphs.lookup c = none := by rw [hgl]; rfl
  obtain ⟨hsome, hget⟩ := getOrLoadGlyph_miss_cases m c p hnew hp
  have hcfg := rasterizeGlyph_config m c
  have hS : (0 : ℚ) < (m.minAtlasSize : ℚ) := by
    have : (0 : Int) < m.minAtlasSize := by omega
    exact_mod_cast this
  rcases addGlyphToAtlas_cases m c with ⟨_, h⟩ | ⟨px, props, hr, hz, h⟩ |
    ⟨px, props, hr, hpw, hph, h⟩
  · rw [h] at hsome; cases hsome
  · exfalso
    rw [h] at hsome
    simp only [Option.some.injEq] at hsome
    obtain ⟨face, g, hface, hpx, htW, htH⟩ := rasterizeGlyph_some m c px props hr
    have hsz := bitmapPixels_size m.antialiased (face.renderGlyph g m.antialiased).bitmap
    rw [← hpx] at hsz
    have e5 : p.tW = props.tW := by rw [← hsome]
    have e6 : p.tH = props.tH := by rw [← hsome]
    rcases hsz with ⟨_, _, h0 | h0⟩ | ⟨h1, h2, _, _⟩
    · rw [e5, htW, h0] at hw; simp at hw
    · rw [e6, htH, h0] at hh; simp at hh
    · rcases hz with hz | hz
      · rw [e5, htW, ← h1, hz] at hw; simp at hw
      · rw [e6, htH, ← h2, hz] at hh; simp at hh
  · obtain ⟨face, g, hface, hpx, htW, htH⟩ := rasterizeGlyph_some m c px props hr
    have hsz := bitmapPixels_size m.antialiased (face.renderGlyph g m.antialiased).bitmap
    rw [← hpx] at hsz
    obtain ⟨h1, h2⟩ : px.width = (face.renderGlyph g m.antialiased).bitmap.width ∧
        px.height = (face.renderGlyph g m.antialiased).bitmap.rows := by
      rcases hsz with ⟨h0, _, _⟩ | ⟨h1, h2, _, _⟩
      · exact absurd h0 hpw
      · exact ⟨h1, h2⟩
    have hm1 : PagesOk (rasterizeGlyph m c).1 := hpages.rasterizeGlyph c
    have hlen1 : (rasterizeGlyph m c).1.atlases.length = 1 := by
      rw [rasterizeGlyph_fst]; exact hlen
    have hs1 : (rasterizeGlyph m c).1.stateAt 0 = m.stateAt 0 := by
      rw [rasterizeGlyph_fst]; rfl
    have hgl1 : (rasterizeGlyph m c).1.glyphs = [] := by
      rw [rasterizeGlyph_fst]; exact hgl
    have etW : p.tW = (px.width : ℚ) := by
      have : p.tW = props.tW := by
        rw [h] at hsome
        simp only [Option.some.injEq] at hsome
        rw [← hsome]; exact fitSecondPass_tW _ _ px props
      rw [this, htW, h1]
    have etH : p.tH = (px.height : ℚ) := by
      have : p.tH = props.tH := by
        rw [h] at hsome
        simp only [Option.some.injEq] at hsome
        rw [← hsome]; exact fitSecondPass_tH _ _ px props
      rw [this, htH, h2]
    have fwi : (px.width : Int) + 2 ≤ m.minAtlasSize := by
      rw [etW] at fw; exact_mod_cast fw
    have fhi : (px.height : Int) + 2 ≤ m.minAtlasSize := by
      rw [etH] at fh; exact_mod_cast fh
    have e1 : fitFirstPass (rasterizeGlyph m c).1 px.width px.height
        = ((rasterizeGlyph m c).1.wrapAt 0 px.width, 0) := by
      have := fitFirstPass_of_fits (rasterizeGlyph m c).1 px.width px.height hm1
        (by rw [hlen1, hs1, hs0, hcfg.border, hb]; simp only []; omega)
        (by rw [hlen1, hs1, hs0, hcfg.border, hb]; simp only []; omega)
      rw [hlen1] at this
      exact this
    have hi1 : 0 < (rasterizeGlyph m c).1.atlasStates.length := by
      rw [hm1.states, hlen1]; exact Nat.one_pos
    have e2 : ((rasterizeGlyph m c).1.wrapAt 0 px.width).stateAt 0
        = (rasterizeGlyph m c).1.stateAt 0 :=
      stateAt_wrapAt_of_fits _ 0 px.width hi1
        (by rw [hs1, hs0, hcfg.border, hb]; simp only []; omega)
    have eb2 : ((rasterizeGlyph m c).1.wrapAt 0 px.width).border
        = (rasterizeGlyph m c).1.border := rfl
    have hi2 : 0 < ((rasterizeGlyph m c).1.wrapAt 0 px.width).atlasStates.length := by
      show 0 < ((rasterizeGlyph m c).1.atlasStates.set 0 _).length
      rw [List.length_set]; exact hi1
    have hi3 : 0 < (((rasterizeGlyph m c).1.wrapAt 0 px.width).wrapAt 0
        px.width).atlasStates.length := by
      show 0 < (((rasterizeGlyph m c).1.wrapAt 0 px.width).atlasStates.set 0 _).length
      rw [List.length_set]; exact hi2
    have hq : addGlyphToAtlas m c
        = ((placeGlyph (((rasterizeGlyph m c).1.wrapAt 0 px.width).wrapAt 0 px.width) px props 0
              (m.stateAt 0) (some 0)).1,
           some (placeGlyph (((rasterizeGlyph m c).1.wrapAt 0 px.width).wrapAt 0 px.width)
              px props 0 (m.stateAt 0) (some 0)).2) := by
      rw [h, e1]
      simp only []
      rw [fitSecondPass_of_fits _ 0 px props hi2 (by rw [e2, eb2, hs1, hs0, hcfg.border, hb]; simp only []; omega)
        (by rw [e2, eb2, hs1, hs0, hcfg.border, hb]; simp only []; omega), e2, hs1]
    rw [hq] at hsome
    simp only [Option.some.injEq] at hsome
    have hadd1 : (addGlyphToAtlas m c).1
        = (placeGlyph (((rasterizeGlyph m c).1.wrapAt 0 px.width).wrapAt 0 px.width) px props 0
              (m.stateAt 0) (some 0)).1 := by rw [hq]
    have hstA : (getOrLoadGlyph m c).1.stateAt 0
        = { m.stateAt 0 with
              currentX := (m.stateAt 0).currentX + px.width + m.border,
              currentRowHeight := max (m.stateAt 0).currentRowHeight px.height } := by
      rw [hget]
      show (addGlyphToAtlas m c).1.stateAt 0 = _
      rw [hadd1]
      have ebb : (((rasterizeGlyph m c).1.wrapAt 0 px.width).wrapAt 0 px.width).border
          = m.border := hcfg.border
      rw [stateAt_placeGlyph_self _ px props 0 (m.stateAt 0) hi3, ebb]
    have t1 : p.t1 = 1 / (m.minAtlasSize : ℚ) := by
      rw [← hsome]
      show (((m.stateAt 0).currentX : Int) : ℚ) / (((m.stateAt 0).width : Int) : ℚ) = _
      rw [hs0]; simp
    have v1 : p.v1 = 1 / (m.minAtlasSize : ℚ) := by
      rw [← hsome]
      show (((m.stateAt 0).currentY : Int) : ℚ) / (((m.stateAt 0).height : Int) : ℚ) = _
      rw [hs0]; simp
    have t2 : p.t2 = (1 + p.tW) / (m.minAtlasSize : ℚ) := by
      rw [etW, ← hsome]
      show ((((m.stateAt 0).currentX + (px.width : Int) : Int)) : ℚ)
        / (((m.stateAt 0).width : Int) : ℚ) = _
      rw [hs0]; simp
    have v2 : p.v2 = (1 + p.tH) / (m.minAtlasSize : ℚ) := by
      rw [etH, ← hsome]
      show ((((m.stateAt 0).currentY + (px.height : Int) : Int)) : ℚ)
        / (((m.stateAt 0).height : Int) : ℚ) = _
      rw [hs0]; simp
    have hidx : p.atlasIndex = 0 := by rw [← hsome]; rfl
    refine ⟨hlen, by rw [getLoadedGlyphCount, hgl]; rfl, hb, hs0, hidx, t1, t2, v1, v2, ?_, ?_,
      by linarith, by linarith, ?_, ?_, ?_, ?_⟩
    · rw [t1, t2, v1, v2]
      refine ⟨by positivity, ?_, ?_, by positivity, ?_, ?_⟩
      · apply div_le_div_of_nonneg_right _ hS.le; linarith
      · rw [div_le_one hS]; linarith
      · apply div_le_div_of_nonneg_right _ hS.le; linarith
      · rw [div_le_one hS]; linarith
    · unfold pixelRect
      rw [hidx, hstA, hs0, t1, t2, v1, v2]
      simp only []
      have hne : (m.minAtlasSize : ℚ) ≠ 0 := ne_of_gt hS
      congr 1 <;> field_simp
    · rw [hget]
      show ((c, p) :: (addGlyphToAtlas m c).1.glyphs).length = 1
      rw [hadd1, placeGlyph_glyphs]
      show ((c, p) :: (rasterizeGlyph m c).1.glyphs).length = 1
      rw [hgl1]; rfl
    · rw [hget]
      show (addGlyphToAtlas m c).1.atlases.length = 1
      rw [hadd1, placeGlyph_atlases_length]
      exact hlen1
    · rw [hstA, hs0]
    · rw [hstA, hs0]

end FontAtlasManager

namespace FontAtlasManager

/-- Witness of `first_glyph_on_fresh_page`: the letter `A` of 10 x 50 pixels on
the page of side 256 that `setup("font.ttf", 64, true, 0)` creates. -/
theorem first_glyph_on_fresh_page_witness :
    Example.fresh256.minAtlasSize = 256
    ∧ (getOrLoadGlyph Example.fresh256 65).2 = some Example.recordA256
    ∧ pixelRect (getOrLoadGlyph Example.fresh256 65).1 Example.recordA256
        = ⟨1, 1, 1 + Example.recordA256.tW, 1 + Example.recordA256.tH⟩ :=
  ⟨by with_unfolding_all decide, by with_unfolding_all decide,
    (first_glyph_on_fresh_page (Example.platform 4096 true) "font.ttf" 64 true 0 65
      Example.recordA256 (by with_unfolding_all decide) (by with_unfolding_all decide)
      (by with_unfolding_all decide) (by with_unfolding_all decide)
      (by with_unfolding_all decide) (by with_unfolding_all decide)).2.2.2.2.2.2.2.2.2.2.1⟩

/-- C14 (as stated) fails for a bitmap without pixels: on the fresh page of side
256 the space, whose bitmap is 0 x 0 and so fits the page, gets the texture
rectangle `t1 = t2 = v1 = v2 = 0`, not `t1 = 1/256`. -/
theorem space_on_fresh_page_has_zero_rectangle :
    (setup (Example.platform 4096 true) {} "font.ttf" 64 true 0).1 = true
    ∧ Example.fresh256.minAtlasSize = 256
    ∧ Example.fresh256.border = 1
    ∧ Example.fresh256.getAtlasCount = 1
    ∧ Example.fresh256.getLoadedGlyphCount = 0
    ∧ (rasterizeGlyph Example.fresh256 32).2.map (fun r => (r.1.width, r.1.height, r.2.tW, r.2.tH))
        = some (0, 0, 0, 0)
    ∧ (getOrLoadGlyph Example.fresh256 32).2 = some Example.recordSpace
    ∧ Example.recordSpace.t1 ≠ 1 / (Example.fresh256.minAtlasSize : ℚ)
    ∧ (getOrLoadGlyph Example.fresh256 32).1.getLoadedGlyphCount = 1 := by
  refine ⟨by with_unfolding_all decide, by with_unfolding_all decide,
    by with_unfolding_all decide, by with_unfolding_all decide, by with_unfolding_all decide,
    by with_unfolding_all decide, by with_unfolding_all decide, by with_unfolding_all decide,
    by with_unfolding_all decide⟩

end FontAtlasManager

/-! ## Pages only grow and records are kept -/

theorem LazyGlyphProps.sameMetrics_refl (p : LazyGlyphProps) : p.SameMetrics p :=
  ⟨rfl, rfl, rfl, rfl, rfl, rfl, rfl, rfl, rfl, rfl, rfl, rfl⟩

theorem LazyGlyphProps.sameMetrics_trans {p q r : LazyGlyphProps} (h1 : p.SameMetrics q)
    (h2 : q.SameMetrics r) : p.SameMetrics r := by
  obtain ⟨a1, a2, a3, a4, a5, a6, a7, a8, a9, a10, a11, a12⟩ := h1
  obtain ⟨b1, b2, b3, b4, b5, b6, b7, b8, b9, b10, b11, b12⟩ := h2
  exact ⟨b1.trans a1, b2.trans a2, b3.trans a3, b4.trans a4, b5.trans a5, b6.trans a6,
    b7.trans a7, b8.trans a8, b9.trans a9, b10.trans a10, b11.trans a11, b12.trans a12⟩

namespace FontAtlasManager

theorem sameMetrics_rescaleGlyph (i : Nat) (w h : Int) (p : LazyGlyphProps) :
    p.SameMetrics (rescaleGlyph i w h p) := by
  unfold rescaleGlyph
  split_ifs
  · exact ⟨rfl, rfl, rfl, rfl, rfl, rfl, rfl, rfl, rfl, rfl, rfl, rfl⟩
  · exact p.sameMetrics_refl

theorem rescaleGlyph_other (i : Nat) (w h : Int) (p : LazyGlyphProps)
    (hp : p.atlasIndex ≠ i) : rescaleGlyph i w h p = p := by
  unfold rescaleGlyph
  rw [if_neg hp]

theorem grown_refl (e n : Nat) (m : FontAtlasManager) : Grown e n m m :=
  ⟨le_refl _, fun _ _ => ⟨rfl, rfl, rfl⟩,
    fun _ _ => ⟨0, Nat.zero_le _, by simp, by simp⟩,
    fun i h1 h2 => absurd h2 (by omega),
    fun c p hc _ => ⟨p, 0, hc, p.sameMetrics_refl, by simp, fun _ => rfl⟩⟩

theorem Grown.mono {e e2 n n2 : Nat} {m m1 : FontAtlasManager} (h : Grown e n m m1)
    (he : e ≤ e2) (hn : n2 ≤ n) : Grown e2 n2 m m1 :=
  ⟨h.count, fun i hi => h.frozen i (by omega),
    fun i hi => by
      obtain ⟨k, hk, hw, hh⟩ := h.dims i hi
      exact ⟨k, by omega, hw, hh⟩,
    h.fresh, h.records⟩

theorem Grown.andThen {e1 e2 n : Nat} {m m1 m2 : FontAtlasManager} (h1 : Grown e1 n m m1)
    (h2 : Grown e2 n m1 m2) : Grown (e1 + e2) n m m2 := by
  refine ⟨le_trans h1.count h2.count, fun i hi => ?_, fun i hi => ?_, fun i hi hi2 => ?_,
    fun c p hc hp => ?_⟩
  · obtain ⟨a1, a2, a3⟩ := h1.frozen i hi
    obtain ⟨b1, b2, b3⟩ := h2.frozen i hi
    exact ⟨b1.trans a1, b2.trans a2, b3.trans a3⟩
  · obtain ⟨k1, hk1, hw1, hh1⟩ := h1.dims i hi
    obtain ⟨k2, hk2, hw2, hh2⟩ := h2.dims i (lt_of_lt_of_le hi h1.count)
    refine ⟨k1 + k2, by omega, ?_, ?_⟩
    · rw [hw2, hw1, pow_add, mul_assoc]
    · rw [hh2, hh1, pow_add, mul_assoc]
  · by_cases hlt : i < m1.atlases.length
    · obtain ⟨hpos, hsq⟩ := h1.fresh i hi hlt
      obtain ⟨k2, _, hw2, hh2⟩ := h2.dims i hlt
      refine ⟨?_, ?_⟩
      · rw [hw2]; positivity
      · rw [hw2, hh2, hsq]
    · exact h2.fresh i (by omega) hi2
  · obtain ⟨q1, k1, hq1, hs1, hw1, he1⟩ := h1.records c p hc hp
    have hidx : q1.atlasIndex = p.atlasIndex := hs1.1
    obtain ⟨q2, k2, hq2, hs2, hw2, he2⟩ := h2.records c q1 hq1
      (by rw [hidx]; exact lt_of_lt_of_le hp h1.count)
    rw [hidx] at hw2
    refine ⟨q2, k1 + k2, hq2, LazyGlyphProps.sameMetrics_trans hs1 hs2, ?_, fun hk => ?_⟩
    · rw [hw2, hw1, pow_add, mul_assoc]
    · have e1 := he1 (by omega)
      have e2 := he2 (by omega)
      rw [e2, e1]

theorem Grown.squarePages {e n : Nat} {m m1 : FontAtlasManager} (h : Grown e n m m1)
    (hs : SquarePages m) : SquarePages m1 := by
  intro i hi
  by_cases hlt : i < m.atlases.length
  · obtain ⟨hpos, hsq⟩ := hs i hlt
    obtain ⟨k, _, hw, hh⟩ := h.dims i hlt
    refine ⟨?_, ?_⟩
    · rw [hw]; positivity
    · rw [hw, hh, hsq]
  · exact h.fresh i (by omega) hi

theorem grown_counted (n : Nat) (m : FontAtlasManager) (k : Nat) :
    Grown 0 n m { m with rasterizeCalls := k } :=
  ⟨le_refl _, fun _ _ => ⟨rfl, rfl, rfl⟩,
    fun _ _ => ⟨0, Nat.zero_le _, by simp [stateAt], by simp [stateAt]⟩,
    fun i h1 h2 => absurd h2 (by simp only []; omega),
    fun c p hc _ => ⟨p, 0, hc, p.sameMetrics_refl, by simp [stateAt], fun _ => rfl⟩⟩

theorem grown_setState (n : Nat) (m : FontAtlasManager) (j : Nat) (a : AtlasState)
    (hn : n ≤ j) (hw : a.width = (m.stateAt j).width) (hh : a.height = (m.stateAt j).height) :
    Grown 0 n m (m.setState j a) := by
  have hd := stateAt_setState_dims m j
  refine ⟨le_refl _, fun i hi => ⟨stateAt_setState_ne m j i a (by omega), rfl, rfl⟩,
    fun i _ => ⟨0, Nat.zero_le _, ?_, ?_⟩, fun i h1 h2 => absurd h2 (by simp only [setState]; omega),
    fun c p hc _ => ⟨p, 0, hc, p.sameMetrics_refl, ?_, fun _ => rfl⟩⟩
  · rw [(hd i a hw hh).1]; simp
  · rw [(hd i a hw hh).2]; simp
  · rw [(hd p.atlasIndex a hw hh).1]; simp

theorem grown_wrapAt (n : Nat) (m : FontAtlasManager) (j : Nat) (w : Int) (hn : n ≤ j) :
    Grown 0 n m (m.wrapAt j w) :=
  grown_setState n m j _ hn (wrapRow_width _ _ _) (wrapRow_height _ _ _)

theorem grown_writeThrough (n : Nat) (m : FontAtlasManager) (t : Option Nat) (a : AtlasState)
    (ht : ∀ i, t = some i →
      n ≤ i ∧ a.width = (m.stateAt i).width ∧ a.height = (m.stateAt i).height) :
    Grown 0 n m (m.writeThrough t a) := by
  cases t with
  | none =>
    exact ⟨le_refl _, fun _ _ => ⟨rfl, rfl, rfl⟩,
      fun _ _ => ⟨0, Nat.zero_le _, by simp [writeThrough, stateAt],
        by simp [writeThrough, stateAt]⟩,
      fun i h1 h2 => absurd h2 (by simp only [writeThrough]; omega),
      fun c p hc _ => ⟨p, 0, hc, p.sameMetrics_refl, by simp [writeThrough, stateAt],
        fun _ => rfl⟩⟩
  | some i =>
    obtain ⟨h1, h2, h3⟩ := ht i rfl
    exact grown_setState n m i a h1 h2 h3

theorem grown_pixels (n : Nat) (m : FontAtlasManager) (j : Nat) (page page2 : ofPixels)
    (hn : n ≤ j) :
    Grown 0 n m { m with atlasPixels := m.atlasPixels.set j page,
                         atlases := m.atlases.set j page2 } := by
  refine ⟨by simp, fun i hi => ⟨rfl, getD_set_ne _ _ _ _ _ (by omega),
      getD_set_ne _ _ _ _ _ (by omega)⟩,
    fun i _ => ⟨0, Nat.zero_le _, by simp [stateAt], by simp [stateAt]⟩,
    fun i h1 h2 => absurd h2 (by simp only [List.length_set]; omega),
    fun c p hc _ => ⟨p, 0, hc, p.sameMetrics_refl, by simp [stateAt], fun _ => rfl⟩⟩

end FontAtlasManager

namespace FontAtlasManager

theorem stateAt_growPage_ne (m : FontAtlasManager) (i j : Nat) (hij : i ≠ j) :
    (growPage m i).stateAt j = m.stateAt j :=
  getD_set_ne _ _ _ _ _ hij

theorem grown_growPage (n : Nat) (m : FontAtlasManager) (j : Nat) (hn : n ≤ j)
    (hm : PagesOk m) (hj : j < m.atlases.length)
    (hsq : (m.stateAt j).width = (m.stateAt j).height) :
    Grown 1 n m (growPage m j) := by
  have hjs : j < m.atlasStates.length := by rw [hm.states]; exact hj
  have hself := stateAt_growPage_self m j hjs
  refine ⟨by simp [growPage], fun i hi => ⟨stateAt_growPage_ne m j i (by omega),
      getD_set_ne _ _ _ _ _ (by omega), getD_set_ne _ _ _ _ _ (by omega)⟩,
    fun i _ => ?_, fun i h1 h2 => absurd h2 (by simp only [growPage, List.length_set]; omega),
    fun c p hc _ => ?_⟩
  · by_cases hij : i = j
    · subst hij
      refine ⟨1, le_refl _, ?_, ?_⟩
      · rw [hself]; simp
      · rw [hself]; simp only []; rw [hsq]; simp
    · refine ⟨0, Nat.zero_le _, ?_, ?_⟩
      · rw [stateAt_growPage_ne m j i (Ne.symm hij)]; simp
      · rw [stateAt_growPage_ne m j i (Ne.symm hij)]; simp
  · have hl : (growPage m j).glyphs.lookup c
        = some (rescaleGlyph j ((m.stateAt j).width * 2) ((m.stateAt j).width * 2) p) := by
      show (m.glyphs.map (fun e => (e.1, rescaleGlyph j _ _ e.2))).lookup c = _
      rw [lookup_map_snd, hc]
      rfl
    by_cases hpj : p.atlasIndex = j
    · refine ⟨_, 1, hl, sameMetrics_rescaleGlyph _ _ _ _, ?_, fun h => absurd h (by decide)⟩
      rw [hpj, hself]; simp
    · refine ⟨_, 0, hl, sameMetrics_rescaleGlyph _ _ _ _, ?_,
        fun _ => rescaleGlyph_other _ _ _ _ hpj⟩
      rw [stateAt_growPage_ne m j _ (Ne.symm hpj)]; simp

theorem grown_createNewAtlas (n : Nat) (m : FontAtlasManager) (hm : PagesOk m)
    (hs : SquarePages m) (hn : n ≤ m.atlases.length) :
    Grown 0 n m (createNewAtlas m).1 := by
  have hold : ∀ i, i < m.atlases.length → (createNewAtlas m).1.stateAt i = m.stateAt i :=
    fun i hi => stateAt_createNewAtlas_old m i (by rw [hm.states]; exact hi)
  refine ⟨by rw [createNewAtlas_atlases_length]; omega, fun i hi => ⟨hold i (by omega), ?_, ?_⟩,
    fun i hi => ⟨0, Nat.zero_le _, by rw [hold i hi]; simp, by rw [hold i hi]; simp⟩,
    fun i h1 h2 => ?_,
    fun c p hc hp => ⟨p, 0, hc, p.sameMetrics_refl, by rw [hold _ hp]; simp, fun _ => rfl⟩⟩
  · simp only [createNewAtlas, List.getD_eq_getElem?_getD]
    rw [List.getElem?_append_left (by rw [hm.pixels]; omega)]
  · simp only [createNewAtlas, List.getD_eq_getElem?_getD]
    rw [List.getElem?_append_left (by omega)]
  · rw [createNewAtlas_atlases_length] at h2
    have hi : i = m.atlases.length := by omega
    subst hi
    rw [stateAt_createNewAtlas m hm]
    exact ⟨(hs _ (by have := hm.pos; omega)).1, rfl⟩

theorem grown_placeGlyph (n : Nat) (m : FontAtlasManager) (px : ofPixels)
    (props : LazyGlyphProps) (j : Nat) (st : AtlasState) (t : Option Nat) (hn : n ≤ j)
    (ht : ∀ i, t = some i →
      n ≤ i ∧ st.width = (m.stateAt i).width ∧ st.height = (m.stateAt i).height) :
    Grown 0 n m (placeGlyph m px props j st t).1 := by
  have h1 := grown_pixels n m j (px.pasteInto (m.atlasPixels.getD j default) st.currentX
    st.currentY) (px.pasteInto (m.atlasPixels.getD j default) st.currentX st.currentY) hn
  have h2 := grown_writeThrough n
    { m with atlasPixels := m.atlasPixels.set j (px.pasteInto (m.atlasPixels.getD j default)
               st.currentX st.currentY),
             atlases := m.atlases.set j (px.pasteInto (m.atlasPixels.getD j default)
               st.currentX st.currentY) } t
    { st with currentX := st.currentX + px.width + m.border,
              currentRowHeight := max st.currentRowHeight px.height } ht
  exact h1.andThen h2

end FontAtlasManager

namespace FontAtlasManager

theorem newPage_dims (m : FontAtlasManager) (hm : PagesOk m) (hs : SquarePages m) :
    ((createNewAtlas m).1.stateAt (createNewAtlas m).2).width
        = ((createNewAtlas m).1.stateAt (m.atlases.length - 1)).width ∧
    ((createNewAtlas m).1.stateAt (createNewAtlas m).2).height
        = ((createNewAtlas m).1.stateAt (m.atlases.length - 1)).height := by
  have hpos := hm.pos
  have hold := stateAt_createNewAtlas_old m (m.atlases.length - 1)
    (by rw [hm.states]; omega)
  rw [createNewAtlas_index, stateAt_createNewAtlas m hm, hold]
  exact ⟨rfl, (hs _ (by omega)).2⟩

theorem fitFirstPass_grown (m : FontAtlasManager) (w h : Int) (hm : PagesOk m)
    (hs : SquarePages m) :
    Grown 1 (m.atlases.length - 1) m (fitFirstPass m w h).1 := by
  have hpos := hm.pos
  have h0 := grown_wrapAt (m.atlases.length - 1) m (m.atlases.length - 1) w (le_refl _)
  have hma : PagesOk (m.wrapAt (m.atlases.length - 1) w) := hm.wrapAt _ _
  have hsa : SquarePages (m.wrapAt (m.atlases.length - 1) w) := h0.squarePages hs
  have hla : (m.wrapAt (m.atlases.length - 1) w).atlases.length = m.atlases.length := rfl
  unfold fitFirstPass
  simp only []
  split
  · split
    · rename_i _ h2
      rw [expandAtlas_snd_of_true _ _ h2]
      exact (h0.andThen (grown_growPage _ _ _ (le_refl _) hma (by rw [hla]; omega)
        (hsa _ (by rw [hla]; omega)).2)).mono (by omega) (le_refl _)
    · rename_i _ h2
      rw [expandAtlas_snd_of_false _ _ h2]
      have h1 := grown_createNewAtlas (m.atlases.length - 1) _ hma hsa (by rw [hla]; omega)
      have hd := newPage_dims _ hma hsa
      rw [hla] at hd
      have h3 := grown_writeThrough (m.atlases.length - 1)
        (createNewAtlas (m.wrapAt (m.atlases.length - 1) w)).1
        (refAfterPush (m.wrapAt (m.atlases.length - 1) w) (m.atlases.length - 1))
        ((createNewAtlas (m.wrapAt (m.atlases.length - 1) w)).1.stateAt
          (createNewAtlas (m.wrapAt (m.atlases.length - 1) w)).2)
        (fun i hi => by
          have := refAfterPush_lt _ _ _ hi
          subst this
          exact ⟨le_refl _, hd.1, hd.2⟩)
      exact ((h0.andThen h1).andThen h3).mono (by omega) (le_refl _)
  · exact h0.mono (by omega) (le_refl _)

theorem fitSecondPass_grown (n : Nat) (m : FontAtlasManager) (i : Nat) (px : ofPixels)
    (props : LazyGlyphProps) (hm : PagesOk m) (hs : SquarePages m)
    (hi : i = m.atlases.length - 1) (hn : n ≤ i) :
    Grown 1 n m (fitSecondPass m i px props).1 ∧
    (fitSecondPass m i px props).2.atlasIndex
      = (fitSecondPass m i px props).1.atlases.length - 1 := by
  have hpos := hm.pos
  have h0 := grown_wrapAt n m i px.width hn
  have hma : PagesOk (m.wrapAt i px.width) := hm.wrapAt _ _
  have hsa : SquarePages (m.wrapAt i px.width) := h0.squarePages hs
  have hla : (m.wrapAt i px.width).atlases.length = m.atlases.length := rfl
  unfold fitSecondPass
  simp only []
  split
  · split
    · rename_i _ h2
      rw [expandAtlas_snd_of_true _ _ h2]
      have h1 := grown_growPage n _ i hn hma (by rw [hla]; omega)
        (hsa _ (by rw [hla]; omega)).2
      have h3 := grown_placeGlyph n (growPage (m.wrapAt i px.width) i) px props i
        ((growPage (m.wrapAt i px.width) i).stateAt i) (some i) hn
        (fun k hk => by cases hk; exact ⟨hn, rfl, rfl⟩)
      refine ⟨((h0.andThen h1).andThen h3).mono (by omega) (le_refl _), ?_⟩
      rw [placeGlyph_atlasIndex, placeGlyph_atlases_length]
      simp only [growPage, List.length_set]
      exact hi
    · rename_i _ h2
      rw [expandAtlas_snd_of_false _ _ h2]
      have h1 := grown_createNewAtlas n _ hma hsa (by rw [hla]; omega)
      have hd := newPage_dims _ hma hsa
      rw [hla, ← hi] at hd
      have h3 := grown_placeGlyph n (createNewAtlas (m.wrapAt i px.width)).1 px props
        (createNewAtlas (m.wrapAt i px.width)).2
        ((createNewAtlas (m.wrapAt i px.width)).1.stateAt
          (createNewAtlas (m.wrapAt i px.width)).2)
        (refAfterPush (m.wrapAt i px.width) i)
        (by rw [createNewAtlas_index, hla]; omega)
        (fun k hk => by
          have := refAfterPush_lt _ _ _ hk
          subst this
          exact ⟨hn, hd.1, hd.2⟩)
      refine ⟨((h0.andThen h1).andThen h3).mono (by omega) (le_refl _), ?_⟩
      rw [placeGlyph_atlasIndex, placeGlyph_atlases_length, createNewAtlas_index,
        createNewAtlas_atlases_length]
      omega
  · have h3 := grown_placeGlyph n (m.wrapAt i px.width) px props i
      ((m.wrapAt i px.width).stateAt i) (some i) hn
      (fun k hk => by cases hk; exact ⟨hn, rfl, rfl⟩)
    refine ⟨(h0.andThen h3).mono (by omega) (le_refl _), ?_⟩
    rw [placeGlyph_atlasIndex, placeGlyph_atlases_length]
    exact hi

end FontAtlasManager

namespace FontAtlasManager

theorem Grown.consGlyph {e n : Nat} {m m1 : FontAtlasManager} (h : Grown e n m m1) (c : Nat)
    (q : LazyGlyphProps) (hnew : m.glyphs.lookup c = none) :
    Grown e n m { m1 with glyphs := (c, q) :: m1.glyphs } := by
  refine ⟨h.count, h.frozen, h.dims, h.fresh, fun d p hd hp => ?_⟩
  obtain ⟨r, k, hr, hs, hw, hk⟩ := h.records d p hd hp
  refine ⟨r, k, ?_, hs, hw, hk⟩
  have hne : (d == c) = false := by
    cases hdc : (d == c)
    · rfl
    · have : d = c := by simpa using hdc
      subst this
      rw [hnew] at hd
      cases hd
  show List.lookup d ((c, q) :: m1.glyphs) = some r
  rw [List.lookup_cons, hne]
  exact hr

theorem addGlyphToAtlas_grown (m : FontAtlasManager) (c : Nat) (hm : PagesOk m)
    (hs : SquarePages m) :
    Grown 2 (m.atlases.length - 1) m (addGlyphToAtlas m c).1 ∧
    ∀ p, (addGlyphToAtlas m c).2 = some p → p.tW ≠ 0 → p.tH ≠ 0 →
      p.atlasIndex = (addGlyphToAtlas m c).1.atlases.length - 1 := by
  have g0 : Grown 0 (m.atlases.length - 1) m (rasterizeGlyph m c).1 := by
    rw [rasterizeGlyph_fst]; exact grown_counted _ m _
  have hm1 : PagesOk (rasterizeGlyph m c).1 := hm.rasterizeGlyph c
  have hs1 : SquarePages (rasterizeGlyph m c).1 := g0.squarePages hs
  have hl1 : (rasterizeGlyph m c).1.atlases.length = m.atlases.length := by
    rw [rasterizeGlyph_fst]
  rcases addGlyphToAtlas_cases m c with ⟨_, h⟩ | ⟨px, props, hr, hz, h⟩ |
    ⟨px, props, hr, hpw, hph, h⟩
  · rw [h]
    exact ⟨g0.mono (by omega) (le_refl _), fun p hp => by cases hp⟩
  · rw [h]
    refine ⟨g0.mono (by omega) (le_refl _), fun p hp hw hh => ?_⟩
    exfalso
    simp only [Option.some.injEq] at hp
    obtain ⟨face, g, hface, hpx, htW, htH⟩ := rasterizeGlyph_some m c px props hr
    have hsz := bitmapPixels_size m.antialiased (face.renderGlyph g m.antialiased).bitmap
    rw [← hpx] at hsz
    have e5 : p.tW = props.tW := by rw [← hp]
    have e6 : p.tH = props.tH := by rw [← hp]
    rcases hsz with ⟨_, _, h0 | h0⟩ | ⟨h1, h2, _, _⟩
    · apply hw; rw [e5, htW, h0]; rfl
    · apply hh; rw [e6, htH, h0]; rfl
    · rcases hz with hz | hz
      · apply hw; rw [e5, htW, ← h1, hz]; rfl
      · apply hh; rw [e6, htH, ← h2, hz]; rfl
  · rw [h]
    have g1 := fitFirstPass_grown (rasterizeGlyph m c).1 px.width px.height hm1 hs1
    rw [hl1] at g1
    obtain ⟨hmF, hiF⟩ := fitFirstPass_pages (rasterizeGlyph m c).1 px.width px.height hm1
    have hsF := g1.squarePages hs1
    have hcnt := g1.count
    rw [hl1] at hcnt
    obtain ⟨g2, hidx⟩ := fitSecondPass_grown (m.atlases.length - 1)
      (fitFirstPass (rasterizeGlyph m c).1 px.width px.height).1
      (fitFirstPass (rasterizeGlyph m c).1 px.width px.height).2 px props hmF hsF hiF
      (by rw [hiF]; omega)
    refine ⟨((g0.andThen g1).andThen g2).mono (by omega) (le_refl _), fun p hp _ _ => ?_⟩
    simp only [Option.some.injEq] at hp
    rw [← hp]
    exact hidx

theorem getOrLoadGlyph_grown (m : FontAtlasManager) (c : Nat) (hm : PagesOk m)
    (hs : SquarePages m) :
    Grown 2 (m.atlases.length - 1) m (getOrLoadGlyph m c).1 ∧
    ∀ p, m.glyphs.lookup c = none → (getOrLoadGlyph m c).2 = some p → p.tW ≠ 0 → p.tH ≠ 0 →
      p.atlasIndex = (getOrLoadGlyph m c).1.atlases.length - 1 := by
  obtain ⟨g, hidx⟩ := addGlyphToAtlas_grown m c hm hs
  cases hl : m.glyphs.lookup c with
  | some p0 =>
    rw [getOrLoadGlyph_hit m c p0 hl]
    exact ⟨grown_refl _ _ _, fun p hp => by cases hp⟩
  | none =>
    cases ha : (addGlyphToAtlas m c).2 with
    | none =>
      rw [getOrLoadGlyph_miss_none m c hl ha]
      exact ⟨g, fun p _ hp => by cases hp⟩
    | some q =>
      rw [getOrLoadGlyph_miss_some m c q hl ha]
      refine ⟨g.consGlyph c q hl, fun p _ hp hw hh => ?_⟩
      simp only [Option.some.injEq] at hp
      subst hp
      exact hidx q ha hw hh

theorem Reachable.squares {env : Platform} {m : FontAtlasManager} (h : Reachable env m) :
    SquarePages m := by
  induction h with
  | init fontPath size antialias dpiValue hs =>
    obtain ⟨hst, hlen, _, _, hmin⟩ := setup_fresh env fontPath size antialias dpiValue hs
    intro i hi
    rw [hlen] at hi
    have hi0 : i = 0 := by omega
    subst hi0
    unfold stateAt
    rw [hst]
    exact ⟨by simp only [List.getD_cons_zero]; omega, rfl⟩
  | step m c hr ih =>
    exact (getOrLoadGlyph_grown m c hr.pagesOk ih).1.squarePages ih

theorem pow_two_eq_of_same_width (W : Int) (k : Nat) (hW : 0 < W) (h : W * 2 ^ k = W) :
    k = 0 := by
  rcases Nat.eq_zero_or_pos k with hk | hk
  · exact hk
  · exfalso
    have h2 : (2 : Int) ≤ 2 ^ k := by
      calc (2 : Int) = 2 ^ 1 := by norm_num
        _ ≤ 2 ^ k := pow_le_pow_right₀ (by norm_num) hk
    nlinarith

theorem Grown.kept {e n : Nat} {m m1 : FontAtlasManager} (h : Grown e n m m1)
    (hm : PagesOk m) (hs : SquarePages m) (c : Nat) (p : LazyGlyphProps)
    (hc : m.glyphs.lookup c = some p) :
    ∃ q, m1.glyphs.lookup c = some q ∧ p.SameMetrics q ∧
      ((m1.stateAt p.atlasIndex).width = (m.stateAt p.atlasIndex).width → q = p) := by
  have hidx : p.atlasIndex < m.atlases.length :=
    hm.index (c, p) (mem_of_lookup_eq_some c p m.glyphs hc)
  obtain ⟨q, k, hq, hsm, hw, hk⟩ := h.records c p hc hidx
  refine ⟨q, hq, hsm, fun hsame => hk ?_⟩
  rw [hw] at hsame
  exact pow_two_eq_of_same_width _ k (hs _ hidx).1 hsame

theorem loads_grown (cs : List Nat) (m : FontAtlasManager) (hm : PagesOk m)
    (hs : SquarePages m) :
    ∃ e, Grown e 0 m (cs.foldl (fun s d => (getOrLoadGlyph s d).1) m) := by
  induction cs generalizing m with
  | nil => exact ⟨0, grown_refl 0 0 m⟩
  | cons c cs ih =>
    have g := (getOrLoadGlyph_grown m c hm hs).1
    obtain ⟨e, ge⟩ := ih (getOrLoadGlyph m c).1 (getOrLoadGlyph_pages m c hm) (g.squarePages hs)
    exact ⟨2 + e, (g.mono (le_refl _) (Nat.zero_le _)).andThen ge⟩

end FontAtlasManager

namespace FontAtlasManager

/-- In the embedding a stored record stays in the glyph map, with its page
index and metrics, across `getOrLoadGlyph` calls, `expandAtlas` and
`createNewAtlas`, and is unchanged unless the width of its page has changed. -/
theorem records_kept (env : Platform) (m : FontAtlasManager) (c : Nat) (p : LazyGlyphProps)
    (cs : List Nat) (i : Nat) (hr : Reachable env m) (hc : m.glyphs.lookup c = some p) :
    (∃ q, (cs.foldl (fun s d => (getOrLoadGlyph s d).1) m).glyphs.lookup c = some q ∧
      p.SameMetrics q ∧
      (((cs.foldl (fun s d => (getOrLoadGlyph s d).1) m).stateAt p.atlasIndex).width
          = (m.stateAt p.atlasIndex).width → q = p))
    ∧ (∃ q, (expandAtlas m i).2.glyphs.lookup c = some q ∧ p.SameMetrics q ∧
      (((expandAtlas m i).2.stateAt p.atlasIndex).width = (m.stateAt p.atlasIndex).width →
        q = p))
    ∧ (createNewAtlas m).1.glyphs.lookup c = some p := by
  have hm := hr.pagesOk
  have hs := hr.squares
  refine ⟨?_, ?_, hc⟩
  · obtain ⟨e, g⟩ := loads_grown cs m hm hs
    exact g.kept hm hs c p hc
  · rcases expandAtlas_cases m i with h | ⟨hi, _, h⟩
    · rw [h]
      exact (grown_refl 0 0 m).kept hm hs c p hc
    · rw [h]
      exact (grown_growPage 0 m i (Nat.zero_le _) hm hi (hs i hi).2).kept hm hs c p hc

/-- In the embedding `getOrLoadGlyph` removes no page, multiplies the sides of
every page by a power of two and keeps the page index of every record. -/
theorem pages_grown (env : Platform) (m : FontAtlasManager) (c : Nat) (cs : List Nat)
    (hr : Reachable env m) :
    m.getAtlasCount ≤ (getOrLoadGlyph m c).1.getAtlasCount
    ∧ (∀ i, i < m.getAtlasCount →
        0 < (m.stateAt i).width ∧ 0 < (m.stateAt i).height ∧
        ∃ k, k ≤ 2 ∧
          ((getOrLoadGlyph m c).1.stateAt i).width = (m.stateAt i).width * 2 ^ k ∧
          ((getOrLoadGlyph m c).1.stateAt i).height = (m.stateAt i).height * 2 ^ k)
    ∧ (∀ d p, m.glyphs.lookup d = some p →
        ∃ q, (getOrLoadGlyph m c).1.glyphs.lookup d = some q ∧ q.atlasIndex = p.atlasIndex)
    ∧ m.getAtlasCount ≤ (cs.foldl (fun s d => (getOrLoadGlyph s d).1) m).getAtlasCount
    ∧ (∀ i, i < m.getAtlasCount → ∃ k,
        ((cs.foldl (fun s d => (getOrLoadGlyph s d).1) m).stateAt i).width
          = (m.stateAt i).width * 2 ^ k ∧
        ((cs.foldl (fun s d => (getOrLoadGlyph s d).1) m).stateAt i).height
          = (m.stateAt i).height * 2 ^ k) := by
  have hm := hr.pagesOk
  have hs := hr.squares
  have g := (getOrLoadGlyph_grown m c hm hs).1
  obtain ⟨e, ge⟩ := loads_grown cs m hm hs
  refine ⟨g.count, fun i hi => ⟨(hs i hi).1, by rw [← (hs i hi).2]; exact (hs i hi).1,
      g.dims i hi⟩, fun d p hd => ?_, ge.count, fun i hi => ?_⟩
  · obtain ⟨q, hq, hsm, _⟩ := g.kept hm hs d p hd
    exact ⟨q, hq, hsm.1⟩
  · obtain ⟨k, _, hw, hh⟩ := ge.dims i hi
    exact ⟨k, hw, hh⟩

/-- In the embedding `getOrLoadGlyph` leaves every page but the last one as it
was, and a record it creates for a glyph with ink names the last page there is
after the call. -/
theorem completed_pages_kept (env : Platform) (m : FontAtlasManager) (c : Nat)
    (hr : Reachable env m) :
    (∀ i, i + 1 < m.getAtlasCount →
      i + 1 < (getOrLoadGlyph m c).1.getAtlasCount ∧
      (getOrLoadGlyph m c).1.stateAt i = m.stateAt i ∧
      (getOrLoadGlyph m c).1.atlasPixels.getD i default = m.atlasPixels.getD i default ∧
      (getOrLoadGlyph m c).1.atlases.getD i default = m.atlases.getD i default)
    ∧ (∀ p, m.glyphs.lookup c = none → (getOrLoadGlyph m c).2 = some p →
        p.tW ≠ 0 → p.tH ≠ 0 →
        p.atlasIndex = (getOrLoadGlyph m c).1.getAtlasCount - 1) := by
  obtain ⟨g, hidx⟩ := getOrLoadGlyph_grown m c hr.pagesOk hr.squares
  refine ⟨fun i hi => ?_, hidx⟩
  have hc := g.count
  have hi2 : i + 1 < m.atlases.length := hi
  exact ⟨lt_of_lt_of_le hi2 hc, g.frozen i (by omega)⟩

end FontAtlasManager

/-! ## The minimum page size -/

namespace FontAtlasManager

theorem doubleUntil_spec (fuel : Nat) (s t : Int) (hs : 0 < s) (ht : t ≤ s * 2 ^ fuel) :
    (∃ k : Nat, k ≤ fuel ∧ doubleUntil fuel s t = s * 2 ^ k) ∧
    t ≤ doubleUntil fuel s t ∧
    (doubleUntil fuel s t = s ∨ doubleUntil fuel s t / 2 < t) := by
  induction fuel generalizing s with
  | zero =>
    show (∃ k : Nat, k ≤ 0 ∧ s = s * 2 ^ k) ∧ t ≤ s ∧ (s = s ∨ s / 2 < t)
    exact ⟨⟨0, le_refl _, by simp⟩, by simpa using ht, Or.inl rfl⟩
  | succ n ih =>
    unfold doubleUntil
    split
    · rename_i hlt
      obtain ⟨⟨k, hk, hr⟩, hge, hmin⟩ := ih (s * 2) (by omega)
        (by rw [pow_succ] at ht; linarith)
      refine ⟨⟨k + 1, by omega, by rw [hr, pow_succ]; ring⟩, hge, Or.inr ?_⟩
      rcases hmin with h | h
      · rw [h]; omega
      · exact h
    · rename_i hge
      exact ⟨⟨0, Nat.zero_le _, by simp⟩, by omega, Or.inl rfl⟩

theorem setup_minAtlasSize (env : Platform) (fontPath : String) (size : Int)
    (antialias : Bool) (dpiValue : Int)
    (h : (setup env {} fontPath size antialias dpiValue).1 = true) :
    (setup env {} fontPath size antialias dpiValue).2.minAtlasSize
      = doubleUntil 32 64 (max 64 (size * 4)) := by
  obtain ⟨face, hf⟩ := setup_true env {} fontPath size antialias dpiValue h
  rw [hf]
  simp [createNewAtlas, adoptFace, configure]

/-- C21: for a font size between `-2^29` and `2^28` (so that neither
`fontSize * 4` nor the doubling loop leaves the range of `int`) a successful
`setup` leaves in `minAtlasSize` a power of two `2 ^ k` that is at least
`max(64, 4 * fontSize)` and is 64 or has its half below `max(64, 4 * fontSize)`,
and stays within `2^30`; the only page then has that width and height. -/
theorem minAtlasSize_least_power_of_two (env : Platform) (fontPath : String) (size : Int)
    (antialias : Bool) (dpiValue : Int)
    (hlo : -536870912 ≤ size) (hhi : size ≤ 268435456)
    (h : (setup env {} fontPath size antialias dpiValue).1 = true) :
    (∃ k : Nat, (setup env {} fontPath size antialias dpiValue).2.minAtlasSize = 2 ^ k)
    ∧ max 64 (4 * size) ≤ (setup env {} fontPath size antialias dpiValue).2.minAtlasSize
    ∧ ((setup env {} fontPath size antialias dpiValue).2.minAtlasSize = 64 ∨
        (setup env {} fontPath size antialias dpiValue).2.minAtlasSize / 2 < max 64 (4 * size))
    ∧ (∀ s : Int, (∃ j : Nat, s = 2 ^ j) → max 64 (4 * size) ≤ s →
        (setup env {} fontPath size antialias dpiValue).2.minAtlasSize ≤ s)
    ∧ (setup env {} fontPath size antialias dpiValue).2.minAtlasSize ≤ 1073741824
    ∧ (setup env {} fontPath size antialias dpiValue).2.getAtlasCount = 1
    ∧ ((setup env {} fontPath size antialias dpiValue).2.stateAt 0).width
        = (setup env {} fontPath size antialias dpiValue).2.minAtlasSize
    ∧ ((setup env {} fontPath size antialias dpiValue).2.stateAt 0).height
        = (setup env {} fontPath size antialias dpiValue).2.minAtlasSize := by
  obtain ⟨hst, hlen, _, _, _⟩ := setup_fresh env fontPath size antialias dpiValue h
  have hmin := setup_minAtlasSize env fontPath size antialias dpiValue h
  have hcomm : max 64 (4 * size) = max 64 (size * 4) := by rw [mul_comm]
  obtain ⟨⟨k, hk, hr⟩, hge, hleast⟩ := doubleUntil_spec 32 64 (max 64 (size * 4)) (by norm_num)
    (by norm_num; omega)
  rw [← hmin] at hr hge hleast
  generalize (setup env {} fontPath size antialias dpiValue).2 = m at *
  have hpow : m.minAtlasSize = 2 ^ (k + 6) := by
    rw [hr, pow_add]; norm_num; ring
  have hs0 : m.stateAt 0 =
      { currentX := 1, currentY := 1, currentRowHeight := 0,
        width := m.minAtlasSize, height := m.minAtlasSize } := by
    unfold stateAt; rw [hst]; rfl
  refine ⟨⟨k + 6, hpow⟩, by rw [hcomm]; exact hge, by rw [hcomm]; exact hleast, ?_, ?_, hlen,
    by rw [hs0], by rw [hs0]⟩
  · rintro s ⟨j, rfl⟩ hs
    rw [hcomm] at hs
    rw [hpow]
    by_contra hlt
    have hjk : j < k + 6 := by
      by_contra hge2
      exact hlt (pow_le_pow_right₀ (by norm_num) (by omega))
    have h64 : (2 : Int) ^ 6 ≤ 2 ^ j := by
      have : (64 : Int) ≤ 2 ^ j := le_trans (le_max_left _ _) hs
      simpa using this
    have hj6 : 6 ≤ j := by
      by_contra hj
      have : (2 : Int) ^ j < 2 ^ 6 := pow_lt_pow_right₀ (by norm_num) (by omega)
      omega
    have hk0 : 0 < k := by omega
    rcases hleast with h64b | hhalf
    · rw [hpow] at h64b
      have : (2 : Int) ^ (k + 6) = 2 ^ 6 := by rw [h64b]; norm_num
      have := Int.pow_right_injective (by norm_num : 1 < (2 : Int).natAbs) this
      omega
    · rw [hpow] at hhalf
      have e : (2 : Int) ^ (k + 6) / 2 = 2 ^ (k + 5) := by
        rw [show k + 6 = (k + 5) + 1 from rfl, pow_succ]
        exact Int.mul_ediv_cancel _ (by norm_num)
      rw [e] at hhalf
      have : (2 : Int) ^ j ≤ 2 ^ (k + 5) := pow_le_pow_right₀ (by norm_num) (by omega)
      omega
  · have hb : max 64 (size * 4) ≤ 1073741824 := by omega
    rcases hleast with h64b | hhalf
    · rw [h64b]; norm_num
    · rw [hpow] at hhalf ⊢
      by_contra hgt
      have hk : 31 ≤ k + 6 := by
        by_contra hk
        have : (2 : Int) ^ (k + 6) ≤ 2 ^ 30 := pow_le_pow_right₀ (by norm_num) (by omega)
        norm_num at this
        omega
      have : (2 : Int) ^ 31 ≤ 2 ^ (k + 6) := pow_le_pow_right₀ (by norm_num) hk
      norm_num at this
      omega

/-- Witness of `minAtlasSize_least_power_of_two`: font size 100, minimum page
size 512. -/
theorem minAtlasSize_least_power_of_two_witness :
    (setup (Example.platform 4096 true) {} "font.ttf" 100 true 0).2.minAtlasSize = 512
    ∧ ∃ k : Nat,
        (setup (Example.platform 4096 true) {} "font.ttf" 100 true 0).2.minAtlasSize = 2 ^ k :=
  ⟨by with_unfolding_all decide,
    (minAtlasSize_least_power_of_two (Example.platform 4096 true) "font.ttf" 100 true 0
      (by decide) (by decide) (by with_unfolding_all decide)).1⟩

end FontAtlasManager

/-! ## Growth and creation of pages, taken alone -/

namespace FontAtlasManager

theorem expandAtlas_true_iff (m : FontAtlasManager) (i : Nat) :
    (expandAtlas m i).1 = true ↔
      i < m.atlases.length ∧ 2 * (m.stateAt i).width ≤ m.maxAtlasSize := by
  unfold expandAtlas stateAt
  split_ifs with h1 h2
  · simp only [Bool.false_eq_true, false_iff, not_and]
    intro h; omega
  · simp only [Bool.false_eq_true, false_iff, not_and]
    intro _; omega
  · simp only [true_iff]
    exact ⟨by omega, by omega⟩

/-- C23: on a manager whose page vectors are aligned and whose pages are square,
`expandAtlas(i)` returns `true` exactly when `i` is a page index and
`2 * width(i) ≤ maxAtlasSize`.  On success the width and the height of page
`i` are doubled, its cursor and row height stay, the page count stays, every
other page keeps its state, pixel mirror and texture, a record on another
page is unchanged and a record on page `i` keeps its page index and metrics.
On refusal the manager is unchanged. -/
theorem expandAtlas_effect (m : FontAtlasManager) (i : Nat) (hm : PagesOk m)
    (hs : SquarePages m) :
    ((expandAtlas m i).1 = true ↔
      i < m.getAtlasCount ∧ 2 * (m.stateAt i).width ≤ m.maxAtlasSize)
    ∧ ((expandAtlas m i).1 = true →
        ((expandAtlas m i).2.stateAt i).width = 2 * (m.stateAt i).width ∧
        ((expandAtlas m i).2.stateAt i).height = 2 * (m.stateAt i).height ∧
        ((expandAtlas m i).2.stateAt i).currentX = (m.stateAt i).currentX ∧
        ((expandAtlas m i).2.stateAt i).currentY = (m.stateAt i).currentY ∧
        ((expandAtlas m i).2.stateAt i).currentRowHeight = (m.stateAt i).currentRowHeight ∧
        (expandAtlas m i).2.getAtlasCount = m.getAtlasCount ∧
        (∀ j, j ≠ i →
          (expandAtlas m i).2.stateAt j = m.stateAt j ∧
          (expandAtlas m i).2.atlasPixels.getD j default = m.atlasPixels.getD j default ∧
          (expandAtlas m i).2.atlases.getD j default = m.atlases.getD j default) ∧
        (∀ c p, m.glyphs.lookup c = some p →
          (p.atlasIndex ≠ i → (expandAtlas m i).2.glyphs.lookup c = some p) ∧
          ∃ q, (expandAtlas m i).2.glyphs.lookup c = some q ∧ p.SameMetrics q) ∧
        (∀ c, m.glyphs.lookup c = none → (expandAtlas m i).2.glyphs.lookup c = none))
    ∧ ((expandAtlas m i).1 = false → (expandAtlas m i).2 = m) := by
  refine ⟨expandAtlas_true_iff m i, fun ht => ?_, fun hf => ?_⟩
  · have hi : i < m.atlases.length := ((expandAtlas_true_iff m i).1 ht).1
    have his : i < m.atlasStates.length := by rw [hm.states]; exact hi
    have hsq := (hs i hi).2
    rw [expandAtlas_snd_of_true m i ht]
    have hself := stateAt_growPage_self m i his
    have hl : ∀ c, (growPage m i).glyphs.lookup c
        = (m.glyphs.lookup c).map
            (rescaleGlyph i ((m.stateAt i).width * 2) ((m.stateAt i).width * 2)) := by
      intro c
      show (m.glyphs.map (fun e => (e.1, rescaleGlyph i _ _ e.2))).lookup c = _
      rw [lookup_map_snd]
      rfl
    refine ⟨by rw [hself]; simp only []; ring, by rw [hself]; simp only []; rw [hsq]; ring,
      by rw [hself], by rw [hself], by rw [hself], by simp [getAtlasCount, growPage],
      fun j hj => ⟨stateAt_growPage_ne m i j (Ne.symm hj), getD_set_ne _ _ _ _ _ (Ne.symm hj),
        getD_set_ne _ _ _ _ _ (Ne.symm hj)⟩,
      fun c p hc => ⟨fun hp => ?_, ⟨_, by rw [hl c, hc]; rfl, sameMetrics_rescaleGlyph _ _ _ _⟩⟩,
      fun c hc => by rw [hl c, hc]; rfl⟩
    rw [hl c, hc]
    show some (rescaleGlyph i _ _ p) = some p
    rw [rescaleGlyph_other _ _ _ _ hp]
  · exact expandAtlas_snd_of_false m i (by rw [hf]; simp)

/-- Witness of `expandAtlas_effect`: the fresh page of side 64 under a texture
limit of 4096. -/
theorem expandAtlas_effect_witness :
    ((expandAtlas (Example.fresh 4096 true) 0).2.stateAt 0).width = 128
    ∧ ((expandAtlas (Example.fresh 4096 true) 0).1 = true ↔
        0 < (Example.fresh 4096 true).getAtlasCount ∧
        2 * ((Example.fresh 4096 true).stateAt 0).width
          ≤ (Example.fresh 4096 true).maxAtlasSize) :=
  ⟨by with_unfolding_all decide,
    (expandAtlas_effect (Example.fresh 4096 true) 0
      (Reachable.init "font.ttf" 16 true 0 (by with_unfolding_all decide) :
        Reachable (Example.platform 4096 true) _).pagesOk
      (Reachable.init "font.ttf" 16 true 0 (by with_unfolding_all decide) :
        Reachable (Example.platform 4096 true) _).squares).1⟩

/-- C24: on a manager whose page vectors are aligned, `createNewAtlas` returns
the previous page count and appends one page to each of the three vectors.
The new page has its cursor at `(border, border)` and row height 0; its width
and height are `minAtlasSize` when there was no page, and otherwise the width
of the page that was last, which is also that page's height when it is
square.  Every page that existed keeps its state, pixel mirror and texture,
and the glyph map is unchanged. -/
theorem createNewAtlas_effect (m : FontAtlasManager)
    (hst : m.atlasStates.length = m.atlases.length)
    (hpx : m.atlasPixels.length = m.atlases.length) :
    (createNewAtlas m).2 = m.getAtlasCount
    ∧ (createNewAtlas m).1.getAtlasCount = m.getAtlasCount + 1
    ∧ (createNewAtlas m).1.atlasStates.length = m.atlasStates.length + 1
    ∧ (createNewAtlas m).1.atlasPixels.length = m.atlasPixels.length + 1
    ∧ ((createNewAtlas m).1.stateAt (createNewAtlas m).2).currentX = m.border
    ∧ ((createNewAtlas m).1.stateAt (createNewAtlas m).2).currentY = m.border
    ∧ ((createNewAtlas m).1.stateAt (createNewAtlas m).2).currentRowHeight = 0
    ∧ (m.getAtlasCount = 0 →
        ((createNewAtlas m).1.stateAt (createNewAtlas m).2).width = m.minAtlasSize ∧
        ((createNewAtlas m).1.stateAt (createNewAtlas m).2).height = m.minAtlasSize)
    ∧ (0 < m.getAtlasCount →
        ((createNewAtlas m).1.stateAt (createNewAtlas m).2).width
          = (m.stateAt (m.getAtlasCount - 1)).width ∧
        ((createNewAtlas m).1.stateAt (createNewAtlas m).2).height
          = (m.stateAt (m.getAtlasCount - 1)).width ∧
        ((m.stateAt (m.getAtlasCount - 1)).width = (m.stateAt (m.getAtlasCount - 1)).height →
          ((createNewAtlas m).1.stateAt (createNewAtlas m).2).height
            = (m.stateAt (m.getAtlasCount - 1)).height))
    ∧ (∀ j, j < m.getAtlasCount →
        (createNewAtlas m).1.stateAt j = m.stateAt j ∧
        (createNewAtlas m).1.atlasPixels.getD j default = m.atlasPixels.getD j default ∧
        (createNewAtlas m).1.atlases.getD j default = m.atlases.getD j default)
    ∧ (createNewAtlas m).1.glyphs = m.glyphs := by
  have hnew : (createNewAtlas m).1.stateAt (createNewAtlas m).2
      = { width := if m.atlases.isEmpty then m.minAtlasSize
                   else (m.atlasStates.getLast?.getD default).width,
          height := if m.atlases.isEmpty then m.minAtlasSize
                    else (m.atlasStates.getLast?.getD default).width,
          currentX := m.border, currentY := m.border, currentRowHeight := 0 } := by
    rw [createNewAtlas_index]
    simp only [stateAt, createNewAtlas, List.getD_eq_getElem?_getD]
    rw [← hst]
    simp
  have hlast : m.atlasStates.getLast?.getD default = m.stateAt (m.atlases.length - 1) := by
    rw [List.getLast?_eq_getElem?, hst]
    simp [stateAt]
  refine ⟨createNewAtlas_index m, createNewAtlas_atlases_length m, by simp [createNewAtlas],
    by simp [createNewAtlas], by rw [hnew], by rw [hnew], by rw [hnew], fun h0 => ?_,
    fun hpos => ?_, fun j hj => ⟨stateAt_createNewAtlas_old m j (by rw [hst]; exact hj), ?_, ?_⟩,
    rfl⟩
  · have he : m.atlases.isEmpty = true := by
      cases h : m.atlases with
      | nil => rfl
      | cons a l => simp [getAtlasCount, h] at h0
    rw [hnew]
    simp [he]
  · have he : m.atlases.isEmpty = false := by
      cases h : m.atlases with
      | nil => simp [getAtlasCount, h] at hpos
      | cons a l => rfl
    rw [hnew]
    simp only [he, Bool.false_eq_true, if_false, hlast, getAtlasCount]
    exact ⟨trivial, trivial, fun h => h⟩
  · simp only [createNewAtlas, List.getD_eq_getElem?_getD]
    rw [List.getElem?_append_left (by rw [hpx]; exact hj)]
  · simp only [createNewAtlas, List.getD_eq_getElem?_getD]
    rw [List.getElem?_append_left hj]

/-- Witness of `createNewAtlas_effect`: a second page for the fresh manager. -/
theorem createNewAtlas_effect_witness :
    (createNewAtlas (Example.fresh 4096 true)).2 = (Example.fresh 4096 true).getAtlasCount
    ∧ (createNewAtlas (Example.fresh 4096 true)).1.stateAt 1
        = { currentX := 1, currentY := 1, currentRowHeight := 0, width := 64, height := 64 } :=
  ⟨(createNewAtlas_effect (Example.fresh 4096 true) (by with_unfolding_all decide)
      (by with_unfolding_all decide)).1,
    by with_unfolding_all decide⟩

end FontAtlasManager

/-! ## Page sizes stay powers of two within the texture limit -/

namespace FontAtlasManager

theorem sized_of_dims {a b : Int} {s t : AtlasState} (h : s.Sized a b)
    (hw : t.width = s.width) (hh : t.height = s.height) : t.Sized a b := by
  obtain ⟨⟨k, hk⟩, h2, h3⟩ := h
  exact ⟨⟨k, by rw [hw, hk]⟩, by rw [hh, hw, h2], fun hab => by rw [hw]; exact h3 hab⟩

theorem sizedWith_same {a b : Int} {m m1 : FontAtlasManager} (h : SizedWith a b m)
    (hlen : m1.atlases.length = m.atlases.length)
    (hd : ∀ i, (m1.stateAt i).width = (m.stateAt i).width ∧
      (m1.stateAt i).height = (m.stateAt i).height) :
    SizedWith a b m1 := fun i hi =>
  sized_of_dims (h i (by rw [← hlen]; exact hi)) (hd i).1 (hd i).2

theorem sizedWith_wrapAt {a b : Int} {m : FontAtlasManager} (h : SizedWith a b m) (j : Nat)
    (w : Int) : SizedWith a b (m.wrapAt j w) :=
  sizedWith_same h rfl
    (fun i => stateAt_setState_dims m j i _ (wrapRow_width _ _ _) (wrapRow_height _ _ _))

theorem writeThrough_dims (m : FontAtlasManager) (t : Option Nat) (a : AtlasState)
    (ht : ∀ i, t = some i →
      a.width = (m.stateAt i).width ∧ a.height = (m.stateAt i).height) (k : Nat) :
    ((m.writeThrough t a).stateAt k).width = (m.stateAt k).width ∧
    ((m.writeThrough t a).stateAt k).height = (m.stateAt k).height := by
  cases t with
  | none => exact ⟨rfl, rfl⟩
  | some i => exact stateAt_setState_dims m i k a (ht i rfl).1 (ht i rfl).2

theorem placeGlyph_dims (m : FontAtlasManager) (px : ofPixels) (props : LazyGlyphProps)
    (j : Nat) (st : AtlasState) (t : Option Nat)
    (ht : ∀ i, t = some i →
      st.width = (m.stateAt i).width ∧ st.height = (m.stateAt i).height) (k : Nat) :
    ((placeGlyph m px props j st t).1.stateAt k).width = (m.stateAt k).width ∧
    ((placeGlyph m px props j st t).1.stateAt k).height = (m.stateAt k).height :=
  writeThrough_dims
    { m with atlasPixels := m.atlasPixels.set j (px.pasteInto (m.atlasPixels.getD j default)
               st.currentX st.currentY),
             atlases := m.atlases.set j (px.pasteInto (m.atlasPixels.getD j default)
               st.currentX st.currentY) } t
    { st with currentX := st.currentX + px.width + m.border,
              currentRowHeight := max st.currentRowHeight px.height } ht k

theorem sizedWith_placeGlyph {a b : Int} {m : FontAtlasManager} (h : SizedWith a b m)
    (px : ofPixels) (props : LazyGlyphProps) (j : Nat) (st : AtlasState) (t : Option Nat)
    (ht : ∀ i, t = some i →
      st.width = (m.stateAt i).width ∧ st.height = (m.stateAt i).height) :
    SizedWith a b (placeGlyph m px props j st t).1 :=
  sizedWith_same h (placeGlyph_atlases_length m px props j st t)
    (placeGlyph_dims m px props j st t ht)

theorem sizedWith_growPage {a b : Int} {m : FontAtlasManager} (h : SizedWith a b m)
    (hm : PagesOk m) (j : Nat) (hj : j < m.atlases.length)
    (hexp : 2 * (m.stateAt j).width ≤ b) : SizedWith a b (growPage m j) := by
  intro i hi
  have hi2 : i < m.atlases.length := by simpa [growPage] using hi
  by_cases hij : i = j
  · subst hij
    obtain ⟨⟨k, hk⟩, h2, h3⟩ := h i hi2
    rw [stateAt_growPage_self m i (by rw [hm.states]; exact hi2)]
    exact ⟨⟨k + 1, by simp only []; rw [hk, pow_succ]; ring⟩, rfl,
      fun _ => by simp only []; omega⟩
  · rw [stateAt_growPage_ne m j i (Ne.symm hij)]
    exact h i hi2

theorem sizedWith_createNewAtlas {a b : Int} {m : FontAtlasManager} (h : SizedWith a b m)
    (hm : PagesOk m) : SizedWith a b (createNewAtlas m).1 := by
  intro i hi
  rw [createNewAtlas_atlases_length] at hi
  by_cases hlt : i < m.atlases.length
  · rw [stateAt_createNewAtlas_old m i (by rw [hm.states]; exact hlt)]
    exact h i hlt
  · have hi0 : i = m.atlases.length := by omega
    subst hi0
    rw [stateAt_createNewAtlas m hm]
    obtain ⟨⟨k, hk⟩, h2, h3⟩ := h (m.atlases.length - 1) (by have := hm.pos; omega)
    exact ⟨⟨k, hk⟩, rfl, h3⟩

end FontAtlasManager

namespace FontAtlasManager

theorem fitFirstPass_sized {a : Int} (m : FontAtlasManager) (w h : Int) (hm : PagesOk m)
    (hs : SquarePages m) (hz : SizedWith a m.maxAtlasSize m) :
    SizedWith a m.maxAtlasSize (fitFirstPass m w h).1 := by
  have hpos := hm.pos
  have hza := sizedWith_wrapAt hz (m.atlases.length - 1) w
  have hma : PagesOk (m.wrapAt (m.atlases.length - 1) w) := hm.wrapAt _ _
  have hsa : SquarePages (m.wrapAt (m.atlases.length - 1) w) :=
    (grown_wrapAt 0 m (m.atlases.length - 1) w (Nat.zero_le _)).squarePages hs
  have hla : (m.wrapAt (m.atlases.length - 1) w).atlases.length = m.atlases.length := rfl
  unfold fitFirstPass
  simp only []
  split
  · split
    · rename_i _ h2
      rw [expandAtlas_snd_of_true _ _ h2]
      exact sizedWith_growPage hza hma _ (by rw [hla]; omega)
        ((expandAtlas_true_iff _ _).1 h2).2
    · rename_i _ h2
      rw [expandAtlas_snd_of_false _ _ h2]
      have hd := newPage_dims _ hma hsa
      rw [hla] at hd
      exact sizedWith_same (sizedWith_createNewAtlas hza hma)
        (by simp only []; rw [writeThrough_atlases])
        (writeThrough_dims _ _ _ (fun i hi => by
          have := refAfterPush_lt _ _ _ hi
          subst this
          exact hd))
  · exact hza

theorem fitSecondPass_sized {a : Int} (m : FontAtlasManager) (i : Nat) (px : ofPixels)
    (props : LazyGlyphProps) (hm : PagesOk m) (hs : SquarePages m)
    (hi : i = m.atlases.length - 1) (hz : SizedWith a m.maxAtlasSize m) :
    SizedWith a m.maxAtlasSize (fitSecondPass m i px props).1 := by
  have hpos := hm.pos
  have hza := sizedWith_wrapAt hz i px.width
  have hma : PagesOk (m.wrapAt i px.width) := hm.wrapAt _ _
  have hsa : SquarePages (m.wrapAt i px.width) :=
    (grown_wrapAt 0 m i px.width (Nat.zero_le _)).squarePages hs
  have hla : (m.wrapAt i px.width).atlases.length = m.atlases.length := rfl
  unfold fitSecondPass
  simp only []
  split
  · split
    · rename_i _ h2
      rw [expandAtlas_snd_of_true _ _ h2]
      exact sizedWith_placeGlyph
        (sizedWith_growPage hza hma _ (by rw [hla]; omega) ((expandAtlas_true_iff _ _).1 h2).2)
        px props i _ (some i) (fun k hk => by cases hk; exact ⟨rfl, rfl⟩)
    · rename_i _ h2
      rw [expandAtlas_snd_of_false _ _ h2]
      have hd := newPage_dims _ hma hsa
      rw [hla, ← hi] at hd
      exact sizedWith_placeGlyph (sizedWith_createNewAtlas hza hma) px props _ _ _
        (fun k hk => by
          have := refAfterPush_lt _ _ _ hk
          subst this
          exact hd)
  · exact sizedWith_placeGlyph hza px props i _ (some i)
      (fun k hk => by cases hk; exact ⟨rfl, rfl⟩)

theorem addGlyphToAtlas_sized {a : Int} (m : FontAtlasManager) (c : Nat) (hm : PagesOk m)
    (hs : SquarePages m) (hz : SizedWith a m.maxAtlasSize m) :
    SizedWith a m.maxAtlasSize (addGlyphToAtlas m c).1 := by
  have hcfg := rasterizeGlyph_config m c
  have hz1 : SizedWith a (rasterizeGlyph m c).1.maxAtlasSize (rasterizeGlyph m c).1 := by
    rw [hcfg.maxAtlasSize]
    exact sizedWith_same hz (by rw [rasterizeGlyph_fst])
      (fun i => by rw [rasterizeGlyph_fst]; exact ⟨rfl, rfl⟩)
  have hm1 : PagesOk (rasterizeGlyph m c).1 := hm.rasterizeGlyph c
  have hs1 : SquarePages (rasterizeGlyph m c).1 := by
    have g0 : Grown 0 0 m (rasterizeGlyph m c).1 := by
      rw [rasterizeGlyph_fst]; exact grown_counted _ m _
    exact g0.squarePages hs
  rcases addGlyphToAtlas_cases m c with ⟨_, h⟩ | ⟨px, props, hr, hz0, h⟩ |
    ⟨px, props, hr, hpw, hph, h⟩
  · rw [h]; rw [hcfg.maxAtlasSize] at hz1; exact hz1
  · rw [h]; rw [hcfg.maxAtlasSize] at hz1; exact hz1
  · rw [h]
    have z1 := fitFirstPass_sized (rasterizeGlyph m c).1 px.width px.height hm1 hs1 hz1
    obtain ⟨hmF, hiF⟩ := fitFirstPass_pages (rasterizeGlyph m c).1 px.width px.height hm1
    have hsF := (fitFirstPass_grown (rasterizeGlyph m c).1 px.width px.height hm1
      hs1).squarePages hs1
    have hcF := fitFirstPass_config (rasterizeGlyph m c).1 px.width px.height
    rw [← hcF.maxAtlasSize] at z1
    have z2 := fitSecondPass_sized _ _ px props hmF hsF hiF z1
    rw [hcF.maxAtlasSize, hcfg.maxAtlasSize] at z2
    exact z2

theorem getOrLoadGlyph_sized (m : FontAtlasManager) (c : Nat) (hm : PagesOk m)
    (hs : SquarePages m) (hz : PageSizes m) : PageSizes (getOrLoadGlyph m c).1 := by
  have hcfg := getOrLoadGlyph_config m c
  unfold PageSizes at hz ⊢
  rw [hcfg.minAtlasSize, hcfg.maxAtlasSize]
  have hadd := addGlyphToAtlas_sized m c hm hs hz
  cases hl : m.glyphs.lookup c with
  | some p0 =>
    rw [getOrLoadGlyph_hit m c p0 hl]
    exact hz
  | none =>
    cases ha : (addGlyphToAtlas m c).2 with
    | none =>
      rw [getOrLoadGlyph_miss_none m c hl ha]
      exact hadd
    | some q =>
      rw [getOrLoadGlyph_miss_some m c q hl ha]
      exact hadd

theorem Reachable.pageSizes {env : Platform} {m : FontAtlasManager} (h : Reachable env m) :
    PageSizes m := by
  induction h with
  | init fontPath size antialias dpiValue hs =>
    obtain ⟨hst, hlen, _, _, hmin⟩ := setup_fresh env fontPath size antialias dpiValue hs
    intro i hi
    rw [hlen] at hi
    have hi0 : i = 0 := by omega
    subst hi0
    unfold stateAt
    rw [hst]
    exact ⟨⟨0, by simp⟩, rfl, fun h => h⟩
  | step m c hr ih =>
    exact getOrLoadGlyph_sized m c hr.pagesOk hr.squares ih

/-- In the embedding every page of a reachable state is square with side
`minAtlasSize * 2 ^ k`, within `maxAtlasSize` when `minAtlasSize` is. -/
theorem reachable_pages_sized (env : Platform) (m : FontAtlasManager) (i : Nat)
    (hr : Reachable env m) (hi : i < m.getAtlasCount) :
    (∃ k : Nat, (m.stateAt i).width = m.minAtlasSize * 2 ^ k ∧
      (m.stateAt i).height = m.minAtlasSize * 2 ^ k)
    ∧ (m.stateAt i).width = (m.stateAt i).height
    ∧ (m.minAtlasSize ≤ m.maxAtlasSize →
        (m.stateAt i).width ≤ m.maxAtlasSize ∧ (m.stateAt i).height ≤ m.maxAtlasSize) := by
  obtain ⟨⟨k, hk⟩, h2, h3⟩ := hr.pageSizes i hi
  exact ⟨⟨k, hk, by rw [h2, hk]⟩, h2.symm, fun h => ⟨h3 h, by rw [h2]; exact h3 h⟩⟩

end FontAtlasManager

/-! ## The two fit checks suffice for glyphs that fit the minimum page -/

namespace FontAtlasManager

theorem addGlyphToAtlas_cursorX (m : FontAtlasManager) (c : Nat) (hm : PagesOk m)
    (hc : CursorOk m) (hfit : BitmapFits m c)
    (hx : (m.stateAt (m.atlases.length - 1)).currentX
      ≤ (m.stateAt (m.atlases.length - 1)).width) :
    ((addGlyphToAtlas m c).1.stateAt ((addGlyphToAtlas m c).1.atlases.length - 1)).currentX
      ≤ ((addGlyphToAtlas m c).1.stateAt ((addGlyphToAtlas m c).1.atlases.length - 1)).width := by
  have hc1 : CursorOk (rasterizeGlyph m c).1 := by
    rw [rasterizeGlyph_fst]; exact cursorOk_counted hc _
  have hm1 : PagesOk (rasterizeGlyph m c).1 := hm.rasterizeGlyph c
  have hx1 : ((rasterizeGlyph m c).1.stateAt ((rasterizeGlyph m c).1.atlases.length - 1)).currentX
      ≤ ((rasterizeGlyph m c).1.stateAt ((rasterizeGlyph m c).1.atlases.length - 1)).width := by
    rw [rasterizeGlyph_fst]; exact hx
  rcases addGlyphToAtlas_cases m c with ⟨_, h⟩ | ⟨px, props, _, _, h⟩ | ⟨px, props, hr, hw, hh, h⟩
  · rw [h]; exact hx1
  · rw [h]; exact hx1
  · rw [h]
    obtain ⟨face, g, hface, hpx, _, _⟩ := rasterizeGlyph_some m c px props hr
    have hcfg := rasterizeGlyph_config m c
    obtain ⟨fitW, fitH⟩ := bitmap_of_bitmapFits hfit hr face g hpx hw
    have hsz := bitmapPixels_size m.antialiased (face.renderGlyph g m.antialiased).bitmap
    rw [← hpx] at hsz
    have fw : (px.width : Int) + 2 * (rasterizeGlyph m c).1.border
        ≤ (rasterizeGlyph m c).1.minAtlasSize := by
      rw [hcfg.border, hcfg.minAtlasSize]
      rcases hsz with ⟨h0, _, _⟩ | ⟨h1, _, _, _⟩
      · exact absurd h0 hw
      · rw [h1]; exact fitW
    have fh : (px.height : Int) + 2 * (rasterizeGlyph m c).1.border
        ≤ (rasterizeGlyph m c).1.minAtlasSize := by
      rw [hcfg.border, hcfg.minAtlasSize]
      rcases hsz with ⟨h0, _, _⟩ | ⟨_, h1, _, _⟩
      · exact absurd h0 hw
      · rw [h1]; exact fitH
    obtain ⟨s, hs, hq, hidx, hst, _⟩ := pack_of_fits (rasterizeGlyph m c).1 px props hm1 hc1 fw fh
    have hfx := hs.fitsX
    simp only [← hidx, hst]
    exact hfx

theorem getOrLoadGlyph_cursorX (m : FontAtlasManager) (c : Nat) (hm : PagesOk m)
    (hc : CursorOk m) (hfit : BitmapFits m c)
    (hx : (m.stateAt (m.atlases.length - 1)).currentX
      ≤ (m.stateAt (m.atlases.length - 1)).width) :
    ((getOrLoadGlyph m c).1.stateAt ((getOrLoadGlyph m c).1.atlases.length - 1)).currentX
      ≤ ((getOrLoadGlyph m c).1.stateAt ((getOrLoadGlyph m c).1.atlases.length - 1)).width := by
  have hadd := addGlyphToAtlas_cursorX m c hm hc hfit hx
  cases hl : m.glyphs.lookup c with
  | some p0 => rw [getOrLoadGlyph_hit m c p0 hl]; exact hx
  | none =>
    cases ha : (addGlyphToAtlas m c).2 with
    | none => rw [getOrLoadGlyph_miss_none m c hl ha]; exact hadd
    | some q => rw [getOrLoadGlyph_miss_some m c q hl ha]; exact hadd

/-- When the cursor of the last page is in order and the bitmap of `c` fits the
minimum page, the cursor is in order after `getOrLoadGlyph` too, and a glyph
with ink the call packs lies inside its page. -/
theorem fit_of_cursor (m : FontAtlasManager) (c : Nat)
    (hm : PagesOk m) (hc : CursorOk m)
    (hx : (m.stateAt (m.atlases.length - 1)).currentX
      ≤ (m.stateAt (m.atlases.length - 1)).width)
    (hfit : BitmapFits m c) :
    (m.border ≤ (m.stateAt (m.getAtlasCount - 1)).currentX
      ∧ (m.stateAt (m.getAtlasCount - 1)).currentX ≤ (m.stateAt (m.getAtlasCount - 1)).width
      ∧ (m.stateAt (m.getAtlasCount - 1)).currentY
          + (m.stateAt (m.getAtlasCount - 1)).currentRowHeight + m.border
        ≤ (m.stateAt (m.getAtlasCount - 1)).height)
    ∧ (m.border ≤ ((getOrLoadGlyph m c).1.stateAt
          ((getOrLoadGlyph m c).1.getAtlasCount - 1)).currentX
      ∧ ((getOrLoadGlyph m c).1.stateAt ((getOrLoadGlyph m c).1.getAtlasCount - 1)).currentX
        ≤ ((getOrLoadGlyph m c).1.stateAt ((getOrLoadGlyph m c).1.getAtlasCount - 1)).width
      ∧ ((getOrLoadGlyph m c).1.stateAt ((getOrLoadGlyph m c).1.getAtlasCount - 1)).currentY
          + ((getOrLoadGlyph m c).1.stateAt
              ((getOrLoadGlyph m c).1.getAtlasCount - 1)).currentRowHeight + m.border
        ≤ ((getOrLoadGlyph m c).1.stateAt ((getOrLoadGlyph m c).1.getAtlasCount - 1)).height)
    ∧ (∀ p, m.glyphs.lookup c = none → (getOrLoadGlyph m c).2 = some p →
        p.tW ≠ 0 → p.tH ≠ 0 →
        p.InsidePage ((getOrLoadGlyph m c).1.stateAt p.atlasIndex) m.border) := by
  have hc2 := getOrLoadGlyph_cursor m c hm hc hfit
  have hx2 := getOrLoadGlyph_cursorX m c hm hc hfit hx
  have hb := (getOrLoadGlyph_config m c).border
  refine ⟨⟨hc.x, hx, hc.fitsRow⟩, ⟨by rw [← hb]; exact hc2.x, hx2,
    by rw [← hb]; exact hc2.fitsRow⟩, fun p hnew hp hw hh => ?_⟩
  obtain ⟨hsome, hget⟩ := getOrLoadGlyph_miss_cases m c p hnew hp
  have h := (addGlyphToAtlas_inside m c p hm hc hfit hsome hw hh).1
  rw [hget]
  exact h

end FontAtlasManager

/-! ## The cursor after a placement -/

namespace FontAtlasManager

theorem addGlyphToAtlas_advances (m : FontAtlasManager) (c : Nat) (p : LazyGlyphProps)
    (hm : PagesOk m) (hc : CursorOk m) (hfit : BitmapFits m c)
    (hp : (addGlyphToAtlas m c).2 = some p) (hw : p.tW ≠ 0) (hh : p.tH ≠ 0) :
    ∃ x y : Int,
      p.t1 * (((addGlyphToAtlas m c).1.stateAt p.atlasIndex).width : ℚ) = x ∧
      p.v1 * (((addGlyphToAtlas m c).1.stateAt p.atlasIndex).height : ℚ) = y ∧
      (((addGlyphToAtlas m c).1.stateAt p.atlasIndex).currentX : ℚ) = x + p.tW + m.border ∧
      ((addGlyphToAtlas m c).1.stateAt p.atlasIndex).currentY = y ∧
      p.tH ≤ (((addGlyphToAtlas m c).1.stateAt p.atlasIndex).currentRowHeight : ℚ) := by
  have hc1 : CursorOk (rasterizeGlyph m c).1 := by
    rw [rasterizeGlyph_fst]; exact cursorOk_counted hc _
  have hm1 : PagesOk (rasterizeGlyph m c).1 := hm.rasterizeGlyph c
  have hcfg := rasterizeGlyph_config m c
  rcases addGlyphToAtlas_cases m c with ⟨_, h⟩ | ⟨px, props, hr, hz, h⟩ |
    ⟨px, props, hr, hpw, hph, h⟩
  · rw [h] at hp; cases hp
  · exfalso
    rw [h] at hp
    simp only [Option.some.injEq] at hp
    obtain ⟨face, g, hface, hpx, htW, htH⟩ := rasterizeGlyph_some m c px props hr
    have hsz := bitmapPixels_size m.antialiased (face.renderGlyph g m.antialiased).bitmap
    rw [← hpx] at hsz
    have e5 : p.tW = props.tW := by rw [← hp]
    have e6 : p.tH = props.tH := by rw [← hp]
    rcases hsz with ⟨_, _, h0 | h0⟩ | ⟨h1, h2, _, _⟩
    · apply hw; rw [e5, htW, h0]; rfl
    · apply hh; rw [e6, htH, h0]; rfl
    · rcases hz with hz | hz
      · apply hw; rw [e5, htW, ← h1, hz]; rfl
      · apply hh; rw [e6, htH, ← h2, hz]; rfl
  · rw [h] at hp ⊢
    simp only [Option.some.injEq] at hp
    obtain ⟨face, g, hface, hpx, htW, htH⟩ := rasterizeGlyph_some m c px props hr
    obtain ⟨fitW, fitH⟩ := bitmap_of_bitmapFits hfit hr face g hpx hpw
    have hsz := bitmapPixels_size m.antialiased (face.renderGlyph g m.antialiased).bitmap
    rw [← hpx] at hsz
    obtain ⟨h1, h2⟩ : px.width = (face.renderGlyph g m.antialiased).bitmap.width ∧
        px.height = (face.renderGlyph g m.antialiased).bitmap.rows := by
      rcases hsz with ⟨h0, _, _⟩ | ⟨h1, h2, _, _⟩
      · exact absurd h0 hpw
      · exact ⟨h1, h2⟩
    have fw : (px.width : Int) + 2 * (rasterizeGlyph m c).1.border
        ≤ (rasterizeGlyph m c).1.minAtlasSize := by
      rw [hcfg.border, hcfg.minAtlasSize, h1]; exact fitW
    have fh : (px.height : Int) + 2 * (rasterizeGlyph m c).1.border
        ≤ (rasterizeGlyph m c).1.minAtlasSize := by
      rw [hcfg.border, hcfg.minAtlasSize, h2]; exact fitH
    obtain ⟨s, hs, hq, hidx, hst, _⟩ := pack_of_fits (rasterizeGlyph m c).1 px props hm1 hc1 fw fh
    have hpi : p.atlasIndex = (fitFirstPass (rasterizeGlyph m c).1 px.width px.height).2 := by
      rw [← hp, hq]; rfl
    have e1 : p.t1 = (s.currentX : ℚ) / (s.width : ℚ) := by rw [← hp, hq]; rfl
    have e2 : p.v1 = (s.currentY : ℚ) / (s.height : ℚ) := by rw [← hp, hq]; rfl
    have e5 : p.tW = (px.width : ℚ) := by
      rw [← hp, hq]
      show props.tW = _
      rw [htW, h1]
    have e6 : p.tH = (px.height : ℚ) := by
      rw [← hp, hq]
      show props.tH = _
      rw [htH, h2]
    have hb : 0 ≤ (rasterizeGlyph m c).1.border := hc1.border
    have hbig := hs.big
    have hsq := hs.square
    have hW : (0 : ℚ) < (s.width : ℚ) := by
      have : (0 : Int) < s.width := by omega
      exact_mod_cast this
    have hH : (0 : ℚ) < (s.height : ℚ) := by rw [← hsq]; exact hW
    simp only []
    rw [hpi, hst]
    refine ⟨s.currentX, s.currentY, ?_, ?_, ?_, rfl, ?_⟩
    · rw [e1]; field_simp
    · rw [e2]; field_simp
    · rw [e5, ← hcfg.border]; push_cast; ring
    · rw [e6]
      simp only []
      exact_mod_cast le_max_right _ _

/-- C22 at a failing input (texture limit 128, font size 16, glyphs `A` 10 x 50
and `B` 60 x 80 loaded in this order, whether or not the vector moves its
storage): `B` is packed at pixel (1, 1) of the new page 1 by the fallback of
the second height check, and afterwards the cursor of page 1 is still at
(1, 1) with row height 0, not at (62, 1) with row height 80.  In the states
reachable when every bitmap fits an empty page of the minimum size the cursor
of the glyph's page is advanced as the claim says. -/
theorem cursor_not_advanced_after_second_fallback :
    (∀ moved : Bool,
      Reachable (Example.platform 128 moved) (getOrLoadGlyph (Example.fresh 128 moved) 65).1 ∧
      (getOrLoadGlyph (Example.fresh 128 moved) 65).1.glyphs.lookup 66 = none ∧
      ((getOrLoadGlyph (getOrLoadGlyph (Example.fresh 128 moved) 65).1 66).2).map
          (fun p => (p.atlasIndex, p.tW, p.tH,
            pixelRect (getOrLoadGlyph (getOrLoadGlyph (Example.fresh 128 moved) 65).1 66).1 p))
        = some (1, 60, 80, ⟨1, 1, 61, 81⟩) ∧
      (getOrLoadGlyph (getOrLoadGlyph (Example.fresh 128 moved) 65).1 66).1.border = 1 ∧
      (getOrLoadGlyph (getOrLoadGlyph (Example.fresh 128 moved) 65).1 66).1.stateAt 1
        = { currentX := 1, currentY := 1, currentRowHeight := 0, width := 128, height := 128 })
    ∧ (∀ (env : Platform) (m : FontAtlasManager) (c : Nat) (p : LazyGlyphProps),
        Reachable env m → GlyphsFit m → m.glyphs.lookup c = none →
        (getOrLoadGlyph m c).2 = some p → p.tW ≠ 0 → p.tH ≠ 0 →
        ∃ x y : Int,
          p.t1 * (((getOrLoadGlyph m c).1.stateAt p.atlasIndex).width : ℚ) = x ∧
          p.v1 * (((getOrLoadGlyph m c).1.stateAt p.atlasIndex).height : ℚ) = y ∧
          (((getOrLoadGlyph m c).1.stateAt p.atlasIndex).currentX : ℚ)
            = x + p.tW + m.border ∧
          ((getOrLoadGlyph m c).1.stateAt p.atlasIndex).currentY = y ∧
          p.tH ≤ (((getOrLoadGlyph m c).1.stateAt p.atlasIndex).currentRowHeight : ℚ)) := by
  refine ⟨fun moved => ⟨Reachable.step _ 65 (Reachable.init "font.ttf" 16 true 0 ?_), ?_⟩,
    fun env m c p hr hfit hnew hp hw hh => ?_⟩
  · cases moved <;> with_unfolding_all decide
  · cases moved <;> with_unfolding_all decide
  · obtain ⟨hsome, hget⟩ := getOrLoadGlyph_miss_cases m c p hnew hp
    have h := addGlyphToAtlas_advances m c p hr.pagesOk (hr.cursorOk hfit)
      (bitmapFits_of_glyphsFit hfit c) hsome hw hh
    rw [hget]
    exact h

end FontAtlasManager

/-! ## The row wrap -/

namespace FontAtlasManager

theorem fitFirstPass_no_growth (m : FontAtlasManager) (w h : Int) (hm : PagesOk m)
    (hy : ((m.stateAt (m.atlases.length - 1)).wrapRow w m.border).currentY + h + m.border
      ≤ (m.stateAt (m.atlases.length - 1)).height) :
    fitFirstPass m w h = (m.wrapAt (m.atlases.length - 1) w, m.atlases.length - 1) := by
  have hi : m.atlases.length - 1 < m.atlasStates.length := by
    have := hm.states; have := hm.pos; omega
  have e : (m.wrapAt (m.atlases.length - 1) w).stateAt (m.atlases.length - 1)
      = (m.stateAt (m.atlases.length - 1)).wrapRow w m.border :=
    stateAt_setState_self m _ _ hi
  have eb : (m.wrapAt (m.atlases.length - 1) w).border = m.border := rfl
  unfold fitFirstPass
  simp only []
  rw [e, eb, wrapRow_height, if_neg (by omega)]

theorem wrapRow_idem (s : AtlasState) (w b : Int)
    (hx : (s.wrapRow w b).currentX + w + b ≤ s.width) :
    (s.wrapRow w b).wrapRow w b = s.wrapRow w b :=
  wrapRow_of_fits _ _ _ (by rw [wrapRow_width]; exact hx)

theorem addGlyphToAtlas_after_wrap (m : FontAtlasManager) (c : Nat) (p : LazyGlyphProps)
    (hm : PagesOk m) (hp : (addGlyphToAtlas m c).2 = some p) (hw : p.tW ≠ 0) (hh : p.tH ≠ 0) :
    ∃ w h : Nat, p.tW = (w : ℚ) ∧ p.tH = (h : ℚ) ∧
      (((m.stateAt (m.atlases.length - 1)).wrapRow w m.border).currentX + w + m.border
          ≤ (m.stateAt (m.atlases.length - 1)).width →
       ((m.stateAt (m.atlases.length - 1)).wrapRow w m.border).currentY + h + m.border
          ≤ (m.stateAt (m.atlases.length - 1)).height →
       p.atlasIndex = m.atlases.length - 1 ∧
       p.t1 = (((m.stateAt (m.atlases.length - 1)).wrapRow w m.border).currentX : ℚ)
          / ((m.stateAt (m.atlases.length - 1)).width : ℚ) ∧
       p.v1 = (((m.stateAt (m.atlases.length - 1)).wrapRow w m.border).currentY : ℚ)
          / ((m.stateAt (m.atlases.length - 1)).height : ℚ) ∧
       p.t2 = ((((m.stateAt (m.atlases.length - 1)).wrapRow w m.border).currentX : ℚ) + w)
          / ((m.stateAt (m.atlases.length - 1)).width : ℚ) ∧
       p.v2 = ((((m.stateAt (m.atlases.length - 1)).wrapRow w m.border).currentY : ℚ) + h)
          / ((m.stateAt (m.atlases.length - 1)).height : ℚ) ∧
       (addGlyphToAtlas m c).1.atlases.length = m.atlases.length ∧
       (addGlyphToAtlas m c).1.stateAt (m.atlases.length - 1)
         = { (m.stateAt (m.atlases.length - 1)).wrapRow w m.border with
             currentX := ((m.stateAt (m.atlases.length - 1)).wrapRow w m.border).currentX
               + w + m.border,
             currentRowHeight :=
               max ((m.stateAt (m.atlases.length - 1)).wrapRow w m.border).currentRowHeight
                 h }) := by
  have hm1 : PagesOk (rasterizeGlyph m c).1 := hm.rasterizeGlyph c
  have hcfg := rasterizeGlyph_config m c
  have hl1 : (rasterizeGlyph m c).1.atlases.length = m.atlases.length := by
    rw [rasterizeGlyph_fst]
  have hs1 : ∀ i, (rasterizeGlyph m c).1.stateAt i = m.stateAt i := by
    intro i; rw [rasterizeGlyph_fst]; rfl
  rcases addGlyphToAtlas_cases m c with ⟨_, h⟩ | ⟨px, props, hr, hz, h⟩ |
    ⟨px, props, hr, hpw, hph, h⟩
  · rw [h] at hp; cases hp
  · exfalso
    rw [h] at hp
    simp only [Option.some.injEq] at hp
    obtain ⟨face, g, hface, hpx, htW, htH⟩ := rasterizeGlyph_some m c px props hr
    have hsz := bitmapPixels_size m.antialiased (face.renderGlyph g m.antialiased).bitmap
    rw [← hpx] at hsz
    have e5 : p.tW = props.tW := by rw [← hp]
    have e6 : p.tH = props.tH := by rw [← hp]
    rcases hsz with ⟨_, _, h0 | h0⟩ | ⟨h1, h2, _, _⟩
    · apply hw; rw [e5, htW, h0]; rfl
    · apply hh; rw [e6, htH, h0]; rfl
    · rcases hz with hz | hz
      · apply hw; rw [e5, htW, ← h1, hz]; rfl
      · apply hh; rw [e6, htH, ← h2, hz]; rfl
  · rw [h] at hp
    simp only [Option.some.injEq] at hp
    obtain ⟨face, g, hface, hpx, htW, htH⟩ := rasterizeGlyph_some m c px props hr
    have hsz := bitmapPixels_size m.antialiased (face.renderGlyph g m.antialiased).bitmap
    rw [← hpx] at hsz
    obtain ⟨h1, h2⟩ : px.width = (face.renderGlyph g m.antialiased).bitmap.width ∧
        px.height = (face.renderGlyph g m.antialiased).bitmap.rows := by
      rcases hsz with ⟨h0, _, _⟩ | ⟨h1, h2, _, _⟩
      · exact absurd h0 hpw
      · exact ⟨h1, h2⟩
    have etW : p.tW = (px.width : ℚ) := by
      rw [← hp, fitSecondPass_tW, htW, h1]
    have etH : p.tH = (px.height : ℚ) := by
      rw [← hp, fitSecondPass_tH, htH, h2]
    refine ⟨px.width, px.height, etW, etH, fun hx hy => ?_⟩
    have hpos := hm.pos
    have hi : m.atlases.length - 1 < (rasterizeGlyph m c).1.atlasStates.length := by
      rw [hm1.states, hl1]; omega
    have e1 : fitFirstPass (rasterizeGlyph m c).1 px.width px.height
        = ((rasterizeGlyph m c).1.wrapAt (m.atlases.length - 1) px.width,
            m.atlases.length - 1) := by
      have := fitFirstPass_no_growth (rasterizeGlyph m c).1 px.width px.height hm1
        (by rw [hl1, hs1, hcfg.border]; exact hy)
      rw [hl1] at this
      exact this
    have e2 : ((rasterizeGlyph m c).1.wrapAt (m.atlases.length - 1) px.width).stateAt
        (m.atlases.length - 1)
        = (m.stateAt (m.atlases.length - 1)).wrapRow px.width m.border := by
      rw [← hs1, ← hcfg.border]
      exact stateAt_setState_self _ _ _ hi
    have eb2 : ((rasterizeGlyph m c).1.wrapAt (m.atlases.length - 1) px.width).border
        = m.border := hcfg.border
    have hi2 : m.atlases.length - 1
        < ((rasterizeGlyph m c).1.wrapAt (m.atlases.length - 1) px.width).atlasStates.length := by
      show _ < ((rasterizeGlyph m c).1.atlasStates.set _ _).length
      rw [List.length_set]; exact hi
    have hi3 : m.atlases.length - 1
        < (((rasterizeGlyph m c).1.wrapAt (m.atlases.length - 1) px.width).wrapAt
            (m.atlases.length - 1) px.width).atlasStates.length := by
      show _ < (((rasterizeGlyph m c).1.wrapAt (m.atlases.length - 1)
        px.width).atlasStates.set _ _).length
      rw [List.length_set]; exact hi2
    have hq : addGlyphToAtlas m c
        = ((placeGlyph (((rasterizeGlyph m c).1.wrapAt (m.atlases.length - 1) px.width).wrapAt
              (m.atlases.length - 1) px.width) px props (m.atlases.length - 1)
              ((m.stateAt (m.atlases.length - 1)).wrapRow px.width m.border)
              (some (m.atlases.length - 1))).1,
           some (placeGlyph (((rasterizeGlyph m c).1.wrapAt (m.atlases.length - 1)
              px.width).wrapAt (m.atlases.length - 1) px.width) px props (m.atlases.length - 1)
              ((m.stateAt (m.atlases.length - 1)).wrapRow px.width m.border)
              (some (m.atlases.length - 1))).2) := by
      rw [h, e1]
      simp only []
      rw [fitSecondPass_of_fits _ _ px props hi2
        (by rw [e2, eb2, wrapRow_width]; exact hx)
        (by rw [e2, eb2, wrapRow_height]; exact hy), e2]
    rw [e1] at hp
    simp only [] at hp
    rw [fitSecondPass_of_fits _ _ px props hi2
        (by rw [e2, eb2, wrapRow_width]; exact hx)
        (by rw [e2, eb2, wrapRow_height]; exact hy), e2] at hp
    have ebb : (((rasterizeGlyph m c).1.wrapAt (m.atlases.length - 1) px.width).wrapAt
        (m.atlases.length - 1) px.width).border = m.border := hcfg.border
    refine ⟨by rw [← hp]; rfl, ?_, ?_, ?_, ?_, ?_, ?_⟩
    · rw [← hp]
      show (((m.stateAt (m.atlases.length - 1)).wrapRow px.width m.border).currentX : ℚ)
        / ((((m.stateAt (m.atlases.length - 1)).wrapRow px.width m.border).width : Int) : ℚ) = _
      rw [wrapRow_width]
    · rw [← hp]
      show (((m.stateAt (m.atlases.length - 1)).wrapRow px.width m.border).currentY : ℚ)
        / ((((m.stateAt (m.atlases.length - 1)).wrapRow px.width m.border).height : Int) : ℚ) = _
      rw [wrapRow_height]
    · rw [← hp]
      show (((((m.stateAt (m.atlases.length - 1)).wrapRow px.width m.border).currentX
          + (px.width : Int) : Int)) : ℚ)
        / ((((m.stateAt (m.atlases.length - 1)).wrapRow px.width m.border).width : Int) : ℚ) = _
      rw [wrapRow_width]; push_cast; rfl
    · rw [← hp]
      show (((((m.stateAt (m.atlases.length - 1)).wrapRow px.width m.border).currentY
          + (px.height : Int) : Int)) : ℚ)
        / ((((m.stateAt (m.atlases.length - 1)).wrapRow px.width m.border).height : Int) : ℚ) = _
      rw [wrapRow_height]; push_cast; rfl
    · rw [hq]
      simp only []
      rw [placeGlyph_atlases_length]
      exact hl1
    · rw [hq]
      simp only []
      rw [stateAt_placeGlyph_self _ px props _ _ hi3, ebb]

end FontAtlasManager

namespace FontAtlasManager

/-- C25 (as amended): on a manager with aligned page vectors, for an uncached
code point whose glyph has ink and bitmap size `w` x `h`, with the last page's
state `(cursorX, cursorY, rowHeight, width, height)` before the call:
when `cursorX + w + border > width`, the glyph fits an empty row
(`border + w + border ≤ width`) and `cursorY + rowHeight + border + h + border
≤ height`, the glyph is placed on the last page at `x = border`,
`y = cursorY + rowHeight + border`, and afterwards the cursor is at
`(border + w + border, y)` with row height `h`; when
`cursorX + w + border ≤ width` and `cursorY + h + border ≤ height`, it is
placed at `(cursorX, cursorY)` and afterwards the cursor is at
`(cursorX + w + border, cursorY)` with row height `max rowHeight h`.  No page
is added or resized in either case. -/
theorem row_wrap_placement (m : FontAtlasManager) (c : Nat) (p : LazyGlyphProps)
    (hm : PagesOk m) (hnew : m.glyphs.lookup c = none)
    (hp : (getOrLoadGlyph m c).2 = some p) (hw : p.tW ≠ 0) (hh : p.tH ≠ 0) :
    (((m.stateAt (m.getAtlasCount - 1)).currentX : ℚ) + p.tW + m.border
        > (m.stateAt (m.getAtlasCount - 1)).width →
      (m.border : ℚ) + p.tW + m.border ≤ (m.stateAt (m.getAtlasCount - 1)).width →
      (((m.stateAt (m.getAtlasCount - 1)).currentY
          + (m.stateAt (m.getAtlasCount - 1)).currentRowHeight + m.border : Int) : ℚ)
          + p.tH + m.border ≤ (m.stateAt (m.getAtlasCount - 1)).height →
      p.atlasIndex = m.getAtlasCount - 1 ∧
      p.t1 = (m.border : ℚ) / ((m.stateAt (m.getAtlasCount - 1)).width : ℚ) ∧
      p.v1 = (((m.stateAt (m.getAtlasCount - 1)).currentY
          + (m.stateAt (m.getAtlasCount - 1)).currentRowHeight + m.border : Int) : ℚ)
        / ((m.stateAt (m.getAtlasCount - 1)).height : ℚ) ∧
      p.t2 = ((m.border : ℚ) + p.tW) / ((m.stateAt (m.getAtlasCount - 1)).width : ℚ) ∧
      p.v2 = ((((m.stateAt (m.getAtlasCount - 1)).currentY
          + (m.stateAt (m.getAtlasCount - 1)).currentRowHeight + m.border : Int) : ℚ) + p.tH)
        / ((m.stateAt (m.getAtlasCount - 1)).height : ℚ) ∧
      (((getOrLoadGlyph m c).1.stateAt (m.getAtlasCount - 1)).currentX : ℚ)
        = m.border + p.tW + m.border ∧
      ((getOrLoadGlyph m c).1.stateAt (m.getAtlasCount - 1)).currentY
        = (m.stateAt (m.getAtlasCount - 1)).currentY
          + (m.stateAt (m.getAtlasCount - 1)).currentRowHeight + m.border ∧
      (((getOrLoadGlyph m c).1.stateAt (m.getAtlasCount - 1)).currentRowHeight : ℚ) = p.tH ∧
      (getOrLoadGlyph m c).1.getAtlasCount = m.getAtlasCount ∧
      ((getOrLoadGlyph m c).1.stateAt (m.getAtlasCount - 1)).width
        = (m.stateAt (m.getAtlasCount - 1)).width ∧
      ((getOrLoadGlyph m c).1.stateAt (m.getAtlasCount - 1)).height
        = (m.stateAt (m.getAtlasCount - 1)).height)
    ∧ (((m.stateAt (m.getAtlasCount - 1)).currentX : ℚ) + p.tW + m.border
        ≤ (m.stateAt (m.getAtlasCount - 1)).width →
      ((m.stateAt (m.getAtlasCount - 1)).currentY : ℚ) + p.tH + m.border
        ≤ (m.stateAt (m.getAtlasCount - 1)).height →
      p.atlasIndex = m.getAtlasCount - 1 ∧
      p.t1 = ((m.stateAt (m.getAtlasCount - 1)).currentX : ℚ)
        / ((m.stateAt (m.getAtlasCount - 1)).width : ℚ) ∧
      p.v1 = ((m.stateAt (m.getAtlasCount - 1)).currentY : ℚ)
        / ((m.stateAt (m.getAtlasCount - 1)).height : ℚ) ∧
      p.t2 = (((m.stateAt (m.getAtlasCount - 1)).currentX : ℚ) + p.tW)
        / ((m.stateAt (m.getAtlasCount - 1)).width : ℚ) ∧
      p.v2 = (((m.stateAt (m.getAtlasCount - 1)).currentY : ℚ) + p.tH)
        / ((m.stateAt (m.getAtlasCount - 1)).height : ℚ) ∧
      (((getOrLoadGlyph m c).1.stateAt (m.getAtlasCount - 1)).currentX : ℚ)
        = (m.stateAt (m.getAtlasCount - 1)).currentX + p.tW + m.border ∧
      ((getOrLoadGlyph m c).1.stateAt (m.getAtlasCount - 1)).currentY
        = (m.stateAt (m.getAtlasCount - 1)).currentY ∧
      (((getOrLoadGlyph m c).1.stateAt (m.getAtlasCount - 1)).currentRowHeight : ℚ)
        = max ((m.stateAt (m.getAtlasCount - 1)).currentRowHeight : ℚ) p.tH ∧
      (getOrLoadGlyph m c).1.getAtlasCount = m.getAtlasCount ∧
      ((getOrLoadGlyph m c).1.stateAt (m.getAtlasCount - 1)).width
        = (m.stateAt (m.getAtlasCount - 1)).width ∧
      ((getOrLoadGlyph m c).1.stateAt (m.getAtlasCount - 1)).height
        = (m.stateAt (m.getAtlasCount - 1)).height) := by
  obtain ⟨hsome, hget⟩ := getOrLoadGlyph_miss_cases m c p hnew hp
  obtain ⟨w, h, etW, etH, hmain⟩ := addGlyphToAtlas_after_wrap m c p hm hsome hw hh
  have hstA : ∀ i, (getOrLoadGlyph m c).1.stateAt i = (addGlyphToAtlas m c).1.stateAt i := by
    intro i; rw [hget]; rfl
  have hlenA : (getOrLoadGlyph m c).1.getAtlasCount = (addGlyphToAtlas m c).1.atlases.length := by
    rw [hget]; rfl
  simp only [getAtlasCount] at hlenA ⊢
  rw [hstA, etW, etH]
  generalize m.stateAt (m.atlases.length - 1) = st at *
  generalize (addGlyphToAtlas m c).1.stateAt (m.atlases.length - 1) = sa at *
  constructor
  · intro h1 h2 h3
    have h1i : st.currentX + (w : Int) + m.border > st.width := by exact_mod_cast h1
    have h2i : m.border + (w : Int) + m.border ≤ st.width := by exact_mod_cast h2
    have h3i : st.currentY + st.currentRowHeight + m.border + (h : Int) + m.border
        ≤ st.height := by exact_mod_cast h3
    have hwr : st.wrapRow w m.border
        = { st with currentX := m.border,
                    currentY := st.currentY + st.currentRowHeight + m.border,
                    currentRowHeight := 0 } := by
      unfold AtlasState.wrapRow
      rw [if_pos h1i]
    rw [hwr] at hmain
    obtain ⟨a1, a2, a3, a4, a5, a6, a7⟩ := hmain h2i h3i
    simp only [] at a2 a3 a4 a5 a7
    refine ⟨a1, a2, a3, a4, a5, ?_, ?_, ?_, by rw [hlenA, a6], by rw [a7], by rw [a7]⟩
    · rw [a7]; push_cast; ring
    · rw [a7]
    · rw [a7]
      simp only []
      have : max (0 : Int) (h : Int) = h := max_eq_right (by omega)
      rw [this]; rfl
  · intro h1 h2
    have h1i : st.currentX + (w : Int) + m.border ≤ st.width := by exact_mod_cast h1
    have h2i : st.currentY + (h : Int) + m.border ≤ st.height := by exact_mod_cast h2
    have hwr : st.wrapRow w m.border = st := wrapRow_of_fits _ _ _ h1i
    rw [hwr] at hmain
    obtain ⟨a1, a2, a3, a4, a5, a6, a7⟩ := hmain h1i h2i
    refine ⟨a1, a2, a3, a4, a5, ?_, ?_, ?_, by rw [hlenA, a6], by rw [a7], by rw [a7]⟩
    · rw [a7]; push_cast; ring
    · rw [a7]
    · rw [a7]
      simp only []
      push_cast
      rfl

/-- Witness of `row_wrap_placement`: after `A` (10 x 50) on a page of side 64
the rule `D` of 55 x 5 pixels does not fit the first row and starts the
second one at pixel (1, 52). -/
theorem row_wrap_placement_witness :
    Example.recordD.t1 = ((getOrLoadGlyph Example.wideFresh 65).1.border : ℚ)
        / (((getOrLoadGlyph Example.wideFresh 65).1.stateAt
            ((getOrLoadGlyph Example.wideFresh 65).1.getAtlasCount - 1)).width : ℚ)
    ∧ pixelRect (getOrLoadGlyph (getOrLoadGlyph Example.wideFresh 65).1 68).1 Example.recordD
        = ⟨1, 52, 56, 57⟩ :=
  ⟨((row_wrap_placement (getOrLoadGlyph Example.wideFresh 65).1 68 Example.recordD
      (Reachable.step _ 65 (Reachable.init "font.ttf" 16 true 0 (by with_unfolding_all decide)) :
        Reachable Example.widePlatform _).pagesOk
      (by with_unfolding_all decide) (by with_unfolding_all decide)
      (by with_unfolding_all decide) (by with_unfolding_all decide)).1
      (by with_unfolding_all decide) (by with_unfolding_all decide)
      (by with_unfolding_all decide)).2.1,
    by with_unfolding_all decide⟩

/-- C25 (as stated) fails for a glyph wider than the page: on the fresh page of
side 64 with the cursor at (1, 1) and row height 0 the dash of 70 x 5 pixels
does not fit the row (`1 + 70 + 1 > 64`) and fits the page vertically after
the wrap (`2 + 5 + 1 ≤ 64`), yet it is placed at `y = 3`, not at
`y = 1 + 0 + 1 = 2`: the second pass wraps once more. -/
theorem wide_glyph_wraps_twice :
    Reachable Example.widePlatform Example.wideFresh
    ∧ Example.wideFresh.border = 1
    ∧ Example.wideFresh.stateAt (Example.wideFresh.getAtlasCount - 1)
        = { currentX := 1, currentY := 1, currentRowHeight := 0, width := 64, height := 64 }
    ∧ Example.wideFresh.glyphs.lookup 8212 = none
    ∧ ((getOrLoadGlyph Example.wideFresh 8212).2).map
          (fun p => (p.atlasIndex, p.tW, p.tH,
            pixelRect (getOrLoadGlyph Example.wideFresh 8212).1 p))
        = some (0, 70, 5, ⟨1, 3, 71, 8⟩)
    ∧ (getOrLoadGlyph Example.wideFresh 8212).1.stateAt 0
        = { currentX := 72, currentY := 3, currentRowHeight := 5, width := 64, height := 64 } := by
  refine ⟨Reachable.init "font.ttf" 16 true 0 (by with_unfolding_all decide),
    by with_unfolding_all decide, by with_unfolding_all decide, by with_unfolding_all decide,
    by with_unfolding_all decide, by with_unfolding_all decide⟩

end FontAtlasManager

/-! ## The string walk: white space and kerning -/

namespace ofxTrueTypeFontLowRAM

theorem walkString_snoc (h : ofxTrueTypeFontLowRAM) (m : FontAtlasManager) (pre : List Nat)
    (c : Nat) (x y : ℚ) (vFlipped : Bool)
    (f : Nat → ℚ × ℚ → FontAtlasManager → FontAtlasManager) :
    walkString h m (pre ++ [c]) x y vFlipped f
      = walkStep h f x (if vFlipped then 1 else -1)
          (if h.direction = .OF_TTF_LEFT_TO_RIGHT then 1 else -1)
          (walkString h m pre x y vFlipped f) c := by
  unfold walkString
  simp only [List.foldl_append, List.foldl_cons, List.foldl_nil]

theorem walkStep_newline (h : ofxTrueTypeFontLowRAM)
    (f : Nat → ℚ × ℚ → FontAtlasManager → FontAtlasManager) (x nl dx : ℚ) (w : StringWalk) :
    walkStep h f x nl dx w 10
      = { w with pos := (x, w.pos.2 + h.lineHeight * nl), prevC := 0 } := by
  unfold walkStep
  rw [if_pos rfl]

theorem walkStep_tab (h : ofxTrueTypeFontLowRAM)
    (f : Nat → ℚ × ℚ → FontAtlasManager → FontAtlasManager) (x nl dx : ℚ) (w : StringWalk) :
    walkStep h f x nl dx w 9
      = { w with manager := f 9 w.pos w.manager, calls := w.calls ++ [(9, w.pos)],
                 pos := (w.pos.1 + (f 9 w.pos w.manager).getSpaceAdvance * h.spaceSize * 4 * dx,
                   w.pos.2),
                 prevC := 9 } := by
  unfold walkStep
  rw [if_neg (by decide), if_pos rfl]

theorem walkStep_space (h : ofxTrueTypeFontLowRAM)
    (f : Nat → ℚ × ℚ → FontAtlasManager → FontAtlasManager) (x nl dx : ℚ) (w : StringWalk) :
    walkStep h f x nl dx w 32
      = { w with
            manager := f 32 (w.pos.1 + w.manager.getSpaceAdvance * h.spaceSize * dx, w.pos.2)
              w.manager,
            calls := w.calls
              ++ [(32, (w.pos.1 + w.manager.getSpaceAdvance * h.spaceSize * dx, w.pos.2))],
            pos := (w.pos.1 + w.manager.getSpaceAdvance * h.spaceSize * dx, w.pos.2),
            prevC := 32 } := by
  unfold walkStep
  rw [if_neg (by decide), if_neg (by decide), if_pos rfl]

/-- C30: in the walk, after any prefix of the string, a tab calls `f` with the
pen position, moves the pen X by `getSpaceAdvance() * spaceSize * 4` times the
direction (`1` left to right, `-1` right to left) and leaves the pen Y; the
manager after the step is the one the callback left, so a callback that leaves
the manager alone leaves the glyph map as it was.  A newline sets the pen X to
the starting `x`, adds `lineHeight` times `1` (flipped) or `-1` to the pen Y,
and touches neither the manager nor the callback. -/
theorem tab_and_newline_steps (h : ofxTrueTypeFontLowRAM) (m : FontAtlasManager)
    (pre : List Nat) (x y : ℚ) (vFlipped : Bool)
    (f : Nat → ℚ × ℚ → FontAtlasManager → FontAtlasManager) :
    (walkString h m (pre ++ [9]) x y vFlipped f).pos
        = ((walkString h m pre x y vFlipped f).pos.1
            + 4 * (walkString h m (pre ++ [9]) x y vFlipped f).manager.getSpaceAdvance
                * h.spaceSize * (if h.direction = .OF_TTF_LEFT_TO_RIGHT then 1 else -1),
           (walkString h m pre x y vFlipped f).pos.2)
    ∧ (walkString h m (pre ++ [9]) x y vFlipped f).manager
        = f 9 (walkString h m pre x y vFlipped f).pos (walkString h m pre x y vFlipped f).manager
    ∧ (walkString h m (pre ++ [9]) x y vFlipped f).calls
        = (walkString h m pre x y vFlipped f).calls
            ++ [(9, (walkString h m pre x y vFlipped f).pos)]
    ∧ (f 9 (walkString h m pre x y vFlipped f).pos (walkString h m pre x y vFlipped f).manager
          = (walkString h m pre x y vFlipped f).manager →
        (walkString h m (pre ++ [9]) x y vFlipped f).manager
          = (walkString h m pre x y vFlipped f).manager ∧
        (walkString h m (pre ++ [9]) x y vFlipped f).manager.glyphs
          = (walkString h m pre x y vFlipped f).manager.glyphs ∧
        (walkString h m (pre ++ [9]) x y vFlipped f).manager.rasterizeCalls
          = (walkString h m pre x y vFlipped f).manager.rasterizeCalls)
    ∧ (walkString h m (pre ++ [10]) x y vFlipped f).pos
        = (x, (walkString h m pre x y vFlipped f).pos.2
            + h.lineHeight * (if vFlipped then 1 else -1))
    ∧ (walkString h m (pre ++ [10]) x y vFlipped f).manager
        = (walkString h m pre x y vFlipped f).manager
    ∧ (walkString h m (pre ++ [10]) x y vFlipped f).calls
        = (walkString h m pre x y vFlipped f).calls
    ∧ (walkString h m (pre ++ [10]) x y vFlipped f).prevC = 0 := by
  rw [walkString_snoc, walkString_snoc, walkStep_tab, walkStep_newline]
  refine ⟨?_, rfl, rfl, fun hf => ?_, rfl, rfl, rfl, rfl⟩
  · simp only []
    congr 1
    ring
  · simp only []
    rw [hf]
    exact ⟨rfl, rfl, rfl⟩

/-- C29 (as amended): in the walk, after any prefix of the string, a code point
`c` other than newline, tab and space is looked up with `getOrLoadGlyph`; when
there is no record the pen, `prevC` and the kerning calls stay as they are;
when there is one, `getKerning` is called, and its value added to the pen X
before `f` is called, exactly when `prevC > 0`, with the arguments
`(prevC, c)` left to right and `(c, prevC)` right to left, and `prevC` becomes
`c`.  `prevC` is 0 at the start and after a newline, 9 after a tab and 32
after a space, and these three make no kerning call. -/
theorem kerning_uses_prevC (h : ofxTrueTypeFontLowRAM) (m : FontAtlasManager)
    (pre : List Nat) (c : Nat) (x y : ℚ) (vFlipped : Bool)
    (f : Nat → ℚ × ℚ → FontAtlasManager → FontAtlasManager)
    (h10 : c ≠ 10) (h9 : c ≠ 9) (h32 : c ≠ 32) :
    ((FontAtlasManager.getOrLoadGlyph (walkString h m pre x y vFlipped f).manager c).2 = none →
      walkString h m (pre ++ [c]) x y vFlipped f
        = { walkString h m pre x y vFlipped f with
            manager :=
              (FontAtlasManager.getOrLoadGlyph (walkString h m pre x y vFlipped f).manager c).1 })
    ∧ (∀ props,
        (FontAtlasManager.getOrLoadGlyph (walkString h m pre x y vFlipped f).manager c).2
          = some props →
        (walkString h m (pre ++ [c]) x y vFlipped f).prevC = c ∧
        (walkString h m (pre ++ [c]) x y vFlipped f).kerned
          = (if (walkString h m pre x y vFlipped f).prevC > 0 then
              (walkString h m pre x y vFlipped f).kerned
                ++ [if h.direction = .OF_TTF_LEFT_TO_RIGHT
                    then ((walkString h m pre x y vFlipped f).prevC, c)
                    else (c, (walkString h m pre x y vFlipped f).prevC)]
             else (walkString h m pre x y vFlipped f).kerned) ∧
        (h.direction = .OF_TTF_LEFT_TO_RIGHT →
          (walkString h m (pre ++ [c]) x y vFlipped f).calls
            = (walkString h m pre x y vFlipped f).calls
              ++ [(c, ((walkString h m pre x y vFlipped f).pos.1
                    + (if (walkString h m pre x y vFlipped f).prevC > 0 then
                        (FontAtlasManager.getOrLoadGlyph
                          (walkString h m pre x y vFlipped f).manager c).1.getKerning
                          (walkString h m pre x y vFlipped f).prevC c
                       else 0),
                   (walkString h m pre x y vFlipped f).pos.2))]) ∧
        (h.direction ≠ .OF_TTF_LEFT_TO_RIGHT →
          (walkString h m (pre ++ [c]) x y vFlipped f).pos
            = ((walkString h m pre x y vFlipped f).pos.1
                + (if (walkString h m pre x y vFlipped f).prevC > 0 then
                    (FontAtlasManager.getOrLoadGlyph
                      (walkString h m pre x y vFlipped f).manager c).1.getKerning c
                      (walkString h m pre x y vFlipped f).prevC
                   else 0)
                - props.advance
                - (FontAtlasManager.getOrLoadGlyph
                    (walkString h m pre x y vFlipped f).manager c).1.getSpaceAdvance
                  * (h.letterSpacing - 1),
               (walkString h m pre x y vFlipped f).pos.2)))
    ∧ (walkString h m [] x y vFlipped f).prevC = 0
    ∧ (walkString h m (pre ++ [10]) x y vFlipped f).prevC = 0
    ∧ (walkString h m (pre ++ [9]) x y vFlipped f).prevC = 9
    ∧ (walkString h m (pre ++ [32]) x y vFlipped f).prevC = 32
    ∧ (walkString h m (pre ++ [10]) x y vFlipped f).kerned
        = (walkString h m pre x y vFlipped f).kerned
    ∧ (walkString h m (pre ++ [9]) x y vFlipped f).kerned
        = (walkString h m pre x y vFlipped f).kerned
    ∧ (walkString h m (pre ++ [32]) x y vFlipped f).kerned
        = (walkString h m pre x y vFlipped f).kerned := by
  refine ⟨fun hn => ?_, fun props hs => ?_, rfl,
    by rw [walkString_snoc, walkStep_newline], by rw [walkString_snoc, walkStep_tab],
    by rw [walkString_snoc, walkStep_space], by rw [walkString_snoc, walkStep_newline],
    by rw [walkString_snoc, walkStep_tab], by rw [walkString_snoc, walkStep_space]⟩
  · rw [walkString_snoc]
    generalize walkString h m pre x y vFlipped f = w at *
    unfold walkStep
    rw [if_neg h10, if_neg h9, if_neg h32]
    simp only [hn]
  · rw [walkString_snoc]
    generalize walkString h m pre x y vFlipped f = w at *
    unfold walkStep
    rw [if_neg h10, if_neg h9, if_neg h32]
    simp only [hs]
    by_cases hd : h.direction = .OF_TTF_LEFT_TO_RIGHT
    · simp only [hd, decide_True, if_true, true_implies, ne_eq, not_true_eq_false,
        false_implies, and_true]
      refine ⟨trivial, ?_⟩
      by_cases hp : w.prevC > 0
      · simp only [hp, if_true]
        exact ⟨trivial, trivial⟩
      · simp only [hp, if_false, add_zero]
        exact ⟨trivial, trivial⟩
    · simp only [hd, decide_False, if_false, false_implies, ne_eq, not_false_eq_true,
        true_implies, true_and, Bool.false_eq_true]
      by_cases hp : w.prevC > 0
      · simp only [hp, if_true, true_and]
        congr 1
        ring
      · simp only [hp, if_false, true_and, add_zero]
        congr 1
        ring

/-- Witness of `kerning_uses_prevC`: the letter `A` after a space. -/
theorem kerning_uses_prevC_witness :
    (walkString Example.kernHandle (Example.kernCache.deref 0) ([32] ++ [65]) 0 0 true
        Example.observe).prevC = 65
    ∧ (walkString Example.kernHandle (Example.kernCache.deref 0) ([32] ++ [65]) 0 0 true
        Example.observe).kerned
      = (if (walkString Example.kernHandle (Example.kernCache.deref 0) [32] 0 0 true
            Example.observe).prevC > 0 then
          (walkString Example.kernHandle (Example.kernCache.deref 0) [32] 0 0 true
            Example.observe).kerned
            ++ [if Example.kernHandle.direction = .OF_TTF_LEFT_TO_RIGHT
                then ((walkString Example.kernHandle (Example.kernCache.deref 0) [32] 0 0 true
                  Example.observe).prevC, 65)
                else (65, (walkString Example.kernHandle (Example.kernCache.deref 0) [32] 0 0
                  true Example.observe).prevC)]
         else (walkString Example.kernHandle (Example.kernCache.deref 0) [32] 0 0 true
            Example.observe).kerned) :=
  ⟨((kerning_uses_prevC Example.kernHandle (Example.kernCache.deref 0) [32] 65 0 0 true
      Example.observe (by decide) (by decide) (by decide)).2.1 Example.recordA
      (by with_unfolding_all decide)).1,
   ((kerning_uses_prevC Example.kernHandle (Example.kernCache.deref 0) [32] 65 0 0 true
      Example.observe (by decide) (by decide) (by decide)).2.1 Example.recordA
      (by with_unfolding_all decide)).2.1⟩

/-- C29 (as stated) fails after a space: with a font whose kerning table moves
`A` one pixel to the left after a space, the walk over `" A"` from pen
position (0, 0) calls `getKerning(' ', 'A')` and calls `f` for `A` at
`x = 11 - 1 = 10`, where 11 is the advance of the space. -/
theorem glyph_after_space_is_kerned :
    Example.kernHandle.atlasManager = some 0
    ∧ Example.kernHandle.direction = .OF_TTF_LEFT_TO_RIGHT
    ∧ (Example.kernCache.deref 0).getSpaceAdvance * Example.kernHandle.spaceSize = 11
    ∧ (Example.kernCache.deref 0).getKerning 32 65 = -1
    ∧ (iterateStringInternal Example.kernCache Example.kernHandle [32, 65] 0 0 true
        Example.observe).2 = [(32, (11, 0)), (65, (10, 0))]
    ∧ (walkString Example.kernHandle (Example.kernCache.deref 0) [32, 65] 0 0 true
        Example.observe).kerned = [(32, 65)]
    ∧ (walkString Example.kernHandle (Example.kernCache.deref 0) [9, 65] 0 0 true
        Example.observe).kerned = [(9, 65)] := by
  refine ⟨by with_unfolding_all decide, by with_unfolding_all decide,
    by with_unfolding_all decide, by with_unfolding_all decide, by with_unfolding_all decide,
    by with_unfolding_all decide, by with_unfolding_all decide⟩

end ofxTrueTypeFontLowRAM

/-! ## Packed glyphs do not overlap -/

namespace FontAtlasManager

theorem stored_unique {m : FontAtlasManager} {p : LazyGlyphProps} {px : ofPixels}
    {X Y X2 Y2 : Nat} (h : Stored m p px X Y) (h2 : Stored m p px X2 Y2) :
    X = X2 ∧ Y = Y2 := by
  have e1 : (X : ℚ) = X2 := by rw [← h.t1, ← h2.t1]
  have e2 : (Y : ℚ) = Y2 := by rw [← h.v1, ← h2.v1]
  exact ⟨by exact_mod_cast e1, by exact_mod_cast e2⟩

theorem rectsApart_symm {b X1 Y1 w1 h1 X2 Y2 w2 h2 : Int}
    (h : RectsApart b X1 Y1 w1 h1 X2 Y2 w2 h2) : RectsApart b X2 Y2 w2 h2 X1 Y1 w1 h1 := by
  unfold RectsApart at *
  omega

theorem entriesApart_symm {m : FontAtlasManager} {e1 e2 : Nat × LazyGlyphProps}
    (h : EntriesApart m e1 e2) : EntriesApart m e2 e1 :=
  fun a1 a2 a3 a4 a5 X1 Y1 X2 Y2 s1 s2 =>
    rectsApart_symm (h a3 a4 a1 a2 a5.symm X2 Y2 X1 Y1 s2 s1)

theorem apart_transfer (m m1 : FontAtlasManager) (f : LazyGlyphProps → LazyGlyphProps)
    (hg : m1.glyphs = m.glyphs.map (fun e => (e.1, f e.2)))
    (hcfg : SameConfig m m1)
    (hf : ∀ p, (f p).tW = p.tW ∧ (f p).tH = p.tH ∧ (f p).atlasIndex = p.atlasIndex)
    (hs : ∀ p px X Y, Stored m p px X Y → Stored m1 (f p) px X Y)
    (hl : Layout m) (h : Apart m) : Apart m1 := by
  unfold Apart at *
  rw [hg, List.pairwise_map]
  refine List.Pairwise.imp_of_mem ?_ h
  intro a b ha hb hab
  intro a1 a2 a3 a4 a5 X1 Y1 X2 Y2 s1 s2
  simp only [] at a1 a2 a3 a4 a5 s1 s2 ⊢
  rw [(hf a.2).1] at a1
  rw [(hf a.2).2.1] at a2
  rw [(hf b.2).1] at a3
  rw [(hf b.2).2.1] at a4
  rw [(hf a.2).2.2, (hf b.2).2.2] at a5
  rw [glyphPixels_config hcfg] at s1 s2 ⊢
  rw [glyphPixels_config hcfg, hcfg.border]
  rcases hl a ha with hz | ⟨U1, V1, t1⟩
  · rcases hz with hz | hz
    · exact absurd hz a1
    · exact absurd hz a2
  rcases hl b hb with hz | ⟨U2, V2, t2⟩
  · rcases hz with hz | hz
    · exact absurd hz a3
    · exact absurd hz a4
  obtain ⟨e1, e2⟩ := stored_unique s1 (hs _ _ _ _ t1)
  obtain ⟨e3, e4⟩ := stored_unique s2 (hs _ _ _ _ t2)
  subst e1 e2 e3 e4
  exact hab a1 a2 a3 a4 a5 X1 Y1 X2 Y2 t1 t2

theorem rescaleGlyph_keeps (i : Nat) (w h : Int) (p : LazyGlyphProps) :
    (rescaleGlyph i w h p).tW = p.tW ∧ (rescaleGlyph i w h p).tH = p.tH ∧
    (rescaleGlyph i w h p).atlasIndex = p.atlasIndex := by
  unfold rescaleGlyph
  split <;> exact ⟨rfl, rfl, rfl⟩

theorem apart_counted {m : FontAtlasManager} (hl : Layout m) (h : Apart m) (n : Nat) :
    Apart { m with rasterizeCalls := n } :=
  apart_transfer m _ id (map_pair_id m.glyphs)
    ⟨rfl, rfl, rfl, rfl, rfl, rfl, rfl, rfl⟩ (fun _ => ⟨rfl, rfl, rfl⟩)
    (fun _ _ _ _ hst => ⟨hst.index, hst.t1, hst.v1, hst.t2, hst.v2, hst.insideX, hst.insideY,
      hst.pixels, hst.behind⟩) hl h

theorem apart_dangling {m : FontAtlasManager} (hl : Layout m) (h : Apart m) (a : AtlasState) :
    Apart (m.writeThrough none a) :=
  apart_transfer m _ id (map_pair_id m.glyphs)
    ⟨rfl, rfl, rfl, rfl, rfl, rfl, rfl, rfl⟩ (fun _ => ⟨rfl, rfl, rfl⟩)
    (fun _ _ _ _ hst => ⟨hst.index, hst.t1, hst.v1, hst.t2, hst.v2, hst.insideX, hst.insideY,
      hst.pixels, hst.behind⟩) hl h

theorem apart_wrapAt {m : FontAtlasManager} (hl : Layout m) (h : Apart m) (hm : PagesOk m)
    (hbd : 0 ≤ m.border)
    (hrow : 0 ≤ (m.stateAt (m.atlases.length - 1)).currentRowHeight) (w : Int) :
    Apart (m.wrapAt (m.atlases.length - 1) w) :=
  apart_transfer m _ id (map_pair_id m.glyphs) (wrapAt_config _ _ _) (fun _ => ⟨rfl, rfl, rfl⟩)
    (fun _ _ _ _ hst => stored_wrapAt hst hm hbd hrow w) hl h

end FontAtlasManager

namespace FontAtlasManager

theorem fitFirstPass_apart (m : FontAtlasManager) (w h : Int) (hm : PagesOk m)
    (hc : CursorOk m) (hd : PageDims m) (hl : Layout m) (ha : Apart m) :
    Apart (fitFirstPass m w h).1 := by
  have hL : m.atlases.length - 1 < m.atlases.length := by have := hm.pos; omega
  have hm1 : PagesOk (m.wrapAt (m.atlases.length - 1) w) := hm.wrapAt _ _
  have hd1 : PageDims (m.wrapAt (m.atlases.length - 1) w) := pageDims_wrapAt hd _ _
  have hl1 : Layout (m.wrapAt (m.atlases.length - 1) w) :=
    layout_wrapAt hl hm hc.border hc.row w
  have ha1 : Apart (m.wrapAt (m.atlases.length - 1) w) :=
    apart_wrapAt hl ha hm hc.border hc.row w
  have hlen1 : (m.wrapAt (m.atlases.length - 1) w).atlases.length = m.atlases.length := rfl
  unfold fitFirstPass
  simp only []
  generalize m.wrapAt (m.atlases.length - 1) w = m1 at *
  split
  · split
    · rename_i hex
      rw [expandAtlas_snd_of_true _ _ hex]
      simp only []
      exact apart_transfer m1 _
        (rescaleGlyph (m.atlases.length - 1) ((m1.stateAt (m.atlases.length - 1)).width * 2)
          ((m1.stateAt (m.atlases.length - 1)).width * 2))
        rfl (growPage_config m1 _) (fun p => rescaleGlyph_keeps _ _ _ p)
        (fun _ _ _ _ hst => stored_growPage hst hm1 hd1 _ (by rw [hlen1]; exact hL)) hl1 ha1
    · rename_i hex
      rw [expandAtlas_snd_of_false _ _ hex]
      simp only []
      have hm2 : PagesOk (createNewAtlas m1).1 := hm1.createNewAtlas
      have hd2 : PageDims (createNewAtlas m1).1 := pageDims_createNewAtlas hd1 hm1
      have hl2 : Layout (createNewAtlas m1).1 :=
        layout_transfer m1 _ id (map_pair_id m1.glyphs) (createNewAtlas_config m1)
          (fun _ => ⟨rfl, rfl⟩)
          (fun _ _ _ _ hst => stored_createNewAtlas hst hm1) hl1
      have ha2 : Apart (createNewAtlas m1).1 :=
        apart_transfer m1 _ id (map_pair_id m1.glyphs) (createNewAtlas_config m1)
          (fun _ => ⟨rfl, rfl, rfl⟩)
          (fun _ _ _ _ hst => stored_createNewAtlas hst hm1) hl1 ha1
      cases href : refAfterPush m1 (m.atlases.length - 1) with
      | none => exact apart_dangling hl2 ha2 _
      | some k =>
        have hk := refAfterPush_lt _ _ _ href
        subst hk
        have hnew := stateAt_createNewAtlas m1 hm1
        rw [hlen1] at hnew
        have hold := stateAt_createNewAtlas_old m1 (m.atlases.length - 1)
          (by rw [hm1.states, hlen1]; exact hL)
        obtain ⟨_, hsq, _, _⟩ := hd1 (m.atlases.length - 1) (by rw [hlen1]; exact hL)
        have hidx : (createNewAtlas m1).2 = m.atlases.length := by
          rw [createNewAtlas_index, hlen1]
        have hw : ((createNewAtlas m1).1.stateAt (createNewAtlas m1).2).width
            = ((createNewAtlas m1).1.stateAt (m.atlases.length - 1)).width := by
          rw [hidx, hnew, hold]
        have hh : ((createNewAtlas m1).1.stateAt (createNewAtlas m1).2).height
            = ((createNewAtlas m1).1.stateAt (m.atlases.length - 1)).height := by
          rw [hidx, hnew, hold]; exact hsq
        have hne : m.atlases.length - 1 ≠ (createNewAtlas m1).1.atlases.length - 1 := by
          rw [createNewAtlas_atlases_length, hlen1]; omega
        exact apart_transfer (createNewAtlas m1).1 _ id (map_pair_id _)
          (setState_config _ _ _) (fun _ => ⟨rfl, rfl, rfl⟩)
          (fun _ _ _ _ hst => stored_setState_old hst _ _ hne hw hh) hl2 ha2
  · exact ha1

theorem behind_apart {s : AtlasState} {b X Y w h : Int} (hb : s.Behind b X Y w h)
    (w2 h2 : Int) :
    RectsApart b s.currentX s.currentY w2 h2 X Y w h := by
  unfold AtlasState.Behind at hb
  unfold RectsApart
  omega

end FontAtlasManager

namespace FontAtlasManager

theorem placeGlyph_new_apart (M : FontAtlasManager) (hm : PagesOk M) (hd : PageDims M)
    (hl : Layout M) (px : ofPixels) (props : LazyGlyphProps) (minSize : Int)
    (hbd : 0 ≤ M.border) (hw : 0 < px.width) (hh : 0 < px.height)
    (hr : (M.stateAt (M.atlases.length - 1)).Ready M.border minSize px.width px.height)
    (e : Nat × LazyGlyphProps) (he : e ∈ M.glyphs)
    (a3 : e.2.tW ≠ 0) (a4 : e.2.tH ≠ 0) (a5 : e.2.atlasIndex = M.atlases.length - 1)
    (X1 Y1 X2 Y2 : Nat)
    (s1 : Stored (placeGlyph M px props (M.atlases.length - 1)
        (M.stateAt (M.atlases.length - 1)) (some (M.atlases.length - 1))).1
      (placeGlyph M px props (M.atlases.length - 1)
        (M.stateAt (M.atlases.length - 1)) (some (M.atlases.length - 1))).2 px X1 Y1)
    (s2 : Stored (placeGlyph M px props (M.atlases.length - 1)
        (M.stateAt (M.atlases.length - 1)) (some (M.atlases.length - 1))).1
      e.2 (M.glyphPixels e.1) X2 Y2) :
    RectsApart M.border X1 Y1 px.width px.height X2 Y2
      (M.glyphPixels e.1).width (M.glyphPixels e.1).height := by
  rcases hl e he with hz | ⟨U, V, t⟩
  · rcases hz with hz | hz
    · exact absurd hz a3
    · exact absurd hz a4
  obtain ⟨e1, e2⟩ := stored_unique s2 (stored_placeGlyph_old t hm hbd px props)
  obtain ⟨e3, e4⟩ := stored_unique s1 (stored_placeGlyph_new M hm hd px props minSize hbd hw hh hr)
  subst e1 e2 e3 e4
  have hb := t.behind a5
  rw [a5] at hb
  have hx := hr.x
  have hy := hr.y
  have := behind_apart hb px.width px.height
  have cx : (((M.stateAt (M.atlases.length - 1)).currentX.toNat : Nat) : Int)
      = (M.stateAt (M.atlases.length - 1)).currentX := Int.toNat_of_nonneg (by omega)
  have cy : (((M.stateAt (M.atlases.length - 1)).currentY.toNat : Nat) : Int)
      = (M.stateAt (M.atlases.length - 1)).currentY := Int.toNat_of_nonneg (by omega)
  rw [cx, cy]
  exact this

theorem addGlyphToAtlas_apart (m : FontAtlasManager) (c : Nat) (hm : PagesOk m)
    (hc : CursorOk m) (hd : PageDims m) (hl : Layout m) (hfit : BitmapFits m c) (ha : Apart m) :
    Apart (addGlyphToAtlas m c).1 ∧
    ∀ p, (addGlyphToAtlas m c).2 = some p →
      ∀ e ∈ (addGlyphToAtlas m c).1.glyphs, EntriesApart (addGlyphToAtlas m c).1 (c, p) e := by
  have hc0 : CursorOk (rasterizeGlyph m c).1 := by
    rw [rasterizeGlyph_fst]; exact cursorOk_counted hc _
  have hm0 : PagesOk (rasterizeGlyph m c).1 := hm.rasterizeGlyph c
  have hd0 : PageDims (rasterizeGlyph m c).1 := by
    rw [rasterizeGlyph_fst]; exact pageDims_counted hd _
  have hl0 : Layout (rasterizeGlyph m c).1 := by
    rw [rasterizeGlyph_fst]; exact layout_counted hl _
  have ha0 : Apart (rasterizeGlyph m c).1 := by
    rw [rasterizeGlyph_fst]; exact apart_counted hl ha _
  have hcfg := rasterizeGlyph_config m c
  have hcfgA := addGlyphToAtlas_config m c
  rcases addGlyphToAtlas_cases m c with ⟨_, h⟩ | ⟨px, props, hr, hz, h⟩ |
    ⟨px, props, hr, hpw, hph, h⟩
  · rw [h]
    exact ⟨ha0, fun p hp => by cases hp⟩
  · rw [h]
    refine ⟨ha0, fun p hp e _ a1 a2 => ?_⟩
    exfalso
    simp only [Option.some.injEq] at hp
    have hiff := (rasterizeGlyph_glyphPixels m c px props hr).2
    have e5 : p.tW = props.tW := by rw [← hp]
    have e6 : p.tH = props.tH := by rw [← hp]
    simp only [] at a1 a2
    rw [e5] at a1
    rw [e6] at a2
    rcases hiff.mpr hz with hz | hz
    · exact a1 hz
    · exact a2 hz
  · rw [h] at hcfgA ⊢
    obtain ⟨face, g, hface, hpx, htW, htH⟩ := rasterizeGlyph_some m c px props hr
    obtain ⟨fitW, fitH⟩ := bitmap_of_bitmapFits hfit hr face g hpx hpw
    have hsz := bitmapPixels_size m.antialiased (face.renderGlyph g m.antialiased).bitmap
    rw [← hpx] at hsz
    obtain ⟨h1, h2⟩ : px.width = (face.renderGlyph g m.antialiased).bitmap.width ∧
        px.height = (face.renderGlyph g m.antialiased).bitmap.rows := by
      rcases hsz with ⟨h0, _, _⟩ | ⟨h1, h2, _, _⟩
      · exact absurd h0 hpw
      · exact ⟨h1, h2⟩
    have fw : (px.width : Int) + 2 * (rasterizeGlyph m c).1.border
        ≤ (rasterizeGlyph m c).1.minAtlasSize := by
      rw [hcfg.border, hcfg.minAtlasSize, h1]; exact fitW
    have fh : (px.height : Int) + 2 * (rasterizeGlyph m c).1.border
        ≤ (rasterizeGlyph m c).1.minAtlasSize := by
      rw [hcfg.border, hcfg.minAtlasSize, h2]; exact fitH
    obtain ⟨s, hs, hq, hidx, hst, hsdef⟩ :=
      pack_of_fits (rasterizeGlyph m c).1 px props hm0 hc0 fw fh
    obtain ⟨hl1, hd1⟩ := fitFirstPass_layout (rasterizeGlyph m c).1 px.width px.height
      hm0 hc0 hd0 hl0
    have ha1 := fitFirstPass_apart (rasterizeGlyph m c).1 px.width px.height hm0 hc0 hd0 hl0 ha0
    obtain ⟨hm1, hidx1⟩ := fitFirstPass_pages (rasterizeGlyph m c).1 px.width px.height hm0
    have hcfg1 := fitFirstPass_config (rasterizeGlyph m c).1 px.width px.height
    have hpxc := (rasterizeGlyph_glyphPixels m c px props hr).1
    have hbd0 := hc0.border
    simp only [] at hcfgA
    generalize (rasterizeGlyph m c).1 = M0 at *
    generalize fitFirstPass M0 px.width px.height = r at *
    have hi : r.2 < r.1.atlasStates.length := by
      rw [hm1.states, hidx1]; have := hm1.pos; omega
    have hbd1 : 0 ≤ r.1.border := by rw [hcfg1.border]; exact hbd0
    subst hsdef
    have hrow1 : 0 ≤ (r.1.stateAt (r.1.atlases.length - 1)).currentRowHeight := by
      rw [← hidx1]; exact hs.row
    have hwrap : (r.1.wrapAt r.2 px.width).stateAt r.2 = r.1.stateAt r.2 :=
      stateAt_wrapAt_of_fits r.1 r.2 px.width hi (by rw [hcfg1.border]; exact hs.fitsX)
    have hl2 : Layout (r.1.wrapAt r.2 px.width) := by
      rw [hidx1]; exact layout_wrapAt hl1 hm1 hbd1 hrow1 _
    have ha2 : Apart (r.1.wrapAt r.2 px.width) := by
      rw [hidx1]; exact apart_wrapAt hl1 ha1 hm1 hbd1 hrow1 _
    have hd2 : PageDims (r.1.wrapAt r.2 px.width) := pageDims_wrapAt hd1 _ _
    have hm2 : PagesOk (r.1.wrapAt r.2 px.width) := hm1.wrapAt _ _
    have hlast : r.2 = (r.1.wrapAt r.2 px.width).atlases.length - 1 := by
      rw [wrapAt_atlases]; exact hidx1
    have hready : ((r.1.wrapAt r.2 px.width).stateAt r.2).Ready
        (r.1.wrapAt r.2 px.width).border M0.minAtlasSize px.width px.height := by
      rw [hwrap]
      have : (r.1.wrapAt r.2 px.width).border = M0.border := hcfg1.border
      rw [this]; exact hs
    have hbM : 0 ≤ (r.1.wrapAt r.2 px.width).border := hbd1
    rw [hq, ← hwrap] at hcfgA ⊢
    generalize r.1.wrapAt r.2 px.width = M at *
    rw [hlast] at hready hcfgA ⊢
    simp only []
    have hcfgP := placeGlyph_config M px props (M.atlases.length - 1)
      (M.stateAt (M.atlases.length - 1)) (some (M.atlases.length - 1))
    refine ⟨?_, ?_⟩
    · exact apart_transfer M _ id (map_pair_id M.glyphs) hcfgP
        (fun _ => ⟨rfl, rfl, rfl⟩)
        (fun _ _ _ _ hsto => stored_placeGlyph_old hsto hm2 hbM px props) hl2 ha2
    · intro p hp e he a1 a2 a3 a4 a5 X1 Y1 X2 Y2 s1 s2
      simp only [Option.some.injEq] at hp
      subst hp
      rw [placeGlyph_glyphs] at he
      simp only [] at a3 a4 a5 s1 s2 ⊢
      rw [placeGlyph_atlasIndex] at a5
      rw [glyphPixels_config hcfgA, ← hpxc] at s1 ⊢
      rw [glyphPixels_config hcfgP] at s2 ⊢
      rw [hcfgP.border]
      exact placeGlyph_new_apart M hm2 hd2 hl2 px props M0.minAtlasSize hbM
        (by omega) (by omega) hready e he a3 a4 a5.symm X1 Y1 X2 Y2 s1 s2

end FontAtlasManager

namespace FontAtlasManager

theorem entriesApart_withGlyphs (A : FontAtlasManager) (g : List (Nat × LazyGlyphProps))
    (e1 e2 : Nat × LazyGlyphProps) (h : EntriesApart A e1 e2) :
    EntriesApart { A with glyphs := g } e1 e2 :=
  fun a1 a2 a3 a4 a5 X1 Y1 X2 Y2 s1 s2 =>
    h a1 a2 a3 a4 a5 X1 Y1 X2 Y2
      ⟨s1.index, s1.t1, s1.v1, s1.t2, s1.v2, s1.insideX, s1.insideY, s1.pixels, s1.behind⟩
      ⟨s2.index, s2.t1, s2.v1, s2.t2, s2.v2, s2.insideX, s2.insideY, s2.pixels, s2.behind⟩

theorem getOrLoadGlyph_apart (m : FontAtlasManager) (c : Nat) (hm : PagesOk m)
    (hc : CursorOk m) (hd : PageDims m) (hl : Layout m) (hfit : BitmapFits m c) (ha : Apart m) :
    Apart (getOrLoadGlyph m c).1 := by
  obtain ⟨h1, h2⟩ := addGlyphToAtlas_apart m c hm hc hd hl hfit ha
  cases hlk : m.glyphs.lookup c with
  | some p0 => rw [getOrLoadGlyph_hit m c p0 hlk]; exact ha
  | none =>
    cases hadd : (addGlyphToAtlas m c).2 with
    | none => rw [getOrLoadGlyph_miss_none m c hlk hadd]; exact h1
    | some q =>
      rw [getOrLoadGlyph_miss_some m c q hlk hadd]
      unfold Apart at h1 ⊢
      simp only []
      rw [List.pairwise_cons]
      exact ⟨fun e he => entriesApart_withGlyphs _ _ _ _ (h2 q hadd e he),
        h1.imp (fun hab => entriesApart_withGlyphs _ _ _ _ hab)⟩

/-- Two records with ink, stored for different code points on the same page of
a glyph map that satisfies `Layout` and `Apart`, have pixel rectangles at least
`border` pixels apart, which do not overlap. -/
theorem apart_of_layout (m : FontAtlasManager) (c1 c2 : Nat)
    (p1 p2 : LazyGlyphProps) (hl : Layout m) (ha : Apart m) (hb : m.border = 1)
    (hne : c1 ≠ c2)
    (h1 : m.glyphs.lookup c1 = some p1) (h2 : m.glyphs.lookup c2 = some p2)
    (hw1 : p1.tW ≠ 0) (hh1 : p1.tH ≠ 0) (hw2 : p2.tW ≠ 0) (hh2 : p2.tH ≠ 0)
    (hsame : p1.atlasIndex = p2.atlasIndex) :
    ((pixelRect m p1).right + m.border ≤ (pixelRect m p2).left ∨
      (pixelRect m p2).right + m.border ≤ (pixelRect m p1).left ∨
      (pixelRect m p1).bottom + m.border ≤ (pixelRect m p2).top ∨
      (pixelRect m p2).bottom + m.border ≤ (pixelRect m p1).top)
    ∧ ¬ (pixelRect m p1).overlaps (pixelRect m p2) := by
  have m1 := mem_of_lookup_eq_some c1 p1 m.glyphs h1
  have m2 := mem_of_lookup_eq_some c2 p2 m.glyphs h2
  have hab : EntriesApart m (c1, p1) (c2, p2) :=
    List.Pairwise.forall (fun _ _ h => entriesApart_symm h) ha m1 m2
      (fun h => hne (Prod.mk.inj h).1)
  rcases hl _ m1 with hz | ⟨X1, Y1, s1⟩
  · rcases hz with hz | hz
    · exact absurd hz hw1
    · exact absurd hz hh1
  rcases hl _ m2 with hz | ⟨X2, Y2, s2⟩
  · rcases hz with hz | hz
    · exact absurd hz hw2
    · exact absurd hz hh2
  have hsep := hab hw1 hh1 hw2 hh2 hsame X1 Y1 X2 Y2 s1 s2
  simp only [] at s1 s2 hsep
  have e1 := s1.t1; have e2 := s1.v1; have e3 := s1.t2; have e4 := s1.v2
  have f1 := s2.t1; have f2 := s2.v1; have f3 := s2.t2; have f4 := s2.v2
  have hsepQ : ((X1 : ℚ) + (m.glyphPixels c1).width + m.border ≤ X2) ∨
      ((X2 : ℚ) + (m.glyphPixels c2).width + m.border ≤ X1) ∨
      ((Y1 : ℚ) + (m.glyphPixels c1).height + m.border ≤ Y2) ∨
      ((Y2 : ℚ) + (m.glyphPixels c2).height + m.border ≤ Y1) := by
    unfold RectsApart at hsep
    rcases hsep with h | h | h | h
    · exact Or.inl (by exact_mod_cast h)
    · exact Or.inr (Or.inl (by exact_mod_cast h))
    · exact Or.inr (Or.inr (Or.inl (by exact_mod_cast h)))
    · exact Or.inr (Or.inr (Or.inr (by exact_mod_cast h)))
  have hbq : (m.border : ℚ) = 1 := by rw [hb]; norm_num
  have hw1n : (0 : ℚ) ≤ (m.glyphPixels c1).width := Nat.cast_nonneg _
  have hw2n : (0 : ℚ) ≤ (m.glyphPixels c2).width := Nat.cast_nonneg _
  have hh1n : (0 : ℚ) ≤ (m.glyphPixels c1).height := Nat.cast_nonneg _
  have hh2n : (0 : ℚ) ≤ (m.glyphPixels c2).height := Nat.cast_nonneg _
  unfold pixelRect PixelRect.overlaps
  simp only []
  rw [e1, e2, e3, e4, f1, f2, f3, f4]
  refine ⟨hsepQ, ?_⟩
  rintro ⟨o1, o2, o3, o4⟩
  rcases hsepQ with h | h | h | h <;> linarith

end FontAtlasManager

/-! ## What `rasterizeGlyph` returns -/

namespace FontAtlasManager

theorem rasterizeGlyph_of_isSome (m : FontAtlasManager) (c : Nat)
    (h : (rasterizeGlyph m c).2.isSome = true) :
    ∃ face metrics, m.face = some face ∧ face.getCharIndex c ≠ 0 ∧
      face.loadGlyph (face.getCharIndex c) = some metrics ∧
      (rasterizeGlyph m c).2
        = some (bitmapPixels m.antialiased
                  (face.renderGlyph (face.getCharIndex c) m.antialiased).bitmap,
            { atlasIndex := 0, t1 := 0, t2 := 0, v1 := 0, v2 := 0,
              width := int26p6_to_dbl metrics.width,
              height := int26p6_to_dbl metrics.height,
              bearingX := int26p6_to_dbl metrics.horiBearingX,
              bearingY := int26p6_to_dbl metrics.horiBearingY,
              advance := int26p6_to_dbl metrics.horiAdvance,
              xmin := ((face.renderGlyph (face.getCharIndex c) m.antialiased).bitmap_left : ℚ),
              xmax := ((face.renderGlyph (face.getCharIndex c) m.antialiased).bitmap_left : ℚ)
                + int26p6_to_dbl metrics.width,
              ymin := ((-(face.renderGlyph (face.getCharIndex c) m.antialiased).bitmap_top : Int)
                : ℚ),
              ymax := ((-(face.renderGlyph (face.getCharIndex c) m.antialiased).bitmap_top : Int)
                : ℚ) + int26p6_to_dbl metrics.height,
              tW := ((face.renderGlyph (face.getCharIndex c) m.antialiased).bitmap.width : ℚ),
              tH := ((face.renderGlyph (face.getCharIndex c) m.antialiased).bitmap.rows : ℚ) }) := by
  unfold rasterizeGlyph at h
  simp only [] at h
  cases hf : m.face with
  | none => rw [hf] at h; simp at h
  | some face =>
    rw [hf] at h
    simp only [] at h
    by_cases hg : face.getCharIndex c = 0
    · rw [if_pos hg] at h; simp at h
    · cases hl : face.loadGlyph (face.getCharIndex c) with
      | none => rw [if_neg hg, hl] at h; simp at h
      | some metrics =>
        refine ⟨face, metrics, rfl, hg, hl, ?_⟩
        unfold rasterizeGlyph
        simp only [hf, if_neg hg, hl]

theorem fitSecondPass_metrics (m : FontAtlasManager) (i : Nat) (px : ofPixels)
    (props : LazyGlyphProps) :
    (fitSecondPass m i px props).2.width = props.width ∧
    (fitSecondPass m i px props).2.height = props.height ∧
    (fitSecondPass m i px props).2.bearingX = props.bearingX ∧
    (fitSecondPass m i px props).2.bearingY = props.bearingY ∧
    (fitSecondPass m i px props).2.advance = props.advance ∧
    (fitSecondPass m i px props).2.xmin = props.xmin ∧
    (fitSecondPass m i px props).2.xmax = props.xmax ∧
    (fitSecondPass m i px props).2.ymin = props.ymin ∧
    (fitSecondPass m i px props).2.ymax = props.ymax ∧
    (fitSecondPass m i px props).2.tW = props.tW ∧
    (fitSecondPass m i px props).2.tH = props.tH := by
  unfold fitSecondPass
  simp only []
  split_ifs <;> exact ⟨rfl, rfl, rfl, rfl, rfl, rfl, rfl, rfl, rfl, rfl, rfl⟩

theorem addGlyphToAtlas_metrics (m : FontAtlasManager) (c : Nat) (p : LazyGlyphProps)
    (hp : (addGlyphToAtlas m c).2 = some p) :
    ∃ px props, (rasterizeGlyph m c).2 = some (px, props) ∧
      p.width = props.width ∧ p.height = props.height ∧ p.bearingX = props.bearingX ∧
      p.bearingY = props.bearingY ∧ p.advance = props.advance ∧ p.xmin = props.xmin ∧
      p.xmax = props.xmax ∧ p.ymin = props.ymin ∧ p.ymax = props.ymax ∧
      p.tW = props.tW ∧ p.tH = props.tH := by
  rcases addGlyphToAtlas_cases m c with ⟨_, h⟩ | ⟨px, props, hr, hz, h⟩ |
    ⟨px, props, hr, hpw, hph, h⟩
  · rw [h] at hp; cases hp
  · rw [h] at hp
    simp only [Option.some.injEq] at hp
    subst hp
    exact ⟨px, props, hr, rfl, rfl, rfl, rfl, rfl, rfl, rfl, rfl, rfl, rfl, rfl⟩
  · rw [h] at hp
    simp only [Option.some.injEq] at hp
    subst hp
    exact ⟨px, props, hr, fitSecondPass_metrics _ _ px props⟩

/-- C31: when `rasterizeGlyph` succeeds for a code point, whatever the size of
the bitmap, the record has `advance`, `width`, `height`, `bearingX` and
`bearingY` equal to the 26.6 values of the loaded glyph's metrics divided by
64, `xmin = bitmap_left`, `xmax = xmin + width`, `ymin = -bitmap_top` and
`ymax = ymin + height`, so `xmax - xmin = width` and `ymax - ymin = height`;
the record that `getOrLoadGlyph` stores for an uncached code point has the
same values in these fields. -/
theorem rasterized_metrics (m : FontAtlasManager) (c : Nat)
    (hr : (rasterizeGlyph m c).2.isSome = true) :
    ∃ face metrics px props,
      m.face = some face ∧
      face.loadGlyph (face.getCharIndex c) = some metrics ∧
      (rasterizeGlyph m c).2 = some (px, props) ∧
      props.advance = (metrics.horiAdvance : ℚ) / 64 ∧
      props.width = (metrics.width : ℚ) / 64 ∧
      props.height = (metrics.height : ℚ) / 64 ∧
      props.bearingX = (metrics.horiBearingX : ℚ) / 64 ∧
      props.bearingY = (metrics.horiBearingY : ℚ) / 64 ∧
      props.xmin = ((face.renderGlyph (face.getCharIndex c) m.antialiased).bitmap_left : ℚ) ∧
      props.xmax = props.xmin + props.width ∧
      props.ymin = -((face.renderGlyph (face.getCharIndex c) m.antialiased).bitmap_top : ℚ) ∧
      props.ymax = props.ymin + props.height ∧
      props.xmax - props.xmin = props.width ∧
      props.ymax - props.ymin = props.height ∧
      (∀ p, m.glyphs.lookup c = none → (getOrLoadGlyph m c).2 = some p →
        p.advance = props.advance ∧ p.width = props.width ∧ p.height = props.height ∧
        p.bearingX = props.bearingX ∧ p.bearingY = props.bearingY ∧
        p.xmin = props.xmin ∧ p.xmax = props.xmax ∧
        p.ymin = props.ymin ∧ p.ymax = props.ymax ∧
        p.xmax - p.xmin = p.width ∧ p.ymax - p.ymin = p.height) := by
  obtain ⟨face, metrics, hface, _, hload, hres⟩ := rasterizeGlyph_of_isSome m c hr
  refine ⟨face, metrics, _, _, hface, hload, hres, rfl, rfl, rfl, rfl, rfl, rfl, rfl,
    by push_cast; rfl, rfl, by simp, by simp, fun p hnew hp => ?_⟩
  obtain ⟨hsome, _⟩ := getOrLoadGlyph_miss_cases m c p hnew hp
  obtain ⟨px, props, hr2, a1, a2, a3, a4, a5, a6, a7, a8, a9, _, _⟩ :=
    addGlyphToAtlas_metrics m c p hsome
  rw [hres] at hr2
  simp only [Option.some.injEq, Prod.mk.injEq] at hr2
  obtain ⟨_, hprops⟩ := hr2
  subst hprops
  refine ⟨a5, a1, a2, a3, a4, a6, a7, a8, a9, ?_, ?_⟩
  · rw [a7, a6, a1]; simp
  · rw [a9, a8, a2]; simp

/-- Witness of `rasterized_metrics`: the space, whose bitmap is empty. -/
theorem rasterized_metrics_witness :
    ∃ face metrics px props,
      (Example.fresh 4096 true).face = some face ∧
      face.loadGlyph (face.getCharIndex 32) = some metrics ∧
      (rasterizeGlyph (Example.fresh 4096 true) 32).2 = some (px, props) ∧
      props.advance = (metrics.horiAdvance : ℚ) / 64 :=
  match rasterized_metrics (Example.fresh 4096 true) 32 (by with_unfolding_all decide) with
  | ⟨face, metrics, px, props, h1, h2, h3, h4, _⟩ => ⟨face, metrics, px, props, h1, h2, h3, h4⟩

end FontAtlasManager

/-! ## Unpacking of 1-bit bitmaps -/

theorem and_shiftLeft_ne_zero_iff (n i : Nat) : n &&& (1 <<< i) ≠ 0 ↔ n.testBit i = true := by
  rw [Nat.one_shiftLeft]
  constructor
  · intro h
    by_contra hb
    apply h
    apply Nat.eq_of_testBit_eq
    intro j
    rw [Nat.testBit_and, Nat.testBit_two_pow, Nat.zero_testBit]
    by_cases hij : i = j
    · subst hij
      simp only [Bool.not_eq_true] at hb
      rw [hb]; rfl
    · simp [hij]
  · intro hb h0
    have h1 : (n &&& 2 ^ i).testBit i = true := by
      rw [Nat.testBit_and, Nat.testBit_two_pow, hb]; simp
    rw [h0, Nat.zero_testBit] at h1
    cases h1

namespace FontAtlasManager

/-- C32: in non-antialiased mode, when `rasterizeGlyph` succeeds for a code point
whose rendered bitmap has `width` columns, `rows` rows, pitch `pitch` and
bytes `buffer`, the output buffer holds `width * rows` pixels; when both sides
are positive it is `width` x `rows`, and for `x < width`, `y < rows` the pixel
`(x, y)` has luminance 255 and alpha 255 when bit `7 - x % 8` of the byte
`buffer[y * pitch + x / 8]` is set, alpha 0 when it is not. -/
theorem mono_bitmap_unpacked (m : FontAtlasManager) (c : Nat)
    (haa : m.antialiased = false) (hr : (rasterizeGlyph m c).2.isSome = true) :
    ∃ face px props,
      m.face = some face ∧
      (rasterizeGlyph m c).2 = some (px, props) ∧
      px.width * px.height
        = (face.renderGlyph (face.getCharIndex c) false).bitmap.width
          * (face.renderGlyph (face.getCharIndex c) false).bitmap.rows ∧
      (0 < (face.renderGlyph (face.getCharIndex c) false).bitmap.width →
        0 < (face.renderGlyph (face.getCharIndex c) false).bitmap.rows →
        px.width = (face.renderGlyph (face.getCharIndex c) false).bitmap.width ∧
        px.height = (face.renderGlyph (face.getCharIndex c) false).bitmap.rows ∧
        ∀ x y, x < (face.renderGlyph (face.getCharIndex c) false).bitmap.width →
          y < (face.renderGlyph (face.getCharIndex c) false).bitmap.rows →
          (px.getColor x y).lum = 255 ∧
          ((px.getColor x y).alpha = 255 ∨ (px.getColor x y).alpha = 0) ∧
          ((px.getColor x y).alpha = 255 ↔
            ((face.renderGlyph (face.getCharIndex c) false).bitmap.buffer
                ((y : Int) * (face.renderGlyph (face.getCharIndex c) false).bitmap.pitch
                  + ((x / 8 : Nat) : Int)) % 256).testBit (7 - x % 8) = true) ∧
          ((px.getColor x y).alpha = 255 ↔
            (face.renderGlyph (face.getCharIndex c) false).bitmap.buffer
                ((y : Int) * (face.renderGlyph (face.getCharIndex c) false).bitmap.pitch
                  + ((x / 8 : Nat) : Int)) % 256 / 2 ^ (7 - x % 8) % 2 = 1)) := by
  obtain ⟨face, metrics, hface, _, hload, hres⟩ := rasterizeGlyph_of_isSome m c hr
  rw [haa] at hres
  refine ⟨face, _, _, hface, hres, ?_, fun hw hh => ?_⟩
  · rcases bitmapPixels_size false (face.renderGlyph (face.getCharIndex c) false).bitmap with
      ⟨a1, a2, a3⟩ | ⟨a1, a2, _, _⟩
    · rw [a1, a2]
      rcases a3 with a3 | a3 <;> rw [a3] <;> simp
    · rw [a1, a2]
  · generalize (face.renderGlyph (face.getCharIndex c) false).bitmap = b at *
    have hne : ¬ (((b.width : Nat) : Int) = 0 ∨ ((b.rows : Nat) : Int) = 0) := by
      intro h
      rcases h with h | h <;> omega
    have hpx : bitmapPixels false b
        = { width := b.width, height := b.rows,
            getColor := fun x y =>
              if x < b.width ∧ y < b.rows then
                ⟨255, if (b.buffer ((y : Int) * b.pitch + (x : Int) / 8) % 256)
                        &&& (1 <<< (7 - x % 8)) ≠ 0 then 255 else 0⟩
              else ⟨255, 0⟩ } := by
      unfold bitmapPixels
      simp only [hne, if_false, Bool.false_eq_true]
    rw [hpx]
    refine ⟨rfl, rfl, fun x y hx hy => ?_⟩
    have hdiv : ((x : Int) / 8) = ((x / 8 : Nat) : Int) := by omega
    simp only [hx, hy, and_self, if_true, hdiv]
    generalize b.buffer ((y : Int) * b.pitch + ((x / 8 : Nat) : Int)) % 256 = byte
    generalize 7 - x % 8 = k
    have hbit := and_shiftLeft_ne_zero_iff byte k
    have hdm : byte.testBit k = true ↔ byte / 2 ^ k % 2 = 1 := by
      rw [Nat.testBit_to_div_mod]; simp
    by_cases hc : byte &&& 1 <<< k ≠ 0
    · rw [if_pos hc]
      exact ⟨trivial, Or.inl rfl, ⟨fun _ => hbit.1 hc, fun _ => rfl⟩,
        ⟨fun _ => hdm.1 (hbit.1 hc), fun _ => rfl⟩⟩
    · rw [if_neg hc]
      exact ⟨trivial, Or.inr rfl,
        ⟨fun h => absurd h (by decide), fun h => absurd (hbit.2 h) hc⟩,
        ⟨fun h => absurd h (by decide), fun h => absurd (hbit.2 (hdm.2 h)) hc⟩⟩

end FontAtlasManager

namespace FontAtlasManager

/-- Witness of `mono_bitmap_unpacked`: the glyph `A` in non-antialiased mode. -/
theorem mono_bitmap_unpacked_witness :
    ∃ face px props,
      (setup (Example.platform 4096 true) {} "font.ttf" 16 false 0).2.face = some face ∧
      (rasterizeGlyph (setup (Example.platform 4096 true) {} "font.ttf" 16 false 0).2 65).2
        = some (px, props) ∧
      px.width * px.height
        = (face.renderGlyph (face.getCharIndex 65) false).bitmap.width
          * (face.renderGlyph (face.getCharIndex 65) false).bitmap.rows :=
  match mono_bitmap_unpacked (setup (Example.platform 4096 true) {} "font.ttf" 16 false 0).2 65
      (by with_unfolding_all decide) (by with_unfolding_all decide) with
  | ⟨face, px, props, h1, h2, h3, _⟩ => ⟨face, px, props, h1, h2, h3⟩

end FontAtlasManager

/-! ## Writes through an invalidated reference: when they happen -/

namespace FontAtlasManager

theorem flagStep_refl (m : FontAtlasManager) : FlagStep m m :=
  ⟨rfl, id, Or.inl, Or.inl ⟨rfl, rfl⟩⟩

theorem flagStep_trans {m r s : FontAtlasManager} (h1 : FlagStep m r) (h2 : FlagStep r s) :
    FlagStep m s := by
  obtain ⟨a1, a2, a3, a4⟩ := h1
  obtain ⟨b1, b2, b3, b4⟩ := h2
  refine ⟨b1.trans a1, fun h => b2 (a2 h), ?_, ?_⟩
  · intro h
    rcases b3 h with h | h
    · rcases a3 h with h | h
      · exact Or.inl h
      · rcases b4 with ⟨e, _⟩ | ⟨e, _⟩
        · right; omega
        · right; omega
    · rcases a4 with ⟨e, _⟩ | ⟨e, _⟩
      · right; omega
      · right; omega
  · rcases a4 with ⟨e1, e2⟩ | ⟨e1, e2⟩
    · rcases b4 with ⟨f1, f2⟩ | ⟨f1, f2⟩
      · exact Or.inl ⟨f1.trans e1, f2.trans e2⟩
      · right
        refine ⟨by omega, fun h => f2 ?_⟩
        rw [a1, e2]; exact h
    · right
      rcases b4 with ⟨f1, _⟩ | ⟨f1, _⟩
      · exact ⟨by omega, fun h => b2 (e2 h)⟩
      · exact ⟨by omega, fun h => b2 (e2 h)⟩

theorem flagStep_same (m r : FontAtlasManager) (h1 : r.relocates = m.relocates)
    (h2 : r.danglingWrite = m.danglingWrite) (h3 : r.atlases.length = m.atlases.length)
    (h4 : r.atlasStates.length = m.atlasStates.length) : FlagStep m r :=
  ⟨h1, fun h => by rw [h2]; exact h, fun h => Or.inl (by rw [← h2]; exact h), Or.inl ⟨h3, h4⟩⟩

theorem flagStep_wrapAt (m : FontAtlasManager) (i : Nat) (w : Int) :
    FlagStep m (m.wrapAt i w) :=
  flagStep_same m _ rfl rfl rfl (by simp [wrapAt, setState])

theorem flagStep_setState (m : FontAtlasManager) (i : Nat) (a : AtlasState) :
    FlagStep m (m.setState i a) :=
  flagStep_same m _ rfl rfl rfl (by simp [setState])

theorem flagStep_expandAtlas (m : FontAtlasManager) (i : Nat) :
    FlagStep m (expandAtlas m i).2 := by
  unfold expandAtlas
  split
  · exact flagStep_refl m
  · split
    · exact flagStep_refl m
    · exact flagStep_same m _ rfl rfl (by simp [growPage]) (by simp [growPage])

/-- A page appended by `createNewAtlas`, followed by the write through the
reference taken before it. -/
theorem flagStep_newPage (m : FontAtlasManager) (i : Nat) (a : AtlasState) :
    FlagStep m ((createNewAtlas m).1.writeThrough (refAfterPush m i) a) := by
  unfold refAfterPush
  cases hrel : m.relocates m.atlasStates.length with
  | true =>
    simp only [if_true]
    exact ⟨rfl, fun _ => rfl, fun _ => Or.inr (by simp [writeThrough, createNewAtlas]),
      Or.inr ⟨by simp [writeThrough, createNewAtlas], fun _ => rfl⟩⟩
  | false =>
    simp only [Bool.false_eq_true, if_false]
    refine ⟨rfl, fun h => h, fun h => Or.inl h, Or.inr ⟨?_, fun h => ?_⟩⟩
    · simp [writeThrough, setState, createNewAtlas]
    · rw [hrel] at h; cases h

theorem flagStep_fitFirstPass (m : FontAtlasManager) (w h : Int) :
    FlagStep m (fitFirstPass m w h).1 := by
  unfold fitFirstPass
  simp only []
  split
  · split
    · exact flagStep_trans (flagStep_wrapAt m _ _) (flagStep_expandAtlas _ _)
    · exact flagStep_trans (flagStep_trans (flagStep_wrapAt m _ _) (flagStep_expandAtlas _ _))
        (flagStep_newPage _ _ _)
  · exact flagStep_wrapAt m _ _

theorem flagStep_placeGlyph (m : FontAtlasManager) (px : ofPixels) (props : LazyGlyphProps)
    (i k : Nat) (st : AtlasState) :
    FlagStep m (placeGlyph m px props i st (some k)).1 :=
  flagStep_same m _ rfl rfl (by simp [placeGlyph, writeThrough, setState])
    (by simp [placeGlyph, writeThrough, setState])

/-- The second fallback: a page appended by `createNewAtlas`, and the glyph
placed through the reference taken before it. -/
theorem flagStep_placeNew (m : FontAtlasManager) (px : ofPixels) (props : LazyGlyphProps)
    (i : Nat) :
    FlagStep m (placeGlyph (createNewAtlas m).1 px props (createNewAtlas m).2
      ((createNewAtlas m).1.stateAt (createNewAtlas m).2) (refAfterPush m i)).1 := by
  unfold refAfterPush
  cases hrel : m.relocates m.atlasStates.length with
  | true =>
    simp only [if_true]
    exact ⟨rfl, fun _ => rfl,
      fun _ => Or.inr (by simp [placeGlyph, writeThrough, createNewAtlas]),
      Or.inr ⟨by simp [placeGlyph, writeThrough, createNewAtlas], fun _ => rfl⟩⟩
  | false =>
    simp only [Bool.false_eq_true, if_false]
    refine ⟨rfl, fun h => h, fun h => Or.inl h, Or.inr ⟨?_, fun h => ?_⟩⟩
    · simp [placeGlyph, writeThrough, setState, createNewAtlas]
    · rw [hrel] at h; cases h

theorem flagStep_fitSecondPass (m : FontAtlasManager) (i : Nat) (px : ofPixels)
    (props : LazyGlyphProps) : FlagStep m (fitSecondPass m i px props).1 := by
  unfold fitSecondPass
  simp only []
  split
  · split
    · exact flagStep_trans (flagStep_trans (flagStep_wrapAt m _ _) (flagStep_expandAtlas _ _))
        (flagStep_placeGlyph _ _ _ _ _ _)
    · exact flagStep_trans (flagStep_trans (flagStep_wrapAt m _ _) (flagStep_expandAtlas _ _))
        (flagStep_placeNew _ _ _ _)
  · exact flagStep_trans (flagStep_wrapAt m _ _) (flagStep_placeGlyph _ _ _ _ _ _)

theorem flagStep_addGlyphToAtlas (m : FontAtlasManager) (c : Nat) :
    FlagStep m (addGlyphToAtlas m c).1 := by
  have h0 : FlagStep m (rasterizeGlyph m c).1 := by
    rw [rasterizeGlyph_fst]
    exact flagStep_same m _ rfl rfl rfl rfl
  rcases addGlyphToAtlas_cases m c with ⟨_, h⟩ | ⟨px, props, _, _, h⟩ | ⟨px, props, _, _, _, h⟩
  · rw [h]; exact h0
  · rw [h]; exact h0
  · rw [h]
    exact flagStep_trans (flagStep_trans h0 (flagStep_fitFirstPass _ _ _))
      (flagStep_fitSecondPass _ _ _ _)

/-- Across `getOrLoadGlyph` the flag `danglingWrite` is never cleared, is set
only when a page is appended, and is set whenever a page is appended while
`push_back` moves the storage of the vector. -/
theorem flagStep_getOrLoadGlyph (m : FontAtlasManager) (c : Nat) :
    FlagStep m (getOrLoadGlyph m c).1 := by
  have h := flagStep_addGlyphToAtlas m c
  cases hl : m.glyphs.lookup c with
  | some p0 => rw [getOrLoadGlyph_hit m c p0 hl]; exact flagStep_refl m
  | none =>
    cases ha : (addGlyphToAtlas m c).2 with
    | none => rw [getOrLoadGlyph_miss_none m c hl ha]; exact h
    | some q =>
      rw [getOrLoadGlyph_miss_some m c q hl ha]
      exact flagStep_trans h (flagStep_same _ _ rfl rfl rfl rfl)

/-- Across any sequence of `getOrLoadGlyph` calls the flag `danglingWrite` is
never cleared. -/
theorem flagStep_foldl (cs : List Nat) (m : FontAtlasManager) :
    FlagStep m (cs.foldl (fun s d => (getOrLoadGlyph s d).1) m) := by
  induction cs generalizing m with
  | nil => exact flagStep_refl m
  | cons c cs ih =>
    rw [List.foldl_cons]
    exact flagStep_trans (flagStep_getOrLoadGlyph m c) (ih _)

/-- A `getOrLoadGlyph` call that appends a page while `push_back` moves the
storage of the vector writes through the reference taken before the
`push_back`. -/
theorem dangling_of_new_page (m : FontAtlasManager) (c : Nat)
    (hrel : m.relocates m.atlasStates.length = true)
    (hnew : m.getAtlasCount < (getOrLoadGlyph m c).1.getAtlasCount) :
    (getOrLoadGlyph m c).1.danglingWrite = true := by
  obtain ⟨_, _, _, h⟩ := flagStep_getOrLoadGlyph m c
  unfold getAtlasCount at hnew
  rcases h with ⟨e, _⟩ | ⟨_, h⟩
  · omega
  · exact h hrel

end FontAtlasManager

/-! ## States in which every rasterized bitmap fits the minimum page -/

namespace FontAtlasManager

theorem reachableFit_reachable {env : Platform} {m : FontAtlasManager}
    (h : ReachableFit env m) : Reachable env m := by
  induction h with
  | init fontPath size antialias dpiValue hs => exact Reachable.init _ _ _ _ hs
  | step m c _ _ ih => exact Reachable.step m c ih

theorem reachableFit_of_glyphsFit {env : Platform} {m : FontAtlasManager}
    (h : Reachable env m) (hfit : GlyphsFit m) : ReachableFit env m := by
  induction h with
  | init fontPath size antialias dpiValue hs => exact ReachableFit.init _ _ _ _ hs
  | step m c _ ih =>
    have hfit0 : GlyphsFit m := (GlyphsFit.of_config (getOrLoadGlyph_config m c)).mp hfit
    exact ReachableFit.step m c (ih hfit0) (fun _ => bitmapFits_of_glyphsFit hfit0 c)

theorem reachableFit_cursorOk {env : Platform} {m : FontAtlasManager}
    (h : ReachableFit env m) : CursorOk m := by
  induction h with
  | init fontPath size antialias dpiValue hs => exact setup_cursor env _ _ _ _ hs
  | step m c hr hfit ih =>
    cases hl : m.glyphs.lookup c with
    | some p0 => rw [getOrLoadGlyph_hit m c p0 hl]; exact ih
    | none => exact getOrLoadGlyph_cursor m c (reachableFit_reachable hr).pagesOk ih (hfit hl)

theorem reachableFit_layout {env : Platform} {m : FontAtlasManager}
    (h : ReachableFit env m) : PageDims m ∧ Layout m := by
  induction h with
  | init fontPath size antialias dpiValue hs => exact setup_layout env _ _ _ _ hs
  | step m c hr hfit ih =>
    cases hl : m.glyphs.lookup c with
    | some p0 => rw [getOrLoadGlyph_hit m c p0 hl]; exact ih
    | none =>
      exact getOrLoadGlyph_layout m c (reachableFit_reachable hr).pagesOk
        (reachableFit_cursorOk hr) ih.1 ih.2 (hfit hl)

theorem reachableFit_cursorX {env : Platform} {m : FontAtlasManager}
    (h : ReachableFit env m) :
    (m.stateAt (m.atlases.length - 1)).currentX ≤ (m.stateAt (m.atlases.length - 1)).width := by
  induction h with
  | init fontPath size antialias dpiValue hs =>
    obtain ⟨hst, hlen, _, _, hmin⟩ := setup_fresh env fontPath size antialias dpiValue hs
    rw [hlen]
    unfold stateAt
    rw [hst]
    show (1 : Int) ≤ (setup env {} fontPath size antialias dpiValue).2.minAtlasSize
    omega
  | step m c hr hfit ih =>
    cases hl : m.glyphs.lookup c with
    | some p0 => rw [getOrLoadGlyph_hit m c p0 hl]; exact ih
    | none =>
      exact getOrLoadGlyph_cursorX m c (reachableFit_reachable hr).pagesOk
        (reachableFit_cursorOk hr) (hfit hl) ih

theorem reachableFit_apart {env : Platform} {m : FontAtlasManager}
    (h : ReachableFit env m) : Apart m := by
  induction h with
  | init fontPath size antialias dpiValue hs =>
    obtain ⟨_, _, hgl, _, _⟩ := setup_fresh env fontPath size antialias dpiValue hs
    unfold Apart
    rw [hgl]
    exact List.Pairwise.nil
  | step m c hr hfit ih =>
    cases hl : m.glyphs.lookup c with
    | some p0 => rw [getOrLoadGlyph_hit m c p0 hl]; exact ih
    | none =>
      exact getOrLoadGlyph_apart m c (reachableFit_reachable hr).pagesOk
        (reachableFit_cursorOk hr) (reachableFit_layout hr).1 (reachableFit_layout hr).2
        (hfit hl) ih

end FontAtlasManager

/-! ## The run that fills a page that cannot grow -/

namespace FontAtlasManager

theorem squareFresh_glyphsFit (moved : Bool) : GlyphsFit (Example.squareFresh moved) := by
  intro face hface g
  have hf : face = Example.squareFace := by
    have : (Example.squareFresh moved).face = some Example.squareFace := rfl
    rw [this] at hface
    exact (Option.some.inj hface).symm
  subst hf
  have hb : (Example.squareFresh moved).border = 1 := rfl
  have hmin : (Example.squareFresh moved).minAtlasSize = 64 := by
    cases moved <;> with_unfolding_all decide
  rw [hb, hmin]
  simp only [Example.squareFace, Example.solid]
  split_ifs <;> simp

theorem squareFresh_reachable (moved : Bool) :
    Reachable (Example.squarePlatform moved) (Example.squareFresh moved) :=
  Reachable.init "font.ttf" 16 true 0 (by cases moved <;> with_unfolding_all decide)

theorem squareFull_reachable (moved : Bool) :
    Reachable (Example.squarePlatform moved) (Example.squareFull moved) :=
  Reachable.step _ 68 (Reachable.step _ 67 (Reachable.step _ 66 (Reachable.step _ 65
    (squareFresh_reachable moved))))

theorem squareFull_glyphsFit (moved : Bool) : GlyphsFit (Example.squareFull moved) :=
  (GlyphsFit.of_config ((((getOrLoadGlyph_config (Example.squareFresh moved) 65).trans
    (getOrLoadGlyph_config _ 66)).trans (getOrLoadGlyph_config _ 67)).trans
    (getOrLoadGlyph_config _ 68))).mpr (squareFresh_glyphsFit moved)

/-- The fifth glyph of 30 x 30 pixels on a page of side 64 that cannot grow:
the page is full, the glyph becomes the first one of page 1, and with a vector
that moves its storage the call writes through the reference taken before the
`push_back`. -/
theorem squareFull_fifth :
    (Example.squareFull true).danglingWrite = false ∧
    (Example.squareFull true).getAtlasCount = 1 ∧
    (Example.squareFull true).getLoadedGlyphCount = 4 ∧
    (Example.squareFull true).stateAt 0
      = { currentX := 63, currentY := 32, currentRowHeight := 30, width := 64, height := 64 } ∧
    (Example.squareFull true).glyphs.lookup 69 = none ∧
    (rasterizeGlyph (Example.squareFull true) 69).2.isSome = true ∧
    (expandAtlas (Example.squareFull true) 0).1 = false ∧
    (getOrLoadGlyph (Example.squareFull true) 69).2 = some Example.recordE ∧
    (getOrLoadGlyph (Example.squareFull true) 69).1.getAtlasCount = 2 ∧
    (getOrLoadGlyph (Example.squareFull true) 69).1.stateAt 1
      = { currentX := 32, currentY := 1, currentRowHeight := 30, width := 64, height := 64 } ∧
    (getOrLoadGlyph (Example.squareFull true) 69).1.danglingWrite = true := by
  with_unfolding_all decide

/-- The same call on a vector that keeps its storage writes to the slot of
page 0 instead, and the record is returned. -/
theorem squareFull_fifth_kept :
    (getOrLoadGlyph (Example.squareFull false) 69).2 = some Example.recordE ∧
    (getOrLoadGlyph (Example.squareFull false) 69).1.getAtlasCount = 2 ∧
    (getOrLoadGlyph (Example.squareFull false) 69).1.danglingWrite = false := by
  with_unfolding_all decide

end FontAtlasManager

/-! ## What holds as long as no write goes through an invalidated reference -/

namespace FontAtlasManager

/-- The bitmap rasterized for `c` fits the minimum page when the pixel buffer
made from the glyph of `c` does. -/
theorem bitmapFits_of_glyph (m : FontAtlasManager) (c : Nat) (face : FT_Face)
    (hface : m.face = some face)
    (hfit :
      ((bitmapPixels m.antialiased
          (face.renderGlyph (face.getCharIndex c) m.antialiased).bitmap).width : Int)
        + 2 * m.border ≤ m.minAtlasSize ∧
      ((bitmapPixels m.antialiased
          (face.renderGlyph (face.getCharIndex c) m.antialiased).bitmap).height : Int)
        + 2 * m.border ≤ m.minAtlasSize) :
    BitmapFits m c := by
  intro px props h
  have his : (rasterizeGlyph m c).2.isSome = true := by rw [h]; rfl
  obtain ⟨face2, metrics, hf2, _, _, heq⟩ := rasterizeGlyph_of_isSome m c his
  rw [hface] at hf2
  cases hf2
  rw [h] at heq
  have hpx : px = bitmapPixels m.antialiased
      (face.renderGlyph (face.getCharIndex c) m.antialiased).bitmap :=
    (Prod.mk.inj (Option.some.inj heq)).1
  rw [hpx]
  exact hfit

/-- The face `Example.face` has the glyph `W` of 300 x 300 pixels: not every
bitmap it can render fits a page of side 64. -/
theorem fresh_not_glyphsFit (m : FontAtlasManager) (hf : m.face = some Example.face)
    (hb : m.border = 1) (hmin : m.minAtlasSize = 64) : ¬ GlyphsFit m := by
  intro h
  have h5 := (h Example.face hf 5).1
  rw [hb, hmin] at h5
  simp [Example.face, Example.solid] at h5

/-- After `A` and `C` have been loaded from `Example.face` every bitmap that was
rasterized fits the minimum page, although the glyph `W` of the face, which was
not requested, does not. -/
theorem smallRun_reachableFit :
    ReachableFit (Example.platform 4096 true)
      (Example.loadAll (Example.fresh 4096 true) [65, 67]) :=
  ReachableFit.step _ 67
    (ReachableFit.step _ 65
      (ReachableFit.init "font.ttf" 16 true 0 (by with_unfolding_all decide))
      (fun _ => bitmapFits_of_glyph _ 65 Example.face rfl (by with_unfolding_all decide)))
    (fun _ => bitmapFits_of_glyph _ 67 Example.face rfl (by with_unfolding_all decide))

/-- C4 (as amended): in every state reached from a successful setup by
`getOrLoadGlyph` calls in which every rasterized bitmap fits an empty page of
the minimum size and none of which has written through a reference that
`push_back` invalidated, for every loaded glyph with ink the texture rectangle
of its record times the current page size is a pixel rectangle at some
`(X, Y)` with the sides of the rasterized buffer, and the pixel mirror of page
`atlasIndex` read there equals that buffer. -/
theorem mirror_keeps_glyph (env : Platform) (m : FontAtlasManager) (c : Nat)
    (p : LazyGlyphProps) (hr : ReachableFit env m)
    (hp : m.glyphs.lookup c = some p) (hw : p.tW ≠ 0) (hh : p.tH ≠ 0) :
    m.danglingWrite = false →
    ∃ X Y : Nat,
      (pixelRect m p).left = X ∧ (pixelRect m p).top = Y ∧
      (pixelRect m p).right = X + (m.glyphPixels c).width ∧
      (pixelRect m p).bottom = Y + (m.glyphPixels c).height ∧
      ∀ x y, x < (m.glyphPixels c).width → y < (m.glyphPixels c).height →
        m.mirrorColor p.atlasIndex (X + x) (Y + y) = (m.glyphPixels c).getColor x y :=
  fun _ => mirror_of_layout m c p (reachableFit_layout hr).2 hp hw hh

/-- Witness of `mirror_keeps_glyph`: the record of `A` after `A` and `C` have
been loaded from a face whose glyph `W` of 300 x 300 pixels was not requested;
the page has not grown and no page was appended, so that no reference was
invalidated. -/
theorem mirror_keeps_glyph_witness :
    (Example.loadAll (Example.fresh 4096 true) [65, 67]).glyphs.lookup 65
      = some Example.recordA ∧
    (Example.loadAll (Example.fresh 4096 true) [65, 67]).danglingWrite = false ∧
    ∃ X Y : Nat,
      (pixelRect (Example.loadAll (Example.fresh 4096 true) [65, 67]) Example.recordA).left
        = X ∧
      (pixelRect (Example.loadAll (Example.fresh 4096 true) [65, 67]) Example.recordA).top
        = Y ∧
      (pixelRect (Example.loadAll (Example.fresh 4096 true) [65, 67]) Example.recordA).right
        = X + ((Example.loadAll (Example.fresh 4096 true) [65, 67]).glyphPixels 65).width ∧
      (pixelRect (Example.loadAll (Example.fresh 4096 true) [65, 67]) Example.recordA).bottom
        = Y + ((Example.loadAll (Example.fresh 4096 true) [65, 67]).glyphPixels 65).height ∧
      ∀ x y, x < ((Example.loadAll (Example.fresh 4096 true) [65, 67]).glyphPixels 65).width →
        y < ((Example.loadAll (Example.fresh 4096 true) [65, 67]).glyphPixels 65).height →
        (Example.loadAll (Example.fresh 4096 true) [65, 67]).mirrorColor
            Example.recordA.atlasIndex (X + x) (Y + y)
          = ((Example.loadAll (Example.fresh 4096 true) [65, 67]).glyphPixels 65).getColor x y :=
  ⟨by with_unfolding_all decide, by with_unfolding_all decide,
    mirror_keeps_glyph (Example.platform 4096 true)
      (Example.loadAll (Example.fresh 4096 true) [65, 67]) 65 Example.recordA
      smallRun_reachableFit
      (by with_unfolding_all decide) (by with_unfolding_all decide)
      (by with_unfolding_all decide) (by with_unfolding_all decide)⟩

/-- C5 (as amended): in a state reached from a successful setup by
`getOrLoadGlyph` calls in which every rasterized bitmap fits an empty page of
the minimum size, a glyph with ink whose bitmap fits as well and that
`getOrLoadGlyph` packs, no call so far having written through a reference that
`push_back` invalidated, is put on the last page, inside its bounds: with pixel
position `(x, y)`, sides `w`, `h` and page size `W` x `H` it holds that
`border ≤ x`, `border ≤ y`, `x + w + border ≤ W`, `y + h + border ≤ H`, and
the texture rectangle lies in the unit square. -/
theorem packed_glyph_inside_page (env : Platform) (m : FontAtlasManager) (c : Nat)
    (p : LazyGlyphProps) (hr : ReachableFit env m) (hfit : BitmapFits m c)
    (hnew : m.glyphs.lookup c = none)
    (hp : (getOrLoadGlyph m c).2 = some p) (hw : p.tW ≠ 0) (hh : p.tH ≠ 0) :
    (getOrLoadGlyph m c).1.danglingWrite = false →
    p.InsidePage ((getOrLoadGlyph m c).1.stateAt p.atlasIndex) m.border ∧
    p.atlasIndex = (getOrLoadGlyph m c).1.getAtlasCount - 1 :=
  fun _ => packed_inside_of_cursor m c p (reachableFit_reachable hr).pagesOk
    (reachableFit_cursorOk hr) hfit hnew hp hw hh

/-- Witness of `packed_glyph_inside_page`: the letter `A` of 10 x 50 pixels on a
freshly set-up manager, from a face whose glyph `W` of 300 x 300 pixels is not
requested. -/
theorem packed_glyph_inside_page_witness :
    (getOrLoadGlyph (Example.fresh 4096 true) 65).2 = some Example.recordA ∧
    (getOrLoadGlyph (Example.fresh 4096 true) 65).1.danglingWrite = false ∧
    Example.recordA.InsidePage
      ((getOrLoadGlyph (Example.fresh 4096 true) 65).1.stateAt Example.recordA.atlasIndex) 1 ∧
    Example.recordA.atlasIndex
      = (getOrLoadGlyph (Example.fresh 4096 true) 65).1.getAtlasCount - 1 :=
  ⟨by with_unfolding_all decide, by with_unfolding_all decide,
    packed_glyph_inside_page (Example.platform 4096 true) (Example.fresh 4096 true) 65
      Example.recordA
      (ReachableFit.init "font.ttf" 16 true 0 (by with_unfolding_all decide))
      (bitmapFits_of_glyph _ 65 Example.face rfl (by with_unfolding_all decide))
      (by with_unfolding_all decide) (by with_unfolding_all decide)
      (by with_unfolding_all decide) (by with_unfolding_all decide)
      (by with_unfolding_all decide)⟩

/-- C6: the code keeps the invariant only as far as its behaviour is defined.
First part, the failing run: after `A`, `B`, `C`, `D` of 30 x 30 pixels have
filled the page of side 64 that cannot grow, `getOrLoadGlyph('E')` appends page
1, returns a record with `atlasIndex = 1`, and, the vector having moved its
storage, writes through the reference bound before the `push_back`.  Second
part: every call that appends a page while the vector moves its storage makes
such a write.  Third part: in every reachable state in which no such write has
happened, every record of the glyph map has `atlasIndex < getAtlasCount()`, and
at least one page exists. -/
theorem atlasIndex_valid_until_dangling_write :
    (Reachable (Example.squarePlatform true) (Example.squareFull true)
      ∧ (Example.squareFull true).danglingWrite = false
      ∧ (Example.squareFull true).getAtlasCount = 1
      ∧ (getOrLoadGlyph (Example.squareFull true) 69).2 = some Example.recordE
      ∧ (getOrLoadGlyph (Example.squareFull true) 69).1.getAtlasCount = 2
      ∧ (getOrLoadGlyph (Example.squareFull true) 69).1.danglingWrite = true)
    ∧ (∀ (m : FontAtlasManager) (c : Nat), m.relocates m.atlasStates.length = true →
        m.getAtlasCount < (getOrLoadGlyph m c).1.getAtlasCount →
        (getOrLoadGlyph m c).1.danglingWrite = true)
    ∧ (∀ (env : Platform) (m : FontAtlasManager), Reachable env m →
        m.danglingWrite = false →
        0 < m.getAtlasCount ∧
        ∀ c p, m.glyphs.lookup c = some p → p.atlasIndex < m.getAtlasCount) := by
  obtain ⟨h1, h2, _, _, _, _, _, h8, h9, _, h11⟩ := squareFull_fifth
  exact ⟨⟨squareFull_reachable true, h1, h2, h8, h9, h11⟩,
    fun m c hrel hnew => dangling_of_new_page m c hrel hnew,
    fun env m hr _ => reachable_atlasIndex_lt env m hr⟩

/-- C13: a refused growth is handled by a write through an invalidated
reference.  First part, the failing run: with the page of side 64 full and the
texture limit 64, `E` is not cached, `rasterizeGlyph` succeeds, `expandAtlas`
refuses, and `getOrLoadGlyph('E')`, the vector having moved its storage, writes
through the reference bound before the `push_back`.  Second part: with a vector
that keeps its storage the same call returns the record of `E` on page 1.
Third part: every call that appends a page while the vector moves its storage
makes such a write.  Fourth part: for every manager state and code point, a
call that makes no such write returns null exactly when the code point is not
cached and `rasterizeGlyph` reports failure, a record it returns is the one the
glyph map then holds, and it returns a record whenever rasterization
succeeds. -/
theorem refused_growth_dangling_write :
    ((Example.squareFull true).glyphs.lookup 69 = none
      ∧ (rasterizeGlyph (Example.squareFull true) 69).2.isSome = true
      ∧ (expandAtlas (Example.squareFull true) 0).1 = false
      ∧ (Example.squareFull true).danglingWrite = false
      ∧ (getOrLoadGlyph (Example.squareFull true) 69).1.danglingWrite = true)
    ∧ ((getOrLoadGlyph (Example.squareFull false) 69).2 = some Example.recordE
      ∧ (getOrLoadGlyph (Example.squareFull false) 69).1.getAtlasCount = 2
      ∧ (getOrLoadGlyph (Example.squareFull false) 69).1.danglingWrite = false)
    ∧ (∀ (m : FontAtlasManager) (c : Nat), m.relocates m.atlasStates.length = true →
        m.getAtlasCount < (getOrLoadGlyph m c).1.getAtlasCount →
        (getOrLoadGlyph m c).1.danglingWrite = true)
    ∧ (∀ (m : FontAtlasManager) (c : Nat), (getOrLoadGlyph m c).1.danglingWrite = false →
        ((getOrLoadGlyph m c).2 = none ↔
          (m.glyphs.lookup c = none ∧ (rasterizeGlyph m c).2 = none)) ∧
        (∀ p, (getOrLoadGlyph m c).2 = some p →
          (getOrLoadGlyph m c).1.glyphs.lookup c = some p) ∧
        ((rasterizeGlyph m c).2.isSome = true → (getOrLoadGlyph m c).2.isSome = true)) := by
  obtain ⟨h1, _, _, _, h5, h6, h7, _, _, _, h11⟩ := squareFull_fifth
  exact ⟨⟨h5, h6, h7, h1, h11⟩, squareFull_fifth_kept,
    fun m c hrel hnew => dangling_of_new_page m c hrel hnew,
    fun m c _ => getOrLoadGlyph_result m c⟩

/-- C15: the code keeps a stored record only as far as its behaviour is defined.
First part, the failing run: with the records of `A`, `B`, `C`, `D` stored and
their page full, `getOrLoadGlyph('E')`, a later operation on the manager,
appends a page and, the vector having moved its storage, writes through the
reference bound before the `push_back`.  Second part: every call that appends a
page while the vector moves its storage makes such a write.  Third part: in a
reachable state a record stored for `c` is still in the glyph map after any
sequence of `getOrLoadGlyph` calls that makes no such write, and, when none has
happened before, after `expandAtlas` of any page and after `createNewAtlas`,
with the same `atlasIndex`, `width`, `height`, `bearingX`, `bearingY`, `xmin`,
`xmax`, `ymin`, `ymax`, `advance`, `tW` and `tH`; and the whole record, texture
rectangle included, is the same unless the width of its page has changed. -/
theorem record_kept_until_dangling_write :
    (Reachable (Example.squarePlatform true) (Example.squareFull true)
      ∧ (Example.squareFull true).getLoadedGlyphCount = 4
      ∧ (Example.squareFull true).danglingWrite = false
      ∧ (getOrLoadGlyph (Example.squareFull true) 69).1.danglingWrite = true)
    ∧ (∀ (m : FontAtlasManager) (c : Nat), m.relocates m.atlasStates.length = true →
        m.getAtlasCount < (getOrLoadGlyph m c).1.getAtlasCount →
        (getOrLoadGlyph m c).1.danglingWrite = true)
    ∧ (∀ (env : Platform) (m : FontAtlasManager) (c : Nat) (p : LazyGlyphProps)
        (cs : List Nat) (i : Nat), Reachable env m → m.glyphs.lookup c = some p →
        ((cs.foldl (fun s d => (getOrLoadGlyph s d).1) m).danglingWrite = false →
          ∃ q, (cs.foldl (fun s d => (getOrLoadGlyph s d).1) m).glyphs.lookup c = some q ∧
            p.SameMetrics q ∧
            (((cs.foldl (fun s d => (getOrLoadGlyph s d).1) m).stateAt p.atlasIndex).width
                = (m.stateAt p.atlasIndex).width → q = p))
        ∧ (m.danglingWrite = false →
          (∃ q, (expandAtlas m i).2.glyphs.lookup c = some q ∧ p.SameMetrics q ∧
            (((expandAtlas m i).2.stateAt p.atlasIndex).width
                = (m.stateAt p.atlasIndex).width → q = p))
          ∧ (createNewAtlas m).1.glyphs.lookup c = some p)) := by
  obtain ⟨h1, _, h3, _, _, _, _, _, _, _, h11⟩ := squareFull_fifth
  refine ⟨⟨squareFull_reachable true, h3, h1, h11⟩,
    fun m c hrel hnew => dangling_of_new_page m c hrel hnew,
    fun env m c p cs i hr hc => ?_⟩
  obtain ⟨a, b, d⟩ := records_kept env m c p cs i hr hc
  exact ⟨fun _ => a, fun _ => ⟨b, d⟩⟩

/-- C16: the code keeps its pages only as far as its behaviour is defined.
First part, the failing run: with one page of side 64, full and unable to grow,
`getOrLoadGlyph('E')` appends page 1 and, the vector having moved its storage,
writes through the reference bound before the `push_back`.  Second part: every
call that appends a page while the vector moves its storage makes such a write.
Third part: across a `getOrLoadGlyph` call from a reachable state that makes no
such write, `getAtlasCount()` does not decrease, every page that existed has a
positive width and height that the call multiplies by the same `2 ^ k` with
`k ≤ 2` (by 1, 2 or 4), and every record keeps the page index it had; across
any sequence of such calls the count does not decrease and every page's width
and height are multiplied by a power of two. -/
theorem pages_grow_until_dangling_write :
    (Reachable (Example.squarePlatform true) (Example.squareFull true)
      ∧ (Example.squareFull true).getAtlasCount = 1
      ∧ (Example.squareFull true).danglingWrite = false
      ∧ (getOrLoadGlyph (Example.squareFull true) 69).1.getAtlasCount = 2
      ∧ (getOrLoadGlyph (Example.squareFull true) 69).1.danglingWrite = true)
    ∧ (∀ (m : FontAtlasManager) (c : Nat), m.relocates m.atlasStates.length = true →
        m.getAtlasCount < (getOrLoadGlyph m c).1.getAtlasCount →
        (getOrLoadGlyph m c).1.danglingWrite = true)
    ∧ (∀ (env : Platform) (m : FontAtlasManager) (c : Nat) (cs : List Nat),
        Reachable env m →
        ((getOrLoadGlyph m c).1.danglingWrite = false →
          m.getAtlasCount ≤ (getOrLoadGlyph m c).1.getAtlasCount
          ∧ (∀ i, i < m.getAtlasCount →
              0 < (m.stateAt i).width ∧ 0 < (m.stateAt i).height ∧
              ∃ k, k ≤ 2 ∧
                ((getOrLoadGlyph m c).1.stateAt i).width = (m.stateAt i).width * 2 ^ k ∧
                ((getOrLoadGlyph m c).1.stateAt i).height = (m.stateAt i).height * 2 ^ k)
          ∧ (∀ d p, m.glyphs.lookup d = some p →
              ∃ q, (getOrLoadGlyph m c).1.glyphs.lookup d = some q ∧
                q.atlasIndex = p.atlasIndex))
        ∧ ((cs.foldl (fun s d => (getOrLoadGlyph s d).1) m).danglingWrite = false →
          m.getAtlasCount ≤ (cs.foldl (fun s d => (getOrLoadGlyph s d).1) m).getAtlasCount
          ∧ (∀ i, i < m.getAtlasCount → ∃ k,
              ((cs.foldl (fun s d => (getOrLoadGlyph s d).1) m).stateAt i).width
                = (m.stateAt i).width * 2 ^ k ∧
              ((cs.foldl (fun s d => (getOrLoadGlyph s d).1) m).stateAt i).height
                = (m.stateAt i).height * 2 ^ k))) := by
  obtain ⟨h1, h2, _, _, _, _, _, _, h9, _, h11⟩ := squareFull_fifth
  refine ⟨⟨squareFull_reachable true, h2, h1, h9, h11⟩,
    fun m c hrel hnew => dangling_of_new_page m c hrel hnew,
    fun env m c cs hr => ?_⟩
  obtain ⟨a, b, d, e, f⟩ := pages_grown env m c cs hr
  exact ⟨fun _ => ⟨a, b, d⟩, fun _ => ⟨e, f⟩⟩

/-- C17: the code treats the last page as the active one only as far as its
behaviour is defined.  First part, the failing run: with one page of side 64,
full and unable to grow, `getOrLoadGlyph('E')` appends page 1, gives the record
`atlasIndex = 1`, the last page, and, the vector having moved its storage,
writes through the reference bound before the `push_back`.  Second part: every
call that appends a page while the vector moves its storage makes such a write.
Third part: across a `getOrLoadGlyph` call from a reachable state that makes no
such write, every page that was not the last one before the call keeps its
width, height, cursor, row height, pixel mirror and texture; and a record the
call creates for a glyph with ink names the last page there is after the
call. -/
theorem last_page_active_until_dangling_write :
    (Reachable (Example.squarePlatform true) (Example.squareFull true)
      ∧ (Example.squareFull true).danglingWrite = false
      ∧ (getOrLoadGlyph (Example.squareFull true) 69).2 = some Example.recordE
      ∧ Example.recordE.atlasIndex
          = (getOrLoadGlyph (Example.squareFull true) 69).1.getAtlasCount - 1
      ∧ (getOrLoadGlyph (Example.squareFull true) 69).1.danglingWrite = true)
    ∧ (∀ (m : FontAtlasManager) (c : Nat), m.relocates m.atlasStates.length = true →
        m.getAtlasCount < (getOrLoadGlyph m c).1.getAtlasCount →
        (getOrLoadGlyph m c).1.danglingWrite = true)
    ∧ (∀ (env : Platform) (m : FontAtlasManager) (c : Nat), Reachable env m →
        (getOrLoadGlyph m c).1.danglingWrite = false →
        (∀ i, i + 1 < m.getAtlasCount →
          i + 1 < (getOrLoadGlyph m c).1.getAtlasCount ∧
          (getOrLoadGlyph m c).1.stateAt i = m.stateAt i ∧
          (getOrLoadGlyph m c).1.atlasPixels.getD i default = m.atlasPixels.getD i default ∧
          (getOrLoadGlyph m c).1.atlases.getD i default = m.atlases.getD i default)
        ∧ (∀ p, m.glyphs.lookup c = none → (getOrLoadGlyph m c).2 = some p →
            p.tW ≠ 0 → p.tH ≠ 0 →
            p.atlasIndex = (getOrLoadGlyph m c).1.getAtlasCount - 1)) := by
  obtain ⟨h1, _, _, _, _, _, _, h8, h9, _, h11⟩ := squareFull_fifth
  exact ⟨⟨squareFull_reachable true, h1, h8, by rw [h9]; rfl, h11⟩,
    fun m c hrel hnew => dangling_of_new_page m c hrel hnew,
    fun env m c hr _ => completed_pages_kept env m c hr⟩

/-- C26: the code keeps packed glyphs apart only as far as its behaviour is
defined.  First part, the failing run: every bitmap rasterized is 30 x 30 and
fits the minimum page of side 64, four of them fill the page, which cannot
grow, and `getOrLoadGlyph('E')`, whose bitmap fits as well, appends page 1 and,
the vector having moved its storage, writes through the reference bound before
the `push_back`.  Second part: every call that appends a page while the vector
moves its storage makes such a write.  Third part: in every state reached from
a successful setup by `getOrLoadGlyph` calls in which every rasterized bitmap
fits the minimum page and no such write has happened, the pixel rectangles of
two records with ink, stored for different code points on the same page, are
at least `border` pixels apart horizontally or vertically, and do not
overlap.  Fourth part, a run the third part applies to: `A` and `C` loaded from
a face whose glyph `W`, never requested, is 300 x 300; the rectangles of `A`
and `C` are (1, 1)-(11, 51) and (12, 1)-(17, 6). -/
theorem glyphs_apart_until_dangling_write :
    (ReachableFit (Example.squarePlatform true) (Example.squareFull true)
      ∧ BitmapFits (Example.squareFull true) 69
      ∧ (Example.squareFull true).danglingWrite = false
      ∧ (getOrLoadGlyph (Example.squareFull true) 69).1.getAtlasCount = 2
      ∧ (getOrLoadGlyph (Example.squareFull true) 69).1.danglingWrite = true)
    ∧ (∀ (m : FontAtlasManager) (c : Nat), m.relocates m.atlasStates.length = true →
        m.getAtlasCount < (getOrLoadGlyph m c).1.getAtlasCount →
        (getOrLoadGlyph m c).1.danglingWrite = true)
    ∧ (∀ (env : Platform) (m : FontAtlasManager) (c1 c2 : Nat) (p1 p2 : LazyGlyphProps),
        ReachableFit env m → m.danglingWrite = false → c1 ≠ c2 →
        m.glyphs.lookup c1 = some p1 → m.glyphs.lookup c2 = some p2 →
        p1.tW ≠ 0 → p1.tH ≠ 0 → p2.tW ≠ 0 → p2.tH ≠ 0 →
        p1.atlasIndex = p2.atlasIndex →
        ((pixelRect m p1).right + m.border ≤ (pixelRect m p2).left ∨
          (pixelRect m p2).right + m.border ≤ (pixelRect m p1).left ∨
          (pixelRect m p1).bottom + m.border ≤ (pixelRect m p2).top ∨
          (pixelRect m p2).bottom + m.border ≤ (pixelRect m p1).top)
        ∧ ¬ (pixelRect m p1).overlaps (pixelRect m p2))
    ∧ (ReachableFit (Example.platform 4096 true)
        (Example.loadAll (Example.fresh 4096 true) [65, 67])
      ∧ ¬ GlyphsFit (Example.loadAll (Example.fresh 4096 true) [65, 67])
      ∧ (Example.loadAll (Example.fresh 4096 true) [65, 67]).danglingWrite = false
      ∧ (Example.loadAll (Example.fresh 4096 true) [65, 67]).glyphs.lookup 65
          = some Example.recordA
      ∧ (Example.loadAll (Example.fresh 4096 true) [65, 67]).glyphs.lookup 67
          = some Example.recordC
      ∧ pixelRect (Example.loadAll (Example.fresh 4096 true) [65, 67]) Example.recordA
          = ⟨1, 1, 11, 51⟩
      ∧ pixelRect (Example.loadAll (Example.fresh 4096 true) [65, 67]) Example.recordC
          = ⟨12, 1, 17, 6⟩) := by
  obtain ⟨h1, _, _, _, _, _, _, _, h9, _, h11⟩ := squareFull_fifth
  refine ⟨⟨reachableFit_of_glyphsFit (squareFull_reachable true) (squareFull_glyphsFit true),
      bitmapFits_of_glyphsFit (squareFull_glyphsFit true) 69, h1, h9, h11⟩,
    fun m c hrel hnew => dangling_of_new_page m c hrel hnew,
    fun env m c1 c2 p1 p2 hr _ hne k1 k2 hw1 hh1 hw2 hh2 hsame =>
      apart_of_layout m c1 c2 p1 p2 (reachableFit_layout hr).2 (reachableFit_apart hr)
        (reachableFit_reachable hr).config.1 hne k1 k2 hw1 hh1 hw2 hh2 hsame,
    smallRun_reachableFit,
    fresh_not_glyphsFit _ rfl rfl (by with_unfolding_all decide), ?_⟩
  with_unfolding_all decide

/-- C27: the two fit checks suffice only as far as the behaviour of the code is
defined.  First part, the failing run: every bitmap rasterized is 30 x 30 and
fits the minimum page of side 64, four of them fill the page, which cannot
grow, and `getOrLoadGlyph('E')`, whose bitmap fits as well, fails the first
height check, appends page 1 and, the vector having moved its storage, writes
through the reference bound before the `push_back`.  Second part: every call
that appends a page while the vector moves its storage makes such a write.
Third part: in a state reached from a successful setup by `getOrLoadGlyph` calls
in which every rasterized bitmap fits the minimum page, the last page satisfies
`border ≤ cursorX ≤ width` and `cursorY + rowHeight + border ≤ height`, before
and after a further `getOrLoadGlyph` call whose bitmap fits and that makes no
such write, and a glyph with ink that the call packs lies at a pixel position
`(x, y)` of its page with `border ≤ x`, `border ≤ y`, `x + w + border ≤ width`
and `y + h + border ≤ height`.  Fourth part, a run the third part applies to:
`A` and `C` loaded from a face whose glyph `W`, never requested, is 300 x 300;
the cursor of the page of side 64 is at (18, 1) with row height 50. -/
theorem fit_checks_until_dangling_write :
    (ReachableFit (Example.squarePlatform true) (Example.squareFull true)
      ∧ BitmapFits (Example.squareFull true) 69
      ∧ (Example.squareFull true).stateAt 0
          = { currentX := 63, currentY := 32, currentRowHeight := 30,
              width := 64, height := 64 }
      ∧ (Example.squareFull true).danglingWrite = false
      ∧ (getOrLoadGlyph (Example.squareFull true) 69).1.danglingWrite = true)
    ∧ (∀ (m : FontAtlasManager) (c : Nat), m.relocates m.atlasStates.length = true →
        m.getAtlasCount < (getOrLoadGlyph m c).1.getAtlasCount →
        (getOrLoadGlyph m c).1.danglingWrite = true)
    ∧ (∀ (env : Platform) (m : FontAtlasManager) (c : Nat), ReachableFit env m →
        (m.glyphs.lookup c = none → BitmapFits m c) →
        (getOrLoadGlyph m c).1.danglingWrite = false →
        (m.border ≤ (m.stateAt (m.getAtlasCount - 1)).currentX
          ∧ (m.stateAt (m.getAtlasCount - 1)).currentX
            ≤ (m.stateAt (m.getAtlasCount - 1)).width
          ∧ (m.stateAt (m.getAtlasCount - 1)).currentY
              + (m.stateAt (m.getAtlasCount - 1)).currentRowHeight + m.border
            ≤ (m.stateAt (m.getAtlasCount - 1)).height)
        ∧ (m.border ≤ ((getOrLoadGlyph m c).1.stateAt
              ((getOrLoadGlyph m c).1.getAtlasCount - 1)).currentX
          ∧ ((getOrLoadGlyph m c).1.stateAt
                ((getOrLoadGlyph m c).1.getAtlasCount - 1)).currentX
            ≤ ((getOrLoadGlyph m c).1.stateAt
                ((getOrLoadGlyph m c).1.getAtlasCount - 1)).width
          ∧ ((getOrLoadGlyph m c).1.stateAt
                ((getOrLoadGlyph m c).1.getAtlasCount - 1)).currentY
              + ((getOrLoadGlyph m c).1.stateAt
                  ((getOrLoadGlyph m c).1.getAtlasCount - 1)).currentRowHeight + m.border
            ≤ ((getOrLoadGlyph m c).1.stateAt
                ((getOrLoadGlyph m c).1.getAtlasCount - 1)).height)
        ∧ (∀ p, m.glyphs.lookup c = none → (getOrLoadGlyph m c).2 = some p →
            p.tW ≠ 0 → p.tH ≠ 0 →
            p.InsidePage ((getOrLoadGlyph m c).1.stateAt p.atlasIndex) m.border))
    ∧ (ReachableFit (Example.platform 4096 true)
        (Example.loadAll (Example.fresh 4096 true) [65, 67])
      ∧ ¬ GlyphsFit (Example.loadAll (Example.fresh 4096 true) [65, 67])
      ∧ (Example.loadAll (Example.fresh 4096 true) [65, 67]).danglingWrite = false
      ∧ (Example.loadAll (Example.fresh 4096 true) [65, 67]).stateAt 0
          = { currentX := 18, currentY := 1, currentRowHeight := 50,
              width := 64, height := 64 }) := by
  obtain ⟨h1, _, _, h4, _, _, _, _, _, _, h11⟩ := squareFull_fifth
  refine ⟨⟨reachableFit_of_glyphsFit (squareFull_reachable true) (squareFull_glyphsFit true),
      bitmapFits_of_glyphsFit (squareFull_glyphsFit true) 69, h4, h1, h11⟩,
    fun m c hrel hnew => dangling_of_new_page m c hrel hnew,
    fun env m c hr hfit _ => ?_,
    smallRun_reachableFit,
    fresh_not_glyphsFit _ rfl rfl (by with_unfolding_all decide),
    by with_unfolding_all decide⟩
  have hm := (reachableFit_reachable hr).pagesOk
  have hc := reachableFit_cursorOk hr
  have hx := reachableFit_cursorX hr
  cases hl : m.glyphs.lookup c with
  | some p0 =>
    rw [getOrLoadGlyph_hit m c p0 hl]
    exact ⟨⟨hc.x, hx, hc.fitsRow⟩, ⟨hc.x, hx, hc.fitsRow⟩, fun p hnew => by cases hnew⟩
  | none =>
    have h := fit_of_cursor m c hm hc hx (hfit hl)
    rw [hl] at h
    exact h

/-- C28: the code keeps the page sizes only as far as its behaviour is defined.
First part, the failing run: with one page of side 64, full and unable to grow,
`getOrLoadGlyph('E')` appends page 1, of side 64, and, the vector having moved
its storage, writes through the reference bound before the `push_back`.
Second part: every call that appends a page while the vector moves its storage
makes such a write.  Third part: in every reachable state in which no such
write has happened every page is square with side `minAtlasSize * 2 ^ k` for
some `k`, and when `minAtlasSize ≤ maxAtlasSize` neither its width nor its
height exceeds `maxAtlasSize`. -/
theorem pages_sized_until_dangling_write :
    (Reachable (Example.squarePlatform true) (Example.squareFull true)
      ∧ (Example.squareFull true).danglingWrite = false
      ∧ (getOrLoadGlyph (Example.squareFull true) 69).1.getAtlasCount = 2
      ∧ (getOrLoadGlyph (Example.squareFull true) 69).1.stateAt 1
          = { currentX := 32, currentY := 1, currentRowHeight := 30,
              width := 64, height := 64 }
      ∧ (getOrLoadGlyph (Example.squareFull true) 69).1.danglingWrite = true)
    ∧ (∀ (m : FontAtlasManager) (c : Nat), m.relocates m.atlasStates.length = true →
        m.getAtlasCount < (getOrLoadGlyph m c).1.getAtlasCount →
        (getOrLoadGlyph m c).1.danglingWrite = true)
    ∧ (∀ (env : Platform) (m : FontAtlasManager) (i : Nat), Reachable env m →
        m.danglingWrite = false → i < m.getAtlasCount →
        (∃ k : Nat, (m.stateAt i).width = m.minAtlasSize * 2 ^ k ∧
          (m.stateAt i).height = m.minAtlasSize * 2 ^ k)
        ∧ (m.stateAt i).width = (m.stateAt i).height
        ∧ (m.minAtlasSize ≤ m.maxAtlasSize →
            (m.stateAt i).width ≤ m.maxAtlasSize ∧ (m.stateAt i).height ≤ m.maxAtlasSize)) := by
  obtain ⟨h1, _, _, _, _, _, _, _, h9, h10, h11⟩ := squareFull_fifth
  exact ⟨⟨squareFull_reachable true, h1, h9, h10, h11⟩,
    fun m c hrel hnew => dangling_of_new_page m c hrel hnew,
    fun env m i hr _ hi => reachable_pages_sized env m i hr hi⟩

end FontAtlasManager
